import Mathlib

/-!
# Verification development for the Tsuki GPU abstraction layer (glTFView)

Shallow embedding of the reference-counting primitives, the keyed caches, the
command-buffer state setters and the device frame / submission engine, followed
by the theorems that settle the claims made about them.

Native handles (`vk::Buffer`, `vk::Semaphore`, ...) are natural numbers, `0`
being `VK_NULL_HANDLE`.  Addresses of objects are natural numbers as well.
-/

namespace tk

/-! ## Tsuki/IntrusivePtr.hpp -/

/-- The class `SingleThreadCounter`.  The field `size_t _count` is kept as an
integer: the counter counts outstanding references, of which fewer than `2^64`
fit in the address space, so the arithmetic is the exact one. -/
structure SingleThreadCounter where
  count : Int
deriving DecidableEq

/-- The member initialiser `size_t _count = 1`. -/
def SingleThreadCounter.init : SingleThreadCounter := ⟨1⟩

/-- The method `AddReference`: `_count++`. -/
def SingleThreadCounter.AddReference (c : SingleThreadCounter) : SingleThreadCounter :=
  ⟨c.count + 1⟩

/-- The method `ReleaseReference`: `return --_count == 0`. -/
def SingleThreadCounter.ReleaseReference (c : SingleThreadCounter) :
    SingleThreadCounter × Bool :=
  let n := c.count - 1
  (⟨n⟩, decide (n = 0))

/-- The class `MultiThreadCounter`, used from one thread: the atomic is a plain cell. -/
structure MultiThreadCounter where
  count : Int
deriving DecidableEq

/-- The constructor: `_count.store(1)`. -/
def MultiThreadCounter.init : MultiThreadCounter := ⟨1⟩

/-- The method `AddReference`: `_count.fetch_add(1)`. -/
def MultiThreadCounter.AddReference (c : MultiThreadCounter) : MultiThreadCounter :=
  ⟨c.count + 1⟩

/-- The method `ReleaseReference`: `return _count.fetch_sub(1) == 1`; `fetch_sub`
yields the value held before the subtraction. -/
def MultiThreadCounter.ReleaseReference (c : MultiThreadCounter) :
    MultiThreadCounter × Bool :=
  let old := c.count
  (⟨old - 1⟩, decide (old = 1))

/-- Results of `k` successive `ReleaseReference` calls on a single-thread counter. -/
def SingleThreadCounter.releaseResults : SingleThreadCounter → Nat → List Bool
  | _, 0 => []
  | c, k + 1 => (c.ReleaseReference).2 :: releaseResults (c.ReleaseReference).1 k

/-- Results of `k` successive `ReleaseReference` calls on a multi-thread counter. -/
def MultiThreadCounter.releaseResults : MultiThreadCounter → Nat → List Bool
  | _, 0 => []
  | c, k + 1 => (c.ReleaseReference).2 :: releaseResults (c.ReleaseReference).1 k

/-- An object deriving from `IntrusivePtrEnabled<T, Deleter, ReferenceOps>`: the
embedded counter `_refCount`, and the number of times `Deleter()` has been
invoked on the object. -/
structure IntrusivePtrEnabled where
  refCount : SingleThreadCounter
  deleterCalls : Nat
deriving DecidableEq

/-- A newly constructed object (`new T(...)`): fresh counter, never deleted. -/
def IntrusivePtrEnabled.init : IntrusivePtrEnabled := ⟨SingleThreadCounter.init, 0⟩

/-- The method `IntrusivePtrEnabled::AddReference`. -/
def IntrusivePtrEnabled.AddReference (o : IntrusivePtrEnabled) : IntrusivePtrEnabled :=
  { o with refCount := o.refCount.AddReference }

/-- The method `IntrusivePtrEnabled::ReleaseReference`:
`if (_refCount.ReleaseReference()) { Deleter()(static_cast<T*>(this)); }`. -/
def IntrusivePtrEnabled.ReleaseReference (o : IntrusivePtrEnabled) : IntrusivePtrEnabled :=
  let r := o.refCount.ReleaseReference
  if r.2 then { refCount := r.1, deleterCalls := o.deleterCalls + 1 }
  else { o with refCount := r.1 }

/-- The store the handles live in: `objects[a]` is the reference-counted object at
address `a`, `handles[h]` is the `_data` member of the `IntrusivePtr` in slot `h`
(`none` is `nullptr`). -/
structure Memory where
  objects : List IntrusivePtrEnabled
  handles : List (Option Nat)
deriving DecidableEq

/-- The store before anything has been created. -/
def Memory.empty : Memory := ⟨[], []⟩

/-- The member `_data` of handle `h` (`IntrusivePtr::Get`). -/
def Memory.Get (m : Memory) (h : Nat) : Option Nat := (m.handles[h]?).join

/-- Assignment to the member `_data` of handle `h`. -/
def Memory.setData (m : Memory) (h : Nat) (p : Option Nat) : Memory :=
  { m with handles := m.handles.set h p }

/-- Apply a method of `IntrusivePtrEnabled` to the object at address `a`. -/
def Memory.call (m : Memory) (a : Nat) (f : IntrusivePtrEnabled → IntrusivePtrEnabled) :
    Memory :=
  match m.objects[a]? with
  | some o => { m with objects := m.objects.set a (f o) }
  | none => m

/-- The method `IntrusivePtr::Reset`:
`if (_data) { _data->ReleaseReference(); } _data = nullptr;`. -/
def Reset (m : Memory) (self : Nat) : Memory :=
  let m1 := match m.Get self with
    | some a => m.call a IntrusivePtrEnabled.ReleaseReference
    | none => m
  m1.setData self none

/-- The copy assignment `IntrusivePtr::operator=(const IntrusivePtr&)`. -/
def copyAssign (m : Memory) (self other : Nat) : Memory :=
  if self ≠ other then
    let m1 := Reset m self
    let m2 := m1.setData self (m1.Get other)
    match m2.Get self with
    | some a => m2.call a IntrusivePtrEnabled.AddReference
    | none => m2
  else m

/-- The move assignment `IntrusivePtr::operator=(IntrusivePtr&&)`. -/
def moveAssign (m : Memory) (self other : Nat) : Memory :=
  if self ≠ other then
    let m1 := Reset m self
    let m2 := m1.setData self (m1.Get other)
    m2.setData other none
  else m

/-- The default constructor `IntrusivePtr()`: a new handle slot with `_data = nullptr`.
The new handle is slot `m.handles.length`. -/
def defaultConstruct (m : Memory) : Memory :=
  { m with handles := m.handles ++ [none] }

/-- The function `MakeHandle<T>`: `IntrusivePtr<T>(new T(...))`, the adopting constructor
`explicit IntrusivePtr(T* handle) : _data(handle)` applied to a freshly created object. -/
def MakeHandle (m : Memory) : Memory :=
  { objects := m.objects ++ [IntrusivePtrEnabled.init],
    handles := m.handles ++ [some m.objects.length] }

/-- The copy constructor `IntrusivePtr(const IntrusivePtr& other) { *this = other; }`. -/
def copyConstruct (m : Memory) (other : Nat) : Memory :=
  copyAssign (defaultConstruct m) m.handles.length other

/-- The move constructor `IntrusivePtr(IntrusivePtr&& other) { *this = std::move(other); }`. -/
def moveConstruct (m : Memory) (other : Nat) : Memory :=
  moveAssign (defaultConstruct m) m.handles.length other

/-- The destructor `~IntrusivePtr() { Reset(); }`.  The slot stays behind, null. -/
def destroy (m : Memory) (self : Nat) : Memory := Reset m self

/-- One operation of a client program on its handles.  Constructors create a new
slot (the next free one); the other operations name existing slots. -/
inductive PtrOp where
  | make : PtrOp
  | copyConstruct (other : Nat) : PtrOp
  | copyAssign (self other : Nat) : PtrOp
  | moveConstruct (other : Nat) : PtrOp
  | moveAssign (self other : Nat) : PtrOp
  | reset (self : Nat) : PtrOp
  | destroy (self : Nat) : PtrOp
deriving DecidableEq

/-- An operation is one of the program when every handle it names exists. -/
def PtrOp.wellFormed (m : Memory) : PtrOp → Bool
  | .make => true
  | .copyConstruct other => decide (other < m.handles.length)
  | .copyAssign self other => decide (self < m.handles.length ∧ other < m.handles.length)
  | .moveConstruct other => decide (other < m.handles.length)
  | .moveAssign self other => decide (self < m.handles.length ∧ other < m.handles.length)
  | .reset self => decide (self < m.handles.length)
  | .destroy self => decide (self < m.handles.length)

/-- Effect of one operation on the store. -/
def PtrOp.exec (m : Memory) : PtrOp → Memory
  | .make => MakeHandle m
  | .copyConstruct other => tk.copyConstruct m other
  | .copyAssign self other => tk.copyAssign m self other
  | .moveConstruct other => tk.moveConstruct m other
  | .moveAssign self other => tk.moveAssign m self other
  | .reset self => Reset m self
  | .destroy self => tk.destroy m self

/-- Effect of one operation of a trace: an operation naming a handle that does not
exist is not an operation of the program and is skipped. -/
def PtrOp.apply (m : Memory) (op : PtrOp) : Memory :=
  if op.wellFormed m then op.exec m else m

/-- Effect of a sequence of operations, first to last. -/
def runOps (m : Memory) (ops : List PtrOp) : Memory := ops.foldl PtrOp.apply m

/-- Number of handles whose `_data` is the object at address `a`. -/
def Memory.owners (m : Memory) (a : Nat) : Nat := m.handles.count (some a)

/-- Number of `Deleter` invocations on the object at address `a`. -/
def Memory.deleterCalls (m : Memory) (a : Nat) : Nat :=
  match m.objects[a]? with
  | some o => o.deleterCalls
  | none => 0

/-- Reference count of the object at address `a`. -/
def Memory.refCount (m : Memory) (a : Nat) : Int :=
  match m.objects[a]? with
  | some o => o.refCount.count
  | none => 0

/-- Two handles, slots 0 and 1, sharing one object (address 0). -/
def sharedStore : Memory := runOps Memory.empty [.make, .copyConstruct 0]

/-- Two handles, slots 0 and 1, each owning an object of its own (addresses 0 and 1). -/
def twoObjectStore : Memory := runOps Memory.empty [.make, .make]

/-! ## Tsuki/CommandBuffer.hpp, Source/CommandBuffer.cpp

Enumerations of the native API are kept as their unsigned values, floating-point
members as their bit patterns (no setter modelled here computes with them), pointers
as addresses with `0` for `nullptr`. -/

/-- Width of the bit-field `Topology`. -/
def TopologyBits : Nat := 4
/-- Width of the bit-field `CullMode`. -/
def CullModeBits : Nat := 2
/-- Width of the bit-field `FrontFace`. -/
def FrontFaceBits : Nat := 1
/-- Width of the compare-op bit-fields. -/
def CompareOpBits : Nat := 3
/-- The constant `MaxDescriptorBindings`. -/
def MaxDescriptorBindings : Nat := 32
/-- The constant `MaxDescriptorSets`. -/
def MaxDescriptorSets : Nat := 4
/-- The constant `MaxVertexBuffers`. -/
def MaxVertexBuffers : Nat := 8
/-- The constant `MaxPushConstantSize`. -/
def MaxPushConstantSize : Nat := 128
/-- The constant `MaxColorAttachments`. -/
def MaxColorAttachments : Nat := 8

/-- The union `PipelineState`, seen through its bit-field members. -/
structure PipelineState where
  PrimitiveRestart : Nat
  Topology : Nat
  Wireframe : Nat
  CullMode : Nat
  FrontFace : Nat
  DepthBiasEnable : Nat
  DepthClamp : Nat
  DepthCompare : Nat
  DepthTest : Nat
  DepthWrite : Nat
  StencilTest : Nat
  StencilFrontFail : Nat
  StencilFrontPass : Nat
  StencilFrontDepthFail : Nat
  StencilFrontCompareOp : Nat
  StencilBackFail : Nat
  StencilBackPass : Nat
  StencilBackDepthFail : Nat
  StencilBackCompareOp : Nat
  BlendEnable : Nat
  SrcColorBlend : Nat
  DstColorBlend : Nat
  ColorBlendOp : Nat
  SrcAlphaBlend : Nat
  DstAlphaBlend : Nat
  AlphaBlendOp : Nat
  AlphaToCoverage : Nat
  AlphaToOne : Nat
  SampleShading : Nat
  ConservativeRaster : Nat
  SubgroupControlSize : Nat
  SubgroupFullGroup : Nat
  SubgroupMinimumSizeLog2 : Nat
  SubgroupMaximumSizeLog2 : Nat
  WriteMask : Nat
  TessellationControlPoints : Nat
deriving DecidableEq

/-- The all-zero static state (`memset(&StaticState, 0, sizeof(StaticState))`). -/
def PipelineState.zero : PipelineState :=
  ⟨0, 0, 0, 0, 0, 0, 0, 0, 0, 0, 0, 0, 0, 0, 0, 0, 0, 0, 0, 0, 0, 0, 0, 0, 0, 0, 0, 0, 0, 0,
    0, 0, 0, 0, 0, 0⟩

/-- The struct `VertexAttributeState`. -/
structure VertexAttributeState where
  Binding : Nat
  Format : Nat
  Offset : Nat
deriving DecidableEq

/-- The struct `VertexBindingState`. -/
structure VertexBindingState where
  Buffers : List Nat
  Offsets : List Nat
deriving DecidableEq

/-- The struct `PipelineCompileInfo`.  `Program` and `CompatibleRenderPass` are
addresses. -/
structure PipelineCompileInfo where
  CompatibleRenderPass : Nat
  Program : Nat
  StaticState : PipelineState
  SubpassIndex : Nat
  VertexAttributes : List VertexAttributeState
  VertexInputRates : List Nat
  VertexStrides : List Nat
  CachedHash : Nat
  ActiveVertexBuffers : Nat
deriving DecidableEq

/-- The native struct `vk::DescriptorBufferInfo`. -/
structure DescriptorBufferInfo where
  buffer : Nat
  offset : Nat
  range : Nat
deriving DecidableEq

/-- The native struct `vk::DescriptorImageInfo`. -/
structure DescriptorImageInfo where
  sampler : Nat
  imageView : Nat
  imageLayout : Nat
deriving DecidableEq

/-- The struct `ResourceBinding`.  The members of its anonymous union are kept side by
side. -/
structure ResourceBinding where
  Buffer : DescriptorBufferInfo
  ImageFloat : DescriptorImageInfo
  ImageInteger : DescriptorImageInfo
  BufferView : Nat
  DynamicOffset : Nat
deriving DecidableEq

/-- The struct `DescriptorSetBindings`. -/
structure DescriptorSetBindings where
  Bindings : List ResourceBinding
  Cookies : List Nat
  SecondaryCookies : List Nat
deriving DecidableEq

/-- The struct `DescriptorBindingState`. -/
structure DescriptorBindingState where
  Sets : List DescriptorSetBindings
  PushConstantData : List Nat
deriving DecidableEq

/-- The struct `DynamicState` (bit patterns of the two floats). -/
structure DynamicState where
  DepthBiasConstant : Nat
  DepthBiasSlope : Nat
deriving DecidableEq

/-- The struct `IndexState`. -/
structure IndexState where
  Buffer : Nat
  Offset : Nat
  IndexType : Nat
deriving DecidableEq

/-- The native struct `vk::Rect2D`. -/
structure Rect2D where
  x : Int
  y : Int
  width : Nat
  height : Nat
deriving DecidableEq

/-- The native struct `vk::Viewport` (bit patterns of the six floats). -/
structure Viewport where
  x : Nat
  y : Nat
  width : Nat
  height : Nat
  minDepth : Nat
  maxDepth : Nat
deriving DecidableEq

/-- The enumerator `CommandBufferDirtyFlagBits::StaticState`. -/
def DirtyStaticState : Nat := 1
/-- The enumerator `CommandBufferDirtyFlagBits::Pipeline`. -/
def DirtyPipeline : Nat := 2
/-- The enumerator `CommandBufferDirtyFlagBits::Viewport`. -/
def DirtyViewport : Nat := 4
/-- The enumerator `CommandBufferDirtyFlagBits::Scissor`. -/
def DirtyScissor : Nat := 8
/-- The enumerator `CommandBufferDirtyFlagBits::DepthBias`. -/
def DirtyDepthBias : Nat := 16
/-- The enumerator `CommandBufferDirtyFlagBits::StencilReference`. -/
def DirtyStencilReference : Nat := 32
/-- The enumerator `CommandBufferDirtyFlagBits::StaticVertex`. -/
def DirtyStaticVertex : Nat := 64
/-- The enumerator `CommandBufferDirtyFlagBits::PushConstants`. -/
def DirtyPushConstants : Nat := 128
/-- The enumerator `CommandBufferDirtyFlagBits::DynamicState`. -/
def DirtyDynamicState : Nat :=
  DirtyViewport ||| DirtyScissor ||| DirtyDepthBias ||| DirtyStencilReference
/-- The value `~0u`. -/
def allBits : Nat := 2 ^ 32 - 1

/-- The tracked state of the class `CommandBuffer`. -/
structure CommandBuffer where
  type : Nat
  threadIndex : Nat
  activeVertexBuffers : Nat
  actualRenderPass : Nat
  descriptorBinding : DescriptorBindingState
  dirty : Nat
  dirtyDescriptorSets : Nat
  dirtyVertexBuffers : Nat
  dynamicState : DynamicState
  framebuffer : Nat
  framebufferAttachments : List Nat
  indexBuffer : IndexState
  isCompute : Bool
  pipeline : Nat
  pipelineLayout : Nat
  programLayout : Nat
  scissor : Rect2D
  swapchainStages : Nat
  vertexBindings : VertexBindingState
  viewport : Viewport
  bindlessSets : List Nat
  pipelineCompileInfo : PipelineCompileInfo
deriving DecidableEq

/-- What the setters read of a `PipelineLayout` object: its hash, the push-constant
layout hash of its resource layout, its descriptor-set allocators and its native
handle. -/
structure PipelineLayoutView where
  hash : Nat
  pushConstantLayoutHash : Nat
  allocators : List Nat
  pipelineLayout : Nat
deriving DecidableEq

/-- The objects behind the pointers a command buffer holds: for the address of a
`Program` the address of its `PipelineLayout` (`GetPipelineLayout()`), and for the
address of a `PipelineLayout` what is read of it. -/
structure ObjectTable where
  programLayout : Nat → Nat
  layout : Nat → PipelineLayoutView

/-- What the setters read of a `Buffer`: `GetCookie()`, `GetBuffer()` and
`GetCreateInfo().Size`. -/
structure Buffer where
  cookie : Nat
  buffer : Nat
  size : Nat
deriving DecidableEq

/-- The method `CommandBuffer::BeginContext`. -/
def CommandBuffer.BeginContext (s : CommandBuffer) : CommandBuffer :=
  { s with
    dirty := allBits
    dirtyDescriptorSets := allBits
    dirtyVertexBuffers := allBits
    pipeline := 0
    pipelineLayout := 0
    programLayout := 0
    pipelineCompileInfo := { s.pipelineCompileInfo with Program := 0 }
    descriptorBinding := { s.descriptorBinding with
      Sets := s.descriptorBinding.Sets.map (fun set =>
        { set with
          Cookies := set.Cookies.map (fun _ => 0)
          SecondaryCookies := set.SecondaryCookies.map (fun _ => 0) }) } }

/-- The method `CommandBuffer::BeginCompute`. -/
def CommandBuffer.BeginCompute (s : CommandBuffer) : CommandBuffer :=
  CommandBuffer.BeginContext { s with isCompute := true }

/-- The method `CommandBuffer::BeginGraphics`. -/
def CommandBuffer.BeginGraphics (s : CommandBuffer) : CommandBuffer :=
  CommandBuffer.BeginContext { s with isCompute := false }

/-- The method `CommandBuffer::ClearRenderState`. -/
def CommandBuffer.ClearRenderState (s : CommandBuffer) : CommandBuffer :=
  { s with
    pipelineCompileInfo := { s.pipelineCompileInfo with StaticState := PipelineState.zero }
    dirty := s.dirty ||| DirtyStaticState }

/-- The method `CommandBuffer::SetOpaqueState`. -/
def CommandBuffer.SetOpaqueState (s : CommandBuffer) : CommandBuffer :=
  let s1 := s.ClearRenderState
  { s1 with
    pipelineCompileInfo := { s1.pipelineCompileInfo with
      StaticState := { s1.pipelineCompileInfo.StaticState with
        FrontFace := 0
        CullMode := 2
        BlendEnable := 0
        DepthTest := 1
        DepthCompare := 3
        DepthWrite := 1
        DepthBiasEnable := 0
        PrimitiveRestart := 0
        StencilTest := 0
        Topology := 3
        WriteMask := allBits
        TessellationControlPoints := 0 } }
    dirty := s1.dirty ||| DirtyStaticState }

/-- The members of a `CommandBuffer` as their default member initialisers leave them. -/
def CommandBuffer.members (type threadIndex : Nat) : CommandBuffer :=
  { type := type
    threadIndex := threadIndex
    activeVertexBuffers := 0
    actualRenderPass := 0
    descriptorBinding :=
      { Sets := List.replicate MaxDescriptorSets
          { Bindings := List.replicate MaxDescriptorBindings
              ⟨⟨0, 0, 0⟩, ⟨0, 0, 0⟩, ⟨0, 0, 0⟩, 0, 0⟩
            Cookies := List.replicate MaxDescriptorBindings 0
            SecondaryCookies := List.replicate MaxDescriptorBindings 0 }
        PushConstantData := List.replicate MaxPushConstantSize 0 }
    dirty := 0
    dirtyDescriptorSets := 0
    dirtyVertexBuffers := 0
    dynamicState := ⟨0, 0⟩
    framebuffer := 0
    framebufferAttachments := List.replicate (MaxColorAttachments + 1) 0
    indexBuffer := ⟨0, 0, 1⟩
    isCompute := false
    pipeline := 0
    pipelineLayout := 0
    programLayout := 0
    scissor := ⟨0, 0, 0, 0⟩
    swapchainStages := 0
    vertexBindings :=
      ⟨List.replicate MaxVertexBuffers 0, List.replicate MaxVertexBuffers 0⟩
    viewport := ⟨0, 0, 0, 0, 0, 0⟩
    bindlessSets := List.replicate MaxDescriptorSets 0
    pipelineCompileInfo :=
      { CompatibleRenderPass := 0
        Program := 0
        StaticState := PipelineState.zero
        SubpassIndex := 0
        VertexAttributes := List.replicate MaxVertexBuffers ⟨0, 0, 0⟩
        VertexInputRates := List.replicate MaxVertexBuffers 0
        VertexStrides := List.replicate MaxVertexBuffers 0
        CachedHash := 0
        ActiveVertexBuffers := 0 } }

/-- The constructor `CommandBuffer::CommandBuffer`: `BeginCompute(); SetOpaqueState();`. -/
def CommandBuffer.create (type threadIndex : Nat) : CommandBuffer :=
  ((CommandBuffer.members type threadIndex).BeginCompute).SetOpaqueState

/-- Update of the static state of a command buffer. -/
def CommandBuffer.withStatic (s : CommandBuffer) (f : PipelineState → PipelineState) :
    CommandBuffer :=
  { s with pipelineCompileInfo :=
      { s.pipelineCompileInfo with StaticState := f s.pipelineCompileInfo.StaticState } }

/-- The method `CommandBuffer::SetCullMode`: `SetStaticState(CullMode, mode)`.  The
stored value is cut to the width of the bit-field. -/
def CommandBuffer.SetCullMode (s : CommandBuffer) (mode : Nat) : CommandBuffer :=
  if s.pipelineCompileInfo.StaticState.CullMode ≠ mode then
    { s.withStatic (fun st => { st with CullMode := mode % 2 ^ CullModeBits }) with
      dirty := s.dirty ||| DirtyStaticState }
  else s

/-- The method `CommandBuffer::SetDepthBiasEnabled`. -/
def CommandBuffer.SetDepthBiasEnabled (s : CommandBuffer) (depthBiasEnabled : Bool) :
    CommandBuffer :=
  if s.pipelineCompileInfo.StaticState.DepthBiasEnable ≠ depthBiasEnabled.toNat then
    { s.withStatic (fun st => { st with DepthBiasEnable := depthBiasEnabled.toNat % 2 }) with
      dirty := s.dirty ||| DirtyStaticState }
  else s

/-- The method `CommandBuffer::SetDepthCompareOp`. -/
def CommandBuffer.SetDepthCompareOp (s : CommandBuffer) (op : Nat) : CommandBuffer :=
  if s.pipelineCompileInfo.StaticState.DepthCompare ≠ op then
    { s.withStatic (fun st => { st with DepthCompare := op % 2 ^ CompareOpBits }) with
      dirty := s.dirty ||| DirtyStaticState }
  else s

/-- The method `CommandBuffer::SetDepthWrite`. -/
def CommandBuffer.SetDepthWrite (s : CommandBuffer) (write : Bool) : CommandBuffer :=
  if s.pipelineCompileInfo.StaticState.DepthWrite ≠ write.toNat then
    { s.withStatic (fun st => { st with DepthWrite := write.toNat % 2 }) with
      dirty := s.dirty ||| DirtyStaticState }
  else s

/-- The method `CommandBuffer::SetFrontFace`. -/
def CommandBuffer.SetFrontFace (s : CommandBuffer) (front : Nat) : CommandBuffer :=
  if s.pipelineCompileInfo.StaticState.FrontFace ≠ front then
    { s.withStatic (fun st => { st with FrontFace := front % 2 ^ FrontFaceBits }) with
      dirty := s.dirty ||| DirtyStaticState }
  else s

/-- The method `CommandBuffer::SetPrimitiveTopology`. -/
def CommandBuffer.SetPrimitiveTopology (s : CommandBuffer) (topology : Nat) : CommandBuffer :=
  if s.pipelineCompileInfo.StaticState.Topology ≠ topology then
    { s.withStatic (fun st => { st with Topology := topology % 2 ^ TopologyBits }) with
      dirty := s.dirty ||| DirtyStaticState }
  else s

/-- The method `CommandBuffer::SetTessellationControlPoints` (`uint8_t points`). -/
def CommandBuffer.SetTessellationControlPoints (s : CommandBuffer) (points : Nat) :
    CommandBuffer :=
  if s.pipelineCompileInfo.StaticState.TessellationControlPoints ≠ points then
    { s.withStatic (fun st => { st with TessellationControlPoints := points % 2 ^ 8 }) with
      dirty := s.dirty ||| DirtyStaticState }
  else s

/-- The method `CommandBuffer::SetScissor`. -/
def CommandBuffer.SetScissor (s : CommandBuffer) (scissor : Rect2D) : CommandBuffer :=
  { s with scissor := scissor, dirty := s.dirty ||| DirtyScissor }

/-- The method `CommandBuffer::SetProgram`.  `program` is the address of the program,
`0` for `nullptr`; `t` resolves the pointers that are followed. -/
def CommandBuffer.SetProgram (t : ObjectTable) (s : CommandBuffer) (program : Nat) :
    CommandBuffer :=
  if s.pipelineCompileInfo.Program = program then s
  else
    let s1 : CommandBuffer :=
      { s with
        pipelineCompileInfo := { s.pipelineCompileInfo with Program := program }
        pipeline := 0
        dirty := s.dirty ||| (DirtyPipeline ||| DirtyDynamicState) }
    if program = 0 then s1
    else
      let newLayout := t.layout (t.programLayout program)
      let oldLayout := t.layout s1.programLayout
      let s2 : CommandBuffer :=
        if s1.pipelineLayout = 0 then
          { s1 with dirty := s1.dirty ||| DirtyPushConstants, dirtyDescriptorSets := allBits }
        else if newLayout.hash ≠ oldLayout.hash then
          if newLayout.pushConstantLayoutHash ≠ oldLayout.pushConstantLayoutHash then
            { s1 with dirty := s1.dirty ||| DirtyPushConstants, dirtyDescriptorSets := allBits }
          else
            match (List.range MaxDescriptorSets).find?
                (fun set => newLayout.allocators.getD set 0 != oldLayout.allocators.getD set 0) with
            | some set =>
              { s1 with dirtyDescriptorSets :=
                  s1.dirtyDescriptorSets ||| (allBits - ((1 <<< set) - 1)) }
            | none => s1
        else s1
      { s2 with
        programLayout := t.programLayout program
        pipelineLayout := (t.layout (t.programLayout program)).pipelineLayout }

/-- The method `CommandBuffer::SetVertexAttribute`; `attributeIndex` is the parameter
`attribute`.  An index outside the array `VertexAttributes` has no defined behaviour
(`none`). -/
def CommandBuffer.SetVertexAttribute (s : CommandBuffer)
    (attributeIndex binding format offset : Nat) : Option CommandBuffer :=
  match s.pipelineCompileInfo.VertexAttributes[attributeIndex]? with
  | none => none
  | some attr =>
    let dirty :=
      if attr.Binding ≠ binding ∨ attr.Format ≠ format ∨ attr.Offset ≠ offset then
        s.dirty ||| DirtyStaticVertex
      else s.dirty
    some { s with
      dirty := dirty
      pipelineCompileInfo := { s.pipelineCompileInfo with
        VertexAttributes :=
          s.pipelineCompileInfo.VertexAttributes.set attributeIndex
            ⟨binding, format, offset⟩ } }

/-- The method `CommandBuffer::SetVertexBinding`.  An index outside the arrays has no
defined behaviour (`none`). -/
def CommandBuffer.SetVertexBinding (s : CommandBuffer) (binding : Nat) (buffer : Buffer)
    (offset stride inputRate : Nat) : Option CommandBuffer :=
  match s.vertexBindings.Buffers[binding]?, s.vertexBindings.Offsets[binding]?,
      s.pipelineCompileInfo.VertexStrides[binding]?,
      s.pipelineCompileInfo.VertexInputRates[binding]? with
  | some oldBuffer, some oldOffset, some oldStride, some oldRate =>
    let vkBuffer := buffer.buffer
    let dirtyVertexBuffers :=
      if oldBuffer ≠ vkBuffer ∨ oldOffset ≠ offset then
        s.dirtyVertexBuffers ||| ((1 <<< binding) % 2 ^ 32)
      else s.dirtyVertexBuffers
    let dirty :=
      if oldStride ≠ stride ∨ oldRate ≠ inputRate then s.dirty ||| DirtyStaticVertex
      else s.dirty
    some { s with
      dirtyVertexBuffers := dirtyVertexBuffers
      dirty := dirty
      vertexBindings :=
        { Buffers := s.vertexBindings.Buffers.set binding vkBuffer
          Offsets := s.vertexBindings.Offsets.set binding offset }
      pipelineCompileInfo := { s.pipelineCompileInfo with
        VertexInputRates := s.pipelineCompileInfo.VertexInputRates.set binding inputRate
        VertexStrides := s.pipelineCompileInfo.VertexStrides.set binding stride } }
  | _, _, _, _ => none

/-- The common body of `CommandBuffer::SetUniformBuffer` and
`CommandBuffer::SetStorageBuffer` (the two are textually the same).  A set or binding
index outside the arrays has no defined behaviour (`none`). -/
def CommandBuffer.setBufferBinding (s : CommandBuffer) (set binding : Nat) (buffer : Buffer)
    (offset range : Nat) : Option CommandBuffer :=
  let range := if range = 0 then buffer.size else range
  match s.descriptorBinding.Sets[set]? with
  | none => none
  | some dset =>
    match dset.Bindings[binding]?, dset.Cookies[binding]?, dset.SecondaryCookies[binding]? with
    | some bind, some cookie, some _ =>
      if buffer.cookie = cookie ∧ bind.Buffer.range = range then some s
      else
        let dset1 : DescriptorSetBindings :=
          { Bindings := dset.Bindings.set binding
              { bind with Buffer := ⟨buffer.buffer, offset, range⟩ }
            Cookies := dset.Cookies.set binding buffer.cookie
            SecondaryCookies := dset.SecondaryCookies.set binding 0 }
        some { s with
          descriptorBinding := { s.descriptorBinding with
            Sets := s.descriptorBinding.Sets.set set dset1 }
          dirtyDescriptorSets := s.dirtyDescriptorSets ||| ((1 <<< set) % 2 ^ 32) }
    | _, _, _ => none

/-- The method `CommandBuffer::SetUniformBuffer`. -/
def CommandBuffer.SetUniformBuffer (s : CommandBuffer) (set binding : Nat) (buffer : Buffer)
    (offset range : Nat) : Option CommandBuffer :=
  s.setBufferBinding set binding buffer offset range

/-- The method `CommandBuffer::SetStorageBuffer`. -/
def CommandBuffer.SetStorageBuffer (s : CommandBuffer) (set binding : Nat) (buffer : Buffer)
    (offset range : Nat) : Option CommandBuffer :=
  s.setBufferBinding set binding buffer offset range

/-- The descriptor info tracked for the buffer at `(set, binding)`. -/
def CommandBuffer.trackedBuffer (s : CommandBuffer) (set binding : Nat) :
    Option DescriptorBufferInfo :=
  match s.descriptorBinding.Sets[set]? with
  | none => none
  | some dset => (dset.Bindings[binding]?).map (fun b => b.Buffer)

/-- The cookie tracked at `(set, binding)`. -/
def CommandBuffer.trackedCookie (s : CommandBuffer) (set binding : Nat) : Option Nat :=
  match s.descriptorBinding.Sets[set]? with
  | none => none
  | some dset => dset.Cookies[binding]?

/-- A 256-byte buffer: cookie 16 (the first cookie a device hands out), handle 7. -/
def sampleBuffer : Buffer := ⟨16, 7, 256⟩

/-- A command buffer that has bound the first 64 bytes of `sampleBuffer` as uniform
buffer at set 0, binding 0, and has flushed its descriptor sets since (no set dirty). -/
def boundCommandBuffer : CommandBuffer :=
  match (CommandBuffer.create 0 0).SetUniformBuffer 0 0 sampleBuffer 0 64 with
  | some s => { s with dirtyDescriptorSets := 0 }
  | none => CommandBuffer.create 0 0

/-- A freshly created command buffer whose dirty masks have been cleared by a flush. -/
def flushedCommandBuffer : CommandBuffer :=
  { CommandBuffer.create 0 0 with dirty := 0, dirtyDescriptorSets := 0, dirtyVertexBuffers := 0 }

/-! ## Keyed caches: Tsuki/Sampler.hpp, `Device::RequestSampler`, `Device::RequestShader` -/

/-- The struct `SamplerCreateInfo`: enumerations and `vk::Bool32` as their 32-bit values,
the four floats as their 32-bit patterns. -/
structure SamplerCreateInfo where
  MagFilter : Nat
  MinFilter : Nat
  MipmapMode : Nat
  AddressModeU : Nat
  AddressModeV : Nat
  AddressModeW : Nat
  MipLodBias : Nat
  AnisotropyEnable : Nat
  MaxAnisotropy : Nat
  CompareEnable : Nat
  CompareOp : Nat
  MinLod : Nat
  MaxLod : Nat
  BorderColor : Nat
  UnnormalizedCoordinates : Nat
deriving DecidableEq

/-- The default member initialisers of `SamplerCreateInfo`. -/
def SamplerCreateInfo.default : SamplerCreateInfo :=
  ⟨0, 0, 0, 0, 0, 0, 0, 0, 0, 0, 0, 0, 0, 0, 0⟩

/-- Every member of the create info is a 32-bit value. -/
def SamplerCreateInfo.fits (c : SamplerCreateInfo) : Prop :=
  c.MagFilter < 2 ^ 32 ∧ c.MinFilter < 2 ^ 32 ∧ c.MipmapMode < 2 ^ 32 ∧
  c.AddressModeU < 2 ^ 32 ∧ c.AddressModeV < 2 ^ 32 ∧ c.AddressModeW < 2 ^ 32 ∧
  c.MipLodBias < 2 ^ 32 ∧ c.AnisotropyEnable < 2 ^ 32 ∧ c.MaxAnisotropy < 2 ^ 32 ∧
  c.CompareEnable < 2 ^ 32 ∧ c.CompareOp < 2 ^ 32 ∧ c.MinLod < 2 ^ 32 ∧
  c.MaxLod < 2 ^ 32 ∧ c.BorderColor < 2 ^ 32 ∧ c.UnnormalizedCoordinates < 2 ^ 32

/-- Modelled from the spec: the class template `IntrusiveHashMap` behind `VulkanCache<T>`
(its header is not part of the sources at hand).  The spec describes it as a map from
a content hash to a previously built object whose entries live until device teardown.
An entry is the hash it was inserted under and what the object was built from; the
address of the object is the position of its entry. -/
structure VulkanCache (α : Type) where
  entries : List (Nat × α)

/-- Position of the first entry inserted under `hash`. -/
def findHash {α : Type} : List (Nat × α) → Nat → Option Nat
  | [], _ => none
  | e :: es, hash => if e.1 = hash then some 0 else (findHash es hash).map (· + 1)

/-- Modelled from the spec: the method `Find(hash)` of the cache, which "returns the cached
object or null/none". -/
def VulkanCache.Find {α : Type} (c : VulkanCache α) (hash : Nat) : Option Nat :=
  findHash c.entries hash

/-- Modelled from the spec: the method `EmplaceYield(hash, ctorArgs...)` of the cache,
"get-or-insert, at-most-one-survives": the object is built and inserted unless an
object is already present under the hash, which is then the one yielded. -/
def VulkanCache.EmplaceYield {α : Type} (c : VulkanCache α) (hash : Nat) (built : α) :
    VulkanCache α × Nat :=
  match c.Find hash with
  | some winner => (c, winner)
  | none => (⟨c.entries ++ [(hash, built)]⟩, c.entries.length)

/-- The method `Device::RequestSampler(const SamplerCreateInfo&)`, on the cache
`_samplers`.  `hashOf createInfo` is the value of `Hasher h(createInfo); h.Get()`; the
class `Hasher` is not part of the sources at hand and is a parameter. -/
def RequestSampler (hashOf : SamplerCreateInfo → Nat) (samplers : VulkanCache SamplerCreateInfo)
    (createInfo : SamplerCreateInfo) : VulkanCache SamplerCreateInfo × Nat :=
  let hash := hashOf createInfo
  match samplers.Find hash with
  | some ret => (samplers, ret)
  | none => samplers.EmplaceYield hash createInfo

/-- The method `Device::RequestShader(size_t codeSize, const void* code)`, on the cache
`_shaders`.  The blob is the list of its bytes; `hashOf code` is the value of
`Hasher h; h(codeSize); h.Data(codeSize, code); h.Get()`. -/
def RequestShader (hashOf : List Nat → Nat) (shaders : VulkanCache (List Nat))
    (code : List Nat) : VulkanCache (List Nat) × Nat :=
  let hash := hashOf code
  match shaders.Find hash with
  | some ret => (shaders, ret)
  | none => shaders.EmplaceYield hash code

/-- The cache after a sequence of `RequestSampler` calls. -/
def requestSamplers (hashOf : SamplerCreateInfo → Nat) (samplers : VulkanCache SamplerCreateInfo)
    (requests : List SamplerCreateInfo) : VulkanCache SamplerCreateInfo :=
  requests.foldl (fun c x => (RequestSampler hashOf c x).1) samplers

/-- The cache after a sequence of `RequestShader` calls. -/
def requestShaders (hashOf : List Nat → Nat) (shaders : VulkanCache (List Nat))
    (requests : List (List Nat)) : VulkanCache (List Nat) :=
  requests.foldl (fun c x => (RequestShader hashOf c x).1) shaders

/-- The request pattern shared by `RequestSampler` and `RequestShader`. -/
def requestCached {α : Type} (hashOf : α → Nat) (c : VulkanCache α) (x : α) :
    VulkanCache α × Nat :=
  match c.Find (hashOf x) with
  | some ret => (c, ret)
  | none => c.EmplaceYield (hashOf x) x

/-- The create infos used to exhibit a collision: defaults, with the three level-of-detail
floats taken among the `2^22` floats from `1.0` (pattern `0x3F800000`) upwards. -/
def collisionCandidate (n : Nat) : SamplerCreateInfo :=
  { SamplerCreateInfo.default with
    MipLodBias := 0x3F800000 + n % 2 ^ 22
    MinLod := 0x3F800000 + (n / 2 ^ 22) % 2 ^ 22
    MaxLod := 0x3F800000 + (n / 2 ^ 44) % 2 ^ 22 }

/-- In a cache grown from an empty one, entries sit under the hash of what they were
built from, and no two entries share a hash. -/
structure VulkanCache.Sound {α : Type} (hashOf : α → Nat) (c : VulkanCache α) : Prop where
  keyed : ∀ e ∈ c.entries, e.1 = hashOf e.2
  nodup : (c.entries.map Prod.fst).Nodup

/-! ## Tsuki/Device.hpp, Source/Device.cpp, Source/Semaphore.cpp

The device is a record of its members; the native API is a log of the calls made.
An operation yields `none` where the source has no result: an assertion that fails,
an index outside an array, a wait that never ends. -/

/-- The enumeration `QueueType`. -/
inductive QueueType where
  | Graphics : QueueType
  | Transfer : QueueType
  | Compute : QueueType
deriving DecidableEq

/-- An array `std::array<T, QueueTypeCount>`, indexed by queue type. -/
structure PerQueue (α : Type) where
  graphics : α
  transfer : α
  compute : α
deriving DecidableEq

/-- Read of `array[int(type)]`. -/
def PerQueue.get {α : Type} (a : PerQueue α) : QueueType → α
  | .Graphics => a.graphics
  | .Transfer => a.transfer
  | .Compute => a.compute

/-- Write of `array[int(type)]`. -/
def PerQueue.set {α : Type} (a : PerQueue α) (type : QueueType) (x : α) : PerQueue α :=
  match type with
  | .Graphics => { a with graphics := x }
  | .Transfer => { a with transfer := x }
  | .Compute => { a with compute := x }

/-- The class `Semaphore`: native handle, timeline value, and its flags
(`_internalSync` comes from the base `InternalSync`). -/
structure Semaphore where
  semaphore : Nat
  value : Nat
  pending : Bool
  signalled : Bool
  internalSync : Bool
deriving DecidableEq

/-- The constructor `Semaphore(device, semaphore, bool signalled)`. -/
def Semaphore.binary (semaphore : Nat) (signalled : Bool) : Semaphore :=
  ⟨semaphore, 0, false, signalled, false⟩

/-- The constructor `Semaphore(device, semaphore, uint64_t value)`. -/
def Semaphore.timeline (semaphore value : Nat) : Semaphore :=
  ⟨semaphore, value, false, true, false⟩

/-- The method `Semaphore::Release`. -/
def Semaphore.Release (s : Semaphore) : Nat × Semaphore :=
  (s.semaphore, { s with semaphore := 0, signalled := false })

/-- The method `Semaphore::Consume`: `assert(_semaphore); assert(_signalled); return Release();`. -/
def Semaphore.Consume (s : Semaphore) : Option (Nat × Semaphore) :=
  if s.semaphore ≠ 0 ∧ s.signalled = true then some s.Release else none

/-- What `SubmitQueue` reads of a submitted `CommandBuffer`: `GetCommandBuffer()` and
`GetSwapchainStages()`. -/
structure Submission where
  commandBuffer : Nat
  swapchainStages : Nat
deriving DecidableEq

/-- The struct `Device::FrameContext` (command pools left out). -/
structure FrameContext where
  Index : Nat
  FencesToAwait : List Nat
  Submissions : PerQueue (List Submission)
  TimelineSemaphores : PerQueue Nat
  TimelineValues : PerQueue Nat
  BuffersToDestroy : List Nat
  ImagesToDestroy : List Nat
  ImageViewsToDestroy : List Nat
  FencesToRecycle : List Nat
  MemoryToFree : List Nat
  SemaphoresToDestroy : List Nat
  SemaphoresToRecycle : List Nat
deriving DecidableEq

/-- The struct `Device::QueueData`.  A wait semaphore is held through a handle; the
object it points at is kept in place of the handle. -/
structure QueueData where
  NeedsFence : Bool
  TimelineSemaphore : Nat
  TimelineValue : Nat
  WaitSemaphores : List Semaphore
  WaitStages : List Nat
deriving DecidableEq

/-- The struct `Device::InternalFence`. -/
structure InternalFence where
  Fence : Nat
  TimelineSemaphore : Nat
  TimelineValue : Nat
deriving DecidableEq

/-- The local struct `SubmitBatch` of `Device::SubmitQueue`. -/
structure SubmitBatch where
  HasTimeline : Bool
  CommandBuffers : List Nat
  SignalSemaphores : List Nat
  SignalValues : List Nat
  WaitSemaphores : List Nat
  WaitStages : List Nat
  WaitValues : List Nat
deriving DecidableEq

/-- A default-constructed `SubmitBatch`. -/
def SubmitBatch.empty : SubmitBatch := ⟨false, [], [], [], [], [], []⟩

/-- The constant `MaxSubmissions` of `Device::SubmitQueue`. -/
def MaxSubmissions : Nat := 8

/-- A native `vk::SubmitInfo`, with the values of the `vk::TimelineSemaphoreSubmitInfo`
chained to it, if one is. -/
structure SubmitInfo where
  waitSemaphores : List Nat
  waitStages : List Nat
  commandBuffers : List Nat
  signalSemaphores : List Nat
  timeline : Option (List Nat × List Nat)
deriving DecidableEq

/-- A default-constructed `vk::SubmitInfo`. -/
def SubmitInfo.empty : SubmitInfo := ⟨[], [], [], [], none⟩

/-- A call of the native API. -/
inductive NativeCall where
  | createFence (fence : Nat) : NativeCall
  | createSemaphore (semaphore : Nat) : NativeCall
  | destroyBuffer (buffer : Nat) : NativeCall
  | destroyImage (image : Nat) : NativeCall
  | destroyImageView (view : Nat) : NativeCall
  | freeMemory (allocation : Nat) : NativeCall
  | destroySemaphore (semaphore : Nat) : NativeCall
  | resetFences (fences : List Nat) : NativeCall
  | waitForFences (fences : List Nat) : NativeCall
  | waitSemaphores (semaphores values : List Nat) : NativeCall
  | queueSubmit (queue : Nat) (submits : List SubmitInfo) (fence : Nat) : NativeCall
  | waitIdle : NativeCall
deriving DecidableEq

/-- The class `Device`, as far as frames and submissions go.  `timelineSemaphore` is
the feature bit `_gpuInfo.AvailableFeatures.TimelineSemaphore.timelineSemaphore`,
`Queues` is `_queues.Queues`, `calls` the native calls made so far (oldest first) and
`nextNative` the next handle the driver will hand out.  A `SemaphoreHandle` member is
the object it points at, the device being its only owner. -/
structure Device where
  timelineSemaphore : Bool
  Queues : PerQueue Nat
  currentFrameContext : Nat
  frameContexts : List FrameContext
  queueData : PerQueue QueueData
  availableFences : List Nat
  availableSemaphores : List Nat
  lockCounter : Nat
  swapchainAcquire : Option Semaphore
  swapchainAcquireConsumed : Bool
  swapchainRelease : Option Semaphore
  nextNative : Nat
  calls : List NativeCall
deriving DecidableEq

/-- The method `Device::Frame`: `*_frameContexts[_currentFrameContext]`. -/
def Device.Frame (d : Device) : Option FrameContext :=
  d.frameContexts[d.currentFrameContext]?

/-- A write through the reference `Frame()`. -/
def Device.modifyFrame (d : Device) (f : FrameContext → FrameContext) : Option Device :=
  match d.frameContexts[d.currentFrameContext]? with
  | some frame =>
    some { d with frameContexts := d.frameContexts.set d.currentFrameContext (f frame) }
  | none => none

/-- The method `Device::DestroyBufferNoLock`; `Device::DestroyBuffer` takes the device
lock and calls it. -/
def Device.DestroyBufferNoLock (d : Device) (buffer : Nat) : Option Device :=
  d.modifyFrame (fun f => { f with BuffersToDestroy := f.BuffersToDestroy ++ [buffer] })

/-- The method `Device::DestroyBuffer`. -/
def Device.DestroyBuffer (d : Device) (buffer : Nat) : Option Device :=
  d.DestroyBufferNoLock buffer

/-- The method `Device::DestroyImageNoLock`. -/
def Device.DestroyImageNoLock (d : Device) (image : Nat) : Option Device :=
  d.modifyFrame (fun f => { f with ImagesToDestroy := f.ImagesToDestroy ++ [image] })

/-- The method `Device::DestroyImage`. -/
def Device.DestroyImage (d : Device) (image : Nat) : Option Device :=
  d.DestroyImageNoLock image

/-- The method `Device::DestroyImageViewNoLock`. -/
def Device.DestroyImageViewNoLock (d : Device) (view : Nat) : Option Device :=
  d.modifyFrame (fun f => { f with ImageViewsToDestroy := f.ImageViewsToDestroy ++ [view] })

/-- The method `Device::DestroyImageView`. -/
def Device.DestroyImageView (d : Device) (view : Nat) : Option Device :=
  d.DestroyImageViewNoLock view

/-- The method `Device::DestroySemaphoreNoLock`. -/
def Device.DestroySemaphoreNoLock (d : Device) (semaphore : Nat) : Option Device :=
  d.modifyFrame (fun f => { f with SemaphoresToDestroy := f.SemaphoresToDestroy ++ [semaphore] })

/-- The method `Device::DestroySemaphore`. -/
def Device.DestroySemaphore (d : Device) (semaphore : Nat) : Option Device :=
  d.DestroySemaphoreNoLock semaphore

/-- The method `Device::FreeMemoryNoLock`. -/
def Device.FreeMemoryNoLock (d : Device) (allocation : Nat) : Option Device :=
  d.modifyFrame (fun f => { f with MemoryToFree := f.MemoryToFree ++ [allocation] })

/-- The method `Device::FreeMemory`. -/
def Device.FreeMemory (d : Device) (allocation : Nat) : Option Device :=
  d.FreeMemoryNoLock allocation

/-- The method `Device::RecycleSemaphoreNoLock`. -/
def Device.RecycleSemaphoreNoLock (d : Device) (semaphore : Nat) : Option Device :=
  d.modifyFrame (fun f => { f with SemaphoresToRecycle := f.SemaphoresToRecycle ++ [semaphore] })

/-- The method `Device::ReleaseFence`. -/
def Device.ReleaseFence (d : Device) (fence : Nat) : Device :=
  { d with availableFences := d.availableFences ++ [fence] }

/-- The method `Device::ReleaseSemaphore`. -/
def Device.ReleaseSemaphore (d : Device) (semaphore : Nat) : Device :=
  { d with availableSemaphores := d.availableSemaphores ++ [semaphore] }

/-- The method `Device::AllocateFence`: a pooled fence (`back()`, `pop_back()`), or a
new native one. -/
def Device.AllocateFence (d : Device) : Device × Nat :=
  match d.availableFences.getLast? with
  | none =>
    ({ d with nextNative := d.nextNative + 1, calls := d.calls ++ [.createFence d.nextNative] },
      d.nextNative)
  | some fence => ({ d with availableFences := d.availableFences.dropLast }, fence)

/-- The method `Device::AllocateSemaphore`. -/
def Device.AllocateSemaphore (d : Device) : Device × Nat :=
  match d.availableSemaphores.getLast? with
  | none =>
    ({ d with
        nextNative := d.nextNative + 1
        calls := d.calls ++ [.createSemaphore d.nextNative] },
      d.nextNative)
  | some semaphore => ({ d with availableSemaphores := d.availableSemaphores.dropLast }, semaphore)

/-- The destructor `Semaphore::~Semaphore`.  The internal-sync and the locking branch
enqueue alike. -/
def Device.destroySemaphoreObject (d : Device) (s : Semaphore) : Option Device :=
  if s.semaphore ≠ 0 then
    if s.value > 0 ∨ s.signalled = true then d.DestroySemaphoreNoLock s.semaphore
    else d.RecycleSemaphoreNoLock s.semaphore
  else some d

/-- A `SemaphoreHandle` that is the only owner of its object goes away
(`IntrusivePtr::Reset`): the count reaches zero, the deleter returns the object to its
pool, which runs the destructor. -/
def Device.dropSemaphoreHandle (d : Device) : Option Semaphore → Option Device
  | none => some d
  | some s => d.destroySemaphoreObject s

/-- The locals of the command-buffer loop of `Device::SubmitQueue`: the device, the
array `batches` and the index `batch`. -/
structure SubmitState where
  device : Device
  batches : List SubmitBatch
  batch : Nat
deriving DecidableEq

/-- A write to `batches[batch]`. -/
def SubmitState.modifyBatch (st : SubmitState) (f : SubmitBatch → SubmitBatch) :
    Option SubmitState :=
  match st.batches[st.batch]? with
  | some b => some { st with batches := st.batches.set st.batch (f b) }
  | none => none

/-- The statement
`if (!batches[batch].SignalSemaphores.empty()) { ++batch; assert(batch < MaxSubmissions); }`. -/
def SubmitState.nextBatchIfSignalled (st : SubmitState) : Option SubmitState :=
  match st.batches[st.batch]? with
  | none => none
  | some b =>
    if b.SignalSemaphores.isEmpty = false then
      if st.batch + 1 < MaxSubmissions then some { st with batch := st.batch + 1 } else none
    else some st

/-- The wait-semaphore loop of `Device::SubmitQueue`, on the first batch: consume each
accumulated wait semaphore and record it with its stage and timeline value. -/
def addWaitSemaphores : List Semaphore → List Nat → SubmitBatch → Option SubmitBatch
  | [], _, b => some b
  | _ :: _, [], _ => none
  | semaphoreHandle :: rest, waitStages :: stages, b =>
    match semaphoreHandle.Consume with
    | none => none
    | some (semaphore, consumed) =>
      let waitValue := consumed.value
      addWaitSemaphores rest stages
        { b with
          WaitSemaphores := b.WaitSemaphores ++ [semaphore]
          WaitStages := b.WaitStages ++ [waitStages]
          WaitValues := b.WaitValues ++ [waitValue]
          HasTimeline := b.HasTimeline || decide (waitValue ≠ 0) }

/-- The block `if (_swapchainAcquire && _swapchainAcquire->GetSemaphore()) { ... }` of
the command-buffer loop. -/
def SubmitState.waitOnAcquire (st : SubmitState) (swapchainStages : Nat) :
    Option SubmitState :=
  match st.device.swapchainAcquire with
  | none => some st
  | some acquire =>
    if acquire.semaphore = 0 then some st
    else
      match st.batches[st.batch]? with
      | none => none
      | some b =>
        let st1 : SubmitState :=
          if b.CommandBuffers.isEmpty = false ∨ b.SignalSemaphores.isEmpty = false then
            { st with batch := st.batch + 1 }
          else st
        let value := acquire.value
        match st1.modifyBatch (fun b =>
            { b with
              WaitSemaphores := b.WaitSemaphores ++ [acquire.semaphore]
              WaitStages := b.WaitStages ++ [swapchainStages]
              WaitValues := b.WaitValues ++ [value] }) with
        | none => none
        | some st2 =>
          let recycled :=
            if value = 0 then
              st2.device.modifyFrame (fun f =>
                { f with SemaphoresToRecycle := f.SemaphoresToRecycle ++ [acquire.semaphore] })
            else some st2.device
          match recycled, acquire.Consume with
          | some d1, some (_, consumed) =>
            match ({ d1 with swapchainAcquireConsumed := true, swapchainAcquire := none }
                : Device).dropSemaphoreHandle (some consumed) with
            | none => none
            | some d2 => some { st2 with device := d2 }
          | _, _ => none

/-- Push of a command buffer on `batches[batch].CommandBuffers`. -/
def SubmitState.pushCommandBuffer (st : SubmitState) (commandBuffer : Nat) :
    Option SubmitState :=
  st.modifyBatch (fun b => { b with CommandBuffers := b.CommandBuffers ++ [commandBuffer] })

/-- The tail of the swapchain branch: allocate the release semaphore, store its handle
in `_swapchainRelease` (the handle held before goes away) and signal it from the batch. -/
def SubmitState.signalRelease (st : SubmitState) : Option SubmitState :=
  let (d1, release) := st.device.AllocateSemaphore
  match d1.dropSemaphoreHandle d1.swapchainRelease with
  | none => none
  | some d2 =>
    let d3 : Device :=
      { d2 with swapchainRelease := some { (Semaphore.binary release true) with internalSync := true } }
    ({ st with device := d3 } : SubmitState).modifyBatch (fun b =>
      { b with
        SignalSemaphores := b.SignalSemaphores ++ [release]
        SignalValues := b.SignalValues ++ [0] })

/-- One turn of the loop `for (auto& cmdBufHandle : submissions)` of
`Device::SubmitQueue`. -/
def SubmitState.addCommandBuffer (st : SubmitState) (cmd : Submission) : Option SubmitState :=
  if cmd.swapchainStages ≠ 0 ∧ st.device.swapchainAcquireConsumed = false then
    match st.waitOnAcquire cmd.swapchainStages with
    | none => none
    | some st1 =>
      match st1.nextBatchIfSignalled with
      | none => none
      | some st2 =>
        match st2.pushCommandBuffer cmd.commandBuffer with
        | none => none
        | some st3 => st3.signalRelease
  else
    match st.nextBatchIfSignalled with
    | none => none
    | some st1 => st1.pushCommandBuffer cmd.commandBuffer

/-- The loop `for (auto& cmdBufHandle : submissions)` of `Device::SubmitQueue`. -/
def SubmitState.addCommandBuffers : List Submission → SubmitState → Option SubmitState
  | [], st => some st
  | cmd :: rest, st =>
    match st.addCommandBuffer cmd with
    | none => none
    | some st1 => addCommandBuffers rest st1

/-- The binary semaphores handed out through `*semaphores` when timeline semaphores are
not available: one allocated semaphore per entry, each signalled from the last batch. -/
def SubmitState.signalBinary : Nat → SubmitState → List Semaphore →
    Option (SubmitState × List Semaphore)
  | 0, st, out => some (st, out)
  | n + 1, st, out =>
    let (d1, sem) := st.device.AllocateSemaphore
    match ({ st with device := d1 } : SubmitState).modifyBatch (fun b =>
        { b with
          SignalSemaphores := b.SignalSemaphores ++ [sem]
          SignalValues := b.SignalValues ++ [0] }) with
    | none => none
    | some st1 => signalBinary n st1 (out ++ [Semaphore.binary sem true])

/-- The `vk::SubmitInfo` built from batch `i` (`i <= batch`), or left default. -/
def buildSubmit (batch : Nat) (i : Nat) (b : SubmitBatch) : SubmitInfo :=
  if i ≤ batch then
    { waitSemaphores := b.WaitSemaphores
      waitStages := b.WaitStages
      commandBuffers := b.CommandBuffers
      signalSemaphores := b.SignalSemaphores
      timeline := if b.HasTimeline then some (b.WaitValues, b.SignalValues) else none }
  else SubmitInfo.empty

/-- The array `submits` after the loop `for (uint8_t i = 0; i <= batch; ++i)`;
`first` is the index of the head of the list. -/
def buildSubmits (batch : Nat) : Nat → List SubmitBatch → List SubmitInfo
  | _, [] => []
  | first, b :: bs => buildSubmit batch first b :: buildSubmits batch (first + 1) bs

/-- The test `waitSemaphoreCount || commandBufferCount || signalSemaphoreCount`. -/
def SubmitInfo.nonEmpty (s : SubmitInfo) : Bool :=
  !s.waitSemaphores.isEmpty || !s.commandBuffers.isEmpty || !s.signalSemaphores.isEmpty

/-- The compaction loop: the first `submitCount` entries of `submits` afterwards. -/
def compactSubmits (submits : List SubmitInfo) : List SubmitInfo :=
  submits.filter SubmitInfo.nonEmpty

/-- What a call of `Device::SubmitQueue` leaves behind: the device, the fence written
through `submitFence`, the handles written into `*semaphores`, the array `batches` with
the index `batch` (no batch at all after the early return), and the compacted entries
handed to `queue.submit`. -/
structure SubmitOutcome where
  device : Device
  fence : InternalFence
  semaphores : List Semaphore
  batches : List SubmitBatch
  batch : Nat
  submits : List SubmitInfo
deriving DecidableEq

/-- First part of the body of `Device::SubmitQueue`, from `vk::Queue queue = ...` to
`submissions.clear()`: the timeline value (`uint64_t`) is advanced and recorded in the
frame context, the accumulated wait semaphores go to the first batch, the pending command
buffers are batched and the pending list is cleared. -/
def Device.batchSubmissions (d : Device) (queueType : QueueType) : Option SubmitState :=
  let queueData := d.queueData.get queueType
  let timelineValue := (queueData.TimelineValue + 1) % 2 ^ 64
  let d1 : Device :=
    { d with queueData := d.queueData.set queueType { queueData with TimelineValue := timelineValue } }
  match d1.modifyFrame (fun f =>
      { f with TimelineValues := f.TimelineValues.set queueType timelineValue }) with
  | none => none
  | some d2 =>
    match addWaitSemaphores queueData.WaitSemaphores queueData.WaitStages SubmitBatch.empty with
    | none => none
    | some first =>
      let d3 : Device :=
        { d2 with queueData := (d2.queueData.set queueType
            { (d2.queueData.get queueType) with WaitSemaphores := [], WaitStages := [] }) }
      let st0 : SubmitState :=
        { device := d3
          batches := (List.replicate MaxSubmissions SubmitBatch.empty).set 0 first
          batch := 0 }
      match d3.Frame with
      | none => none
      | some frame =>
        match SubmitState.addCommandBuffers (frame.Submissions.get queueType) st0 with
        | none => none
        | some st1 =>
          match st1.device.modifyFrame (fun f =>
              { f with Submissions := f.Submissions.set queueType [] }) with
          | none => none
          | some d4 => some { st1 with device := d4 }

/-- Second part of the body of `Device::SubmitQueue`, "emit any necessary semaphores
from the final batch": with timeline semaphores the queue's timeline semaphore is
signalled with the new value and handed out; without, one binary semaphore per
requested entry is allocated and signalled.  `fence` is the fence allocated before. -/
def SubmitState.emitSemaphores (st : SubmitState) (hasSemaphores : Bool) (count : Nat)
    (timelineSemaphore timelineValue fence : Nat) :
    Option (SubmitState × List Semaphore × InternalFence) :=
  if st.device.timelineSemaphore = true then
    match st.modifyBatch (fun b =>
        { b with
          SignalSemaphores := b.SignalSemaphores ++ [timelineSemaphore]
          SignalValues := b.SignalValues ++ [timelineValue]
          HasTimeline := true }) with
    | none => none
    | some st1 =>
      some (st1,
        if hasSemaphores then
          List.replicate count (Semaphore.timeline timelineSemaphore timelineValue)
        else [],
        ⟨0, timelineSemaphore, timelineValue⟩)
  else
    match (if hasSemaphores then st.signalBinary count [] else some (st, [])) with
    | none => none
    | some (st1, out) => some (st1, out, ⟨fence, 0, 0⟩)

/-- Last part of the body of `Device::SubmitQueue`: build the submit infos, compact them,
submit, and mark the queue as needing a fence when no timeline semaphore is used. -/
def SubmitState.submit (st : SubmitState) (queueType : QueueType) (fence : Nat)
    (out : List Semaphore) (internalFence : InternalFence) : SubmitOutcome :=
  let submits := compactSubmits (buildSubmits st.batch 0 st.batches)
  let d1 : Device :=
    { st.device with
      calls := st.device.calls ++ [.queueSubmit (st.device.Queues.get queueType) submits fence] }
  let d2 : Device :=
    if d1.timelineSemaphore = false then
      { d1 with queueData := (d1.queueData.set queueType
          { (d1.queueData.get queueType) with NeedsFence := true }) }
    else d1
  { device := d2
    fence := internalFence
    semaphores := out
    batches := st.batches
    batch := st.batch
    submits := submits }

/-- The body of `Device::SubmitQueue` from `vk::Queue queue = ...` on, after the early
return and the flush of the transfer queue.  `submitFence` tells whether the pointer is
non-null, `semaphores` is the size of the vector behind the pointer (`none` for
`nullptr`). -/
def Device.submitQueueBody (d : Device) (queueType : QueueType) (submitFence : Bool)
    (semaphores : Option Nat) : Option SubmitOutcome :=
  let hasSemaphores := match semaphores with
    | some n => decide (n ≠ 0)
    | none => false
  let timelineSemaphore := (d.queueData.get queueType).TimelineSemaphore
  let timelineValue := ((d.queueData.get queueType).TimelineValue + 1) % 2 ^ 64
  match d.batchSubmissions queueType with
  | none => none
  | some st1 =>
    let allocated : Device × Nat :=
      if submitFence = true ∧ st1.device.timelineSemaphore = false then st1.device.AllocateFence
      else (st1.device, 0)
    let st2 : SubmitState := { st1 with device := allocated.1 }
    match st2.emitSemaphores hasSemaphores (semaphores.getD 0) timelineSemaphore timelineValue
        allocated.2 with
    | none => none
    | some (st3, out, internalFence) =>
      some (st3.submit queueType allocated.2 out internalFence)

/-- The test of the early return of `Device::SubmitQueue`:
`submissions.empty() && submitFence == nullptr && !hasSemaphores`. -/
def Device.nothingToSubmit (frame : FrameContext) (queueType : QueueType) (submitFence : Bool)
    (semaphores : Option Nat) : Bool :=
  (frame.Submissions.get queueType).isEmpty && !submitFence &&
    !(match semaphores with
      | some n => decide (n ≠ 0)
      | none => false)

/-- The outcome of the early return: nothing built, nothing submitted. -/
def SubmitOutcome.nothing (d : Device) : SubmitOutcome :=
  { device := d, fence := ⟨0, 0, 0⟩, semaphores := [], batches := [], batch := 0, submits := [] }

/-- The call `SubmitQueue(QueueType::Transfer, nullptr, nullptr)`: for the transfer queue
the test `queueType != QueueType::Transfer` fails and no further flush is made. -/
def Device.SubmitQueueTransfer (d : Device) : Option SubmitOutcome :=
  match d.Frame with
  | none => none
  | some frame =>
    if Device.nothingToSubmit frame .Transfer false none then some (SubmitOutcome.nothing d)
    else d.submitQueueBody .Transfer false none

/-- The method `Device::FlushFrame`, as `SubmitQueue` calls it:
`FlushFrame(QueueType::Transfer)`. -/
def Device.FlushFrameTransfer (d : Device) : Option Device :=
  if d.Queues.get .Transfer = 0 then some d
  else d.SubmitQueueTransfer.map (fun r => r.device)

/-- The method `Device::SubmitQueue`. -/
def Device.SubmitQueue (d : Device) (queueType : QueueType) (submitFence : Bool)
    (semaphores : Option Nat) : Option SubmitOutcome :=
  match d.Frame with
  | none => none
  | some frame =>
    if Device.nothingToSubmit frame queueType submitFence semaphores then
      some (SubmitOutcome.nothing d)
    else
      match (if queueType ≠ .Transfer then d.FlushFrameTransfer else some d) with
      | none => none
      | some d1 => d1.submitQueueBody queueType submitFence semaphores

/-- The method `Device::FlushFrame`. -/
def Device.FlushFrame (d : Device) (queueType : QueueType) : Option Device :=
  if d.Queues.get queueType = 0 then some d
  else (d.SubmitQueue queueType false none).map (fun r => r.device)

/-- The command buffers of an array of batches, in batch-index order. -/
def allCommandBuffers : List SubmitBatch → List Nat
  | [] => []
  | b :: bs => b.CommandBuffers ++ allCommandBuffers bs

/-- The command buffers of a list of native submit entries, in array order. -/
def submittedCommandBuffers : List SubmitInfo → List Nat
  | [] => []
  | s :: ss => s.commandBuffers ++ submittedCommandBuffers ss

/-- The pending submissions of a queue in the current frame context (none if there is
no current frame context). -/
def Device.pending (d : Device) (queueType : QueueType) : List Submission :=
  match d.Frame with
  | some frame => frame.Submissions.get queueType
  | none => []

/-- The constructor `FrameContext::FrameContext`: empty lists, the timeline semaphores
and values of the queues. -/
def FrameContext.create (queueData : PerQueue QueueData) (index : Nat) : FrameContext :=
  { Index := index
    FencesToAwait := []
    Submissions := ⟨[], [], []⟩
    TimelineSemaphores :=
      ⟨queueData.graphics.TimelineSemaphore, queueData.transfer.TimelineSemaphore,
        queueData.compute.TimelineSemaphore⟩
    TimelineValues :=
      ⟨queueData.graphics.TimelineValue, queueData.transfer.TimelineValue,
        queueData.compute.TimelineValue⟩
    BuffersToDestroy := []
    ImagesToDestroy := []
    ImageViewsToDestroy := []
    FencesToRecycle := []
    MemoryToFree := []
    SemaphoresToDestroy := []
    SemaphoresToRecycle := [] }

/-- A device as its constructor leaves it, on a GPU with three distinct queues (native
handles 1, 2, 3): two frame contexts, the first one current; with timeline semaphores
(handles 11, 12, 13) if the feature is available. -/
def Device.create (timelineSemaphore : Bool) : Device :=
  let timelineOf (h : Nat) : QueueData :=
    ⟨false, if timelineSemaphore then h else 0, 0, [], []⟩
  let queueData : PerQueue QueueData := ⟨timelineOf 11, timelineOf 12, timelineOf 13⟩
  { timelineSemaphore := timelineSemaphore
    Queues := ⟨1, 2, 3⟩
    currentFrameContext := 0
    frameContexts := [FrameContext.create queueData 0, FrameContext.create queueData 1]
    queueData := queueData
    availableFences := []
    availableSemaphores := []
    lockCounter := 0
    swapchainAcquire := none
    swapchainAcquireConsumed := false
    swapchainRelease := none
    nextNative := 100
    calls := [] }

/-- The tail of `Device::SubmitNoLock` that queues the command buffer:
`submissions.push_back(std::move(cmd))` on the current frame context. -/
def Device.pushSubmission (d : Device) (queueType : QueueType) (cmd : Submission) :
    Option Device :=
  d.modifyFrame (fun f =>
    { f with Submissions := f.Submissions.set queueType (f.Submissions.get queueType ++ [cmd]) })

/-- A device with the given command buffers pending on the graphics queue. -/
def Device.withPending (d : Device) (cmds : List Submission) : Device :=
  match d.modifyFrame (fun f => { f with Submissions := f.Submissions.set .Graphics cmds }) with
  | some d1 => d1
  | none => d

/-- Nine command buffers (native handles 21 to 29) that each render to the swapchain
(`eColorAttachmentOutput`, `0x400`). -/
def nineSwapchainSubmissions : List Submission :=
  [⟨21, 0x400⟩, ⟨22, 0x400⟩, ⟨23, 0x400⟩, ⟨24, 0x400⟩, ⟨25, 0x400⟩, ⟨26, 0x400⟩, ⟨27, 0x400⟩,
    ⟨28, 0x400⟩, ⟨29, 0x400⟩]

/-- The batches after index `batch` hold no command buffer and no signal semaphore. -/
def EmptyBeyond (batches : List SubmitBatch) (batch : Nat) : Prop :=
  ∀ j b, batch < j → batches[j]? = some b → b.CommandBuffers = [] ∧ b.SignalSemaphores = []

/-- A native call that destroys a buffer, an image, an image view or a semaphore, or
frees an allocation. -/
def NativeCall.isDestroy : NativeCall → Bool
  | .destroyBuffer _ => true
  | .destroyImage _ => true
  | .destroyImageView _ => true
  | .freeMemory _ => true
  | .destroySemaphore _ => true
  | _ => false

/-- The five deferred-destruction queues of the second frame context extend those of
the first. -/
structure FrameContext.Extends (f f2 : FrameContext) : Prop where
  buffers : ∃ more, f2.BuffersToDestroy = f.BuffersToDestroy ++ more
  images : ∃ more, f2.ImagesToDestroy = f.ImagesToDestroy ++ more
  views : ∃ more, f2.ImageViewsToDestroy = f.ImageViewsToDestroy ++ more
  memory : ∃ more, f2.MemoryToFree = f.MemoryToFree ++ more
  semaphores : ∃ more, f2.SemaphoresToDestroy = f.SemaphoresToDestroy ++ more

/-- The second frame context comes from the first by emptying the submission lists of
the queues marked `cleared` and by appending to deferred-destruction queues. -/
structure FrameContext.Evolves (cleared : QueueType → Bool) (f f2 : FrameContext) : Prop where
  submissions : ∀ q, f2.Submissions.get q = if cleared q then [] else f.Submissions.get q
  queues : f.Extends f2

/-- The second device comes from the first by steps that keep the ring position and the
other frame contexts, let the current one evolve, make no destroying native call, and
leave the swapchain acquire semaphore alone or consume it. -/
structure Device.Advances (cleared : QueueType → Bool) (d d2 : Device) : Prop where
  current : d2.currentFrameContext = d.currentFrameContext
  length : d2.frameContexts.length = d.frameContexts.length
  others : ∀ i, i ≠ d.currentFrameContext → d2.frameContexts[i]? = d.frameContexts[i]?
  frame : ∀ f, d.Frame = some f → ∃ f2, d2.Frame = some f2 ∧ f.Evolves cleared f2
  calls : ∃ more, d2.calls = d.calls ++ more ∧ ∀ c ∈ more, c.isDestroy = false
  feature : d2.timelineSemaphore = d.timelineSemaphore
  queues : d2.Queues = d.Queues
  lock : d2.lockCounter = d.lockCounter
  acquire : (d2.swapchainAcquireConsumed = true ∧ d2.swapchainAcquire = none) ∨
    (d2.swapchainAcquireConsumed = d.swapchainAcquireConsumed ∧
      d2.swapchainAcquire = d.swapchainAcquire)

/-- No queue is cleared. -/
def noQueue : QueueType → Bool := fun _ => false

/-- The one queue `q` is cleared. -/
def onlyQueue (q : QueueType) : QueueType → Bool := fun q2 => decide (q2 = q)

/-- The effect of a step of the command-buffer loop that pushes the command buffers
`pushed`: they are appended to the command buffers of the batches, the batches after
the current one stay empty, and the device advances without clearing a queue. -/
structure SubmitState.Pushes (st st2 : SubmitState) (pushed : List Nat) : Prop where
  cmds : allCommandBuffers st2.batches = allCommandBuffers st.batches ++ pushed
  beyond : EmptyBeyond st2.batches st2.batch
  length : st2.batches.length = st.batches.length
  batch : st.batch ≤ st2.batch
  device : st.device.Advances noQueue st2.device

/-- Whether the current batch already signals a semaphore (1) or not (0): the amount by
which `nextBatchIfSignalled` moves the batch index. -/
def SubmitState.signalled (st : SubmitState) : Nat :=
  match st.batches[st.batch]? with
  | some b => if b.SignalSemaphores.isEmpty then 0 else 1
  | none => 0

/-- The test `_swapchainAcquire && _swapchainAcquire->GetSemaphore()`. -/
def Device.acquireValid (d : Device) : Bool :=
  match d.swapchainAcquire with
  | some acquire => decide (acquire.semaphore ≠ 0)
  | none => false

/-- A pending acquire semaphore that holds a native handle has been signalled, so that
`Consume` passes its assertions. -/
def Device.acquireReady (d : Device) : Prop :=
  ∀ acquire, d.swapchainAcquire = some acquire → acquire.semaphore ≠ 0 → acquire.signalled = true

/-- The number of command buffers of the list that touch the swapchain. -/
def swapchainCount (cmds : List Submission) : Nat :=
  (cmds.filter (fun c => decide (c.swapchainStages ≠ 0))).length

/-- An upper bound of the number of times the command-buffer loop moves to the next
batch: none once the acquire semaphore is consumed, at most two when an acquire
semaphore is pending, and otherwise at most one per command buffer that touches the
swapchain. -/
def Device.batchCost (d : Device) (cmds : List Submission) : Nat :=
  if d.swapchainAcquireConsumed then 0
  else if d.acquireValid then 2
  else swapchainCount cmds

/-- The accumulated wait semaphores can be consumed: each has a stage, holds a native
handle and has been signalled. -/
def WaitsReady (semaphores : List Semaphore) (stages : List Nat) : Prop :=
  semaphores.length ≤ stages.length ∧
    ∀ s ∈ semaphores, s.semaphore ≠ 0 ∧ s.signalled = true

/-- The state of the command-buffer loop from which the remaining command buffers
`cmds` can be batched without leaving the array `batches`. -/
structure SubmitState.Ready (st : SubmitState) (cmds : List Submission) : Prop where
  length : st.batches.length = MaxSubmissions
  beyond : EmptyBeyond st.batches st.batch
  frame : ∃ f, st.device.Frame = some f
  acquire : st.device.acquireReady
  bound : st.batch + st.signalled + st.device.batchCost cmds ≤ 7

/-- The queue can be submitted: its wait semaphores can be consumed and its pending
command buffers fit the array of batches. -/
def Device.QueueReady (d : Device) (queueType : QueueType) : Prop :=
  WaitsReady (d.queueData.get queueType).WaitSemaphores (d.queueData.get queueType).WaitStages ∧
    d.batchCost (d.pending queueType) ≤ 7

/-- The precondition under which `SubmitQueue` runs to completion: there is a current
frame context, a pending acquire semaphore is signalled, the queue can be submitted,
and so can the transfer queue when it is flushed first. -/
def Device.SubmitReady (d : Device) (queueType : QueueType) : Prop :=
  (∃ f, d.Frame = some f) ∧ d.acquireReady ∧ d.QueueReady queueType ∧
    (queueType ≠ .Transfer → d.Queues.get .Transfer ≠ 0 → d.QueueReady .Transfer)

/-- A device without timeline semaphores and with three command buffers pending on the
graphics queue (native handles 31, 32, 33), the second of which renders to the swapchain. -/
def threePendingDevice : Device :=
  (Device.create false).withPending [⟨31, 0⟩, ⟨32, 0x400⟩, ⟨33, 0⟩]

/-- The array `QueueFlushOrder`. -/
def QueueFlushOrder : List QueueType := [.Transfer, .Graphics, .Compute]

/-- One turn of the loop of `Device::EndFrameNoLock`.  The local `fence` is handed to
`SubmitQueue` as a non-null slot, so the call does not return early and writes the
field `Fence` read afterwards. -/
def Device.endFrameQueue (d : Device) (type : QueueType) : Option Device :=
  match d.Frame with
  | none => none
  | some frame =>
    if (d.queueData.get type).NeedsFence = true ∨ (frame.Submissions.get type).isEmpty = false then
      match d.SubmitQueue type true none with
      | none => none
      | some r =>
        let pushed :=
          if r.fence.Fence ≠ 0 then
            r.device.modifyFrame (fun f =>
              { f with
                FencesToAwait := f.FencesToAwait ++ [r.fence.Fence]
                FencesToRecycle := f.FencesToRecycle ++ [r.fence.Fence] })
          else some r.device
        match pushed with
        | none => none
        | some d1 =>
          some { d1 with queueData := (d1.queueData.set type
            { (d1.queueData.get type) with NeedsFence := false }) }
    else some d

/-- The loop of `Device::EndFrameNoLock` over the queue types still to visit. -/
def Device.endFrameQueues : List QueueType → Device → Option Device
  | [], d => some d
  | type :: rest, d =>
    match d.endFrameQueue type with
    | none => none
    | some d1 => endFrameQueues rest d1

/-- The method `Device::EndFrameNoLock`. -/
def Device.EndFrameNoLock (d : Device) : Option Device :=
  Device.endFrameQueues QueueFlushOrder d

/-- The five deferred-destruction queues of a frame context. -/
inductive DestroyKind where
  | buffer : DestroyKind
  | image : DestroyKind
  | imageView : DestroyKind
  | memory : DestroyKind
  | semaphore : DestroyKind
deriving DecidableEq

/-- The deferred-destruction queue of a kind: `BuffersToDestroy`, `ImagesToDestroy`,
`ImageViewsToDestroy`, `MemoryToFree`, `SemaphoresToDestroy`. -/
def FrameContext.queue (f : FrameContext) : DestroyKind → List Nat
  | .buffer => f.BuffersToDestroy
  | .image => f.ImagesToDestroy
  | .imageView => f.ImageViewsToDestroy
  | .memory => f.MemoryToFree
  | .semaphore => f.SemaphoresToDestroy

/-- The native call that destroys a handle of a kind: `destroyBuffer`, `destroyImage`,
`destroyImageView`, `vmaFreeMemory`, `destroySemaphore`. -/
def DestroyKind.call : DestroyKind → Nat → NativeCall
  | .buffer, h => .destroyBuffer h
  | .image, h => .destroyImage h
  | .imageView, h => .destroyImageView h
  | .memory, h => .freeMemory h
  | .semaphore, h => .destroySemaphore h

/-- The entry point that enqueues a handle of a kind: `DestroyBuffer`, `DestroyImage`,
`DestroyImageView`, `FreeMemory`, `DestroySemaphore`, or its `NoLock` variant. -/
def Device.enqueue (d : Device) (kind : DestroyKind) (locked : Bool) (handle : Nat) :
    Option Device :=
  match kind, locked with
  | .buffer, true => d.DestroyBuffer handle
  | .buffer, false => d.DestroyBufferNoLock handle
  | .image, true => d.DestroyImage handle
  | .image, false => d.DestroyImageNoLock handle
  | .imageView, true => d.DestroyImageView handle
  | .imageView, false => d.DestroyImageViewNoLock handle
  | .memory, true => d.FreeMemory handle
  | .memory, false => d.FreeMemoryNoLock handle
  | .semaphore, true => d.DestroySemaphore handle
  | .semaphore, false => d.DestroySemaphoreNoLock handle

/-- Modelled from the spec: the calls `_framebufferAllocator->BeginFrame()` and
`_transientAttachmentAllocator->BeginFrame()` of `Device::NextFrame`.  The allocators
are caches of resource wrappers, and a wrapper is "destroyed through deferred-destruction
rather than immediately": the native handles `released` that the two calls let go are
enqueued on the current frame context. -/
def Device.allocatorsBeginFrame : List (DestroyKind × Nat) → Device → Option Device
  | [], d => some d
  | (kind, handle) :: rest, d =>
    match d.enqueue kind false handle with
    | none => none
    | some d1 => allocatorsBeginFrame rest d1

/-- The semaphores and values `FrameContext::Begin` waits on: for each queue type, in
index order, with a non-zero timeline value in the frame context, the timeline semaphore
of the queue and that value. -/
def FrameContext.timelineWaits (f : FrameContext) (parent : Device) : List (Nat × Nat) :=
  [QueueType.Graphics, QueueType.Transfer, QueueType.Compute].filterMap (fun q =>
    if f.TimelineValues.get q ≠ 0 then
      some ((parent.queueData.get q).TimelineSemaphore, f.TimelineValues.get q)
    else none)

/-- The native destroy calls `FrameContext::Begin` makes, in order: buffers, images,
image views, allocations, semaphores. -/
def FrameContext.destroyCalls (f : FrameContext) : List NativeCall :=
  f.BuffersToDestroy.map NativeCall.destroyBuffer ++
    f.ImagesToDestroy.map NativeCall.destroyImage ++
    f.ImageViewsToDestroy.map NativeCall.destroyImageView ++
    f.MemoryToFree.map NativeCall.freeMemory ++
    f.SemaphoresToDestroy.map NativeCall.destroySemaphore

/-- The native waits and the fence reset `FrameContext::Begin` makes before it drains the
queues: the wait on the timeline semaphores (if every queue has one and some value is
non-zero), the wait on the fences to await, the reset of the fences to recycle. -/
def FrameContext.waitCalls (f : FrameContext) (parent : Device) : List NativeCall :=
  let hasTimelineSemaphores :=
    decide ((parent.queueData.graphics).TimelineSemaphore ≠ 0) &&
      decide ((parent.queueData.transfer).TimelineSemaphore ≠ 0) &&
      decide ((parent.queueData.compute).TimelineSemaphore ≠ 0)
  let waits := if hasTimelineSemaphores then f.timelineWaits parent else []
  (if waits.isEmpty then []
    else [NativeCall.waitSemaphores (waits.map Prod.fst) (waits.map Prod.snd)]) ++
  (if f.FencesToAwait.isEmpty then [] else [NativeCall.waitForFences f.FencesToAwait]) ++
  (if f.FencesToRecycle.isEmpty then [] else [NativeCall.resetFences f.FencesToRecycle])

/-- The method `Device::FrameContext::Begin`, on a frame context of the device `parent`
(command pools left out): the frame context and the device afterwards.  The native
waits are taken to return. -/
def FrameContext.Begin (f : FrameContext) (parent : Device) : FrameContext × Device :=
  let p1 : Device := { parent with calls := parent.calls ++ f.waitCalls parent }
  let p2 := f.FencesToRecycle.foldl Device.ReleaseFence p1
  let p3 : Device := { p2 with calls := p2.calls ++ f.destroyCalls }
  let p4 := f.SemaphoresToRecycle.foldl Device.ReleaseSemaphore p3
  ({ f with
      FencesToAwait := []
      FencesToRecycle := []
      BuffersToDestroy := []
      ImagesToDestroy := []
      ImageViewsToDestroy := []
      MemoryToFree := []
      SemaphoresToDestroy := []
      SemaphoresToRecycle := [] },
    p4)

/-- The ring position after `_currentFrameContext++` and the wrap to 0. -/
def Device.nextFrameContext (d : Device) : Nat :=
  if d.currentFrameContext + 1 ≥ d.frameContexts.length then 0 else d.currentFrameContext + 1

/-- The method `Device::NextFrame`.  `DeviceFlush` waits for `_lock.Counter == 0`, which
no step of this thread brings about; `released` are the handles the allocators let go. -/
def Device.NextFrame (d : Device) (released : List (DestroyKind × Nat)) : Option Device :=
  if d.lockCounter ≠ 0 then none
  else
    match d.EndFrameNoLock with
    | none => none
    | some d1 =>
      match d1.allocatorsBeginFrame released with
      | none => none
      | some d2 =>
        let d3 : Device := { d2 with currentFrameContext := d2.nextFrameContext }
        match d3.Frame with
        | none => none
        | some frame =>
          let begun := frame.Begin d3
          begun.2.modifyFrame (fun _ => begun.1)

/-- The precondition under which `NextFrame` runs to completion: no command buffer is
outstanding, there is a current frame context, a pending acquire semaphore is signalled,
every queue can be submitted, and the frame contexts that are not current hold no
pending submission. -/
structure Device.NextReady (d : Device) : Prop where
  lock : d.lockCounter = 0
  frame : ∃ f, d.Frame = some f
  acquire : d.acquireReady
  queues : ∀ q, d.QueueReady q
  others : ∀ (i : Nat) (f : FrameContext), i ≠ d.currentFrameContext →
    d.frameContexts[i]? = some f → ∀ q, f.Submissions.get q = []

/-! ## Tsuki/Cookie.hpp, Source/Cookie.cpp, `Device::AllocateCookie` -/

/-- The method `Device::AllocateCookie`, on the member `_cookie` (`uint64_t`, or
`std::atomic_uint64_t` whose `fetch_add(16) + 16` is computed in 64 bits as well): the
member afterwards and the value returned. -/
def AllocateCookie (cookie : Nat) : Nat × Nat :=
  ((cookie + 16) % 2 ^ 64, (cookie + 16) % 2 ^ 64)

/-- The member `_cookie` after `n` calls of `AllocateCookie` on a device as constructed
(`_cookie = 0`, `_cookie.store(0)`). -/
def cookieAfter : Nat → Nat
  | 0 => 0
  | n + 1 => (AllocateCookie (cookieAfter n)).1

/-- The value returned by call number `n + 1` of `AllocateCookie` on a device as
constructed; this is what `Cookie::Cookie` stores in `_cookie` of the resource. -/
def nthCookie (n : Nat) : Nat := (AllocateCookie (cookieAfter n)).2

/-! ## Tsuki/Image.hpp, Source/Image.cpp -/

/-- What the destructor reads of the class `Image`: the native image, the allocation
(`0` for `nullptr`), the two ownership flags and `_internalSync` of the base
`InternalSync`. -/
structure Image where
  image : Nat
  allocation : Nat
  imageOwned : Bool
  memoryOwned : Bool
  internalSync : Bool
deriving DecidableEq

/-- The constructor `Image(device, image, imageCI)`, used for swapchain images:
`_allocation(nullptr)`, `_imageOwned(false)`, `_memoryOwned(false)`. -/
def Image.swapchain (image : Nat) : Image :=
  ⟨image, 0, false, false, false⟩

/-- The constructor `Image(device, image, defaultView, allocation, imageCI, viewType)`:
the ownership flags keep their default member initialiser `true`. -/
def Image.allocated (image allocation : Nat) : Image :=
  ⟨image, allocation, true, true, false⟩

/-- The method `InternalSync::SetInternalSync`, as the device calls it on the objects
it manages itself. -/
def Image.SetInternalSync (img : Image) : Image :=
  { img with internalSync := true }

/-- The destructor `Image::~Image` (the members, among them the handle of the default
view, go away after it through their own destructors). -/
def Device.destroyImageObject (d : Device) (img : Image) : Option Device :=
  let imageDone :=
    if img.imageOwned = true then
      if img.internalSync = true then d.DestroyImageNoLock img.image
      else d.DestroyImage img.image
    else some d
  match imageDone with
  | none => none
  | some d1 =>
    if img.memoryOwned = true ∧ img.allocation ≠ 0 then
      if img.internalSync = true then d1.FreeMemoryNoLock img.allocation
      else d1.FreeMemory img.allocation
    else some d1

/-! ## Tsuki/ObjectPool.hpp

A pointer to an object slot is a pair: the number of the block it lies in (the position
of the block in `_memory`) and its index in the block.  Blocks handed out by
`AlignedAlloc` are disjoint, so different pairs are different addresses. -/

/-- The address `&ptr[index]` in the block of slab number `slab`. -/
structure Slot where
  slab : Nat
  index : Nat
deriving DecidableEq

/-- The class `ObjectPool`: the free list `_available` and the blocks `_memory`, each
block with the number of objects it was allocated for. -/
structure ObjectPool where
  available : List Slot
  memory : List Nat
deriving DecidableEq

/-- A pool as constructed. -/
def ObjectPool.empty : ObjectPool := ⟨[], []⟩

/-- The expression `64u << _memory.size()`: a shift of an `unsigned int`, computed in
32 bits; a shift count of 32 or more has no defined behaviour (`none`). -/
def ObjectPool.objectCount (p : ObjectPool) : Option Nat :=
  if p.memory.length < 32 then some ((64 <<< p.memory.length) % 2 ^ 32) else none

/-- The loop `_available.push_back(&ptr[i])` and `_memory.emplace_back(ptr)` for a new
block of `objectCount` objects. -/
def ObjectPool.addSlab (p : ObjectPool) (objectCount : Nat) : ObjectPool :=
  { available :=
      p.available ++ (List.range objectCount).map (fun i => (⟨p.memory.length, i⟩ : Slot))
    memory := p.memory ++ [objectCount] }

/-- The tail of `Allocate`: `_available.back()`, `pop_back()`, placement new.  `back()`
on an empty vector has no defined behaviour (`none`). -/
def ObjectPool.takeBack (p : ObjectPool) : Option (ObjectPool × Option Slot) :=
  match p.available.getLast? with
  | none => none
  | some ptr => some ({ p with available := p.available.dropLast }, some ptr)

/-- The method `ObjectPool::Allocate`.  `allocated` tells whether `AlignedAlloc` hands
out a block when it is called; the result is the pool afterwards and the pointer
returned (`none` for `nullptr`). -/
def ObjectPool.Allocate (p : ObjectPool) (allocated : Bool) :
    Option (ObjectPool × Option Slot) :=
  if p.available.isEmpty then
    match p.objectCount with
    | none => none
    | some objectCount =>
      if allocated = false then some (p, none)
      else (p.addSlab objectCount).takeBack
  else p.takeBack

/-- The method `ObjectPool::Free`. -/
def ObjectPool.Free (p : ObjectPool) (ptr : Slot) : ObjectPool :=
  { p with available := p.available ++ [ptr] }

/-- The method `ObjectPool::Clear`. -/
def ObjectPool.Clear (_p : ObjectPool) : ObjectPool := ⟨[], []⟩

/-- The method `ThreadSafeObjectPool::Allocate`: `ObjectPool::Allocate` under the mutex. -/
def ThreadSafeObjectPool.Allocate (p : ObjectPool) (allocated : Bool) :
    Option (ObjectPool × Option Slot) :=
  p.Allocate allocated

/-- The method `ThreadSafeObjectPool::Free`: the push on `_available` under the mutex. -/
def ThreadSafeObjectPool.Free (p : ObjectPool) (ptr : Slot) : ObjectPool :=
  { p with available := p.available ++ [ptr] }

/-- A pool together with the pointers that are live: returned by `Allocate` and not
freed since. -/
structure PoolState where
  pool : ObjectPool
  live : List Slot
deriving DecidableEq

/-- A call on a pool: `Allocate` (with the outcome of `AlignedAlloc`, should it be
called) or `Free`, on the plain or on the thread-safe pool. -/
inductive PoolOp where
  | allocate (allocated : Bool) : PoolOp
  | free (ptr : Slot) : PoolOp
  | allocateLocked (allocated : Bool) : PoolOp
  | freeLocked (ptr : Slot) : PoolOp
deriving DecidableEq

/-- What an `Allocate` leaves: the pool, and the pointer among the live ones. -/
def PoolState.allocated (st : PoolState) :
    Option (ObjectPool × Option Slot) → Option PoolState
  | none => none
  | some (p, none) => some { st with pool := p }
  | some (p, some ptr) => some ⟨p, st.live ++ [ptr]⟩

/-- One call under the discipline of the pool: a `Free` of a pointer that is not live
is not made. -/
def PoolOp.run (st : PoolState) : PoolOp → Option PoolState
  | .allocate allocated => st.allocated (st.pool.Allocate allocated)
  | .allocateLocked allocated => st.allocated (ThreadSafeObjectPool.Allocate st.pool allocated)
  | .free ptr => if ptr ∈ st.live then some ⟨st.pool.Free ptr, st.live.erase ptr⟩ else some st
  | .freeLocked ptr =>
    if ptr ∈ st.live then some ⟨ThreadSafeObjectPool.Free st.pool ptr, st.live.erase ptr⟩
    else some st

/-- A sequence of calls on a pool. -/
def runPool : List PoolOp → PoolState → Option PoolState
  | [], st => some st
  | op :: rest, st =>
    match op.run st with
    | none => none
    | some st1 => runPool rest st1

/-- A pool that owns 26 blocks, of 64, 128, ... objects, all of them live: the state
after `2 ^ 32 - 64` calls of `Allocate` and no `Free`. -/
def exhaustedPool : ObjectPool :=
  ⟨[], (List.range 26).map (fun k => 64 * 2 ^ k)⟩

/-- The slots of the blocks of a pool are exactly the free and the live ones, none of
them twice, and block number `k` holds `64 * 2 ^ k` objects. -/
structure PoolState.Inv (st : PoolState) : Prop where
  nodup : (st.pool.available ++ st.live).Nodup
  cover : ∀ slot : Slot, slot ∈ st.pool.available ++ st.live ↔
    ∃ n, st.pool.memory[slot.slab]? = some n ∧ slot.index < n
  sizes : ∀ (k n : Nat), st.pool.memory[k]? = some n → n = 64 * 2 ^ k ∧ k ≤ 25

/-- Four calls on a fresh pool: two allocations, the release of the first object and
another allocation. -/
def samplePoolOps : List PoolOp :=
  [.allocate true, .allocateLocked true, .free ⟨0, 63⟩, .allocate true]

/-! ## Source/CommandBuffer.cpp: pipeline hash, descriptor sets, flush and draw

The classes `Hasher`, `Program`, `PipelineLayout`, `RenderPass` and the descriptor-set
allocator, and the helpers of `BitOps.hpp`, are not part of the sources.  What the
command buffer reads of the objects is kept in records, and the hasher is the list of
the values fed to it, in order, with `Hasher::Get` a function of that list. -/

/-- Modelled from the spec: the helper `ForEachBit` of `BitOps.hpp`, as its uses say:
the callback runs for each set bit of the 32-bit mask, lowest bit first.  The list holds
the bits in the order of the calls. -/
def ForEachBit (mask : Nat) : List Nat :=
  (List.range 32).filter (fun bit => mask.testBit bit)

/-- What is read of a descriptor-set layout: the binding masks and the array sizes. -/
structure DescriptorSetLayout where
  FloatMask : Nat
  InputAttachmentMask : Nat
  StorageBufferMask : Nat
  UniformBufferMask : Nat
  SampledImageMask : Nat
  SamplerMask : Nat
  ArraySizes : List Nat
deriving DecidableEq

/-- What is read of the resource layout of a pipeline layout (`GetResourceLayout()`):
the attribute mask, the descriptor-set masks, the set layouts and the push-constant
range. -/
structure ResourceLayout where
  AttributeMask : Nat
  DescriptorSetMask : Nat
  BindlessDescriptorSetMask : Nat
  SetLayouts : List DescriptorSetLayout
  PushConstantStages : Nat
  PushConstantSize : Nat
deriving DecidableEq

/-- The objects behind the pointers followed while hashing and flushing, and the calls
made on them: `Program::GetHash`, `Program::GetPipelineLayout`,
`PipelineLayout::GetResourceLayout`, `RenderPass::GetHash`, `Hasher::Get` for the values
fed, `Program::GetPipeline` for a hash, the pipeline `BuildGraphicsPipeline` or
`BuildComputePipeline` returns (null when the creation fails), and the pair returned by
`GetAllocator(set)->Find(threadIndex, hash)` of a pipeline layout.  The last field is the
helper `ForEachBitRange` of `BitOps.hpp`: the pairs `(binding, bindingCount)` it calls
back with for a mask, in order. -/
structure RecordingObjects where
  programHash : Nat → Nat
  programLayout : Nat → Nat
  resourceLayout : Nat → ResourceLayout
  renderPassHash : Nat → Nat
  hashOf : List Nat → Nat
  getPipeline : Nat → Nat → Nat
  buildPipeline : Bool → PipelineCompileInfo → Nat
  find : Nat → Nat → Nat → Nat → Nat × Bool
  bitRanges : Nat → List (Nat × Nat)

/-- The words `StaticState.Data` (`uint32_t Data[4]`, the first 16 bytes of the union),
which hold the bit-field members and `WriteMask`; the members stand for the words, in the
order of their declaration.  The bit-fields fill three 32-bit units, `WriteMask` is the
fourth, so `TessellationControlPoints` lies at byte 16, behind `Data`, and is not among
them. -/
def PipelineState.Data (s : PipelineState) : List Nat :=
  [s.PrimitiveRestart, s.Topology, s.Wireframe, s.CullMode, s.FrontFace, s.DepthBiasEnable,
    s.DepthClamp, s.DepthCompare, s.DepthTest, s.DepthWrite, s.StencilTest, s.StencilFrontFail,
    s.StencilFrontPass, s.StencilFrontDepthFail, s.StencilFrontCompareOp, s.StencilBackFail,
    s.StencilBackPass, s.StencilBackDepthFail, s.StencilBackCompareOp, s.BlendEnable,
    s.SrcColorBlend, s.DstColorBlend, s.ColorBlendOp, s.SrcAlphaBlend, s.DstAlphaBlend,
    s.AlphaBlendOp, s.AlphaToCoverage, s.AlphaToOne, s.SampleShading, s.ConservativeRaster,
    s.SubgroupControlSize, s.SubgroupFullGroup, s.SubgroupMinimumSizeLog2,
    s.SubgroupMaximumSizeLog2, s.WriteMask]

/-- The first loop of `GetHash`, over the bits of the attribute mask still to visit:
`ActiveVertexBuffers` so far and the values fed so far go in, both come out.  An index
outside `VertexAttributes` and a shift by 32 or more have no defined behaviour. -/
def PipelineCompileInfo.hashAttributes (info : PipelineCompileInfo) :
    List Nat → Nat × List Nat → Option (Nat × List Nat)
  | [], acc => some acc
  | bit :: rest, (active, fed) =>
    match info.VertexAttributes[bit]? with
    | none => none
    | some attr =>
      if attr.Binding < 32 then
        info.hashAttributes rest
          (active ||| (1 <<< attr.Binding), fed ++ [bit, attr.Binding, attr.Format, attr.Offset])
      else none

/-- The second loop of `GetHash`, over the bits of `ActiveVertexBuffers`. -/
def PipelineCompileInfo.hashBindings (info : PipelineCompileInfo) :
    List Nat → List Nat → Option (List Nat)
  | [], fed => some fed
  | bit :: rest, fed =>
    match info.VertexInputRates[bit]?, info.VertexStrides[bit]? with
    | some rate, some stride => info.hashBindings rest (fed ++ [rate, stride])
    | _, _ => none

/-- The values `GetHash` feeds to the hasher, in order, and `ActiveVertexBuffers`
afterwards.  A null `Program`, and for a graphics pipeline a null
`CompatibleRenderPass`, is dereferenced (`none`). -/
def PipelineCompileInfo.hashInput (o : RecordingObjects) (info : PipelineCompileInfo)
    (compute : Bool) : Option (List Nat × Nat) :=
  if info.Program = 0 then none
  else if compute then some ([o.programHash info.Program], info.ActiveVertexBuffers)
  else
    let layout := o.resourceLayout (o.programLayout info.Program)
    match info.hashAttributes (ForEachBit layout.AttributeMask) (0, []) with
    | none => none
    | some (active, fed) =>
      match info.hashBindings (ForEachBit active) fed with
      | none => none
      | some fed1 =>
        if info.CompatibleRenderPass = 0 then none
        else
          some (fed1 ++ [o.renderPassHash info.CompatibleRenderPass, o.programHash info.Program]
              ++ info.StaticState.Data,
            active)

/-- The method `PipelineCompileInfo::GetHash`: the hash returned and the compile info
afterwards (`ActiveVertexBuffers` is `mutable`). -/
def PipelineCompileInfo.GetHash (o : RecordingObjects) (info : PipelineCompileInfo)
    (compute : Bool) : Option (Nat × PipelineCompileInfo) :=
  match info.hashInput o compute with
  | none => none
  | some (fed, active) => some (o.hashOf fed, { info with ActiveVertexBuffers := active })

/-- The vertex layout is within the arrays of the compile info: every attribute of the
mask has an entry whose binding is one of the `MaxVertexBuffers` vertex buffers, and the
arrays of input rates and strides have `MaxVertexBuffers` entries. -/
def PipelineCompileInfo.WellFormed (o : RecordingObjects) (info : PipelineCompileInfo) : Prop :=
  info.Program ≠ 0 ∧ info.CompatibleRenderPass ≠ 0 ∧
  (∀ bit ∈ ForEachBit (o.resourceLayout (o.programLayout info.Program)).AttributeMask,
    ∃ attr, info.VertexAttributes[bit]? = some attr ∧ attr.Binding < MaxVertexBuffers) ∧
  info.VertexInputRates.length = MaxVertexBuffers ∧
  info.VertexStrides.length = MaxVertexBuffers

/-- A resource layout with two vertex attributes and two descriptor sets: set 0 has a
uniform buffer at binding 0 and a separate sampler at binding 1, set 1 a sampled image at
binding 0; every binding is a single descriptor. -/
def sampleLayout : ResourceLayout :=
  { AttributeMask := 3
    DescriptorSetMask := 3
    BindlessDescriptorSetMask := 0
    SetLayouts :=
      [⟨0, 0, 0, 1, 0, 2, List.replicate MaxDescriptorBindings 1⟩,
        ⟨1, 0, 0, 0, 1, 0, List.replicate MaxDescriptorBindings 1⟩,
        ⟨0, 0, 0, 0, 0, 0, List.replicate MaxDescriptorBindings 0⟩,
        ⟨0, 0, 0, 0, 0, 0, List.replicate MaxDescriptorBindings 0⟩]
    PushConstantStages := 0
    PushConstantSize := 0 }

/-- The runs of consecutive set bits of a 32-bit mask, as pairs of first bit and
length. -/
def bitRuns (mask : Nat) : List (Nat × Nat) :=
  (List.range 32).foldr (fun bit acc =>
    if mask.testBit bit then
      match acc with
      | (first, count) :: rest =>
        if first = bit + 1 then (bit, count + 1) :: rest else (bit, 1) :: acc
      | [] => [(bit, 1)]
    else acc) []

/-- Objects for the examples: every program has the pipeline layout at address 50 with
the resource layout `sampleLayout`; no pipeline is cached, building one gives the
pipeline 90, the descriptor-set allocators have no set cached, and the bit ranges of a
mask are its runs of consecutive bits. -/
def sampleObjects : RecordingObjects :=
  { programHash := fun program => program + 1000
    programLayout := fun _ => 50
    resourceLayout := fun _ => sampleLayout
    renderPassHash := fun renderPass => renderPass + 2000
    hashOf := fun fed => fed.foldl (fun h x => (h * 31 + x) % 2 ^ 64) 7
    getPipeline := fun _ _ => 0
    buildPipeline := fun _ _ => 90
    find := fun _ set _ _ => (100 + set, false)
    bitRanges := bitRuns }

/-- The compile info of a fresh command buffer with the program at address 40 and the
compatible render pass at address 60, in subpass 0. -/
def sampleCompileInfo : PipelineCompileInfo :=
  { (CommandBuffer.create 0 0).pipelineCompileInfo with Program := 40, CompatibleRenderPass := 60 }

/-- What `SetSampler` reads of a `Sampler`: `GetCookie()` and `GetSampler()`. -/
structure Sampler where
  cookie : Nat
  sampler : Nat
deriving DecidableEq

/-- What `SetTexture` reads of an `ImageView`: `GetCookie()`, `GetFloatView()`,
`GetIntegerView()` and the layout `GetImage().GetLayout(eShaderReadOnlyOptimal)`. -/
structure ImageView where
  cookie : Nat
  floatView : Nat
  integerView : Nat
  layout : Nat
deriving DecidableEq

/-- The method `CommandBuffer::SetSampler`.  A set or binding index outside the arrays
has no defined behaviour (`none`). -/
def CommandBuffer.SetSampler (s : CommandBuffer) (set binding : Nat) (sampler : Sampler) :
    Option CommandBuffer :=
  match s.descriptorBinding.Sets[set]? with
  | none => none
  | some dset =>
    match dset.SecondaryCookies[binding]? with
    | none => none
    | some secondary =>
      if sampler.cookie = secondary then some s
      else
        match dset.Bindings[binding]? with
        | none => none
        | some bind =>
          let dset1 : DescriptorSetBindings :=
            { dset with
              Bindings := dset.Bindings.set binding
                { bind with
                  ImageFloat := { bind.ImageFloat with sampler := sampler.sampler }
                  ImageInteger := { bind.ImageInteger with sampler := sampler.sampler } }
              SecondaryCookies := dset.SecondaryCookies.set binding sampler.cookie }
          some { s with
            descriptorBinding := { s.descriptorBinding with
              Sets := s.descriptorBinding.Sets.set set dset1 }
            dirtyDescriptorSets := s.dirtyDescriptorSets ||| ((1 <<< set) % 2 ^ 32) }

/-- The method `CommandBuffer::SetTexture(set, binding, view)`. -/
def CommandBuffer.SetTexture (s : CommandBuffer) (set binding : Nat) (view : ImageView) :
    Option CommandBuffer :=
  match s.descriptorBinding.Sets[set]? with
  | none => none
  | some dset =>
    match dset.Cookies[binding]?, dset.Bindings[binding]? with
    | some cookie, some bind =>
      if cookie = view.cookie ∧ bind.ImageFloat.imageLayout = view.layout then some s
      else
        let dset1 : DescriptorSetBindings :=
          { dset with
            Bindings := dset.Bindings.set binding
              { bind with
                ImageFloat :=
                  { bind.ImageFloat with imageLayout := view.layout, imageView := view.floatView }
                ImageInteger :=
                  { bind.ImageInteger with
                    imageLayout := view.layout, imageView := view.integerView } }
            Cookies := dset.Cookies.set binding view.cookie }
        some { s with
          descriptorBinding := { s.descriptorBinding with
            Sets := s.descriptorBinding.Sets.set set dset1 }
          dirtyDescriptorSets := s.dirtyDescriptorSets ||| ((1 <<< set) % 2 ^ 32) }
    | _, _ => none

/-- The method `CommandBuffer::SetTexture(set, binding, view, sampler)`. -/
def CommandBuffer.SetTextureSampler (s : CommandBuffer) (set binding : Nat) (view : ImageView)
    (sampler : Sampler) : Option CommandBuffer :=
  match s.SetTexture set binding view with
  | none => none
  | some s1 => s1.SetSampler set binding sampler

/-- The method `CommandBuffer::SetBindless`. -/
def CommandBuffer.SetBindless (s : CommandBuffer) (set descriptorSet : Nat) :
    Option CommandBuffer :=
  match s.bindlessSets[set]? with
  | none => none
  | some _ =>
    some { s with
      bindlessSets := s.bindlessSets.set set descriptorSet
      dirtyDescriptorSets := s.dirtyDescriptorSets ||| ((1 <<< set) % 2 ^ 32) }

/-- The pairs `(binding, i)` of the loops
`ForEachBit(mask, ...) { for (i = 0; i < ArraySizes[binding]; ++i) ... }`, in order, for
the bindings still to visit. -/
def DescriptorSetLayout.descriptors (l : DescriptorSetLayout) :
    List Nat → Option (List (Nat × Nat))
  | [] => some []
  | binding :: rest =>
    match l.ArraySizes[binding]?, l.descriptors rest with
    | some arraySize, some more =>
      some ((List.range arraySize).map (fun i => (binding, i)) ++ more)
    | _, _ => none

/-- The values fed to a hasher over a list of descriptors, `feed (binding + i)` for
each. -/
def feedEach (feed : Nat → Option (List Nat)) : List (Nat × Nat) → Option (List Nat)
  | [] => some []
  | (binding, i) :: rest =>
    match feed (binding + i), feedEach feed rest with
    | some fed, some more => some (fed ++ more)
    | _, _ => none

/-- The values fed to the hasher by one of the five loops of `FlushDescriptorSets`. -/
def DescriptorSetLayout.feedMask (l : DescriptorSetLayout) (mask : Nat)
    (feed : Nat → Option (List Nat)) : Option (List Nat) :=
  match l.descriptors (ForEachBit mask) with
  | none => none
  | some ds => feedEach feed ds

/-- The values `FlushDescriptorSets` feeds to the hasher for one descriptor set: the
float mask, then cookie and image layout of the input attachments, cookie and range of
the storage buffers and of the uniform buffers, cookie, secondary cookie and image
layout of the sampled images, and the cookie of the separate samplers. -/
def DescriptorSetBindings.hashInput (dset : DescriptorSetBindings) (l : DescriptorSetLayout) :
    Option (List Nat) :=
  let cookieLayout := fun k =>
    match dset.Cookies[k]?, dset.Bindings[k]? with
    | some cookie, some bind => some [cookie, bind.ImageFloat.imageLayout]
    | _, _ => none
  let cookieRange := fun k =>
    match dset.Cookies[k]?, dset.Bindings[k]? with
    | some cookie, some bind => some [cookie, bind.Buffer.range]
    | _, _ => none
  let sampled := fun k =>
    match dset.Cookies[k]?, dset.SecondaryCookies[k]?, dset.Bindings[k]? with
    | some cookie, some secondary, some bind =>
      some [cookie, secondary, bind.ImageFloat.imageLayout]
    | _, _, _ => none
  let cookieOnly := fun k => (dset.Cookies[k]?).map (fun cookie => [cookie])
  match l.feedMask l.InputAttachmentMask cookieLayout,
      l.feedMask l.StorageBufferMask cookieRange,
      l.feedMask l.UniformBufferMask cookieRange,
      l.feedMask l.SampledImageMask sampled,
      l.feedMask l.SamplerMask cookieOnly with
  | some a, some b, some c, some d, some e => some ([l.FloatMask] ++ a ++ b ++ c ++ d ++ e)
  | _, _, _, _, _ => none

/-- A native `vk::WriteDescriptorSet` with the info it points at (descriptor count 1). -/
structure DescriptorWrite where
  dstSet : Nat
  dstBinding : Nat
  dstArrayElement : Nat
  descriptorType : Nat
  imageInfo : Option DescriptorImageInfo
  bufferInfo : Option DescriptorBufferInfo
deriving DecidableEq

/-- The writes of one of the five loops that fill `writes`. -/
def writeEach (write : Nat → Nat → Nat → Option DescriptorWrite) :
    List (Nat × Nat) → Option (List DescriptorWrite)
  | [] => some []
  | (binding, i) :: rest =>
    match write binding i (binding + i), writeEach write rest with
    | some w, some more => some (w :: more)
    | _, _ => none

/-- The writes of one loop over a mask. -/
def DescriptorSetLayout.writeMask (l : DescriptorSetLayout) (mask : Nat)
    (write : Nat → Nat → Nat → Option DescriptorWrite) : Option (List DescriptorWrite) :=
  match l.descriptors (ForEachBit mask) with
  | none => none
  | some ds => writeEach write ds

/-- The vector `writes` that `FlushDescriptorSets` hands to `updateDescriptorSets` for a
set that was not cached (descriptor types by their native values: input attachment 10,
storage buffer 7, uniform buffer 6, combined image sampler 1, sampler 0). -/
def DescriptorSetBindings.writes (dset : DescriptorSetBindings) (l : DescriptorSetLayout)
    (allocated : Nat) : Option (List DescriptorWrite) :=
  let image := fun (type : Nat) (binding i k : Nat) =>
    (dset.Bindings[k]?).map (fun bind =>
      (⟨allocated, binding, i, type,
        some (if l.FloatMask.testBit binding then bind.ImageFloat else bind.ImageInteger),
        none⟩ : DescriptorWrite))
  let buffer := fun (type : Nat) (binding i k : Nat) =>
    (dset.Bindings[k]?).map (fun bind =>
      (⟨allocated, binding, i, type, none, some bind.Buffer⟩ : DescriptorWrite))
  let sampler := fun (binding i k : Nat) =>
    (dset.Bindings[k]?).map (fun bind =>
      (⟨allocated, binding, i, 0, some bind.ImageFloat, none⟩ : DescriptorWrite))
  match l.writeMask l.InputAttachmentMask (image 10),
      l.writeMask l.StorageBufferMask (buffer 7),
      l.writeMask l.UniformBufferMask (buffer 6),
      l.writeMask l.SampledImageMask (image 1),
      l.writeMask l.SamplerMask sampler with
  | some a, some b, some c, some d, some e => some (a ++ b ++ c ++ d ++ e)
  | _, _, _, _, _ => none

/-- What a flush records: the calls on the native command buffer, and the calls it makes
on the descriptor-set allocator, on the device (`updateDescriptorSets`, for the set with
the given index) and to build a pipeline. -/
inductive Recorded where
  | findDescriptorSet (layout set thread hash : Nat) : Recorded
  | updateDescriptorSets (set : Nat) (writes : List DescriptorWrite) : Recorded
  | bindDescriptorSets (bindPoint layout set descriptorSet : Nat) : Recorded
  | buildPipeline (compute : Bool) (info : PipelineCompileInfo) : Recorded
  | bindPipeline (bindPoint pipeline : Nat) : Recorded
  | pushConstants (layout stages offset size : Nat) (data : List Nat) : Recorded
  | setViewport (viewport : Viewport) : Recorded
  | setScissor (scissor : Rect2D) : Recorded
  | setDepthBias (constant slope : Nat) : Recorded
  | bindVertexBuffers (firstBinding count : Nat) (buffers offsets : List Nat) : Recorded
  | draw (vertexCount instanceCount firstVertex firstInstance : Nat) : Recorded
  | drawIndexed (indexCount instanceCount firstIndex : Nat) (vertexOffset : Int)
      (firstInstance : Nat) : Recorded
  | drawIndexedIndirect (buffer offset drawCount stride : Nat) : Recorded
  | dispatch (x y z : Nat) : Recorded
deriving DecidableEq

/-- The descriptor set a recorded call is about, if it is about one. -/
def Recorded.descriptorSet : Recorded → Option Nat
  | .findDescriptorSet _ set _ _ => some set
  | .updateDescriptorSets set _ => some set
  | .bindDescriptorSets _ _ set _ => some set
  | _ => none

/-- Whether a recorded call is a native draw or dispatch. -/
def Recorded.isDraw : Recorded → Bool
  | .draw _ _ _ _ => true
  | .drawIndexed _ _ _ _ _ => true
  | .drawIndexedIndirect _ _ _ _ => true
  | .dispatch _ _ _ => true
  | _ => false

/-- The value `~x` of a 32-bit mask. -/
def not32 (x : Nat) : Nat := allBits ^^^ (x % 2 ^ 32)

/-- The bind point `_actualRenderPass ? eGraphics : eCompute` (native values 0 and 1). -/
def CommandBuffer.bindPoint (s : CommandBuffer) : Nat :=
  if s.actualRenderPass ≠ 0 then 0 else 1

/-- The body of the callback of `ForEachBit(setUpdate, ...)` in `FlushDescriptorSets` for
the set `bit`: what it records. -/
def CommandBuffer.flushDescriptorSet (o : RecordingObjects) (s : CommandBuffer)
    (layout : ResourceLayout) (bit : Nat) : Option (List Recorded) :=
  match layout.SetLayouts[bit]? with
  | none => none
  | some setLayout =>
    if layout.BindlessDescriptorSetMask.testBit bit then
      match s.bindlessSets[bit]? with
      | none => none
      | some bindless => some [.bindDescriptorSets s.bindPoint s.pipelineLayout bit bindless]
    else
      match s.descriptorBinding.Sets[bit]? with
      | none => none
      | some dset =>
        match dset.hashInput setLayout with
        | none => none
        | some fed =>
          let hash := o.hashOf fed
          let allocated := o.find s.programLayout bit s.threadIndex hash
          let lookup := Recorded.findDescriptorSet s.programLayout bit s.threadIndex hash
          let bind := Recorded.bindDescriptorSets s.bindPoint s.pipelineLayout bit allocated.1
          if allocated.2 = false then
            match dset.writes setLayout allocated.1 with
            | none => none
            | some writes => some [lookup, .updateDescriptorSets bit writes, bind]
          else some [lookup, bind]

/-- The loop `ForEachBit(setUpdate, ...)` of `FlushDescriptorSets` over the sets still
to visit. -/
def CommandBuffer.flushDescriptorSetList (o : RecordingObjects) (s : CommandBuffer)
    (layout : ResourceLayout) : List Nat → Option (List Recorded)
  | [] => some []
  | bit :: rest =>
    match s.flushDescriptorSet o layout bit, flushDescriptorSetList o s layout rest with
    | some recorded, some more => some (recorded ++ more)
    | _, _ => none

/-- The method `CommandBuffer::FlushDescriptorSets`: the command buffer afterwards and
what was recorded.  A null `_programLayout` is dereferenced (`none`). -/
def CommandBuffer.FlushDescriptorSets (o : RecordingObjects) (s : CommandBuffer) :
    Option (CommandBuffer × List Recorded) :=
  if s.programLayout = 0 then none
  else
    let layout := o.resourceLayout s.programLayout
    let setUpdate := layout.DescriptorSetMask &&& s.dirtyDescriptorSets
    match s.flushDescriptorSetList o layout (ForEachBit setUpdate) with
    | none => none
    | some recorded =>
      some ({ s with dirtyDescriptorSets := s.dirtyDescriptorSets &&& not32 setUpdate }, recorded)

/-- A fresh command buffer after `SetSampler(0, 1, sampler)` (the fresh command buffer
itself where the call has no defined behaviour). -/
def samplerBound (sampler : Sampler) : CommandBuffer :=
  ((CommandBuffer.create 0 0).SetSampler 0 1 sampler).getD (CommandBuffer.create 0 0)

/-- One call of a setter of descriptor state. -/
inductive DescriptorSetter where
  | texture (set binding : Nat) (view : ImageView) : DescriptorSetter
  | textureSampler (set binding : Nat) (view : ImageView) (sampler : Sampler) : DescriptorSetter
  | sampler (set binding : Nat) (sampler : Sampler) : DescriptorSetter
  | uniformBuffer (set binding : Nat) (buffer : Buffer) (offset range : Nat) : DescriptorSetter
  | storageBuffer (set binding : Nat) (buffer : Buffer) (offset range : Nat) : DescriptorSetter
  | bindless (set descriptorSet : Nat) : DescriptorSetter

/-- The set a setter call is for. -/
def DescriptorSetter.set : DescriptorSetter → Nat
  | .texture set _ _ => set
  | .textureSampler set _ _ _ => set
  | .sampler set _ _ => set
  | .uniformBuffer set _ _ _ _ => set
  | .storageBuffer set _ _ _ _ => set
  | .bindless set _ => set

/-- The binding a setter call is for (`SetBindless` has none). -/
def DescriptorSetter.binding : DescriptorSetter → Nat
  | .texture _ binding _ => binding
  | .textureSampler _ binding _ _ => binding
  | .sampler _ binding _ => binding
  | .uniformBuffer _ binding _ _ _ => binding
  | .storageBuffer _ binding _ _ _ => binding
  | .bindless _ _ => 0

/-- The call of the setter on a command buffer. -/
def DescriptorSetter.run (c : DescriptorSetter) (s : CommandBuffer) : Option CommandBuffer :=
  match c with
  | .texture set binding view => s.SetTexture set binding view
  | .textureSampler set binding view handle => s.SetTextureSampler set binding view handle
  | .sampler set binding handle => s.SetSampler set binding handle
  | .uniformBuffer set binding buffer offset range =>
    s.SetUniformBuffer set binding buffer offset range
  | .storageBuffer set binding buffer offset range =>
    s.SetStorageBuffer set binding buffer offset range
  | .bindless set descriptorSet => s.SetBindless set descriptorSet

/-- The indices of a setter call are within the arrays of the command buffer. -/
def DescriptorSetter.InRange (c : DescriptorSetter) : Prop :=
  c.set < MaxDescriptorSets ∧ c.binding < MaxDescriptorBindings

/-- The three arrays of a `DescriptorSetBindings` have `MaxDescriptorBindings` entries. -/
def DescriptorSetBindings.Sized (d : DescriptorSetBindings) : Prop :=
  d.Bindings.length = MaxDescriptorBindings ∧ d.Cookies.length = MaxDescriptorBindings ∧
  d.SecondaryCookies.length = MaxDescriptorBindings

/-- The descriptor arrays of a command buffer have their declared sizes, and the dirty
mask of the descriptor sets is a 32-bit value. -/
def CommandBuffer.Sized (s : CommandBuffer) : Prop :=
  s.descriptorBinding.Sets.length = MaxDescriptorSets ∧
  (∀ d ∈ s.descriptorBinding.Sets, d.Sized) ∧
  s.bindlessSets.length = MaxDescriptorSets ∧
  s.dirtyDescriptorSets < 2 ^ 32

/-- The five binding masks of a descriptor-set layout. -/
def DescriptorSetLayout.masks (l : DescriptorSetLayout) : List Nat :=
  [l.InputAttachmentMask, l.StorageBufferMask, l.UniformBufferMask, l.SampledImageMask,
    l.SamplerMask]

/-- Every binding of a mask has an array size, and its array lies within the
`MaxDescriptorBindings` bindings of a set. -/
def DescriptorSetLayout.WellFormed (l : DescriptorSetLayout) : Prop :=
  ∀ mask ∈ l.masks, ∀ binding ∈ ForEachBit mask,
    binding < l.ArraySizes.length ∧ binding + l.ArraySizes.getD binding 0 ≤ MaxDescriptorBindings

/-- The resource layout names sets among the `MaxDescriptorSets` sets only, and has a
well-formed layout for each of them. -/
def ResourceLayout.WellFormed (layout : ResourceLayout) : Prop :=
  layout.DescriptorSetMask < 2 ^ MaxDescriptorSets ∧
  layout.SetLayouts.length = MaxDescriptorSets ∧
  ∀ l ∈ layout.SetLayouts, l.WellFormed

instance (c : DescriptorSetter) : Decidable c.InRange := by
  unfold DescriptorSetter.InRange; infer_instance

instance (d : DescriptorSetBindings) : Decidable d.Sized := by
  unfold DescriptorSetBindings.Sized; infer_instance

instance (s : CommandBuffer) : Decidable s.Sized := by
  unfold CommandBuffer.Sized; infer_instance

instance (l : DescriptorSetLayout) : Decidable l.WellFormed := by
  unfold DescriptorSetLayout.WellFormed; infer_instance

instance (layout : ResourceLayout) : Decidable layout.WellFormed := by
  unfold ResourceLayout.WellFormed; infer_instance

/-- A fresh command buffer with the program layout 50 and the pipeline layout handle 51
bound, every descriptor set dirty. -/
def programBound : CommandBuffer :=
  { (CommandBuffer.create 0 0) with programLayout := 50, pipelineLayout := 51 }

/-- The command buffer `s1` differs from `s0` at most in the tracked state of the
descriptor set `set` (its bindings and cookies, and the bindless set bound at its index)
and in bit `set` of the dirty mask of the descriptor sets, which can only be added. -/
def CommandBuffer.TouchesSet (s0 s1 : CommandBuffer) (set : Nat) : Prop :=
  s1 = { s0 with
    descriptorBinding := { s0.descriptorBinding with Sets := s1.descriptorBinding.Sets }
    bindlessSets := s1.bindlessSets
    dirtyDescriptorSets := s1.dirtyDescriptorSets } ∧
  (∀ j, j ≠ set → s1.descriptorBinding.Sets[j]? = s0.descriptorBinding.Sets[j]? ∧
    s1.bindlessSets[j]? = s0.bindlessSets[j]?) ∧
  (∀ i, i ≠ set → s1.dirtyDescriptorSets.testBit i = s0.dirtyDescriptorSets.testBit i) ∧
  (s0.dirtyDescriptorSets.testBit set = true → s1.dirtyDescriptorSets.testBit set = true)

/-- The calls `ev` are those of processing the descriptor set `bit` once: for a bindless
set one bind of the set given to `SetBindless`; otherwise one lookup in the allocator of
the set, one write of the descriptor set if the lookup did not find it, and one bind of
the descriptor set the lookup returned. -/
def CommandBuffer.ProcessesSet (o : RecordingObjects) (s : CommandBuffer)
    (layout : ResourceLayout) (bit : Nat) (ev : List Recorded) : Prop :=
  (layout.BindlessDescriptorSetMask.testBit bit = true ∧
    ∃ bindless, s.bindlessSets[bit]? = some bindless ∧
      ev = [.bindDescriptorSets s.bindPoint s.pipelineLayout bit bindless]) ∨
  (layout.BindlessDescriptorSetMask.testBit bit = false ∧
    ∃ hash descriptorSet,
      (o.find s.programLayout bit s.threadIndex hash = (descriptorSet, true) ∧
        ev = [.findDescriptorSet s.programLayout bit s.threadIndex hash,
          .bindDescriptorSets s.bindPoint s.pipelineLayout bit descriptorSet]) ∨
      (o.find s.programLayout bit s.threadIndex hash = (descriptorSet, false) ∧
        ∃ writes,
          ev = [.findDescriptorSet s.programLayout bit s.threadIndex hash,
            .updateDescriptorSets bit writes,
            .bindDescriptorSets s.bindPoint s.pipelineLayout bit descriptorSet]))

/-- The outcome of the first flush of the descriptor sets of `programBound` with the
objects `sampleObjects` (the unchanged state and no event where it is not defined). -/
def flushedOnce : CommandBuffer × List Recorded :=
  (programBound.FlushDescriptorSets sampleObjects).getD (programBound, [])

/-- The method `CommandBuffer::BindPipeline`: the native bind, and the dynamic state the
pipeline does not set itself becomes dirty. -/
def CommandBuffer.BindPipeline (s : CommandBuffer) (bindPoint pipeline activeDynamicState : Nat) :
    CommandBuffer × List Recorded :=
  ({ s with dirty := s.dirty ||| (not32 activeDynamicState &&& DirtyDynamicState) },
    [.bindPipeline bindPoint pipeline])

/-- The common body of `CommandBuffer::FlushGraphicsPipeline` (`compute` false) and
`CommandBuffer::FlushComputePipeline` (`compute` true), which differ in the argument of
`GetHash` and in the build function they call; the parameter `synchronous` is not read.
The pipeline cache of the program is read as it is before the call; the insertion
`AddPipeline` of a pipeline built is part of the recorded `buildPipeline`. -/
def CommandBuffer.flushPipeline (o : RecordingObjects) (s : CommandBuffer) (compute : Bool) :
    Option (CommandBuffer × List Recorded × Bool) :=
  match s.pipelineCompileInfo.GetHash o compute with
  | none => none
  | some (hash, info) =>
    let info1 : PipelineCompileInfo := { info with CachedHash := hash }
    let cached := o.getPipeline info1.Program hash
    if cached ≠ 0 then
      some ({ s with pipelineCompileInfo := info1, pipeline := cached }, [], true)
    else
      let built := o.buildPipeline compute info1
      some ({ s with pipelineCompileInfo := info1, pipeline := built },
        [.buildPipeline compute info1], decide (built ≠ 0))

/-- The method `CommandBuffer::FlushGraphicsPipeline`. -/
def CommandBuffer.FlushGraphicsPipeline (o : RecordingObjects) (s : CommandBuffer) :
    Option (CommandBuffer × List Recorded × Bool) :=
  s.flushPipeline o false

/-- The method `CommandBuffer::FlushComputePipeline`. -/
def CommandBuffer.FlushComputePipeline (o : RecordingObjects) (s : CommandBuffer) :
    Option (CommandBuffer × List Recorded × Bool) :=
  s.flushPipeline o true

/-- The calls `bindVertexBuffers` of the loop `ForEachBitRange(updateVBOs, ...)` over the
ranges still to visit.  A range that leaves the arrays of the vertex bindings has no
defined behaviour. -/
def CommandBuffer.bindVertexRanges (s : CommandBuffer) : List (Nat × Nat) → Option (List Recorded)
  | [] => some []
  | (binding, bindingCount) :: rest =>
    if binding + bindingCount ≤ s.vertexBindings.Buffers.length ∧
        binding + bindingCount ≤ s.vertexBindings.Offsets.length then
      match bindVertexRanges s rest with
      | none => none
      | some more =>
        some (Recorded.bindVertexBuffers binding bindingCount
          ((s.vertexBindings.Buffers.drop binding).take bindingCount)
          ((s.vertexBindings.Offsets.drop binding).take bindingCount) :: more)
    else none

/-- The call `pushConstants` of the two state flushes, made when the push constants are
dirty and the layout has a push-constant range. -/
def CommandBuffer.flushPushConstants (o : RecordingObjects) (s : CommandBuffer) : List Recorded :=
  if s.dirty &&& DirtyPushConstants ≠ 0 ∧
      (o.resourceLayout s.programLayout).PushConstantStages ≠ 0 then
    [.pushConstants s.pipelineLayout (o.resourceLayout s.programLayout).PushConstantStages 0
      (o.resourceLayout s.programLayout).PushConstantSize s.descriptorBinding.PushConstantData]
  else []

/-- The part of `CommandBuffer::FlushRenderState` after the pipeline is known to be
non-null: descriptor sets, push constants, viewport, scissor, depth bias and vertex
buffers. -/
def CommandBuffer.flushRenderRest (o : RecordingObjects) (s : CommandBuffer) :
    Option (CommandBuffer × List Recorded) :=
  match s.FlushDescriptorSets o with
  | none => none
  | some (s1, sets) =>
    let push := s1.flushPushConstants o
    let viewport : List Recorded :=
      if s1.dirty &&& DirtyViewport ≠ 0 then [.setViewport s1.viewport] else []
    let s2 : CommandBuffer := { s1 with dirty := s1.dirty &&& not32 DirtyViewport }
    let scissor : List Recorded :=
      if s2.dirty &&& DirtyScissor ≠ 0 then [.setScissor s2.scissor] else []
    let s3 : CommandBuffer := { s2 with dirty := s2.dirty &&& not32 DirtyScissor }
    let bias : List Recorded :=
      if s3.pipelineCompileInfo.StaticState.DepthBiasEnable ≠ 0 ∧
          s3.dirty &&& DirtyDepthBias ≠ 0 then
        [.setDepthBias s3.dynamicState.DepthBiasConstant s3.dynamicState.DepthBiasSlope]
      else []
    let s4 : CommandBuffer := { s3 with dirty := s3.dirty &&& not32 DirtyDepthBias }
    let updateVBOs := s4.dirtyVertexBuffers &&& s4.pipelineCompileInfo.ActiveVertexBuffers
    match s4.bindVertexRanges (o.bitRanges updateVBOs) with
    | none => none
    | some vertex =>
      some ({ s4 with dirtyVertexBuffers := s4.dirtyVertexBuffers &&& not32 updateVBOs },
        sets ++ push ++ viewport ++ scissor ++ bias ++ vertex)

/-- The first part of `CommandBuffer::FlushRenderState` with a program bound: a null
pipeline marks the pipeline dirty; with static state, pipeline or vertex layout dirty the
pipeline is looked up or built, and bound if it changed.  The flag is false where the
method returns false at this point. -/
def CommandBuffer.flushRenderPipeline (o : RecordingObjects) (s : CommandBuffer) :
    Option (CommandBuffer × List Recorded × Bool) :=
  let s1 : CommandBuffer :=
    if s.pipeline = 0 then { s with dirty := s.dirty ||| DirtyPipeline } else s
  if s1.dirty &&& (DirtyStaticState ||| DirtyPipeline ||| DirtyStaticVertex) ≠ 0 then
    match s1.FlushGraphicsPipeline o with
    | none => none
    | some (s2, built, false) => some (s2, built, false)
    | some (s2, built, true) =>
      if s1.pipeline ≠ s2.pipeline then
        some ({ s2 with dirty := s2.dirty ||| DirtyDynamicState },
          built ++ [.bindPipeline 0 s2.pipeline], true)
      else some (s2, built, true)
  else some (s1, [], true)

/-- The method `CommandBuffer::FlushRenderState`: the command buffer afterwards, what
was recorded, and the value returned. -/
def CommandBuffer.FlushRenderState (o : RecordingObjects) (s : CommandBuffer) :
    Option (CommandBuffer × List Recorded × Bool) :=
  if s.pipelineCompileInfo.Program = 0 then some (s, [], false)
  else
    match s.flushRenderPipeline o with
    | none => none
    | some (s2, ev, false) => some (s2, ev, false)
    | some (s2, ev, true) =>
      let s3 : CommandBuffer :=
        { s2 with dirty := (s2.dirty &&&
            not32 (DirtyStaticState ||| DirtyPipeline ||| DirtyStaticVertex)) }
      if s3.pipeline = 0 then some (s3, ev, false)
      else
        match s3.flushRenderRest o with
        | none => none
        | some (s4, rest) => some (s4, ev ++ rest, true)

/-- The first part of `CommandBuffer::FlushComputeState` with a program bound, as for a
render state, with `BindPipeline` for a changed pipeline. -/
def CommandBuffer.flushComputePipelineStep (o : RecordingObjects) (s : CommandBuffer) :
    Option (CommandBuffer × List Recorded × Bool) :=
  let s1 : CommandBuffer :=
    if s.pipeline = 0 then { s with dirty := s.dirty ||| DirtyPipeline } else s
  if s1.dirty &&& (DirtyStaticState ||| DirtyPipeline) ≠ 0 then
    match s1.FlushComputePipeline o with
    | none => none
    | some (s2, built, false) => some (s2, built, false)
    | some (s2, built, true) =>
      if s1.pipeline ≠ s2.pipeline then
        some ((s2.BindPipeline 1 s2.pipeline 0).1,
          built ++ (s2.BindPipeline 1 s2.pipeline 0).2, true)
      else some (s2, built, true)
  else some (s1, [], true)

/-- The method `CommandBuffer::FlushComputeState`. -/
def CommandBuffer.FlushComputeState (o : RecordingObjects) (s : CommandBuffer) :
    Option (CommandBuffer × List Recorded × Bool) :=
  if s.pipelineCompileInfo.Program = 0 then some (s, [], false)
  else
    match s.flushComputePipelineStep o with
    | none => none
    | some (s2, ev, false) => some (s2, ev, false)
    | some (s2, ev, true) =>
      let s3 : CommandBuffer :=
        { s2 with dirty := s2.dirty &&& not32 (DirtyStaticState ||| DirtyPipeline) }
      if s3.pipeline = 0 then some (s3, ev, false)
      else
        match s3.FlushDescriptorSets o with
        | none => none
        | some (s4, sets) =>
          some ({ s4 with dirty := s4.dirty &&& not32 DirtyPushConstants },
            ev ++ sets ++ s4.flushPushConstants o, true)

/-- The method `CommandBuffer::Draw`. -/
def CommandBuffer.Draw (o : RecordingObjects) (s : CommandBuffer)
    (vertexCount instanceCount firstVertex firstInstance : Nat) :
    Option (CommandBuffer × List Recorded) :=
  match s.FlushRenderState o with
  | none => none
  | some (s1, ev, true) =>
    some (s1, ev ++ [.draw vertexCount instanceCount firstVertex firstInstance])
  | some (s1, ev, false) => some (s1, ev)

/-- The method `CommandBuffer::DrawIndexed`. -/
def CommandBuffer.DrawIndexed (o : RecordingObjects) (s : CommandBuffer)
    (indexCount instanceCount firstIndex : Nat) (vertexOffset : Int) (firstInstance : Nat) :
    Option (CommandBuffer × List Recorded) :=
  match s.FlushRenderState o with
  | none => none
  | some (s1, ev, true) =>
    some (s1, ev ++ [.drawIndexed indexCount instanceCount firstIndex vertexOffset firstInstance])
  | some (s1, ev, false) => some (s1, ev)

/-- The method `CommandBuffer::DrawIndexedIndirect`. -/
def CommandBuffer.DrawIndexedIndirect (o : RecordingObjects) (s : CommandBuffer)
    (buffer : Buffer) (drawCount offset stride : Nat) : Option (CommandBuffer × List Recorded) :=
  match s.FlushRenderState o with
  | none => none
  | some (s1, ev, true) =>
    some (s1, ev ++ [.drawIndexedIndirect buffer.buffer offset drawCount stride])
  | some (s1, ev, false) => some (s1, ev)

/-- The method `CommandBuffer::Dispatch`. -/
def CommandBuffer.Dispatch (o : RecordingObjects) (s : CommandBuffer) (x y z : Nat) :
    Option (CommandBuffer × List Recorded) :=
  match s.FlushComputeState o with
  | none => none
  | some (s1, ev, true) => some (s1, ev ++ [.dispatch x y z])
  | some (s1, ev, false) => some (s1, ev)

/-- One call of a draw or dispatch command. -/
inductive DrawCall where
  | draw (vertexCount instanceCount firstVertex firstInstance : Nat) : DrawCall
  | drawIndexed (indexCount instanceCount firstIndex : Nat) (vertexOffset : Int)
      (firstInstance : Nat) : DrawCall
  | drawIndexedIndirect (buffer : Buffer) (drawCount offset stride : Nat) : DrawCall
  | dispatch (x y z : Nat) : DrawCall

/-- The call of the command on a command buffer. -/
def DrawCall.run (c : DrawCall) (o : RecordingObjects) (s : CommandBuffer) :
    Option (CommandBuffer × List Recorded) :=
  match c with
  | .draw vertexCount instanceCount firstVertex firstInstance =>
    s.Draw o vertexCount instanceCount firstVertex firstInstance
  | .drawIndexed indexCount instanceCount firstIndex vertexOffset firstInstance =>
    s.DrawIndexed o indexCount instanceCount firstIndex vertexOffset firstInstance
  | .drawIndexedIndirect buffer drawCount offset stride =>
    s.DrawIndexedIndirect o buffer drawCount offset stride
  | .dispatch x y z => s.Dispatch o x y z

/-- The state flush the command starts with. -/
def DrawCall.flush (c : DrawCall) (o : RecordingObjects) (s : CommandBuffer) :
    Option (CommandBuffer × List Recorded × Bool) :=
  match c with
  | .dispatch _ _ _ => s.FlushComputeState o
  | _ => s.FlushRenderState o

/-- The native draw or dispatch of the command. -/
def DrawCall.native : DrawCall → Recorded
  | .draw vertexCount instanceCount firstVertex firstInstance =>
    .draw vertexCount instanceCount firstVertex firstInstance
  | .drawIndexed indexCount instanceCount firstIndex vertexOffset firstInstance =>
    .drawIndexed indexCount instanceCount firstIndex vertexOffset firstInstance
  | .drawIndexedIndirect buffer drawCount offset stride =>
    .drawIndexedIndirect buffer.buffer offset drawCount stride
  | .dispatch x y z => .dispatch x y z

/-- A command buffer inside a render pass (handle 61) with the program at address 40 and
its layout bound, over the compatible render pass at address 60. -/
def renderCommandBuffer : CommandBuffer :=
  { programBound with actualRenderPass := 61, pipelineCompileInfo := sampleCompileInfo }

/-- The outcome of the state flush of `renderCommandBuffer` with the objects
`sampleObjects` (the unchanged state, no event and false where it is not defined). -/
def flushedRender : CommandBuffer × List Recorded × Bool :=
  (renderCommandBuffer.FlushRenderState sampleObjects).getD (renderCommandBuffer, [], false)

/-! ## Stock samplers: `Device::CreateStockSamplers` -/

/-- The enumeration `StockSampler`. -/
inductive StockSampler where
  | NearestClamp : StockSampler
  | LinearClamp : StockSampler
  | TrilinearClamp : StockSampler
  | NearestWrap : StockSampler
  | LinearWrap : StockSampler
  | TrilinearWrap : StockSampler
  | NearestShadow : StockSampler
  | LinearShadow : StockSampler
  | DefaultGeometryFilterClamp : StockSampler
  | DefaultGeometryFilterWrap : StockSampler
deriving DecidableEq

/-- The stock samplers in the order of their values, `0` to `StockSamplerCount - 1`: the
order in which the loop of `CreateStockSamplers` visits them. -/
def StockSampler.all : List StockSampler :=
  [.NearestClamp, .LinearClamp, .TrilinearClamp, .NearestWrap, .LinearWrap, .TrilinearWrap,
    .NearestShadow, .LinearShadow, .DefaultGeometryFilterClamp, .DefaultGeometryFilterWrap]

/-- The value `static_cast<int>(type)`. -/
def StockSampler.index : StockSampler → Nat
  | .NearestClamp => 0
  | .LinearClamp => 1
  | .TrilinearClamp => 2
  | .NearestWrap => 3
  | .LinearWrap => 4
  | .TrilinearWrap => 5
  | .NearestShadow => 6
  | .LinearShadow => 7
  | .DefaultGeometryFilterClamp => 8
  | .DefaultGeometryFilterWrap => 9

/-- The `SamplerCreateInfo` one turn of the loop of `Device::CreateStockSamplers` builds
for a stock sampler.  `samplerAnisotropy` is the feature bit
`_gpuInfo.EnabledFeatures.Features.samplerAnisotropy` and `maxAnisotropy` the pattern of
the float `std::min(limits.maxSamplerAnisotropy, 16.0f)`.  Native values: `eLinear` is 1
for filters and mipmap modes, `eClampToEdge` is 2, `eLessOrEqual` is 3, `VK_TRUE` is 1, and
`12.0f` has the pattern `0x41400000`. -/
def stockSamplerInfo (samplerAnisotropy : Bool) (maxAnisotropy : Nat) (type : StockSampler) :
    SamplerCreateInfo :=
  let info0 : SamplerCreateInfo :=
    { SamplerCreateInfo.default with MinLod := 0, MaxLod := 0x41400000 }
  let info1 : SamplerCreateInfo :=
    if type = .DefaultGeometryFilterClamp ∨ type = .DefaultGeometryFilterWrap ∨
        type = .LinearClamp ∨ type = .LinearShadow ∨ type = .LinearWrap ∨
        type = .TrilinearClamp ∨ type = .TrilinearWrap then
      { info0 with MagFilter := 1, MinFilter := 1 }
    else info0
  let info2 : SamplerCreateInfo :=
    if type = .DefaultGeometryFilterClamp ∨ type = .DefaultGeometryFilterWrap ∨
        type = .LinearClamp ∨ type = .TrilinearClamp ∨ type = .TrilinearWrap then
      { info1 with MipmapMode := 1 }
    else info1
  let info3 : SamplerCreateInfo :=
    if type = .DefaultGeometryFilterClamp ∨ type = .LinearClamp ∨ type = .LinearShadow ∨
        type = .NearestClamp ∨ type = .NearestShadow ∨ type = .TrilinearClamp then
      { info2 with AddressModeU := 2, AddressModeV := 2, AddressModeW := 2 }
    else info2
  let info4 : SamplerCreateInfo :=
    if type = .DefaultGeometryFilterClamp ∨ type = .DefaultGeometryFilterWrap then
      if samplerAnisotropy then
        { info3 with AnisotropyEnable := 1, MaxAnisotropy := maxAnisotropy }
      else info3
    else info3
  if type = .LinearShadow ∨ type = .NearestShadow then
    { info4 with CompareEnable := 1, CompareOp := 3 }
  else info4

/-- One turn of the loop of `Device::CreateStockSamplers`:
`_stockSamplers[i] = RequestSampler(info)`, on the cache `_samplers` and the part of the
table filled so far. -/
def createStockSampler (hashOf : SamplerCreateInfo → Nat) (samplerAnisotropy : Bool)
    (maxAnisotropy : Nat) (acc : VulkanCache SamplerCreateInfo × List Nat) (type : StockSampler) :
    VulkanCache SamplerCreateInfo × List Nat :=
  ((RequestSampler hashOf acc.1 (stockSamplerInfo samplerAnisotropy maxAnisotropy type)).1,
    acc.2 ++
      [(RequestSampler hashOf acc.1 (stockSamplerInfo samplerAnisotropy maxAnisotropy type)).2])

/-- The method `Device::CreateStockSamplers`, on the cache `_samplers`: the cache
afterwards and the table `_stockSamplers`. -/
def CreateStockSamplers (hashOf : SamplerCreateInfo → Nat) (samplerAnisotropy : Bool)
    (maxAnisotropy : Nat) (samplers : VulkanCache SamplerCreateInfo) :
    VulkanCache SamplerCreateInfo × List Nat :=
  StockSampler.all.foldl (createStockSampler hashOf samplerAnisotropy maxAnisotropy)
    (samplers, [])

/-- The method `Device::RequestSampler(StockSampler)`: `_stockSamplers[static_cast<int>(type)]`. -/
def RequestStockSampler (stockSamplers : List Nat) (type : StockSampler) : Option Nat :=
  stockSamplers[type.index]?

/-- The secondary cookie tracked at `(set, binding)`. -/
def CommandBuffer.trackedSecondaryCookie (s : CommandBuffer) (set binding : Nat) : Option Nat :=
  match s.descriptorBinding.Sets[set]? with
  | none => none
  | some dset => dset.SecondaryCookies[binding]?

/-- The two image infos tracked at `(set, binding)`: `Image.Float` and `Image.Integer`. -/
def CommandBuffer.trackedImage (s : CommandBuffer) (set binding : Nat) :
    Option (DescriptorImageInfo × DescriptorImageInfo) :=
  match s.descriptorBinding.Sets[set]? with
  | none => none
  | some dset => (dset.Bindings[binding]?).map (fun b => (b.ImageFloat, b.ImageInteger))

/-- The setter call writes the tracked state of `(set, binding)`: it is one of the
binding setters, called for that set and binding (`SetBindless` writes no binding). -/
def DescriptorSetter.touches (c : DescriptorSetter) (set binding : Nat) : Prop :=
  match c with
  | .bindless _ _ => False
  | _ => c.set = set ∧ c.binding = binding

/-- A sequence of setter calls on a command buffer, in order. -/
def runSetters : List DescriptorSetter → CommandBuffer → Option CommandBuffer
  | [], s => some s
  | c :: rest, s =>
    match c.run s with
    | none => none
    | some s1 => runSetters rest s1

/-- The objects of `sampleObjects` with a push-constant range of 16 bytes for the vertex
stage (stage flags `0x1`) in the resource layout. -/
def pushObjects : RecordingObjects :=
  { sampleObjects with
    resourceLayout := fun _ => { sampleLayout with PushConstantStages := 1, PushConstantSize := 16 } }

/-- The outcome of a first `Draw(3, 1, 0, 0)` on `renderCommandBuffer` with the objects
`pushObjects` (the unchanged state and no event where it is not defined). -/
def drawnOnce : CommandBuffer × List Recorded :=
  (renderCommandBuffer.Draw pushObjects 3 1 0 0).getD (renderCommandBuffer, [])

/-- Whether a recorded call is `bindVertexBuffers`. -/
def Recorded.isVertexBind : Recorded → Bool
  | .bindVertexBuffers _ _ _ _ => true
  | _ => false

/-- The buffer and the offset a recorded call binds to a vertex binding, if it binds it:
`bindVertexBuffers(first, count, buffers, offsets)` binds the entries `b - first` of its
arrays to the binding `b` of `first .. first + count - 1`. -/
def Recorded.vertexBinding (e : Recorded) (b : Nat) : Option (Nat × Nat) :=
  match e with
  | .bindVertexBuffers first count buffers offsets =>
    if first ≤ b ∧ b < first + count then
      match buffers[b - first]?, offsets[b - first]? with
      | some buffer, some offset => some (buffer, offset)
      | _, _ => none
    else none
  | _ => none

/-- What `ForEachBitRange` is used for: the ranges handed to the callback lie within
the 32 bits of the mask and hold exactly its set bits. -/
def CoversBits (ranges : List (Nat × Nat)) (mask : Nat) : Prop :=
  (∀ r ∈ ranges, r.1 + r.2 ≤ 32) ∧
  ∀ b, b < 32 → ((∃ r ∈ ranges, r.1 ≤ b ∧ b < r.1 + r.2) ↔ mask.testBit b = true)

instance (ranges : List (Nat × Nat)) (mask : Nat) : Decidable (CoversBits ranges mask) := by
  unfold CoversBits
  infer_instance

/-- Eight command buffers that each render to the swapchain (native handles 41 to 48),
followed by one that does not (handle 49). -/
def eightSwapchainThenPlain : List Submission :=
  [⟨41, 0x400⟩, ⟨42, 0x400⟩, ⟨43, 0x400⟩, ⟨44, 0x400⟩, ⟨45, 0x400⟩, ⟨46, 0x400⟩, ⟨47, 0x400⟩,
    ⟨48, 0x400⟩, ⟨49, 0⟩]

/-- A device with timeline semaphores and with seven command buffers pending on the
graphics queue that each render to the swapchain (native handles 41 to 47). -/
def sevenSwapchainDevice : Device :=
  (Device.create true).withPending (eightSwapchainThenPlain.take 7)

/-- The native queue a `queue.submit` call goes to. -/
def NativeCall.submitQueue : NativeCall → Option Nat
  | .queueSubmit queue _ _ => some queue
  | _ => none

/-- The effect of a step on the submission state of the device: the second device has
the per-queue data `data`, the same queues, feature bit, lock counter and ring position
as the first, has made further native calls of which those to `queue.submit` went to the
native queues `submitted`, in this order, and its current frame context has the timeline
values `values` and the pending submissions `pending` computed from those of the first. -/
structure Device.Effect (d d2 : Device) (data : PerQueue QueueData) (submitted : List Nat)
    (values : PerQueue Nat → PerQueue Nat)
    (pending : PerQueue (List Submission) → PerQueue (List Submission)) : Prop where
  data : d2.queueData = data
  queues : d2.Queues = d.Queues
  feature : d2.timelineSemaphore = d.timelineSemaphore
  lock : d2.lockCounter = d.lockCounter
  current : d2.currentFrameContext = d.currentFrameContext
  calls : ∃ more, d2.calls = d.calls ++ more ∧ more.filterMap NativeCall.submitQueue = submitted
  frame : ∀ f, d.Frame = some f →
    ∃ f2, d2.Frame = some f2 ∧ f2.TimelineValues = values f.TimelineValues ∧
      f2.Submissions = pending f.Submissions

/-- A step that leaves the per-queue data, the timeline values and the pending
submissions alone and submits nothing. -/
def Device.Quiet (d d2 : Device) : Prop :=
  d.Effect d2 d.queueData [] id id

/-- The per-queue data after the first part of the body of `SubmitQueue` on a queue: the
timeline value of the queue is advanced (`uint64_t`) and its accumulated wait semaphores
are taken. -/
def Device.batchedData (d : Device) (queueType : QueueType) : PerQueue QueueData :=
  d.queueData.set queueType
    { (d.queueData.get queueType) with
      TimelineValue := ((d.queueData.get queueType).TimelineValue + 1) % 2 ^ 64
      WaitSemaphores := []
      WaitStages := [] }

/-- The per-queue data after the body of `SubmitQueue` on a queue: as after its first
part, with `NeedsFence` set when timeline semaphores are not available. -/
def Device.submittedData (d : Device) (queueType : QueueType) : PerQueue QueueData :=
  d.queueData.set queueType
    { (d.queueData.get queueType) with
      NeedsFence := if d.timelineSemaphore = false then true
        else (d.queueData.get queueType).NeedsFence
      TimelineValue := ((d.queueData.get queueType).TimelineValue + 1) % 2 ^ 64
      WaitSemaphores := []
      WaitStages := [] }

/-- The enumeration `CommandBufferType`: `Generic = Graphics`, `AsyncTransfer = Transfer`,
`AsyncCompute = Compute`, `AsyncGraphics = QueueTypeCount`. -/
inductive CommandBufferType where
  | Generic : CommandBufferType
  | AsyncTransfer : CommandBufferType
  | AsyncCompute : CommandBufferType
  | AsyncGraphics : CommandBufferType
deriving DecidableEq

/-- The method `Device::GetQueueType`; `families` is the array `_queues.Families`. -/
def Device.GetQueueType (d : Device) (families : PerQueue Nat) : CommandBufferType → QueueType
  | .Generic => .Graphics
  | .AsyncTransfer => .Transfer
  | .AsyncCompute => .Compute
  | .AsyncGraphics =>
    if families.get .Graphics = families.get .Compute ∧
        ¬ (d.Queues.get .Graphics = d.Queues.get .Compute) then .Compute
    else .Graphics

/-- Modelled from the spec: an object of the class `Fence`, as `SubmitNoLock` constructs
it: over a native fence, or over a timeline semaphore and the value to wait for. -/
structure Fence where
  fence : Nat
  timelineSemaphore : Nat
  timelineValue : Nat
deriving DecidableEq

/-- What a call of `Device::SubmitNoLock` leaves behind: the device, the handle written
through `fence` (if the pointer is not null) and the vector behind `semaphores`. -/
structure Submitted where
  device : Device
  fence : Option Fence
  semaphores : List Semaphore
deriving DecidableEq

/-- The method `Device::RequestCommandBufferNoLock`, as far as the device goes: the
command pool of the current frame context hands out a native command buffer (the pools
are left out) and `++_lock.Counter` counts it (`uint32_t`). -/
def Device.RequestCommandBufferNoLock (d : Device) : Option Device :=
  match d.Frame with
  | none => none
  | some _ => some { d with lockCounter := (d.lockCounter + 1) % 2 ^ 32 }

/-- The method `Device::RequestCommandBufferForThread`: `DeviceLock()` and the call of
`RequestCommandBufferNoLock`. -/
def Device.RequestCommandBufferForThread (d : Device) : Option Device :=
  d.RequestCommandBufferNoLock

/-- The method `Device::RequestCommandBuffer`:
`RequestCommandBufferForThread(GetThreadIndex(), type)`. -/
def Device.RequestCommandBuffer (d : Device) : Option Device :=
  d.RequestCommandBufferForThread

/-- The method `Device::SubmitNoLock`.  `cmd` is what `SubmitQueue` reads of the command
buffer, `cbType` its type; `fence` tells whether the pointer is non-null, `semaphores`
is the size of the vector behind the pointer (`none` for `nullptr`).  The decrement of
`_lock.Counter` is one of a `uint32_t`. -/
def Device.SubmitNoLock (d : Device) (families : PerQueue Nat) (cbType : CommandBufferType)
    (cmd : Submission) (fence : Bool) (semaphores : Option Nat) : Option Submitted :=
  let queueType := d.GetQueueType families cbType
  match d.pushSubmission queueType cmd with
  | none => none
  | some d1 =>
    let submitted : Option SubmitOutcome :=
      if fence = true ∨ semaphores.isSome = true then d1.SubmitQueue queueType fence semaphores
      else some (SubmitOutcome.nothing d1)
    match submitted with
    | none => none
    | some r =>
      let handle : Option Fence :=
        if fence = true then
          if r.fence.TimelineValue ≠ 0 then
            some ⟨0, r.fence.TimelineSemaphore, r.fence.TimelineValue⟩
          else some ⟨r.fence.Fence, 0, 0⟩
        else none
      some
        { device := { r.device with lockCounter := (r.device.lockCounter + 2 ^ 32 - 1) % 2 ^ 32 }
          fence := handle
          semaphores := r.semaphores }

/-- The method `Device::Submit`: `DeviceLock()` and the call of `SubmitNoLock`. -/
def Device.Submit (d : Device) (families : PerQueue Nat) (cbType : CommandBufferType)
    (cmd : Submission) (fence : Bool) (semaphores : Option Nat) : Option Submitted :=
  d.SubmitNoLock families cbType cmd fence semaphores

/-- The method `Semaphore::SignalPendingWait`. -/
def Semaphore.SignalPendingWait (s : Semaphore) : Semaphore :=
  { s with pending := true }

/-- The method `Device::AddWaitSemaphoreNoLock`. -/
def Device.AddWaitSemaphoreNoLock (d : Device) (queueType : QueueType) (semaphore : Semaphore)
    (stages : Nat) (flush : Bool) : Option Device :=
  match (if flush = true then d.FlushFrame queueType else some d) with
  | none => none
  | some d1 =>
    let data := d1.queueData.get queueType
    some { d1 with queueData := (d1.queueData.set queueType
      { data with
        WaitSemaphores := data.WaitSemaphores ++ [semaphore.SignalPendingWait]
        WaitStages := data.WaitStages ++ [stages]
        NeedsFence := true }) }

/-- A device with timeline semaphores and with one command buffer (native handle 51)
pending on the graphics queue. -/
def onePendingDevice : Device :=
  (Device.create true).withPending [⟨51, 0⟩]

/-- The outcome of `SubmitQueue(QueueType::Graphics, nullptr, &semaphores)` on
`onePendingDevice`, with a vector of one entry (an empty outcome where it is not
defined). -/
def onePendingOutcome : SubmitOutcome :=
  (onePendingDevice.SubmitQueue .Graphics false (some 1)).getD
    (SubmitOutcome.nothing onePendingDevice)

/-- A device as constructed, with timeline semaphores, after one call of
`RequestCommandBuffer` (the device as constructed where it is not defined). -/
def requestedDevice : Device :=
  ((Device.create true).RequestCommandBuffer).getD (Device.create true)

/-- The outcome of `Submit(cmd, &fence, nullptr)` on `requestedDevice` for a generic
command buffer with the native handle 52, on a GPU whose three queues are of the
families 0, 1 and 2 (nothing submitted where it is not defined). -/
def oneSubmitted : Submitted :=
  (requestedDevice.Submit ⟨0, 1, 2⟩ .Generic ⟨52, 0⟩ true none).getD ⟨requestedDevice, none, []⟩

/-- The test of the loop of `Device::EndFrameNoLock` for a queue type:
`_queueData[type].NeedsFence || !Frame().Submissions[type].empty()`. -/
def Device.needsSubmit (d : Device) (type : QueueType) : Bool :=
  (d.queueData.get type).NeedsFence || !(d.pending type).isEmpty

/-- The per-queue data after a turn of the loop of `EndFrameNoLock` that submits the
queue: as after the body of `SubmitQueue`, with `NeedsFence` reset. -/
def Device.flushedData (d : Device) (queueType : QueueType) : PerQueue QueueData :=
  d.queueData.set queueType
    { (d.queueData.get queueType) with
      NeedsFence := false
      TimelineValue := ((d.queueData.get queueType).TimelineValue + 1) % 2 ^ 64
      WaitSemaphores := []
      WaitStages := [] }

/-- A device without timeline semaphores, with a command buffer pending on the transfer
queue (native handle 61) and one on the compute queue (handle 62), and nothing to submit
on the graphics queue. -/
def twoQueuesPendingDevice : Device :=
  (((Device.create false).pushSubmission .Transfer ⟨61, 0⟩).getD (Device.create false)
    |>.pushSubmission .Compute ⟨62, 0⟩).getD (Device.create false)

/-- The outcome of `Submit(cmd, nullptr, &semaphores)` on `requestedDevice`, with a vector
of one entry, for a generic command buffer with the native handle 53 (nothing submitted
where it is not defined). -/
def handedOut : Submitted :=
  (requestedDevice.Submit ⟨0, 1, 2⟩ .Generic ⟨53, 0⟩ false (some 1)).getD
    ⟨requestedDevice, none, []⟩

/-- The device after the semaphore handle of `handedOut` has gone away without having been
waited on (the device of `handedOut` where it is not defined). -/
def handleDropped : Device :=
  (handedOut.device.dropSemaphoreHandle handedOut.semaphores.head?).getD handedOut.device

/-- The device `handleDropped` two calls of `NextFrame` later, the allocators letting go
of nothing (the device itself where it is not defined). -/
def handleDroppedLater : Device :=
  ((handleDropped.NextFrame []).bind (fun d => d.NextFrame [])).getD handleDropped

/-- The function `BufferUsageToAccess`, on the Vulkan flag values: buffer usage
`eTransferSrc = 0x1`, `eTransferDst = 0x2`, `eUniformBuffer = 0x10`,
`eStorageBuffer = 0x20`, `eIndexBuffer = 0x40`, `eVertexBuffer = 0x80`,
`eIndirectBuffer = 0x100`; access `eIndirectCommandRead = 0x1`, `eIndexRead = 0x2`,
`eVertexAttributeRead = 0x4`, `eUniformRead = 0x8`, `eShaderRead = 0x20`,
`eShaderWrite = 0x40`, `eTransferRead = 0x800`, `eTransferWrite = 0x1000`. -/
def BufferUsageToAccess (usage : Nat) : Nat :=
  let access0 := 0
  let access1 := if usage &&& (0x2 ||| 0x1) ≠ 0 then access0 ||| (0x800 ||| 0x1000) else access0
  let access2 := if usage &&& 0x80 ≠ 0 then access1 ||| 0x4 else access1
  let access3 := if usage &&& 0x40 ≠ 0 then access2 ||| 0x2 else access2
  let access4 := if usage &&& 0x100 ≠ 0 then access3 ||| 0x1 else access3
  let access5 := if usage &&& 0x10 ≠ 0 then access4 ||| 0x8 else access4
  if usage &&& 0x20 ≠ 0 then access5 ||| (0x20 ||| 0x40) else access5

/-- The function `BufferUsageToStages`, on the Vulkan flag values: buffer usage as for
`BufferUsageToAccess`, with `eUniformTexelBuffer = 0x4` and `eStorageTexelBuffer = 0x8`;
pipeline stages `eDrawIndirect = 0x2`, `eVertexInput = 0x4`, `eVertexShader = 0x8`,
`eFragmentShader = 0x80`, `eComputeShader = 0x800`, `eTransfer = 0x1000`. -/
def BufferUsageToStages (usage : Nat) : Nat :=
  let stages0 := 0
  let stages1 := if usage &&& (0x2 ||| 0x1) ≠ 0 then stages0 ||| 0x1000 else stages0
  let stages2 := if usage &&& (0x80 ||| 0x40) ≠ 0 then stages1 ||| 0x4 else stages1
  let stages3 := if usage &&& 0x100 ≠ 0 then stages2 ||| 0x2 else stages2
  let stages4 :=
    if usage &&& (0x10 ||| 0x4 ||| 0x8) ≠ 0 then stages3 ||| (0x800 ||| 0x8 ||| 0x80)
    else stages3
  if usage &&& 0x20 ≠ 0 then stages4 ||| 0x800 else stages4

/-- A call `CommandBuffer::Barrier(srcStage, srcAccess, dstStage, dstAccess)`, which
records a pipeline barrier with one memory barrier. -/
structure MemoryBarrierCall where
  srcStage : Nat
  srcAccess : Nat
  dstStage : Nat
  dstAccess : Nat
deriving DecidableEq

/-- The method `Device::SubmitStaging`: the device afterwards and the barriers recorded
in the command buffer before it is submitted.  `semaphores[k]` of an entry the vector
does not have is not defined. -/
def Device.SubmitStaging (d : Device) (families : PerQueue Nat) (cbType : CommandBufferType)
    (cmd : Submission) (usage : Nat) (flush : Bool) :
    Option (Device × List MemoryBarrierCall) :=
  let access := BufferUsageToAccess usage
  let stages := BufferUsageToStages usage
  let srcQueue := d.Queues.get (d.GetQueueType families cbType)
  -- `SubmitNoLock(cmd, nullptr, nullptr)`
  let plain : Option Device :=
    (d.SubmitNoLock families cbType cmd false none).map (fun r => r.device)
  -- `semaphores(1); SubmitNoLock(cmd, nullptr, &semaphores);`
  -- `AddWaitSemaphoreNoLock(queueType, semaphores[0], waitStages, flush);`
  let oneWait (queueType : QueueType) (waitStages : Nat) : Option Device :=
    match d.SubmitNoLock families cbType cmd false (some 1) with
    | none => none
    | some r =>
      match r.semaphores[0]? with
      | none => none
      | some semaphore => r.device.AddWaitSemaphoreNoLock queueType semaphore waitStages flush
  if srcQueue = d.Queues.get .Graphics ∧ srcQueue = d.Queues.get .Compute then
    plain.map (fun d1 => (d1, [⟨0x1000, 0x1000, stages, access⟩]))
  else
    let computeStages := stages &&& (0x800 ||| 0x1000 ||| 0x2)
    let computeAccess := access &&& (0x20 ||| 0x40 ||| 0x800 ||| 0x8 ||| 0x1000 ||| 0x1)
    let graphicsStages := stages
    if srcQueue = d.Queues.get .Graphics then
      let barrier : MemoryBarrierCall := ⟨0x1000, 0x1000, graphicsStages, access⟩
      if computeStages ≠ 0 then (oneWait .Compute computeStages).map (fun d1 => (d1, [barrier]))
      else plain.map (fun d1 => (d1, [barrier]))
    else if srcQueue = d.Queues.get .Compute then
      let barrier : MemoryBarrierCall := ⟨0x1000, 0x1000, computeStages, computeAccess⟩
      if graphicsStages ≠ 0 then
        (oneWait .Graphics graphicsStages).map (fun d1 => (d1, [barrier]))
      else plain.map (fun d1 => (d1, [barrier]))
    else
      if graphicsStages ≠ 0 ∧ computeStages ≠ 0 then
        match d.SubmitNoLock families cbType cmd false (some 2) with
        | none => none
        | some r =>
          match r.semaphores[0]?, r.semaphores[1]? with
          | some semaphore0, some semaphore1 =>
            match r.device.AddWaitSemaphoreNoLock .Graphics semaphore0 graphicsStages flush with
            | none => none
            | some d1 =>
              (d1.AddWaitSemaphoreNoLock .Compute semaphore1 computeStages flush).map
                (fun d2 => (d2, []))
          | _, _ => none
      else if graphicsStages ≠ 0 then
        (oneWait .Graphics graphicsStages).map (fun d1 => (d1, []))
      else if computeStages ≠ 0 then
        (oneWait .Compute computeStages).map (fun d1 => (d1, []))
      else plain.map (fun d1 => (d1, []))

/-- The waits of the staging hand-off as the specification words them: one on the
graphics queue when the source queue is not the graphics queue and the stages of the
usage are not empty, and one on the compute queue when the source queue is not the
compute queue and the stages restricted to compute shader, transfer and draw indirect
are not empty; each with the stages it waits in. -/
def Device.stagingWaits (d : Device) (families : PerQueue Nat) (cbType : CommandBufferType)
    (usage : Nat) : List (QueueType × Nat) :=
  let srcQueue := d.Queues.get (d.GetQueueType families cbType)
  let stages := BufferUsageToStages usage
  let computeStages := stages &&& (0x800 ||| 0x1000 ||| 0x2)
  (if srcQueue ≠ d.Queues.get .Graphics ∧ stages ≠ 0 then [(QueueType.Graphics, stages)]
    else []) ++
  (if srcQueue ≠ d.Queues.get .Compute ∧ computeStages ≠ 0 then
    [(QueueType.Compute, computeStages)] else [])

/-- The calls of `AddWaitSemaphoreNoLock` for a list of waits, wait number `k` with the
entry `k` of the vector of semaphores. -/
def Device.addWaits (d : Device) (semaphores : List Semaphore) (flush : Bool) :
    List (QueueType × Nat) → Nat → Option Device
  | [], _ => some d
  | (queueType, stages) :: rest, k =>
    match semaphores[k]? with
    | none => none
    | some semaphore =>
      match d.AddWaitSemaphoreNoLock queueType semaphore stages flush with
      | none => none
      | some d1 => addWaits d1 semaphores flush rest (k + 1)

/-- The staging hand-off as the specification words it: the command buffer is submitted
with as many semaphores requested as there are waits (no vector at all for none), and
each wait is added with its own entry of the vector. -/
def Device.stagingHandOff (d : Device) (families : PerQueue Nat) (cbType : CommandBufferType)
    (cmd : Submission) (usage : Nat) (flush : Bool) : Option Device :=
  let waits := d.stagingWaits families cbType usage
  match d.SubmitNoLock families cbType cmd false
      (if waits.isEmpty then none else some waits.length) with
  | none => none
  | some r => r.device.addWaits r.semaphores flush waits 0

/-- A device as constructed, without timeline semaphores, after one call of
`RequestCommandBuffer` (the device as constructed where it is not defined). -/
def requestedBinaryDevice : Device :=
  ((Device.create false).RequestCommandBuffer).getD (Device.create false)

/-- The outcome of `SubmitStaging` on `requestedBinaryDevice` for a transfer command
buffer (native handle 54) that fills a uniform buffer (`eUniformBuffer`, `0x10`),
without flush (the device itself and no barrier where it is not defined). -/
def stagedUniform : Device × List MemoryBarrierCall :=
  (requestedBinaryDevice.SubmitStaging ⟨0, 1, 2⟩ .AsyncTransfer ⟨54, 0⟩ 0x10 false).getD
    (requestedBinaryDevice, [])

/-- The device together with the native handles of the command buffers that were
requested and are not yet submitted. -/
structure LockState where
  device : Device
  outstanding : List Nat
deriving DecidableEq

/-- A call that hands out a command buffer (`native` is the handle the command pool
gives) or submits one. -/
inductive LockCall where
  | request (native : Nat) : LockCall
  | requestForThread (native : Nat) : LockCall
  | submit (cbType : CommandBufferType) (cmd : Submission) (fence : Bool)
      (semaphores : Option Nat) : LockCall
  | submitStaging (cbType : CommandBufferType) (cmd : Submission) (usage : Nat)
      (flush : Bool) : LockCall

/-- The native handle of the command buffer a call submits. -/
def LockCall.submits : LockCall → Option Nat
  | .request _ => none
  | .requestForThread _ => none
  | .submit _ cmd _ _ => some cmd.commandBuffer
  | .submitStaging _ cmd _ _ => some cmd.commandBuffer

/-- One call on the device.  A command buffer is submitted at most once: a submission of
a command buffer that is not outstanding is no call of the sequences considered. -/
def LockCall.run (families : PerQueue Nat) (c : LockCall) (st : LockState) :
    Option LockState :=
  match c with
  | .request native =>
    (st.device.RequestCommandBuffer).map (fun d => ⟨d, st.outstanding ++ [native]⟩)
  | .requestForThread native =>
    (st.device.RequestCommandBufferForThread).map (fun d => ⟨d, st.outstanding ++ [native]⟩)
  | .submit cbType cmd fence semaphores =>
    if cmd.commandBuffer ∈ st.outstanding then
      (st.device.Submit families cbType cmd fence semaphores).map
        (fun r => ⟨r.device, st.outstanding.erase cmd.commandBuffer⟩)
    else none
  | .submitStaging cbType cmd usage flush =>
    if cmd.commandBuffer ∈ st.outstanding then
      (st.device.SubmitStaging families cbType cmd usage flush).map
        (fun r => ⟨r.1, st.outstanding.erase cmd.commandBuffer⟩)
    else none

/-- A sequence of calls on the device. -/
def runLockCalls (families : PerQueue Nat) : List LockCall → LockState → Option LockState
  | [], st => some st
  | c :: rest, st =>
    match c.run families st with
    | none => none
    | some st1 => runLockCalls families rest st1

/-- Three command buffers are requested on a device as constructed, with timeline
semaphores; the first is submitted with a fence, the second through `SubmitStaging` as
the upload of a storage buffer (`0x20`), and the third is never submitted. -/
def threeRequests : List LockCall :=
  [.request 71, .requestForThread 72, .request 73, .submit .Generic ⟨71, 0⟩ true none,
    .submitStaging .AsyncTransfer ⟨72, 0⟩ 0x20 true]

/-- The outcome of `SubmitNoLock(cmd, nullptr, &semaphores)` on `requestedBinaryDevice`,
with a vector of two entries, for the transfer command buffer with the native handle 54
(nothing submitted where it is not defined). -/
def stagedSubmit : Submitted :=
  (requestedBinaryDevice.SubmitNoLock ⟨0, 1, 2⟩ .AsyncTransfer ⟨54, 0⟩ false (some 2)).getD
    ⟨requestedBinaryDevice, none, []⟩

/-- The locals of the command-buffer loop of `Device::SubmitQueue` after its first `n`
turns over the command buffers `cmds`, on a device without accumulated wait semaphores:
the loop starts from the `MaxSubmissions` default-constructed batches and the index 0
(`none` where a turn has no defined outcome). -/
def Device.batchedAfter (d : Device) (cmds : List Submission) (n : Nat) : Option SubmitState :=
  SubmitState.addCommandBuffers (cmds.take n)
    { device := d, batches := List.replicate MaxSubmissions SubmitBatch.empty, batch := 0 }

/-- A hash function of create infos for the examples (the class `Hasher` is not part of
the sources at hand): the members weighted by their position, as a 64-bit value. -/
def sampleSamplerHash (c : SamplerCreateInfo) : Nat :=
  (c.MagFilter + 2 * c.MinFilter + 3 * c.MipmapMode + 4 * c.AddressModeU + 5 * c.AddressModeV +
    6 * c.AddressModeW + 7 * c.MipLodBias + 8 * c.AnisotropyEnable + 9 * c.MaxAnisotropy +
    10 * c.CompareEnable + 11 * c.CompareOp + 12 * c.MinLod + 13 * c.MaxLod +
    14 * c.BorderColor + 15 * c.UnnormalizedCoordinates) % 2 ^ 64

/-- A create info for the examples: linear filtering (`eLinear = 1`), defaults
otherwise. -/
def linearSamplerInfo : SamplerCreateInfo :=
  { SamplerCreateInfo.default with MagFilter := 1, MinFilter := 1 }

/-- The test of the early return of `SetTexture(set, binding, view)` on the tracked
state: the cookie at the binding is that of the view and the layout of `Image.Float` is
the layout of the view. -/
def CommandBuffer.textureTracked (s : CommandBuffer) (set binding : Nat) (view : ImageView) :
    Prop :=
  s.trackedCookie set binding = some view.cookie ∧
  (s.trackedImage set binding).map (fun p => p.1.imageLayout) = some view.layout

/-- The test of the early return of `SetSampler`: the secondary cookie at the binding is
the cookie of the sampler. -/
def CommandBuffer.samplerTracked (s : CommandBuffer) (set binding : Nat) (sampler : Sampler) :
    Prop :=
  s.trackedSecondaryCookie set binding = some sampler.cookie

/-- The test of the early return of `SetUniformBuffer` and `SetStorageBuffer`: the cookie
at the binding is that of the buffer and the range tracked is the range asked for (the
size of the buffer for the range 0). -/
def CommandBuffer.bufferTracked (s : CommandBuffer) (set binding : Nat) (buffer : Buffer)
    (range : Nat) : Prop :=
  s.trackedCookie set binding = some buffer.cookie ∧
  (s.trackedBuffer set binding).map (fun b => b.range) =
    some (if range = 0 then buffer.size else range)

instance (s : CommandBuffer) (set binding : Nat) (view : ImageView) :
    Decidable (s.textureTracked set binding view) := by
  unfold CommandBuffer.textureTracked; infer_instance

instance (s : CommandBuffer) (set binding : Nat) (sampler : Sampler) :
    Decidable (s.samplerTracked set binding sampler) := by
  unfold CommandBuffer.samplerTracked; infer_instance

instance (s : CommandBuffer) (set binding : Nat) (buffer : Buffer) (range : Nat) :
    Decidable (s.bufferTracked set binding buffer range) := by
  unfold CommandBuffer.bufferTracked; infer_instance

/-- The setter call finds what it compares already tracked and returns early, changing
nothing.  `SetTexture` with a sampler is `SetTexture` followed by `SetSampler` and changes
nothing when both return early; `SetBindless` has no early return. -/
def DescriptorSetter.tracked (c : DescriptorSetter) (s : CommandBuffer) : Prop :=
  match c with
  | .texture set binding view => s.textureTracked set binding view
  | .textureSampler set binding view handle =>
    s.textureTracked set binding view ∧ s.samplerTracked set binding handle
  | .sampler set binding handle => s.samplerTracked set binding handle
  | .uniformBuffer set binding buffer _ range => s.bufferTracked set binding buffer range
  | .storageBuffer set binding buffer _ range => s.bufferTracked set binding buffer range
  | .bindless _ _ => False

instance (c : DescriptorSetter) (s : CommandBuffer) : Decidable (c.tracked s) := by
  cases c <;> unfold DescriptorSetter.tracked <;> infer_instance

/-- What a setter call that does not return early has recorded, `s0` being the state
before the call and `s1` the state after it.  `SetTexture` stores the cookie of the view
and its two views and layout, and keeps the samplers; `SetSampler` stores the cookie of
the sampler as secondary cookie and its handle in both image infos, and keeps views and
layouts; `SetTexture` with a sampler stores what those of the two that do not return
early store; the buffer setters store the cookie of the buffer, the secondary cookie 0
and the descriptor info of the buffer; `SetBindless` stores the descriptor set. -/
def DescriptorSetter.stored (c : DescriptorSetter) (s0 s1 : CommandBuffer) : Prop :=
  match c with
  | .texture set binding view =>
    s1.trackedCookie set binding = some view.cookie ∧
    s1.trackedSecondaryCookie set binding = s0.trackedSecondaryCookie set binding ∧
    ∃ old, s0.trackedImage set binding = some old ∧
      s1.trackedImage set binding =
        some (⟨old.1.sampler, view.floatView, view.layout⟩,
          ⟨old.2.sampler, view.integerView, view.layout⟩)
  | .sampler set binding handle =>
    s1.trackedCookie set binding = s0.trackedCookie set binding ∧
    s1.trackedSecondaryCookie set binding = some handle.cookie ∧
    ∃ old, s0.trackedImage set binding = some old ∧
      s1.trackedImage set binding =
        some (⟨handle.sampler, old.1.imageView, old.1.imageLayout⟩,
          ⟨handle.sampler, old.2.imageView, old.2.imageLayout⟩)
  | .textureSampler set binding view handle =>
    s1.trackedCookie set binding = some view.cookie ∧
    s1.trackedSecondaryCookie set binding = some handle.cookie ∧
    ∃ old, s0.trackedImage set binding = some old ∧
      s1.trackedImage set binding =
        some (⟨if s0.samplerTracked set binding handle then old.1.sampler else handle.sampler,
            if s0.textureTracked set binding view then old.1.imageView else view.floatView,
            view.layout⟩,
          ⟨if s0.samplerTracked set binding handle then old.2.sampler else handle.sampler,
            if s0.textureTracked set binding view then old.2.imageView else view.integerView,
            if s0.textureTracked set binding view then old.2.imageLayout else view.layout⟩)
  | .uniformBuffer set binding buffer offset range =>
    s1.trackedCookie set binding = some buffer.cookie ∧
    s1.trackedSecondaryCookie set binding = some 0 ∧
    s1.trackedBuffer set binding =
      some ⟨buffer.buffer, offset, if range = 0 then buffer.size else range⟩
  | .storageBuffer set binding buffer offset range =>
    s1.trackedCookie set binding = some buffer.cookie ∧
    s1.trackedSecondaryCookie set binding = some 0 ∧
    s1.trackedBuffer set binding =
      some ⟨buffer.buffer, offset, if range = 0 then buffer.size else range⟩
  | .bindless set descriptorSet => s1.bindlessSets[set]? = some descriptorSet

/-- No queue's timeline counter differs between the two devices. -/
def Device.SameCounters (d d2 : Device) : Prop :=
  ∀ q, (d2.queueData.get q).TimelineValue = (d.queueData.get q).TimelineValue

/-- From the first device to the second each queue's timeline counter was advanced at
most `k` times: a counter that is at least `k` short of the end of its 64 bits has not
decreased and has grown by at most `k`. -/
def Device.Counted (k : Nat) (d d2 : Device) : Prop :=
  ∀ q, (d.queueData.get q).TimelineValue + k < 2 ^ 64 →
    (d.queueData.get q).TimelineValue ≤ (d2.queueData.get q).TimelineValue ∧
    (d2.queueData.get q).TimelineValue ≤ (d.queueData.get q).TimelineValue + k

/-- A call of one of the operations of the device: the entry points of deferred
destruction with their `NoLock` variants, `RecycleSemaphoreNoLock`, the pools of fences
and semaphores, the destructors of `Semaphore` and `Image`, the three ways to request a
command buffer, `SubmitQueue`, `FlushFrame`, `Submit`, `SubmitNoLock`,
`AddWaitSemaphoreNoLock`, `SubmitStaging`, `EndFrameNoLock` and `NextFrame`. -/
inductive DeviceCall where
  | enqueue (kind : DestroyKind) (locked : Bool) (handle : Nat) : DeviceCall
  | recycleSemaphore (semaphore : Nat) : DeviceCall
  | releaseFence (fence : Nat) : DeviceCall
  | releaseSemaphore (semaphore : Nat) : DeviceCall
  | allocateFence : DeviceCall
  | allocateSemaphore : DeviceCall
  | destroySemaphoreObject (object : Semaphore) : DeviceCall
  | destroyImageObject (object : Image) : DeviceCall
  | requestCommandBuffer : DeviceCall
  | requestCommandBufferForThread : DeviceCall
  | requestCommandBufferNoLock : DeviceCall
  | submitQueue (queueType : QueueType) (submitFence : Bool) (semaphores : Option Nat) :
      DeviceCall
  | flushFrame (queueType : QueueType) : DeviceCall
  | submit (cbType : CommandBufferType) (cmd : Submission) (fence : Bool)
      (semaphores : Option Nat) : DeviceCall
  | submitNoLock (cbType : CommandBufferType) (cmd : Submission) (fence : Bool)
      (semaphores : Option Nat) : DeviceCall
  | addWaitSemaphore (queueType : QueueType) (semaphore : Semaphore) (stages : Nat)
      (flush : Bool) : DeviceCall
  | submitStaging (cbType : CommandBufferType) (cmd : Submission) (usage : Nat)
      (flush : Bool) : DeviceCall
  | endFrame : DeviceCall
  | nextFrame (released : List (DestroyKind × Nat)) : DeviceCall

/-- The device after a call (`none` where the call has no defined outcome). -/
def DeviceCall.run (families : PerQueue Nat) (c : DeviceCall) (d : Device) : Option Device :=
  match c with
  | .enqueue kind locked handle => d.enqueue kind locked handle
  | .recycleSemaphore semaphore => d.RecycleSemaphoreNoLock semaphore
  | .releaseFence fence => some (d.ReleaseFence fence)
  | .releaseSemaphore semaphore => some (d.ReleaseSemaphore semaphore)
  | .allocateFence => some d.AllocateFence.1
  | .allocateSemaphore => some d.AllocateSemaphore.1
  | .destroySemaphoreObject object => d.destroySemaphoreObject object
  | .destroyImageObject object => d.destroyImageObject object
  | .requestCommandBuffer => d.RequestCommandBuffer
  | .requestCommandBufferForThread => d.RequestCommandBufferForThread
  | .requestCommandBufferNoLock => d.RequestCommandBufferNoLock
  | .submitQueue queueType submitFence semaphores =>
    (d.SubmitQueue queueType submitFence semaphores).map (fun r => r.device)
  | .flushFrame queueType => d.FlushFrame queueType
  | .submit cbType cmd fence semaphores =>
    (d.Submit families cbType cmd fence semaphores).map (fun r => r.device)
  | .submitNoLock cbType cmd fence semaphores =>
    (d.SubmitNoLock families cbType cmd fence semaphores).map (fun r => r.device)
  | .addWaitSemaphore queueType semaphore stages flush =>
    d.AddWaitSemaphoreNoLock queueType semaphore stages flush
  | .submitStaging cbType cmd usage flush =>
    (d.SubmitStaging families cbType cmd usage flush).map (fun r => r.1)
  | .endFrame => d.EndFrameNoLock
  | .nextFrame released => d.NextFrame released

/-- The calls that never reach `SubmitQueue`: all but `SubmitQueue` itself,
`FlushFrame`, `EndFrameNoLock`, `NextFrame` and `SubmitStaging`, a submission that asks
for a fence or for semaphores, and `AddWaitSemaphoreNoLock` with `flush`. -/
def DeviceCall.quiet : DeviceCall → Bool
  | .submitQueue _ _ _ => false
  | .flushFrame _ => false
  | .submit _ _ fence semaphores => !fence && semaphores.isNone
  | .submitNoLock _ _ fence semaphores => !fence && semaphores.isNone
  | .addWaitSemaphore _ _ _ flush => !flush
  | .submitStaging _ _ _ _ => false
  | .endFrame => false
  | .nextFrame _ => false
  | _ => true

/-- A sequence of calls on the device, in order. -/
def runDeviceCalls (families : PerQueue Nat) : List DeviceCall → Device → Option Device
  | [], d => some d
  | c :: rest, d =>
    match c.run families d with
    | none => none
    | some d1 => runDeviceCalls families rest d1

/-- A day of a device with timeline semaphores on a GPU whose three queues are of the
families 0, 1 and 2: a buffer is enqueued for destruction, a command buffer is requested
and handed to `SubmitStaging` as the upload of a uniform buffer from the transfer queue
with `flush`, a wait semaphore is added to the graphics queue with `flush`, a command
buffer is requested and submitted with a fence, and the frame ends. -/
def sampleDeviceCalls : List DeviceCall :=
  [.enqueue .buffer true 5, .requestCommandBuffer,
    .submitStaging .AsyncTransfer ⟨81, 0⟩ 0x10 true,
    .addWaitSemaphore .Graphics (Semaphore.binary 9 true) 0x1000 true,
    .requestCommandBuffer, .submit .Generic ⟨82, 0⟩ true none, .nextFrame []]

/-- The device after the calls `sampleDeviceCalls` on a device as constructed, with
timeline semaphores (the device as constructed where they have no defined outcome). -/
def sampleDeviceAfter : Device :=
  (runDeviceCalls ⟨0, 1, 2⟩ sampleDeviceCalls (Device.create true)).getD (Device.create true)

/-- Consistency of a store: every handle points at an existing object, and every
object is either alive (deleter never invoked, at least one handle, count equal to
the number of handles) or dead (deleter invoked once, no handle, count zero). -/
structure Memory.Inv (m : Memory) : Prop where
  ptr : ∀ h a : Nat, m.handles[h]? = some (some a) → a < m.objects.length
  obj : ∀ (a : Nat) (o : IntrusivePtrEnabled), m.objects[a]? = some o →
    (o.deleterCalls = 0 ∧ 1 ≤ m.owners a ∧ o.refCount.count = (m.owners a : Int)) ∨
    (o.deleterCalls = 1 ∧ m.owners a = 0 ∧ o.refCount.count = 0)

/-! ## Theorems -/

/-- Writing to a list slot the value it already holds changes nothing. -/
theorem list_set_same {α : Type} (l : List α) (h : Nat) (x : α) (hx : l[h]? = some x) :
    l.set h x = l := by
  apply List.ext_getElem?
  intro j
  rw [List.getElem?_set]
  split
  · rename_i e
    subst e
    split
    · exact hx.symm
    · rw [List.getElem?_eq_none (by omega)]
  · rfl

/-- Nulling a slot removes one occurrence of the pointer it held. -/
theorem count_set_none (l : List (Option Nat)) (h : Nat) (hh : h < l.length) (b : Nat) :
    (l.set h none).count (some b) =
      l.count (some b) - (if l[h]? = some (some b) then 1 else 0) := by
  rw [List.count_set _ _ _ _ hh, List.getElem?_eq_getElem hh]
  simp

/-- Storing a pointer in a null slot adds one occurrence of that pointer. -/
theorem count_set_some (l : List (Option Nat)) (h : Nat) (a b : Nat)
    (hx : l[h]? = some none) :
    (l.set h (some a)).count (some b) = l.count (some b) + (if a = b then 1 else 0) := by
  have hh : h < l.length := by
    rcases List.getElem?_eq_some.mp hx with ⟨hh, _⟩
    exact hh
  have : l[h] = none := by
    rw [List.getElem?_eq_getElem hh] at hx
    simpa using hx
  rw [List.count_set _ _ _ _ hh]
  simp [this]

theorem Memory.Get_eq_some {m : Memory} {h a : Nat} :
    m.Get h = some a ↔ m.handles[h]? = some (some a) := by
  unfold Memory.Get
  cases hx : m.handles[h]? with
  | none => simp
  | some x => cases x <;> simp

theorem Memory.Get_eq_none {m : Memory} {h : Nat} (hh : h < m.handles.length) :
    m.Get h = none ↔ m.handles[h]? = some none := by
  unfold Memory.Get
  cases hx : m.handles[h]? with
  | none =>
    rw [List.getElem?_eq_getElem hh] at hx
    cases hx
  | some x => cases x <;> simp

/-- A handle pointing at an object is counted among its owners. -/
theorem Memory.owners_pos {m : Memory} {h a : Nat} (hx : m.handles[h]? = some (some a)) :
    1 ≤ m.owners a := by
  have : some a ∈ m.handles := List.mem_iff_getElem?.mpr ⟨h, hx⟩
  exact List.count_pos_iff.mpr this

/-- An object with an owner exists, in a consistent store. -/
theorem Memory.Inv.lt_of_owners {m : Memory} (hI : m.Inv) {a : Nat} (ha : 1 ≤ m.owners a) :
    a < m.objects.length := by
  have : some a ∈ m.handles := List.count_pos_iff.mp ha
  rcases List.mem_iff_getElem?.mp this with ⟨h, hx⟩
  exact hI.ptr h a hx

/-- Releasing the reference of a handle and nulling it keeps the store consistent. -/
theorem Memory.Inv.release {m : Memory} (hI : m.Inv) {h a : Nat}
    (hx : m.handles[h]? = some (some a)) :
    ((m.call a IntrusivePtrEnabled.ReleaseReference).setData h none).Inv := by
  have ha : a < m.objects.length := hI.ptr h a hx
  have hh : h < m.handles.length := (List.getElem?_eq_some.mp hx).1
  have hoa : m.objects[a]? = some m.objects[a] := List.getElem?_eq_getElem ha
  have hown := Memory.owners_pos hx
  simp only [Memory.call, hoa, Memory.setData]
  constructor
  · intro k b hk
    simp only [List.length_set]
    rw [List.getElem?_set] at hk
    by_cases e : h = k
    · simp [e] at hk
    · simp only [e, if_false] at hk
      exact hI.ptr k b hk
  · intro b o hb
    simp only [Memory.owners] at *
    rw [count_set_none _ _ hh, hx]
    rw [List.getElem?_set] at hb
    split at hb
    · rename_i e
      subst e
      simp only [ha, if_true, Option.some.injEq] at hb
      subst hb
      rcases hI.obj a _ hoa with ⟨h1, h2, h3⟩ | ⟨h1, h2, h3⟩
      · simp only [Memory.owners] at h2 h3
        simp only [IntrusivePtrEnabled.ReleaseReference,
          SingleThreadCounter.ReleaseReference, if_true]
        by_cases hz : m.objects[a].refCount.count - 1 = 0
        · right
          simp [hz, h1]
          omega
        · left
          simp [hz, h1]
          omega
      · simp only [Memory.owners] at h2
        omega
    · rename_i e
      have hne : ¬ (some (some a) = some (some b)) := by
        intro hc
        simp at hc
        exact e hc
      simp only [hne, if_false, Nat.sub_zero]
      exact hI.obj b o hb

/-- Storing a pointer to a live object in a null handle and adding a reference keeps
the store consistent. -/
theorem Memory.Inv.acquire {m : Memory} (hI : m.Inv) {h a : Nat}
    (hx : m.handles[h]? = some none) (hown : 1 ≤ m.owners a) :
    ((m.setData h (some a)).call a IntrusivePtrEnabled.AddReference).Inv := by
  have ha : a < m.objects.length := hI.lt_of_owners hown
  have hoa : m.objects[a]? = some m.objects[a] := List.getElem?_eq_getElem ha
  simp only [Memory.call, hoa, Memory.setData]
  constructor
  · intro k b hk
    simp only [List.length_set]
    rw [List.getElem?_set] at hk
    by_cases e : h = k
    · simp only [e, if_true] at hk
      split at hk
      · simp only [Option.some.injEq] at hk
        subst hk
        exact ha
      · cases hk
    · simp only [e, if_false] at hk
      exact hI.ptr k b hk
  · intro b o hb
    simp only [Memory.owners] at *
    rw [count_set_some _ _ _ _ hx]
    rw [List.getElem?_set] at hb
    split at hb
    · rename_i e
      subst e
      simp only [ha, if_true, Option.some.injEq] at hb
      subst hb
      rcases hI.obj a _ hoa with ⟨h1, h2, h3⟩ | ⟨h1, h2, h3⟩
      · left
        simp only [Memory.owners] at h2 h3
        simp [IntrusivePtrEnabled.AddReference, SingleThreadCounter.AddReference, h1, h3]
      · simp only [Memory.owners] at h2
        omega
    · rename_i e
      simp only [e, if_false, Nat.add_zero]
      exact hI.obj b o hb

/-- Moving a pointer from one handle to a null handle keeps the store consistent. -/
theorem Memory.Inv.transfer {m : Memory} (hI : m.Inv) {s o a : Nat} (hne : s ≠ o)
    (hs : m.handles[s]? = some none) (ho : m.handles[o]? = some (some a)) :
    ((m.setData s (some a)).setData o none).Inv := by
  have hos : o < m.handles.length := (List.getElem?_eq_some.mp ho).1
  have hss : s < m.handles.length := (List.getElem?_eq_some.mp hs).1
  have ha : a < m.objects.length := hI.ptr o a ho
  simp only [Memory.setData]
  constructor
  · intro k b hk
    rw [List.getElem?_set] at hk
    by_cases e : o = k
    · simp [e] at hk
    · simp only [e, if_false] at hk
      rw [List.getElem?_set] at hk
      by_cases e2 : s = k
      · simp only [e2, if_true] at hk
        split at hk
        · simp only [Option.some.injEq] at hk
          subst hk
          exact ha
        · cases hk
      · simp only [e2, if_false] at hk
        exact hI.ptr k b hk
  · intro b ob hb
    have hcnt : (tk.Memory.owners
        { objects := m.objects, handles := (m.handles.set s (some a)).set o none } b)
        = m.owners b := by
      simp only [Memory.owners]
      rw [count_set_none _ _ (by simpa using hos), List.getElem?_set_ne hne, ho,
        count_set_some _ _ _ _ hs]
      by_cases e : a = b
      · simp [e]
      · have hne2 : ¬ (some (some a) = some (some b)) := by
          intro hc
          simp at hc
          exact e hc
        simp [e, hne2]
    rw [hcnt]
    exact hI.obj b ob hb

theorem Memory.call_handles (m : Memory) (a : Nat)
    (f : IntrusivePtrEnabled → IntrusivePtrEnabled) : (m.call a f).handles = m.handles := by
  unfold Memory.call
  split <;> rfl

theorem Memory.call_objects_length (m : Memory) (a : Nat)
    (f : IntrusivePtrEnabled → IntrusivePtrEnabled) :
    (m.call a f).objects.length = m.objects.length := by
  unfold Memory.call
  split <;> simp

theorem Reset_handles (m : Memory) (h : Nat) : (Reset m h).handles = m.handles.set h none := by
  unfold Reset
  cases m.Get h <;> simp [Memory.setData, Memory.call_handles]

theorem Reset_objects_length (m : Memory) (h : Nat) :
    (Reset m h).objects.length = m.objects.length := by
  unfold Reset
  cases m.Get h <;> simp [Memory.setData, Memory.call_objects_length]

/-- Resetting a null handle changes nothing. -/
theorem Reset_of_null (m : Memory) (h : Nat) (hg : m.Get h = none) : Reset m h = m := by
  have hset : m.handles.set h none = m.handles := by
    by_cases hh : h < m.handles.length
    · exact list_set_same _ _ _ ((Memory.Get_eq_none hh).mp hg)
    · exact List.set_eq_of_length_le (by omega)
  simp [Reset, hg, Memory.setData, hset]

/-- `Reset` keeps the store consistent. -/
theorem Reset_inv (m : Memory) (h : Nat) (hI : m.Inv) : (Reset m h).Inv := by
  cases hg : m.Get h with
  | none => rw [Reset_of_null m h hg]; exact hI
  | some a =>
    have hx := Memory.Get_eq_some.mp hg
    have := hI.release hx
    simpa [Reset, hg] using this

/-- After `Reset` the handle is null. -/
theorem Reset_self_null (m : Memory) (h : Nat) (hh : h < m.handles.length) :
    (Reset m h).handles[h]? = some none := by
  rw [Reset_handles, List.getElem?_set]
  simp [hh]

/-- `Reset` leaves the other handles alone. -/
theorem Reset_Get_other (m : Memory) (h k : Nat) (hne : h ≠ k) :
    (Reset m h).Get k = m.Get k := by
  simp [Memory.Get, Reset_handles, List.getElem?_set_ne hne]

/-- Copy assignment between existing handles keeps the store consistent. -/
theorem copyAssign_inv (m : Memory) (self other : Nat) (hI : m.Inv)
    (hs : self < m.handles.length) : (copyAssign m self other).Inv := by
  unfold copyAssign
  split
  · rename_i hne
    have hI1 := Reset_inv m self hI
    have hnull := Reset_self_null m self hs
    cases hp : (Reset m self).Get other with
    | none =>
      have hsame : (Reset m self).setData self none = Reset m self := by
        simp [Memory.setData, list_set_same _ _ _ hnull]
      have hg : (Reset m self).Get self = none := by
        simp [Memory.Get, hnull]
      simp only [hp, hsame, hg]
      exact hI1
    | some a =>
      have hx := Memory.Get_eq_some.mp hp
      have hown := Memory.owners_pos hx
      have hg : ((Reset m self).setData self (some a)).Get self = some a := by
        have : self < (Reset m self).handles.length := by
          rw [Reset_handles]; simpa using hs
        simp [Memory.Get, Memory.setData, List.getElem?_set, this]
      simp only [hp, hg]
      exact hI1.acquire hnull hown
  · exact hI

/-- Move assignment between existing handles keeps the store consistent. -/
theorem moveAssign_inv (m : Memory) (self other : Nat) (hI : m.Inv)
    (hs : self < m.handles.length) (ho : other < m.handles.length) :
    (moveAssign m self other).Inv := by
  unfold moveAssign
  split
  · rename_i hne
    have hI1 := Reset_inv m self hI
    have hnull := Reset_self_null m self hs
    have ho1 : other < (Reset m self).handles.length := by
      rw [Reset_handles]; simpa using ho
    cases hp : (Reset m self).Get other with
    | none =>
      have hsame : (Reset m self).setData self none = Reset m self := by
        simp [Memory.setData, list_set_same _ _ _ hnull]
      have hon := (Memory.Get_eq_none ho1).mp hp
      have hsame2 : (Reset m self).setData other none = Reset m self := by
        simp [Memory.setData, list_set_same _ _ _ hon]
      simp only [hp, hsame, hsame2]
      exact hI1
    | some a =>
      have hx := Memory.Get_eq_some.mp hp
      simp only [hp]
      exact hI1.transfer hne hnull hx
  · exact hI

theorem Memory.empty_inv : Memory.empty.Inv := by
  constructor
  · intro h a hx
    simp [Memory.empty] at hx
  · intro a o hx
    simp [Memory.empty] at hx

/-- A default-constructed handle keeps the store consistent. -/
theorem defaultConstruct_inv (m : Memory) (hI : m.Inv) : (defaultConstruct m).Inv := by
  constructor
  · intro k b hk
    simp only [defaultConstruct] at hk ⊢
    rw [List.getElem?_append] at hk
    split at hk
    · exact hI.ptr k b hk
    · rcases Nat.eq_zero_or_pos (k - m.handles.length) with e | e
      · rw [e] at hk
        simp at hk
      · rw [List.getElem?_eq_none (by simp only [List.length_singleton]; omega)] at hk
        cases hk
  · intro b o hb
    have : (defaultConstruct m).owners b = m.owners b := by
      simp [defaultConstruct, Memory.owners]
    rw [this]
    exact hI.obj b o hb

/-- Adopting a freshly created object keeps the store consistent. -/
theorem MakeHandle_inv (m : Memory) (hI : m.Inv) : (MakeHandle m).Inv := by
  constructor
  · intro k b hk
    simp only [MakeHandle, List.length_append, List.length_singleton] at hk ⊢
    rw [List.getElem?_append] at hk
    split at hk
    · have := hI.ptr k b hk
      omega
    · rcases Nat.eq_zero_or_pos (k - m.handles.length) with e | e
      · rw [e] at hk
        simp at hk
        omega
      · rw [List.getElem?_eq_none (by simp only [List.length_singleton]; omega)] at hk
        cases hk
  · intro b o hb
    simp only [MakeHandle] at hb
    have hown : (MakeHandle m).owners b =
        m.owners b + (if m.objects.length = b then 1 else 0) := by
      simp only [MakeHandle, Memory.owners, List.count_append, List.count_singleton]
      simp
    rw [hown]
    rw [List.getElem?_append] at hb
    split at hb
    · rename_i hlt
      have hne : ¬ (m.objects.length = b) := by omega
      simp only [hne, if_false, Nat.add_zero]
      exact hI.obj b o hb
    · rename_i hge
      rcases Nat.eq_zero_or_pos (b - m.objects.length) with e | e
      · have hb2 : m.objects.length = b := by omega
        rw [e] at hb
        simp only [List.getElem?_cons_zero, Option.some.injEq] at hb
        subst hb
        have hz : m.owners b = 0 := by
          by_contra hc
          have := hI.lt_of_owners (Nat.one_le_iff_ne_zero.mpr hc)
          omega
        left
        simp [hb2, hz, IntrusivePtrEnabled.init, SingleThreadCounter.init]
      · rw [List.getElem?_eq_none (by simp only [List.length_singleton]; omega)] at hb
        cases hb

theorem copyConstruct_inv (m : Memory) (other : Nat) (hI : m.Inv) :
    (copyConstruct m other).Inv := by
  apply copyAssign_inv _ _ _ (defaultConstruct_inv m hI)
  simp [defaultConstruct]

theorem moveConstruct_inv (m : Memory) (other : Nat) (hI : m.Inv)
    (ho : other < m.handles.length) : (moveConstruct m other).Inv := by
  apply moveAssign_inv _ _ _ (defaultConstruct_inv m hI)
  · simp [defaultConstruct]
  · simp [defaultConstruct]; omega

/-- Every operation of a trace keeps the store consistent. -/
theorem PtrOp.apply_inv (m : Memory) (op : PtrOp) (hI : m.Inv) : (op.apply m).Inv := by
  unfold PtrOp.apply
  split
  · rename_i hw
    cases op with
    | make => exact MakeHandle_inv m hI
    | copyConstruct other => exact copyConstruct_inv m other hI
    | copyAssign self other =>
      simp only [PtrOp.wellFormed, decide_eq_true_eq] at hw
      exact copyAssign_inv m self other hI hw.1
    | moveConstruct other =>
      simp only [PtrOp.wellFormed, decide_eq_true_eq] at hw
      exact moveConstruct_inv m other hI hw
    | moveAssign self other =>
      simp only [PtrOp.wellFormed, decide_eq_true_eq] at hw
      exact moveAssign_inv m self other hI hw.1 hw.2
    | reset self => exact Reset_inv m self hI
    | destroy self => exact Reset_inv m self hI
  · exact hI

theorem runOps_inv (ops : List PtrOp) (m : Memory) (hI : m.Inv) : (runOps m ops).Inv := by
  induction ops generalizing m with
  | nil => exact hI
  | cons op ops ih => exact ih _ (PtrOp.apply_inv m op hI)

theorem Memory.Get_mem {m : Memory} {h a : Nat} (hg : m.Get h = some a) :
    some a ∈ m.handles :=
  List.mem_iff_getElem?.mpr ⟨h, Memory.Get_eq_some.mp hg⟩

theorem Reset_mem (m : Memory) (h : Nat) (x : Option Nat) (hx : x ∈ (Reset m h).handles) :
    x = none ∨ x ∈ m.handles := by
  rw [Reset_handles] at hx
  rcases List.mem_or_eq_of_mem_set hx with h1 | h1
  · exact Or.inr h1
  · exact Or.inl h1

theorem copyAssign_mem (m : Memory) (self other : Nat) (x : Option Nat)
    (hx : x ∈ (copyAssign m self other).handles) : x = none ∨ x ∈ m.handles := by
  unfold copyAssign at hx
  split at hx
  · have key : x ∈ ((Reset m self).setData self ((Reset m self).Get other)).handles := by
      revert hx
      dsimp only
      split
      · rw [Memory.call_handles]; exact id
      · exact id
    simp only [Memory.setData] at key
    rcases List.mem_or_eq_of_mem_set key with h1 | h1
    · exact Reset_mem m self x h1
    · cases hp : (Reset m self).Get other with
      | none => left; rw [h1, hp]
      | some a =>
        rw [hp] at h1
        rw [h1]
        exact Reset_mem m self _ (Memory.Get_mem hp)
  · exact Or.inr hx

theorem moveAssign_mem (m : Memory) (self other : Nat) (x : Option Nat)
    (hx : x ∈ (moveAssign m self other).handles) : x = none ∨ x ∈ m.handles := by
  unfold moveAssign at hx
  split at hx
  · simp only [Memory.setData] at hx
    rcases List.mem_or_eq_of_mem_set hx with h0 | h0
    · rcases List.mem_or_eq_of_mem_set h0 with h1 | h1
      · exact Reset_mem m self x h1
      · cases hp : (Reset m self).Get other with
        | none => left; rw [h1, hp]
        | some a =>
          rw [hp] at h1
          rw [h1]
          exact Reset_mem m self _ (Memory.Get_mem hp)
    · exact Or.inl h0
  · exact Or.inr hx

/-- Operations only ever copy pointers that some handle already holds, or adopt the
object they have just created. -/
theorem PtrOp.apply_mem (m : Memory) (op : PtrOp) (x : Option Nat)
    (hx : x ∈ (op.apply m).handles) :
    x = none ∨ x ∈ m.handles ∨ x = some m.objects.length := by
  unfold PtrOp.apply at hx
  split at hx
  · cases op with
    | make =>
      simp only [PtrOp.exec, MakeHandle, List.mem_append, List.mem_singleton] at hx
      rcases hx with h1 | h1
      · exact Or.inr (Or.inl h1)
      · exact Or.inr (Or.inr h1)
    | copyConstruct other =>
      rcases copyAssign_mem _ _ _ x hx with h1 | h1
      · exact Or.inl h1
      · simp only [defaultConstruct, List.mem_append, List.mem_singleton] at h1
        rcases h1 with h2 | h2
        · exact Or.inr (Or.inl h2)
        · exact Or.inl h2
    | copyAssign self other =>
      rcases copyAssign_mem _ _ _ x hx with h1 | h1
      · exact Or.inl h1
      · exact Or.inr (Or.inl h1)
    | moveConstruct other =>
      rcases moveAssign_mem _ _ _ x hx with h1 | h1
      · exact Or.inl h1
      · simp only [defaultConstruct, List.mem_append, List.mem_singleton] at h1
        rcases h1 with h2 | h2
        · exact Or.inr (Or.inl h2)
        · exact Or.inl h2
    | moveAssign self other =>
      rcases moveAssign_mem _ _ _ x hx with h1 | h1
      · exact Or.inl h1
      · exact Or.inr (Or.inl h1)
    | reset self =>
      rcases Reset_mem _ _ x hx with h1 | h1
      · exact Or.inl h1
      · exact Or.inr (Or.inl h1)
    | destroy self =>
      rcases Reset_mem _ _ x hx with h1 | h1
      · exact Or.inl h1
      · exact Or.inr (Or.inl h1)
  · exact Or.inr (Or.inl hx)

/-- An existing object that no handle points at stays without handles. -/
theorem PtrOp.apply_owners_zero (m : Memory) (op : PtrOp) (a : Nat)
    (ha : a < m.objects.length) (hz : m.owners a = 0) : (op.apply m).owners a = 0 := by
  simp only [Memory.owners] at hz ⊢
  rw [List.count_eq_zero] at hz ⊢
  intro hx
  rcases PtrOp.apply_mem m op _ hx with h1 | h1 | h1
  · cases h1
  · exact hz h1
  · simp only [Option.some.injEq] at h1
    omega

theorem copyAssign_objects_length (m : Memory) (self other : Nat) :
    (copyAssign m self other).objects.length = m.objects.length := by
  unfold copyAssign
  split
  · dsimp only
    split <;> simp [Memory.call_objects_length, Memory.setData, Reset_objects_length]
  · rfl

theorem moveAssign_objects_length (m : Memory) (self other : Nat) :
    (moveAssign m self other).objects.length = m.objects.length := by
  unfold moveAssign
  split
  · simp [Memory.setData, Reset_objects_length]
  · rfl

/-- Objects are never removed from the store. -/
theorem PtrOp.apply_objects_length (m : Memory) (op : PtrOp) :
    m.objects.length ≤ (op.apply m).objects.length := by
  unfold PtrOp.apply
  split
  · cases op with
    | make => simp [PtrOp.exec, MakeHandle]
    | copyConstruct other =>
      simp [PtrOp.exec, tk.copyConstruct, copyAssign_objects_length, defaultConstruct]
    | copyAssign self other => simp [PtrOp.exec, copyAssign_objects_length]
    | moveConstruct other =>
      simp [PtrOp.exec, tk.moveConstruct, moveAssign_objects_length, defaultConstruct]
    | moveAssign self other => simp [PtrOp.exec, moveAssign_objects_length]
    | reset self => simp [PtrOp.exec, Reset_objects_length]
    | destroy self => simp [PtrOp.exec, tk.destroy, Reset_objects_length]
  · exact Nat.le_refl _

/-- In a consistent store the deleter count of an existing object is read off the
number of handles: 0 while a handle points at it, 1 afterwards. -/
theorem Memory.Inv.deleterCalls_eq {m : Memory} (hI : m.Inv) {a : Nat}
    (ha : a < m.objects.length) :
    m.deleterCalls a = if 1 ≤ m.owners a then 0 else 1 := by
  have hoa : m.objects[a]? = some m.objects[a] := List.getElem?_eq_getElem ha
  simp only [Memory.deleterCalls, hoa]
  rcases hI.obj a _ hoa with ⟨h1, h2, _⟩ | ⟨h1, h2, _⟩
  · simp [h1, h2]
  · simp [h1, h2]

/-- In a consistent store the reference count of a live object is its number of handles. -/
theorem Memory.Inv.refCount_eq {m : Memory} (hI : m.Inv) {a : Nat}
    (ha : a < m.objects.length) : m.refCount a = (m.owners a : Int) := by
  have hoa : m.objects[a]? = some m.objects[a] := List.getElem?_eq_getElem ha
  simp only [Memory.refCount, hoa]
  rcases hI.obj a _ hoa with ⟨_, _, h3⟩ | ⟨_, h2, h3⟩
  · exact h3
  · simp [h2, h3]

/-- Claim C3.  For every finite sequence of handle operations (adopting construction
of a fresh object, copy and move construction and assignment, Reset, destruction),
every object is, afterwards, either still pointed at by a handle, with its deleter
never invoked and its count equal to the number of handles, or pointed at by no handle
with its deleter invoked exactly once; and any further operation invokes the deleter
of an object exactly when it drops the last handle pointing at it, never otherwise. -/
theorem C3_deleter_exactly_once (ops : List PtrOp) :
    (∀ a, a < (runOps Memory.empty ops).objects.length →
      ((runOps Memory.empty ops).deleterCalls a = 0 ∧
        1 ≤ (runOps Memory.empty ops).owners a ∧
        (runOps Memory.empty ops).refCount a = ((runOps Memory.empty ops).owners a : Int)) ∨
      ((runOps Memory.empty ops).deleterCalls a = 1 ∧
        (runOps Memory.empty ops).owners a = 0)) ∧
    (∀ (op : PtrOp) (a : Nat), a < (runOps Memory.empty ops).objects.length →
      (op.apply (runOps Memory.empty ops)).deleterCalls a =
        (runOps Memory.empty ops).deleterCalls a +
          (if 1 ≤ (runOps Memory.empty ops).owners a ∧
              (op.apply (runOps Memory.empty ops)).owners a = 0 then 1 else 0)) := by
  have hI := runOps_inv ops Memory.empty Memory.empty_inv
  constructor
  · intro a ha
    rw [hI.deleterCalls_eq ha, hI.refCount_eq ha]
    by_cases h1 : 1 ≤ (runOps Memory.empty ops).owners a
    · left; simp [h1]
    · right; simp [h1]; omega
  · intro op a ha
    have hI2 := PtrOp.apply_inv _ op hI
    have ha2 := Nat.lt_of_lt_of_le ha (PtrOp.apply_objects_length (runOps Memory.empty ops) op)
    rw [hI.deleterCalls_eq ha, hI2.deleterCalls_eq ha2]
    by_cases h1 : 1 ≤ (runOps Memory.empty ops).owners a
    · by_cases h2 : (op.apply (runOps Memory.empty ops)).owners a = 0
      · simp [h1, h2]
      · have : 1 ≤ (op.apply (runOps Memory.empty ops)).owners a := by omega
        simp [h1, h2, this]
    · have hz : (runOps Memory.empty ops).owners a = 0 := by omega
      have := PtrOp.apply_owners_zero _ op a ha hz
      simp [hz, this]

theorem Memory.refCount_setData (m : Memory) (h : Nat) (p : Option Nat) (a : Nat) :
    (m.setData h p).refCount a = m.refCount a := rfl

theorem Memory.refCount_call_ne (m : Memory) (b a : Nat)
    (f : IntrusivePtrEnabled → IntrusivePtrEnabled) (hne : b ≠ a) :
    (m.call b f).refCount a = m.refCount a := by
  unfold Memory.call
  split
  · simp [Memory.refCount, List.getElem?_set_ne hne]
  · rfl

theorem Memory.refCount_call_add (m : Memory) (a : Nat) (ha : a < m.objects.length) :
    (m.call a IntrusivePtrEnabled.AddReference).refCount a = m.refCount a + 1 := by
  have hoa : m.objects[a]? = some m.objects[a] := List.getElem?_eq_getElem ha
  simp [Memory.call, hoa, Memory.refCount, ha, IntrusivePtrEnabled.AddReference,
    SingleThreadCounter.AddReference]

theorem Memory.refCount_call_release (m : Memory) (a : Nat) (ha : a < m.objects.length) :
    (m.call a IntrusivePtrEnabled.ReleaseReference).refCount a = m.refCount a - 1 := by
  have hoa : m.objects[a]? = some m.objects[a] := List.getElem?_eq_getElem ha
  simp only [Memory.call, hoa, Memory.refCount, List.getElem?_set, ha, if_true,
    IntrusivePtrEnabled.ReleaseReference, SingleThreadCounter.ReleaseReference]
  split <;> rfl

/-- Effect of `Reset` on the count of an object: one less if the handle pointed at it. -/
theorem Reset_refCount (m : Memory) (h a : Nat) (ha : a < m.objects.length) :
    (Reset m h).refCount a = if m.Get h = some a then m.refCount a - 1 else m.refCount a := by
  unfold Reset
  cases hg : m.Get h with
  | none => simp [Memory.refCount_setData]
  | some b =>
    simp only [Memory.refCount_setData, Option.some.injEq]
    by_cases e : b = a
    · subst e
      simp [Memory.refCount_call_release m b ha]
    · simp [e, Memory.refCount_call_ne m b a _ e]

theorem Memory.Get_setData_self (m : Memory) (h : Nat) (p : Option Nat)
    (hh : h < m.handles.length) : (m.setData h p).Get h = p := by
  simp [Memory.Get, Memory.setData, List.getElem?_set, hh]

theorem Memory.Get_setData_ne (m : Memory) (h k : Nat) (p : Option Nat) (hne : h ≠ k) :
    (m.setData h p).Get k = m.Get k := by
  simp [Memory.Get, Memory.setData, List.getElem?_set_ne hne]

theorem Memory.Get_call (m : Memory) (a k : Nat)
    (f : IntrusivePtrEnabled → IntrusivePtrEnabled) : (m.call a f).Get k = m.Get k := by
  simp [Memory.Get, Memory.call_handles]

/-- Copy assignment from a non-null handle, unfolded. -/
theorem copyAssign_of_some (m : Memory) (self other a : Nat) (hne : self ≠ other)
    (hs : self < m.handles.length) (ho : m.Get other = some a) :
    copyAssign m self other =
      ((Reset m self).setData self (some a)).call a IntrusivePtrEnabled.AddReference := by
  have h1 : (Reset m self).Get other = some a := by
    rw [Reset_Get_other m self other hne]; exact ho
  have hs1 : self < (Reset m self).handles.length := by
    rw [Reset_handles]; simpa using hs
  simp only [copyAssign, hne, ne_eq, not_false_eq_true, if_true, h1,
    Memory.Get_setData_self _ _ _ hs1]

/-- Move assignment from a non-null handle, unfolded. -/
theorem moveAssign_of_some (m : Memory) (self other a : Nat) (hne : self ≠ other)
    (ho : m.Get other = some a) :
    moveAssign m self other =
      ((Reset m self).setData self (some a)).setData other none := by
  have h1 : (Reset m self).Get other = some a := by
    rw [Reset_Get_other m self other hne]; exact ho
  simp only [moveAssign, hne, ne_eq, not_false_eq_true, if_true, h1]

/-- Effect of `n` calls of `AddReference` on a single-thread counter. -/
theorem SingleThreadCounter.single_iterate_add (c : SingleThreadCounter) (n : Nat) :
    (SingleThreadCounter.AddReference^[n] c).count = c.count + n := by
  induction n generalizing c with
  | zero => simp
  | succ n ih =>
    rw [Function.iterate_succ_apply, ih]
    simp [SingleThreadCounter.AddReference]
    ring

/-- `n` calls of `AddReference` on a multi-thread counter. -/
theorem MultiThreadCounter.multi_iterate_add (c : MultiThreadCounter) (n : Nat) :
    (MultiThreadCounter.AddReference^[n] c).count = c.count + n := by
  induction n generalizing c with
  | zero => simp
  | succ n ih =>
    rw [Function.iterate_succ_apply, ih]
    simp [MultiThreadCounter.AddReference]
    ring

/-- A single-thread counter holding `k + 1` answers `false` to the next `k` releases
and `true` to the one after. -/
theorem SingleThreadCounter.single_releaseResults_of_count (k : Nat) (c : SingleThreadCounter)
    (hc : c.count = k + 1) :
    c.releaseResults (k + 1) = List.replicate k false ++ [true] := by
  induction k generalizing c with
  | zero =>
    simp [SingleThreadCounter.releaseResults, SingleThreadCounter.ReleaseReference, hc]
  | succ k ih =>
    have h1 : (c.ReleaseReference).1.count = k + 1 := by
      simp [SingleThreadCounter.ReleaseReference, hc]
    have h2 : (c.ReleaseReference).2 = false := by
      simp [SingleThreadCounter.ReleaseReference, hc]
      omega
    rw [SingleThreadCounter.releaseResults, ih _ h1, h2]
    simp [List.replicate_succ]

/-- A multi-thread counter holding `k + 1` answers `false` to the next `k` releases
and `true` to the one after. -/
theorem MultiThreadCounter.multi_releaseResults_of_count (k : Nat) (c : MultiThreadCounter)
    (hc : c.count = k + 1) :
    c.releaseResults (k + 1) = List.replicate k false ++ [true] := by
  induction k generalizing c with
  | zero =>
    simp [MultiThreadCounter.releaseResults, MultiThreadCounter.ReleaseReference, hc]
  | succ k ih =>
    have h1 : (c.ReleaseReference).1.count = k + 1 := by
      simp [MultiThreadCounter.ReleaseReference, hc]
    have h2 : (c.ReleaseReference).2 = false := by
      simp [MultiThreadCounter.ReleaseReference, hc]
      omega
    rw [MultiThreadCounter.releaseResults, ih _ h1, h2]
    simp [List.replicate_succ]

/-- Claim C4.  A reference counter (single-thread, or multi-thread used from one thread)
starts at 1; `AddReference` adds exactly 1; `ReleaseReference` subtracts exactly 1 and
returns true exactly when the count after the decrement is 0; hence after `n` calls of
`AddReference` on a fresh counter the first `n` calls of `ReleaseReference` return false
and call `n + 1` returns true. -/
theorem C4_reference_counter :
    SingleThreadCounter.init.count = 1 ∧ MultiThreadCounter.init.count = 1 ∧
    (∀ c : SingleThreadCounter, c.AddReference.count = c.count + 1) ∧
    (∀ c : MultiThreadCounter, c.AddReference.count = c.count + 1) ∧
    (∀ c : SingleThreadCounter, (c.ReleaseReference).1.count = c.count - 1 ∧
      ((c.ReleaseReference).2 = true ↔ (c.ReleaseReference).1.count = 0)) ∧
    (∀ c : MultiThreadCounter, (c.ReleaseReference).1.count = c.count - 1 ∧
      ((c.ReleaseReference).2 = true ↔ (c.ReleaseReference).1.count = 0)) ∧
    (∀ n : Nat, (SingleThreadCounter.AddReference^[n] SingleThreadCounter.init).releaseResults
      (n + 1) = List.replicate n false ++ [true]) ∧
    (∀ n : Nat, (MultiThreadCounter.AddReference^[n] MultiThreadCounter.init).releaseResults
      (n + 1) = List.replicate n false ++ [true]) := by
  refine ⟨rfl, rfl, fun c => rfl, fun c => rfl, ?_, ?_, ?_, ?_⟩
  · intro c
    simp [SingleThreadCounter.ReleaseReference]
  · intro c
    simp [MultiThreadCounter.ReleaseReference]
    omega
  · intro n
    apply SingleThreadCounter.single_releaseResults_of_count
    rw [SingleThreadCounter.single_iterate_add]
    simp [SingleThreadCounter.init]
    ring
  · intro n
    apply MultiThreadCounter.multi_releaseResults_of_count
    rw [MultiThreadCounter.multi_iterate_add]
    simp [MultiThreadCounter.init]
    ring

/-- Copy assignment from a non-null handle other than itself: effect on the count of
the pointee, on the destination and on the source. -/
theorem copyAssign_effect (m : Memory) (self other a : Nat) (hne : self ≠ other)
    (hs : self < m.handles.length) (ho : m.Get other = some a) (ha : a < m.objects.length) :
    (copyAssign m self other).refCount a
        = (if m.Get self = some a then m.refCount a else m.refCount a + 1) ∧
      (copyAssign m self other).Get self = some a ∧
      (copyAssign m self other).Get other = some a := by
  have hs1 : self < (Reset m self).handles.length := by
    rw [Reset_handles]; simpa using hs
  rw [copyAssign_of_some m self other a hne hs ho]
  refine ⟨?_, ?_, ?_⟩
  · rw [Memory.refCount_call_add _ _ (by simpa [Memory.setData, Reset_objects_length] using ha),
      Memory.refCount_setData, Reset_refCount m self a ha]
    split <;> ring
  · rw [Memory.Get_call, Memory.Get_setData_self _ _ _ hs1]
  · rw [Memory.Get_call, Memory.Get_setData_ne _ _ _ _ hne, Reset_Get_other m self other hne, ho]

/-- Move assignment from a non-null handle other than itself: effect on the count of
the pointee, on the destination and on the source. -/
theorem moveAssign_effect (m : Memory) (self other a : Nat) (hne : self ≠ other)
    (hs : self < m.handles.length) (ho : m.Get other = some a) (ha : a < m.objects.length) :
    (moveAssign m self other).refCount a
        = (if m.Get self = some a then m.refCount a - 1 else m.refCount a) ∧
      (moveAssign m self other).Get self = some a ∧
      (moveAssign m self other).Get other = none := by
  have hs1 : self < (Reset m self).handles.length := by
    rw [Reset_handles]; simpa using hs
  have ho0 : other < m.handles.length := by
    have := Memory.Get_eq_some.mp ho
    exact (List.getElem?_eq_some.mp this).1
  rw [moveAssign_of_some m self other a hne ho]
  refine ⟨?_, ?_, ?_⟩
  · rw [Memory.refCount_setData, Memory.refCount_setData, Reset_refCount m self a ha]
  · rw [Memory.Get_setData_ne _ _ _ _ (Ne.symm hne), Memory.Get_setData_self _ _ _ hs1]
  · rw [Memory.Get_setData_self]
    simpa [Memory.setData, Reset_handles] using ho0

theorem defaultConstruct_Get (m : Memory) (k : Nat) (hk : k < m.handles.length) :
    (defaultConstruct m).Get k = m.Get k := by
  simp [Memory.Get, defaultConstruct, List.getElem?_append, hk]

theorem defaultConstruct_Get_new (m : Memory) :
    (defaultConstruct m).Get m.handles.length = none := by
  simp [Memory.Get, defaultConstruct, List.getElem?_append]

/-- Claim C5, amended.  For a destination handle and a non-null source handle other than
it: copy assignment raises the count of the source's object by exactly 1 unless the
destination already points at that object, in which case the count is unchanged; copy
construction always raises it by exactly 1; both leave the source unchanged and make
the destination point at the object.  Move assignment leaves the count unchanged
unless the destination already points at that object, in which case the count drops
by 1; move construction leaves it unchanged; both make the destination point at the
object and leave the source null.  Copy- or move-assigning a handle to itself changes
nothing. -/
theorem C5_copy_move_amended (m : Memory) (self other a : Nat) (hne : self ≠ other)
    (hs : self < m.handles.length) (ho : m.Get other = some a) (ha : a < m.objects.length) :
    ((copyAssign m self other).refCount a
          = (if m.Get self = some a then m.refCount a else m.refCount a + 1) ∧
        (copyAssign m self other).Get self = some a ∧
        (copyAssign m self other).Get other = some a) ∧
      ((copyConstruct m other).refCount a = m.refCount a + 1 ∧
        (copyConstruct m other).Get m.handles.length = some a ∧
        (copyConstruct m other).Get other = some a) ∧
      ((moveAssign m self other).refCount a
          = (if m.Get self = some a then m.refCount a - 1 else m.refCount a) ∧
        (moveAssign m self other).Get self = some a ∧
        (moveAssign m self other).Get other = none) ∧
      ((moveConstruct m other).refCount a = m.refCount a ∧
        (moveConstruct m other).Get m.handles.length = some a ∧
        (moveConstruct m other).Get other = none) ∧
      copyAssign m self self = m ∧ moveAssign m self self = m := by
  have ho0 : other < m.handles.length := by
    have := Memory.Get_eq_some.mp ho
    exact (List.getElem?_eq_some.mp this).1
  have hlen : m.handles.length ≠ other := by omega
  have hd1 : m.handles.length < (defaultConstruct m).handles.length := by
    simp [defaultConstruct]
  have hd2 : (defaultConstruct m).Get other = some a := by
    rw [defaultConstruct_Get m other ho0]; exact ho
  have hd3 : ¬ ((defaultConstruct m).Get m.handles.length = some a) := by
    rw [defaultConstruct_Get_new]; simp
  have hc := copyAssign_effect (defaultConstruct m) m.handles.length other a hlen hd1 hd2 ha
  have hm := moveAssign_effect (defaultConstruct m) m.handles.length other a hlen hd1 hd2 ha
  rw [if_neg hd3] at hc hm
  refine ⟨copyAssign_effect m self other a hne hs ho ha, hc,
    moveAssign_effect m self other a hne hs ho ha, hm, ?_, ?_⟩
  · simp [copyAssign]
  · simp [moveAssign]

/-- Claim C5, witness: two handles owning two different objects. -/
theorem C5_copy_move_amended_witness :
    ((1 : Nat) ≠ 0 ∧ 1 < twoObjectStore.handles.length ∧ twoObjectStore.Get 0 = some 0 ∧
      0 < twoObjectStore.objects.length) ∧
    (((copyAssign twoObjectStore 1 0).refCount 0
          = (if twoObjectStore.Get 1 = some 0 then twoObjectStore.refCount 0 else twoObjectStore.refCount 0 + 1) ∧
        (copyAssign twoObjectStore 1 0).Get 1 = some 0 ∧
        (copyAssign twoObjectStore 1 0).Get 0 = some 0) ∧
      ((copyConstruct twoObjectStore 0).refCount 0 = twoObjectStore.refCount 0 + 1 ∧
        (copyConstruct twoObjectStore 0).Get twoObjectStore.handles.length = some 0 ∧
        (copyConstruct twoObjectStore 0).Get 0 = some 0) ∧
      ((moveAssign twoObjectStore 1 0).refCount 0
          = (if twoObjectStore.Get 1 = some 0 then twoObjectStore.refCount 0 - 1 else twoObjectStore.refCount 0) ∧
        (moveAssign twoObjectStore 1 0).Get 1 = some 0 ∧
        (moveAssign twoObjectStore 1 0).Get 0 = none) ∧
      ((moveConstruct twoObjectStore 0).refCount 0 = twoObjectStore.refCount 0 ∧
        (moveConstruct twoObjectStore 0).Get twoObjectStore.handles.length = some 0 ∧
        (moveConstruct twoObjectStore 0).Get 0 = none) ∧
      copyAssign twoObjectStore 1 1 = twoObjectStore ∧ moveAssign twoObjectStore 1 1 = twoObjectStore) :=
  ⟨by decide, C5_copy_move_amended twoObjectStore 1 0 0 (by decide) (by decide) (by decide)
    (by decide)⟩

/-- Claim C5, counterexample.  Handles 0 and 1 share one object, whose count is 2.
Copy-assigning handle 1 from the non-null handle 0 leaves the count at 2 instead of
raising it by 1, and move-assigning handle 1 from handle 0 lowers it to 1 instead of
leaving it unchanged. -/
theorem C5_counterexample :
    (1 : Nat) ≠ 0 ∧ sharedStore.Get 0 = some 0 ∧ sharedStore.refCount 0 = 2 ∧
    (copyAssign sharedStore 1 0).refCount 0 = 2 ∧
    (copyAssign sharedStore 1 0).refCount 0 ≠ sharedStore.refCount 0 + 1 ∧
    (moveAssign sharedStore 1 0).refCount 0 = 1 ∧
    (moveAssign sharedStore 1 0).refCount 0 ≠ sharedStore.refCount 0 := by
  decide

/-- Claim C8.  Calling `SetCullMode`, `SetDepthBiasEnabled`, `SetDepthCompareOp`,
`SetDepthWrite`, `SetFrontFace`, `SetPrimitiveTopology`, `SetTessellationControlPoints`,
`SetVertexAttribute`, `SetVertexBinding` or `SetProgram` with the value(s) already
tracked leaves the whole command-buffer state, dirty masks and bound pipeline
included, unchanged, in every state. -/
theorem C8_same_value_is_noop :
    (∀ s : CommandBuffer, s.SetCullMode s.pipelineCompileInfo.StaticState.CullMode = s) ∧
    (∀ (s : CommandBuffer) (b : Bool),
      s.pipelineCompileInfo.StaticState.DepthBiasEnable = b.toNat →
        s.SetDepthBiasEnabled b = s) ∧
    (∀ s : CommandBuffer,
      s.SetDepthCompareOp s.pipelineCompileInfo.StaticState.DepthCompare = s) ∧
    (∀ (s : CommandBuffer) (b : Bool),
      s.pipelineCompileInfo.StaticState.DepthWrite = b.toNat → s.SetDepthWrite b = s) ∧
    (∀ s : CommandBuffer, s.SetFrontFace s.pipelineCompileInfo.StaticState.FrontFace = s) ∧
    (∀ s : CommandBuffer,
      s.SetPrimitiveTopology s.pipelineCompileInfo.StaticState.Topology = s) ∧
    (∀ s : CommandBuffer,
      s.SetTessellationControlPoints
        s.pipelineCompileInfo.StaticState.TessellationControlPoints = s) ∧
    (∀ (s : CommandBuffer) (attributeIndex binding format offset : Nat),
      s.pipelineCompileInfo.VertexAttributes[attributeIndex]? = some ⟨binding, format, offset⟩ →
        s.SetVertexAttribute attributeIndex binding format offset = some s) ∧
    (∀ (s : CommandBuffer) (binding : Nat) (buffer : Buffer) (offset stride inputRate : Nat),
      s.vertexBindings.Buffers[binding]? = some buffer.buffer →
      s.vertexBindings.Offsets[binding]? = some offset →
      s.pipelineCompileInfo.VertexStrides[binding]? = some stride →
      s.pipelineCompileInfo.VertexInputRates[binding]? = some inputRate →
        s.SetVertexBinding binding buffer offset stride inputRate = some s) ∧
    (∀ (t : ObjectTable) (s : CommandBuffer),
      s.SetProgram t s.pipelineCompileInfo.Program = s) := by
  refine ⟨?_, ?_, ?_, ?_, ?_, ?_, ?_, ?_, ?_, ?_⟩
  · intro s; simp [CommandBuffer.SetCullMode]
  · intro s b h; simp [CommandBuffer.SetDepthBiasEnabled, h]
  · intro s; simp [CommandBuffer.SetDepthCompareOp]
  · intro s b h; simp [CommandBuffer.SetDepthWrite, h]
  · intro s; simp [CommandBuffer.SetFrontFace]
  · intro s; simp [CommandBuffer.SetPrimitiveTopology]
  · intro s; simp [CommandBuffer.SetTessellationControlPoints]
  · intro s attributeIndex binding format offset h
    simp only [CommandBuffer.SetVertexAttribute, h, ne_eq, not_true_eq_false, or_self,
      if_false, list_set_same _ _ _ h]
  · intro s binding buffer offset stride inputRate h1 h2 h3 h4
    simp only [CommandBuffer.SetVertexBinding, h1, h2, h3, h4, ne_eq, not_true_eq_false,
      or_self, if_false, list_set_same _ _ _ h1, list_set_same _ _ _ h2,
      list_set_same _ _ _ h3, list_set_same _ _ _ h4]
  · intro t s; simp [CommandBuffer.SetProgram]

/-- Claim C8, witness: the setters applied to a freshly created command buffer with the
values its constructor has set. -/
theorem C8_same_value_is_noop_witness :
    (CommandBuffer.create 0 0).SetDepthBiasEnabled false = CommandBuffer.create 0 0 ∧
    (CommandBuffer.create 0 0).SetDepthWrite true = CommandBuffer.create 0 0 ∧
    (CommandBuffer.create 0 0).SetVertexAttribute 3 0 0 0 = some (CommandBuffer.create 0 0) ∧
    (CommandBuffer.create 0 0).SetVertexBinding 5 ⟨16, 0, 256⟩ 0 0 0
      = some (CommandBuffer.create 0 0) :=
  ⟨C8_same_value_is_noop.2.1 _ false (by decide),
    C8_same_value_is_noop.2.2.2.1 _ true (by decide),
    C8_same_value_is_noop.2.2.2.2.2.2.2.1 _ 3 0 0 0 (by decide),
    C8_same_value_is_noop.2.2.2.2.2.2.2.2.1 _ 5 ⟨16, 0, 256⟩ 0 0 0 (by decide) (by decide)
      (by decide) (by decide)⟩

/-- Claim C9, amended.  `SetScissor` stores the rectangle and always turns the Scissor
bit of the dirty mask on, also when the rectangle is the one already tracked: the dirty
mask afterwards is the mask before with the Scissor bit set, no other bit changes and
nothing else of the state changes; hence the mask is unchanged exactly when the Scissor
bit was set before the call. -/
theorem C9_scissor_amended (s : CommandBuffer) (scissor : Rect2D) :
    (s.SetScissor scissor).dirty = s.dirty ||| DirtyScissor ∧
    (s.SetScissor scissor).scissor = scissor ∧
    s.SetScissor s.scissor = { s with dirty := s.dirty ||| DirtyScissor } ∧
    (s.SetScissor scissor).dirty.testBit 3 = true ∧
    (∀ i, i ≠ 3 → (s.SetScissor scissor).dirty.testBit i = s.dirty.testBit i) ∧
    ((s.SetScissor s.scissor).dirty = s.dirty ↔ s.dirty.testBit 3 = true) := by
  have hbit : ∀ i, DirtyScissor.testBit i = decide (i = 3) := by
    intro i
    have : DirtyScissor = 2 ^ 3 := rfl
    rw [this, Nat.testBit_two_pow]
    by_cases h : i = 3
    · simp [h]
    · simp [h, Ne.symm h]
  refine ⟨rfl, rfl, rfl, ?_, ?_, ?_⟩
  · simp [CommandBuffer.SetScissor, Nat.testBit_or, hbit]
  · intro i hi
    simp [CommandBuffer.SetScissor, Nat.testBit_or, hbit, hi]
  · simp only [CommandBuffer.SetScissor]
    constructor
    · intro h
      rw [← h, Nat.testBit_or, hbit]
      simp
    · intro h
      apply Nat.eq_of_testBit_eq
      intro i
      rw [Nat.testBit_or, hbit]
      by_cases hi : i = 3
      · simp [hi, h]
      · simp [hi]

/-- Claim C9, counterexample.  In a command buffer whose dirty mask is clear, calling
`SetScissor` with the rectangle already tracked sets the Scissor bit: the dirty mask
goes from 0 to 8. -/
theorem C9_counterexample :
    flushedCommandBuffer.dirty = 0 ∧
    (flushedCommandBuffer.SetScissor flushedCommandBuffer.scissor).dirty = DirtyScissor ∧
    (flushedCommandBuffer.SetScissor flushedCommandBuffer.scissor).dirty
      ≠ flushedCommandBuffer.dirty := by
  decide

/-- Claim C10, the code at the failing input.  A command buffer tracks the first 64
bytes of a buffer at set 0, binding 0, and no descriptor set is dirty.  Binding the
same buffer with the same range at offset 64, through `SetUniformBuffer` or
`SetStorageBuffer`, returns early: the tracked offset stays 0 instead of becoming 64,
and bit 0 of the dirty descriptor-set mask stays clear. -/
theorem C10_offset_change_ignored :
    boundCommandBuffer.trackedBuffer 0 0 = some ⟨7, 0, 64⟩ ∧
    boundCommandBuffer.trackedCookie 0 0 = some 16 ∧
    boundCommandBuffer.dirtyDescriptorSets = 0 ∧
    boundCommandBuffer.SetUniformBuffer 0 0 sampleBuffer 64 64 = some boundCommandBuffer ∧
    boundCommandBuffer.SetStorageBuffer 0 0 sampleBuffer 64 64 = some boundCommandBuffer := by
  decide

theorem findHash_some {α : Type} (es : List (Nat × α)) (hash p : Nat)
    (h : findHash es hash = some p) : ∃ x, es[p]? = some (hash, x) := by
  induction es generalizing p with
  | nil => simp [findHash] at h
  | cons e es ih =>
    simp only [findHash] at h
    split at h
    · rename_i he
      simp only [Option.some.injEq] at h
      subst h
      exact ⟨e.2, by simp [← he]⟩
    · cases hf : findHash es hash with
      | none => simp [hf] at h
      | some q =>
        simp only [hf, Option.map_some', Option.some.injEq] at h
        subst h
        obtain ⟨x, hx⟩ := ih q hf
        exact ⟨x, by simpa using hx⟩

theorem findHash_append_some {α : Type} (es more : List (Nat × α)) (hash p : Nat)
    (h : findHash es hash = some p) : findHash (es ++ more) hash = some p := by
  induction es generalizing p with
  | nil => simp [findHash] at h
  | cons e es ih =>
    simp only [findHash, List.cons_append] at h ⊢
    split
    · rename_i he
      simpa [he] using h
    · rename_i he
      simp only [he, if_false] at h
      cases hf : findHash es hash with
      | none => simp [hf] at h
      | some q =>
        simp only [hf, Option.map_some', Option.some.injEq] at h
        simp [ih q hf, h]

theorem findHash_append_none {α : Type} (es : List (Nat × α)) (hash : Nat) (x : α)
    (h : findHash es hash = none) : findHash (es ++ [(hash, x)]) hash = some es.length := by
  induction es with
  | nil => simp [findHash]
  | cons e es ih =>
    simp only [findHash, List.cons_append] at h ⊢
    split
    · rename_i he
      simp [he] at h
    · rename_i he
      simp only [he, if_false] at h
      cases hf : findHash es hash with
      | none => simp [ih hf]
      | some q => simp [hf] at h

theorem findHash_none {α : Type} (es : List (Nat × α)) (hash : Nat)
    (h : findHash es hash = none) : ∀ e ∈ es, e.1 ≠ hash := by
  induction es with
  | nil => simp
  | cons e es ih =>
    simp only [findHash] at h
    split at h
    · cases h
    · rename_i he
      cases hf : findHash es hash with
      | none =>
        intro e2 he2
        rcases List.mem_cons.mp he2 with h1 | h1
        · rw [h1]; exact he
        · exact ih hf e2 h1
      | some q => simp [hf] at h

theorem RequestSampler_eq (hashOf : SamplerCreateInfo → Nat)
    (c : VulkanCache SamplerCreateInfo) (x : SamplerCreateInfo) :
    RequestSampler hashOf c x = requestCached hashOf c x := rfl

theorem RequestShader_eq (hashOf : List Nat → Nat)
    (c : VulkanCache (List Nat)) (x : List Nat) :
    RequestShader hashOf c x = requestCached hashOf c x := rfl

/-- A request only ever appends to the cache, and afterwards the object it returned is
the one found under the hash of the request. -/
theorem requestCached_spec {α : Type} (hashOf : α → Nat) (c : VulkanCache α) (x : α) :
    (∃ more, (requestCached hashOf c x).1.entries = c.entries ++ more) ∧
    (requestCached hashOf c x).1.Find (hashOf x) = some (requestCached hashOf c x).2 := by
  unfold requestCached
  cases hf : c.Find (hashOf x) with
  | some p => exact ⟨⟨[], by simp⟩, hf⟩
  | none =>
    simp only [VulkanCache.EmplaceYield, hf]
    exact ⟨⟨[(hashOf x, x)], rfl⟩, findHash_append_none _ _ _ hf⟩

/-- What is found under a hash stays found, at the same address, after a request. -/
theorem requestCached_Find_mono {α : Type} (hashOf : α → Nat) (c : VulkanCache α) (x : α)
    (hash p : Nat) (h : c.Find hash = some p) :
    (requestCached hashOf c x).1.Find hash = some p := by
  obtain ⟨more, hm⟩ := (requestCached_spec hashOf c x).1
  simp only [VulkanCache.Find] at h ⊢
  rw [hm]
  exact findHash_append_some _ _ _ _ h

/-- A request whose hash is present returns what is found and leaves the cache alone. -/
theorem requestCached_of_Find {α : Type} (hashOf : α → Nat) (c : VulkanCache α) (x : α)
    (p : Nat) (h : c.Find (hashOf x) = some p) : requestCached hashOf c x = (c, p) := by
  simp [requestCached, h]

theorem foldl_Find_mono {α : Type} (hashOf : α → Nat) (others : List α) (c : VulkanCache α)
    (hash p : Nat) (h : c.Find hash = some p) :
    (others.foldl (fun c x => (requestCached hashOf c x).1) c).Find hash = some p := by
  induction others generalizing c with
  | nil => exact h
  | cons o os ih => exact ih _ (requestCached_Find_mono hashOf c o hash p h)

theorem VulkanCache.Sound.request {α : Type} (hashOf : α → Nat) (c : VulkanCache α) (x : α)
    (hS : c.Sound hashOf) : (requestCached hashOf c x).1.Sound hashOf := by
  unfold requestCached
  cases hf : c.Find (hashOf x) with
  | some p => exact hS
  | none =>
    simp only [VulkanCache.EmplaceYield, hf]
    constructor
    · intro e he
      simp only [List.mem_append, List.mem_singleton] at he
      rcases he with h1 | h1
      · exact hS.keyed e h1
      · rw [h1]
    · simp only [List.map_append, List.map_cons, List.map_nil]
      rw [List.nodup_append]
      refine ⟨hS.nodup, List.nodup_singleton _, ?_⟩
      intro a ha hb
      simp only [List.mem_singleton] at hb
      subst hb
      obtain ⟨e, he, hea⟩ := List.mem_map.mp ha
      exact findHash_none _ _ hf e he hea

theorem requestSamplers_sound (hashOf : SamplerCreateInfo → Nat)
    (requests : List SamplerCreateInfo) (c : VulkanCache SamplerCreateInfo)
    (hS : c.Sound hashOf) : (requestSamplers hashOf c requests).Sound hashOf := by
  induction requests generalizing c with
  | nil => exact hS
  | cons r rs ih => exact ih _ (VulkanCache.Sound.request hashOf c r hS)

/-- In a sound cache at most one entry was built from a given value. -/
theorem VulkanCache.Sound.built_once {α : Type} [DecidableEq α] (hashOf : α → Nat)
    (c : VulkanCache α) (hS : c.Sound hashOf) (x : α) :
    c.entries.countP (fun e => decide (e.2 = x)) ≤ 1 := by
  have h1 : c.entries.countP (fun e => decide (e.2 = x))
      ≤ c.entries.countP (fun e => decide (e.1 = hashOf x)) := by
    apply List.countP_mono_left
    intro e he h
    simp only [decide_eq_true_eq] at h ⊢
    rw [hS.keyed e he, h]
  have h2 : c.entries.countP (fun e => decide (e.1 = hashOf x))
      = (c.entries.map Prod.fst).count (hashOf x) := by
    rw [List.count_eq_countP, List.countP_map]
    congr 1
  have h3 := List.nodup_iff_count_le_one.mp hS.nodup (hashOf x)
  omega

/-- Two requests, with any requests in between: the instances returned are the same
exactly when the hashes of the two requests are the same. -/
theorem requestCached_same_iff {α : Type} (hashOf : α → Nat) (c : VulkanCache α)
    (x y : α) (others : List α) :
    ((requestCached hashOf
        (others.foldl (fun c z => (requestCached hashOf c z).1) (requestCached hashOf c x).1)
        y).2 = (requestCached hashOf c x).2) ↔ hashOf y = hashOf x := by
  have h1 := (requestCached_spec hashOf c x).2
  have h2 := foldl_Find_mono hashOf others _ _ _ h1
  constructor
  · intro hp
    have h3 := requestCached_Find_mono hashOf _ y _ _ h2
    have h4 := (requestCached_spec hashOf
      (others.foldl (fun c z => (requestCached hashOf c z).1) (requestCached hashOf c x).1)
      y).2
    rw [hp] at h4
    obtain ⟨a, ha⟩ := findHash_some _ _ _ h3
    obtain ⟨b, hb⟩ := findHash_some _ _ _ h4
    rw [ha] at hb
    simp only [Option.some.injEq, Prod.mk.injEq] at hb
    exact hb.1.symm
  · intro hh
    rw [← hh] at h2
    rw [requestCached_of_Find hashOf _ y _ h2]

/-- Distinct candidates below `2^66` are distinct create infos. -/
theorem collisionCandidate_injective (m n : Nat) (hm : m < 2 ^ 66) (hn : n < 2 ^ 66)
    (h : collisionCandidate m = collisionCandidate n) : m = n := by
  simp only [collisionCandidate, SamplerCreateInfo.default, SamplerCreateInfo.mk.injEq,
    true_and] at h
  obtain ⟨h1, h2, h3⟩ := h
  norm_num at h1 h2 h3 hm hn
  omega

theorem collisionCandidate_fits (n : Nat) : (collisionCandidate n).fits := by
  simp only [collisionCandidate, SamplerCreateInfo.default, SamplerCreateInfo.fits]
  norm_num
  refine ⟨?_, ?_, ?_⟩ <;> omega

/-- Claim C7, amended.  With any requests in between, two `RequestSampler` calls return
the same instance exactly when the hashes of their create infos are equal, and two
`RequestShader` calls return the same instance exactly when the hashes of their code
blobs are equal: requests whose hashes differ get different instances, and requests
for different parameters with one hash share the instance built for the first. -/
theorem C7_instances_follow_hashes (hashSampler : SamplerCreateInfo → Nat)
    (samplers : VulkanCache SamplerCreateInfo) (first second : SamplerCreateInfo)
    (others : List SamplerCreateInfo) (hashShader : List Nat → Nat)
    (shaders : VulkanCache (List Nat)) (firstCode secondCode : List Nat)
    (otherCodes : List (List Nat)) :
    (((RequestSampler hashSampler
        (requestSamplers hashSampler (RequestSampler hashSampler samplers first).1 others)
        second).2 = (RequestSampler hashSampler samplers first).2)
      ↔ hashSampler second = hashSampler first) ∧
    (((RequestShader hashShader
        (requestShaders hashShader (RequestShader hashShader shaders firstCode).1 otherCodes)
        secondCode).2 = (RequestShader hashShader shaders firstCode).2)
      ↔ hashShader secondCode = hashShader firstCode) :=
  ⟨requestCached_same_iff hashSampler samplers first second others,
    requestCached_same_iff hashShader shaders firstCode secondCode otherCodes⟩

/-- Claim C7, counterexample.  No 64-bit hash makes the claim true: whatever the hash
function, as long as its values fit 64 bits, there are two create infos, made of 32-bit
members and different from each other, for which the second `RequestSampler` call hands
back the sampler built from the first. -/
theorem C7_counterexample :
    ¬ ∃ hashOf : SamplerCreateInfo → Nat, (∀ c, hashOf c < 2 ^ 64) ∧
      ∀ (samplers : VulkanCache SamplerCreateInfo) (first second : SamplerCreateInfo),
        first.fits → second.fits → first ≠ second →
          (RequestSampler hashOf (RequestSampler hashOf samplers first).1 second).2
            ≠ (RequestSampler hashOf samplers first).2 := by
  rintro ⟨hashOf, hb, hcl⟩
  let f : Fin (2 ^ 64 + 1) → Fin (2 ^ 64) :=
    fun n => ⟨hashOf (collisionCandidate n.val), hb _⟩
  have hcard : Fintype.card (Fin (2 ^ 64)) < Fintype.card (Fin (2 ^ 64 + 1)) := by
    simp only [Fintype.card_fin]
    omega
  obtain ⟨x, y, hxy, hf⟩ := Fintype.exists_ne_map_eq_of_card_lt f hcard
  have hh : hashOf (collisionCandidate y.val) = hashOf (collisionCandidate x.val) := by
    have := congrArg Fin.val hf
    simpa [f] using this.symm
  have hne : collisionCandidate x.val ≠ collisionCandidate y.val := by
    intro hc
    apply hxy
    apply Fin.ext
    have hx := x.isLt
    have hy := y.isLt
    exact collisionCandidate_injective _ _ (by omega) (by omega) hc
  apply hcl ⟨[]⟩ _ _ (collisionCandidate_fits x.val) (collisionCandidate_fits y.val) hne
  exact (requestCached_same_iff hashOf ⟨[]⟩ (collisionCandidate x.val)
    (collisionCandidate y.val) []).mpr hh

theorem allCommandBuffers_set_same (batches : List SubmitBatch) (i : Nat) (b b2 : SubmitBatch)
    (hb : batches[i]? = some b) (h : b2.CommandBuffers = b.CommandBuffers) :
    allCommandBuffers (batches.set i b2) = allCommandBuffers batches := by
  induction batches generalizing i with
  | nil => simp at hb
  | cons x xs ih =>
    cases i with
    | zero =>
      simp only [List.getElem?_cons_zero, Option.some.injEq] at hb
      subst hb
      simp [allCommandBuffers, h]
    | succ i =>
      simp only [List.getElem?_cons_succ] at hb
      simp [allCommandBuffers, ih i hb]

theorem allCommandBuffers_of_empty (xs : List SubmitBatch)
    (h : ∀ (j : Nat) (b : SubmitBatch), xs[j]? = some b → b.CommandBuffers = []) :
    allCommandBuffers xs = [] := by
  induction xs with
  | nil => rfl
  | cons y ys ih =>
    have hy := h 0 y (by simp)
    simp only [allCommandBuffers, hy, List.nil_append]
    exact ih (fun j b hb => h (j + 1) b (by simpa using hb))

theorem allCommandBuffers_push (batches : List SubmitBatch) (i : Nat) (b : SubmitBatch)
    (c : Nat) (hb : batches[i]? = some b)
    (hempty : ∀ j b2, i < j → batches[j]? = some b2 → b2.CommandBuffers = []) :
    allCommandBuffers (batches.set i { b with CommandBuffers := b.CommandBuffers ++ [c] })
      = allCommandBuffers batches ++ [c] := by
  induction batches generalizing i with
  | nil => simp at hb
  | cons x xs ih =>
    cases i with
    | zero =>
      simp only [List.getElem?_cons_zero, Option.some.injEq] at hb
      subst hb
      have hz : allCommandBuffers xs = [] :=
        allCommandBuffers_of_empty xs
          (fun j b2 hb2 => hempty (j + 1) b2 (by omega) (by simpa using hb2))
      simp [allCommandBuffers, hz]
    | succ i =>
      simp only [List.getElem?_cons_succ] at hb
      have := ih i hb (fun j b2 hj hb2 => hempty (j + 1) b2 (by omega) (by simpa using hb2))
      simp [allCommandBuffers, this]

theorem EmptyBeyond.set {batches : List SubmitBatch} {i : Nat} (h : EmptyBeyond batches i)
    (b2 : SubmitBatch) : EmptyBeyond (batches.set i b2) i := by
  intro j b hj hb
  rw [List.getElem?_set_ne (by omega)] at hb
  exact h j b hj hb

theorem EmptyBeyond.mono {batches : List SubmitBatch} {i k : Nat} (h : EmptyBeyond batches i)
    (hik : i ≤ k) : EmptyBeyond batches k := by
  intro j b hj hb
  exact h j b (by omega) hb

/-- What a write to the current batch that keeps its command buffers does. -/
theorem SubmitState.modifyBatch_keep (st st2 : SubmitState) (f : SubmitBatch → SubmitBatch)
    (h : st.modifyBatch f = some st2)
    (hf : ∀ b, (f b).CommandBuffers = b.CommandBuffers) :
    st2.device = st.device ∧ st2.batch = st.batch ∧
    st2.batches.length = st.batches.length ∧
    allCommandBuffers st2.batches = allCommandBuffers st.batches ∧
    (EmptyBeyond st.batches st.batch → EmptyBeyond st2.batches st2.batch) := by
  unfold SubmitState.modifyBatch at h
  split at h
  · rename_i b hb
    simp only [Option.some.injEq] at h
    subst h
    refine ⟨rfl, rfl, by simp, allCommandBuffers_set_same _ _ _ _ hb (hf b), ?_⟩
    intro he
    exact he.set _
  · cases h

/-- What the push of a command buffer on the current batch does. -/
theorem SubmitState.pushCommandBuffer_eq (st st2 : SubmitState) (c : Nat)
    (he : EmptyBeyond st.batches st.batch) (h : st.pushCommandBuffer c = some st2) :
    st2.device = st.device ∧ st2.batch = st.batch ∧
    st2.batches.length = st.batches.length ∧
    allCommandBuffers st2.batches = allCommandBuffers st.batches ++ [c] ∧
    EmptyBeyond st2.batches st2.batch := by
  unfold SubmitState.pushCommandBuffer SubmitState.modifyBatch at h
  split at h
  · rename_i b hb
    simp only [Option.some.injEq] at h
    subst h
    refine ⟨rfl, rfl, by simp, ?_, he.set _⟩
    exact allCommandBuffers_push _ _ _ _ hb (fun j b2 hj hb2 => (he j b2 hj hb2).1)
  · cases h

theorem SubmitState.nextBatchIfSignalled_eq (st st2 : SubmitState)
    (h : st.nextBatchIfSignalled = some st2) :
    st2.device = st.device ∧ st2.batches = st.batches ∧ st.batch ≤ st2.batch := by
  unfold SubmitState.nextBatchIfSignalled at h
  split at h
  · cases h
  · split at h
    · split at h
      · simp only [Option.some.injEq] at h
        subst h
        exact ⟨rfl, rfl, by simp⟩
      · cases h
    · simp only [Option.some.injEq] at h
      subst h
      exact ⟨rfl, rfl, Nat.le_refl _⟩

theorem FrameContext.Extends.extends_refl (f : FrameContext) : f.Extends f :=
  ⟨⟨[], by simp⟩, ⟨[], by simp⟩, ⟨[], by simp⟩, ⟨[], by simp⟩, ⟨[], by simp⟩⟩

theorem FrameContext.Extends.of_same {f f2 : FrameContext}
    (h1 : f2.BuffersToDestroy = f.BuffersToDestroy)
    (h2 : f2.ImagesToDestroy = f.ImagesToDestroy)
    (h3 : f2.ImageViewsToDestroy = f.ImageViewsToDestroy)
    (h4 : f2.MemoryToFree = f.MemoryToFree)
    (h5 : f2.SemaphoresToDestroy = f.SemaphoresToDestroy) : f.Extends f2 :=
  ⟨⟨[], by simp [h1]⟩, ⟨[], by simp [h2]⟩, ⟨[], by simp [h3]⟩, ⟨[], by simp [h4]⟩,
    ⟨[], by simp [h5]⟩⟩

theorem FrameContext.Extends.extends_trans {f g h : FrameContext} (h1 : f.Extends g)
    (h2 : g.Extends h) : f.Extends h := by
  obtain ⟨⟨a1, ha1⟩, ⟨a2, ha2⟩, ⟨a3, ha3⟩, ⟨a4, ha4⟩, ⟨a5, ha5⟩⟩ := h1
  obtain ⟨⟨b1, hb1⟩, ⟨b2, hb2⟩, ⟨b3, hb3⟩, ⟨b4, hb4⟩, ⟨b5, hb5⟩⟩ := h2
  exact ⟨⟨a1 ++ b1, by rw [hb1, ha1, List.append_assoc]⟩,
    ⟨a2 ++ b2, by rw [hb2, ha2, List.append_assoc]⟩,
    ⟨a3 ++ b3, by rw [hb3, ha3, List.append_assoc]⟩,
    ⟨a4 ++ b4, by rw [hb4, ha4, List.append_assoc]⟩,
    ⟨a5 ++ b5, by rw [hb5, ha5, List.append_assoc]⟩⟩

theorem FrameContext.Evolves.evolves_refl (f : FrameContext) : f.Evolves noQueue f :=
  ⟨fun q => by simp [noQueue], FrameContext.Extends.extends_refl f⟩

theorem FrameContext.Evolves.evolves_trans {c1 c2 : QueueType → Bool} {f g h : FrameContext}
    (h1 : f.Evolves c1 g) (h2 : g.Evolves c2 h) : f.Evolves (fun q => c1 q || c2 q) h := by
  constructor
  · intro q
    rw [h2.submissions q, h1.submissions q]
    cases c1 q <;> cases c2 q <;> simp
  · exact h1.queues.extends_trans h2.queues

theorem Device.Advances.refl (d : Device) : d.Advances noQueue d :=
  { current := rfl
    length := rfl
    others := fun _ _ => rfl
    frame := fun f hf => ⟨f, hf, FrameContext.Evolves.evolves_refl f⟩
    calls := ⟨[], by simp⟩
    feature := rfl
    queues := rfl
    lock := rfl
    acquire := Or.inr ⟨rfl, rfl⟩ }

theorem Device.Advances.trans {c1 c2 : QueueType → Bool} {d d2 d3 : Device}
    (h1 : d.Advances c1 d2) (h2 : d2.Advances c2 d3) :
    d.Advances (fun q => c1 q || c2 q) d3 := by
  constructor
  · rw [h2.current, h1.current]
  · rw [h2.length, h1.length]
  · intro i hi
    rw [h2.others i (by rw [h1.current]; exact hi), h1.others i hi]
  · intro f hf
    obtain ⟨f2, hf2, he2⟩ := h1.frame f hf
    obtain ⟨f3, hf3, he3⟩ := h2.frame f2 hf2
    exact ⟨f3, hf3, he2.evolves_trans he3⟩
  · obtain ⟨m1, hm1, hc1⟩ := h1.calls
    obtain ⟨m2, hm2, hc2⟩ := h2.calls
    refine ⟨m1 ++ m2, by rw [hm2, hm1, List.append_assoc], ?_⟩
    intro c hc
    rcases List.mem_append.mp hc with h | h
    · exact hc1 c h
    · exact hc2 c h
  · rw [h2.feature, h1.feature]
  · rw [h2.queues, h1.queues]
  · rw [h2.lock, h1.lock]
  · rcases h2.acquire with ⟨a, b⟩ | ⟨a, b⟩
    · exact Or.inl ⟨a, b⟩
    · rcases h1.acquire with ⟨a1, b1⟩ | ⟨a1, b1⟩
      · exact Or.inl ⟨by rw [a, a1], by rw [b, b1]⟩
      · exact Or.inr ⟨by rw [a, a1], by rw [b, b1]⟩

/-- Two steps that clear nothing clear nothing. -/
theorem Device.Advances.trans_none {d d2 d3 : Device}
    (h1 : d.Advances noQueue d2) (h2 : d2.Advances noQueue d3) : d.Advances noQueue d3 := by
  have := h1.trans h2
  simpa [noQueue] using this

/-- A step that changes neither the frame contexts nor the call log. -/
theorem Device.Advances.of_fields {d d2 : Device}
    (h1 : d2.currentFrameContext = d.currentFrameContext)
    (h2 : d2.frameContexts = d.frameContexts) (h3 : d2.calls = d.calls)
    (h4 : d2.timelineSemaphore = d.timelineSemaphore) (h5 : d2.Queues = d.Queues)
    (h6 : d2.lockCounter = d.lockCounter)
    (h7 : d2.swapchainAcquireConsumed = d.swapchainAcquireConsumed)
    (h8 : d2.swapchainAcquire = d.swapchainAcquire) :
    d.Advances noQueue d2 :=
  { current := h1
    length := by rw [h2]
    others := fun _ _ => by rw [h2]
    frame := fun f hf => ⟨f, by simpa [Device.Frame, h1, h2] using hf, FrameContext.Evolves.evolves_refl f⟩
    calls := ⟨[], by simp [h3]⟩
    feature := h4
    queues := h5
    lock := h6
    acquire := Or.inr ⟨h7, h8⟩ }

theorem Device.modifyFrame_eq (d d2 : Device) (g : FrameContext → FrameContext)
    (h : d.modifyFrame g = some d2) :
    ∃ f, d.Frame = some f ∧
      d2 = { d with frameContexts := d.frameContexts.set d.currentFrameContext (g f) } := by
  unfold Device.modifyFrame at h
  split at h
  · rename_i f hf
    simp only [Option.some.injEq] at h
    exact ⟨f, hf, h.symm⟩
  · cases h

theorem Device.modifyFrame_isSome (d : Device) (g : FrameContext → FrameContext)
    (f : FrameContext) (hf : d.Frame = some f) :
    d.modifyFrame g
      = some { d with frameContexts := d.frameContexts.set d.currentFrameContext (g f) } := by
  unfold Device.Frame at hf
  simp [Device.modifyFrame, hf]

/-- A write through `Frame()` that lets the frame context evolve. -/
theorem Device.modifyFrame_advances (d d2 : Device) (g : FrameContext → FrameContext)
    (c : QueueType → Bool) (h : d.modifyFrame g = some d2)
    (hg : ∀ f : FrameContext, f.Evolves c (g f)) :
    d.Advances c d2 := by
  obtain ⟨f, hf, rfl⟩ := Device.modifyFrame_eq d d2 g h
  have hlt : d.currentFrameContext < d.frameContexts.length :=
    (List.getElem?_eq_some.mp hf).1
  constructor
  · rfl
  · simp
  · intro i hi
    simp [List.getElem?_set_ne (Ne.symm hi)]
  · intro f2 hf2
    rw [hf] at hf2
    simp only [Option.some.injEq] at hf2
    subst hf2
    exact ⟨g f, by simp [Device.Frame, List.getElem?_set, hlt], hg f⟩
  · exact ⟨[], by simp⟩
  · rfl
  · rfl
  · rfl
  · exact Or.inr ⟨rfl, rfl⟩

theorem Device.DestroySemaphoreNoLock_advances (d d2 : Device) (x : Nat)
    (h : d.DestroySemaphoreNoLock x = some d2) : d.Advances noQueue d2 := by
  apply Device.modifyFrame_advances d d2 _ noQueue h
  intro f
  exact ⟨fun q => by simp [noQueue],
    ⟨⟨[], by simp⟩, ⟨[], by simp⟩, ⟨[], by simp⟩, ⟨[], by simp⟩, ⟨[x], rfl⟩⟩⟩

theorem Device.RecycleSemaphoreNoLock_advances (d d2 : Device) (x : Nat)
    (h : d.RecycleSemaphoreNoLock x = some d2) : d.Advances noQueue d2 := by
  apply Device.modifyFrame_advances d d2 _ noQueue h
  intro f
  exact ⟨fun q => by simp [noQueue],
    ⟨⟨[], by simp⟩, ⟨[], by simp⟩, ⟨[], by simp⟩, ⟨[], by simp⟩, ⟨[], by simp⟩⟩⟩

theorem Device.destroySemaphoreObject_advances (d d2 : Device) (x : Semaphore)
    (h : d.destroySemaphoreObject x = some d2) : d.Advances noQueue d2 := by
  unfold Device.destroySemaphoreObject at h
  split at h
  · split at h
    · exact Device.DestroySemaphoreNoLock_advances d d2 _ h
    · exact Device.RecycleSemaphoreNoLock_advances d d2 _ h
  · simp only [Option.some.injEq] at h
    subst h
    exact Device.Advances.refl d

theorem Device.dropSemaphoreHandle_advances (d d2 : Device) (x : Option Semaphore)
    (h : d.dropSemaphoreHandle x = some d2) : d.Advances noQueue d2 := by
  cases x with
  | none =>
    simp only [Device.dropSemaphoreHandle, Option.some.injEq] at h
    subst h
    exact Device.Advances.refl d
  | some y => exact Device.destroySemaphoreObject_advances d d2 y h

theorem Device.AllocateSemaphore_advances (d : Device) :
    d.Advances noQueue (d.AllocateSemaphore).1 := by
  unfold Device.AllocateSemaphore
  split
  · exact
      { current := rfl
        length := rfl
        others := fun _ _ => rfl
        frame := fun f hf => ⟨f, hf, FrameContext.Evolves.evolves_refl f⟩
        calls := ⟨[.createSemaphore d.nextNative], rfl, by simp [NativeCall.isDestroy]⟩
        feature := rfl
        queues := rfl
        lock := rfl
        acquire := Or.inr ⟨rfl, rfl⟩ }
  · exact Device.Advances.of_fields rfl rfl rfl rfl rfl rfl rfl rfl

theorem Device.AllocateFence_advances (d : Device) :
    d.Advances noQueue (d.AllocateFence).1 := by
  unfold Device.AllocateFence
  split
  · exact
      { current := rfl
        length := rfl
        others := fun _ _ => rfl
        frame := fun f hf => ⟨f, hf, FrameContext.Evolves.evolves_refl f⟩
        calls := ⟨[.createFence d.nextNative], rfl, by simp [NativeCall.isDestroy]⟩
        feature := rfl
        queues := rfl
        lock := rfl
        acquire := Or.inr ⟨rfl, rfl⟩ }
  · exact Device.Advances.of_fields rfl rfl rfl rfl rfl rfl rfl rfl

theorem SubmitState.Pushes.pushes_refl (st : SubmitState) (he : EmptyBeyond st.batches st.batch) :
    st.Pushes st [] :=
  ⟨by simp, he, rfl, Nat.le_refl _, Device.Advances.refl _⟩

theorem SubmitState.Pushes.pushes_trans {st st2 st3 : SubmitState} {p q : List Nat}
    (h1 : st.Pushes st2 p) (h2 : st2.Pushes st3 q) : st.Pushes st3 (p ++ q) :=
  ⟨by rw [h2.cmds, h1.cmds, List.append_assoc], h2.beyond, by rw [h2.length, h1.length],
    Nat.le_trans h1.batch h2.batch, h1.device.trans_none h2.device⟩

theorem SubmitState.modifyBatch_pushes (st st2 : SubmitState) (f : SubmitBatch → SubmitBatch)
    (he : EmptyBeyond st.batches st.batch) (h : st.modifyBatch f = some st2)
    (hf : ∀ b, (f b).CommandBuffers = b.CommandBuffers) :
    st.Pushes st2 [] := by
  obtain ⟨h1, h2, h3, h4, h5⟩ := SubmitState.modifyBatch_keep st st2 f h hf
  exact ⟨by simp [h4], h5 he, h3, by omega, by rw [h1]; exact Device.Advances.refl _⟩

theorem SubmitState.pushCommandBuffer_pushes (st st2 : SubmitState) (c : Nat)
    (he : EmptyBeyond st.batches st.batch) (h : st.pushCommandBuffer c = some st2) :
    st.Pushes st2 [c] := by
  obtain ⟨h1, h2, h3, h4, h5⟩ := SubmitState.pushCommandBuffer_eq st st2 c he h
  exact ⟨h4, h5, h3, by omega, by rw [h1]; exact Device.Advances.refl _⟩

theorem SubmitState.nextBatchIfSignalled_pushes (st st2 : SubmitState)
    (he : EmptyBeyond st.batches st.batch) (h : st.nextBatchIfSignalled = some st2) :
    st.Pushes st2 [] := by
  obtain ⟨h1, h2, h3⟩ := SubmitState.nextBatchIfSignalled_eq st st2 h
  exact ⟨by simp [h2], by rw [h2]; exact he.mono h3, by rw [h2], h3,
    by rw [h1]; exact Device.Advances.refl _⟩

/-- A change of the device alone. -/
theorem SubmitState.Pushes.of_device (st : SubmitState) (d2 : Device)
    (he : EmptyBeyond st.batches st.batch) (hd : st.device.Advances noQueue d2) :
    st.Pushes { st with device := d2 } [] :=
  ⟨by simp, he, rfl, Nat.le_refl _, hd⟩

theorem SubmitState.waitOnAcquire_pushes (st st2 : SubmitState) (stages : Nat)
    (he : EmptyBeyond st.batches st.batch) (h : st.waitOnAcquire stages = some st2) :
    st.Pushes st2 [] := by
  unfold SubmitState.waitOnAcquire at h
  split at h
  · simp only [Option.some.injEq] at h
    subst h
    exact SubmitState.Pushes.pushes_refl st he
  · rename_i acquire hacq
    split at h
    · simp only [Option.some.injEq] at h
      subst h
      exact SubmitState.Pushes.pushes_refl st he
    · split at h
      · cases h
      · rename_i b hb
        dsimp only at h
        split at h
        · cases h
        · rename_i stm hstm
          split at h
          · rename_i d1 pair consumed hrec hcons
            split at h
            · cases h
            · rename_i d2 hd2
              simp only [Option.some.injEq] at h
              subst h
              -- the batch index may have moved by one
              have hp1 : st.Pushes
                  (if b.CommandBuffers.isEmpty = false ∨ b.SignalSemaphores.isEmpty = false then
                    { st with batch := st.batch + 1 } else st) [] := by
                split
                · exact ⟨by simp, he.mono (Nat.le_succ _), rfl, Nat.le_succ _,
                    Device.Advances.refl _⟩
                · exact SubmitState.Pushes.pushes_refl st he
              have hp2 := SubmitState.modifyBatch_pushes _ stm _ hp1.beyond hstm (fun _ => rfl)
              have hp3 := hp1.pushes_trans hp2
              -- the device
              have hd1 : stm.device.Advances noQueue d1 := by
                split at hrec
                · exact Device.RecycleSemaphoreNoLock_advances _ _ acquire.semaphore hrec
                · simp only [Option.some.injEq] at hrec
                  subst hrec
                  exact Device.Advances.refl _
              have hd12 : d1.Advances noQueue
                  { d1 with swapchainAcquireConsumed := true, swapchainAcquire := none } :=
                { current := rfl
                  length := rfl
                  others := fun _ _ => rfl
                  frame := fun f hf => ⟨f, hf, FrameContext.Evolves.evolves_refl f⟩
                  calls := ⟨[], by simp⟩
                  feature := rfl
                  queues := rfl
                  lock := rfl
                  acquire := Or.inl ⟨rfl, rfl⟩ }
              have hd23 := Device.dropSemaphoreHandle_advances _ _ _ hd2
              have hdev := (hd1.trans_none hd12).trans_none hd23
              have hp4 := SubmitState.Pushes.of_device stm d2 hp3.beyond hdev
              have := hp3.pushes_trans hp4
              simpa using this
          · cases h

theorem SubmitState.signalRelease_pushes (st st2 : SubmitState)
    (he : EmptyBeyond st.batches st.batch) (h : st.signalRelease = some st2) :
    st.Pushes st2 [] := by
  unfold SubmitState.signalRelease at h
  dsimp only at h
  split at h
  · cases h
  · rename_i d2 hd2
    have hd1 := Device.AllocateSemaphore_advances st.device
    have hd12 := Device.dropSemaphoreHandle_advances _ _ _ hd2
    obtain ⟨k1, k2, k3, k4, k5⟩ := SubmitState.modifyBatch_keep _ st2 _ h (fun _ => rfl)
    refine ⟨by simpa using k4, k5 he, k3, by simp only at k2; omega, ?_⟩
    rw [k1]
    exact (hd1.trans_none hd12).trans_none (Device.Advances.of_fields rfl rfl rfl rfl rfl rfl rfl rfl)

/-- One turn of the command-buffer loop appends the command buffer. -/
theorem SubmitState.addCommandBuffer_pushes (st st2 : SubmitState) (cmd : Submission)
    (he : EmptyBeyond st.batches st.batch) (h : st.addCommandBuffer cmd = some st2) :
    st.Pushes st2 [cmd.commandBuffer] := by
  unfold SubmitState.addCommandBuffer at h
  split at h
  · split at h
    · cases h
    · rename_i s1 h1
      split at h
      · cases h
      · rename_i s2 h2
        split at h
        · cases h
        · rename_i s3 h3
          have p1 := SubmitState.waitOnAcquire_pushes st s1 _ he h1
          have p2 := SubmitState.nextBatchIfSignalled_pushes s1 s2 p1.beyond h2
          have p3 := SubmitState.pushCommandBuffer_pushes s2 s3 _ p2.beyond h3
          have p4 := SubmitState.signalRelease_pushes s3 st2 p3.beyond h
          have := ((p1.pushes_trans p2).pushes_trans p3).pushes_trans p4
          simpa using this
  · split at h
    · cases h
    · rename_i s1 h1
      have p1 := SubmitState.nextBatchIfSignalled_pushes st s1 he h1
      have p2 := SubmitState.pushCommandBuffer_pushes s1 st2 _ p1.beyond h
      have := p1.pushes_trans p2
      simpa using this

/-- The command-buffer loop appends the command buffers in the order of the list. -/
theorem SubmitState.addCommandBuffers_pushes (cmds : List Submission) (st st2 : SubmitState)
    (he : EmptyBeyond st.batches st.batch)
    (h : SubmitState.addCommandBuffers cmds st = some st2) :
    st.Pushes st2 (cmds.map (fun c => c.commandBuffer)) := by
  induction cmds generalizing st with
  | nil =>
    simp only [SubmitState.addCommandBuffers, Option.some.injEq] at h
    subst h
    exact SubmitState.Pushes.pushes_refl st he
  | cons cmd rest ih =>
    simp only [SubmitState.addCommandBuffers] at h
    split at h
    · cases h
    · rename_i s1 h1
      have p1 := SubmitState.addCommandBuffer_pushes st s1 cmd he h1
      have p2 := ih s1 p1.beyond h
      have := p1.pushes_trans p2
      simpa using this

/-- The wait-semaphore loop leaves the command buffers and signal semaphores of the
batch as they are. -/
theorem addWaitSemaphores_keep (sems : List Semaphore) (stages : List Nat) (b b2 : SubmitBatch)
    (h : addWaitSemaphores sems stages b = some b2) :
    b2.CommandBuffers = b.CommandBuffers ∧ b2.SignalSemaphores = b.SignalSemaphores := by
  induction sems generalizing stages b with
  | nil =>
    simp only [addWaitSemaphores, Option.some.injEq] at h
    subst h
    exact ⟨rfl, rfl⟩
  | cons x xs ih =>
    cases stages with
    | nil => simp [addWaitSemaphores] at h
    | cons y ys =>
      simp only [addWaitSemaphores] at h
      split at h
      · cases h
      · have := ih _ _ h
        simpa using this

theorem SubmitState.signalBinary_pushes (n : Nat) (st st2 : SubmitState)
    (out out2 : List Semaphore) (he : EmptyBeyond st.batches st.batch)
    (h : SubmitState.signalBinary n st out = some (st2, out2)) : st.Pushes st2 [] := by
  induction n generalizing st out with
  | zero =>
    simp only [SubmitState.signalBinary, Option.some.injEq, Prod.mk.injEq] at h
    obtain ⟨h1, _⟩ := h
    subst h1
    exact SubmitState.Pushes.pushes_refl st he
  | succ n ih =>
    simp only [SubmitState.signalBinary] at h
    split at h
    · cases h
    · rename_i s1 h1
      have hp1 := SubmitState.Pushes.of_device st _ he (Device.AllocateSemaphore_advances st.device)
      have hp2 := SubmitState.modifyBatch_pushes _ s1 _ hp1.beyond h1 (fun _ => rfl)
      have hp3 := ih s1 _ hp2.beyond h
      have := (hp1.pushes_trans hp2).pushes_trans hp3
      simpa using this

theorem buildSubmits_commandBuffers (batch : Nat) (batches : List SubmitBatch) (first : Nat)
    (he : ∀ (j : Nat) (b : SubmitBatch), batch < first + j → batches[j]? = some b →
      b.CommandBuffers = []) :
    submittedCommandBuffers (buildSubmits batch first batches) = allCommandBuffers batches := by
  induction batches generalizing first with
  | nil => rfl
  | cons b bs ih =>
    simp only [buildSubmits, submittedCommandBuffers, allCommandBuffers]
    rw [ih (first + 1) (fun j b2 hj hb2 => he (j + 1) b2 (by omega) (by simpa using hb2))]
    congr 1
    unfold buildSubmit
    split
    · rfl
    · rename_i hlt
      have := he 0 b (by omega) (by simp)
      simp [SubmitInfo.empty, this]

theorem compactSubmits_commandBuffers (submits : List SubmitInfo) :
    submittedCommandBuffers (compactSubmits submits) = submittedCommandBuffers submits := by
  induction submits with
  | nil => rfl
  | cons x xs ih =>
    unfold compactSubmits at ih ⊢
    simp only [List.filter_cons]
    split
    · simp [submittedCommandBuffers, ih]
    · rename_i hx
      have : x.commandBuffers = [] := by
        simp only [SubmitInfo.nonEmpty, Bool.or_eq_true, Bool.not_eq_true', not_or,
          Bool.not_eq_false] at hx
        have := hx.1.2
        exact List.isEmpty_iff.mp this
      simp [submittedCommandBuffers, ih, this]

theorem PerQueue.get_set {α : Type} (a : PerQueue α) (q q2 : QueueType) (x : α) :
    (a.set q x).get q2 = if q2 = q then x else a.get q2 := by
  cases q <;> cases q2 <;> simp [PerQueue.set, PerQueue.get]

theorem Device.Advances.congr {c c2 : QueueType → Bool} {d d2 : Device}
    (h : d.Advances c d2) (hc : ∀ q, c q = c2 q) : d.Advances c2 d2 := by
  have : c = c2 := funext hc
  rw [← this]
  exact h

theorem Device.Advances.trans_left {c : QueueType → Bool} {d d2 d3 : Device}
    (h1 : d.Advances noQueue d2) (h2 : d2.Advances c d3) : d.Advances c d3 :=
  (h1.trans h2).congr (fun q => by simp [noQueue])

theorem Device.Advances.trans_right {c : QueueType → Bool} {d d2 d3 : Device}
    (h1 : d.Advances c d2) (h2 : d2.Advances noQueue d3) : d.Advances c d3 :=
  (h1.trans h2).congr (fun q => by simp [noQueue])

/-- The pending list of a queue after a step, read off the queues it cleared. -/
theorem Device.Advances.pending {c : QueueType → Bool} {d d2 : Device}
    (h : d.Advances c d2) (q : QueueType) :
    d2.pending q = if c q then [] else d.pending q := by
  unfold Device.pending
  cases hf : d.Frame with
  | none =>
    have : d2.Frame = none := by
      unfold Device.Frame at hf ⊢
      rw [h.current]
      rw [List.getElem?_eq_none_iff] at hf ⊢
      rw [h.length]
      exact hf
    simp [this]
  | some f =>
    obtain ⟨f2, hf2, he⟩ := h.frame f hf
    simp only [hf2]
    exact he.submissions q

/-- The first part of the body batches exactly the pending command buffers, in order,
and clears the pending list of the queue. -/
theorem Device.batchSubmissions_pushes (d : Device) (q : QueueType) (st : SubmitState)
    (h : d.batchSubmissions q = some st) :
    allCommandBuffers st.batches = (d.pending q).map (fun c => c.commandBuffer) ∧
    EmptyBeyond st.batches st.batch ∧
    st.batches.length = MaxSubmissions ∧
    d.Advances (onlyQueue q) st.device := by
  unfold Device.batchSubmissions at h
  dsimp only at h
  split at h
  · cases h
  · rename_i d2 hd2
    split at h
    · cases h
    · rename_i first hfirst
      split at h
      · cases h
      · rename_i frame hframe
        split at h
        · cases h
        · rename_i st1 hloop
          split at h
          · cases h
          · rename_i d4 hd4
            simp only [Option.some.injEq] at h
            subst h
            -- the device before the loop
            have a1 : d.Advances noQueue
                { d with queueData := (d.queueData.set q
                    { (d.queueData.get q) with
                      TimelineValue := ((d.queueData.get q).TimelineValue + 1) % 2 ^ 64 }) } :=
              Device.Advances.of_fields rfl rfl rfl rfl rfl rfl rfl rfl
            have a2 := Device.modifyFrame_advances _ d2 _ noQueue hd2
              (fun f => ⟨fun q2 => by simp [noQueue],
                FrameContext.Extends.of_same rfl rfl rfl rfl rfl⟩)
            have a3 : d2.Advances noQueue
                { d2 with queueData := (d2.queueData.set q
                    { (d2.queueData.get q) with WaitSemaphores := [], WaitStages := [] }) } :=
              Device.Advances.of_fields rfl rfl rfl rfl rfl rfl rfl rfl
            have a123 := (a1.trans_none a2).trans_none a3
            -- the batches before the loop
            obtain ⟨hf1, hf2⟩ := addWaitSemaphores_keep _ _ _ _ hfirst
            have hbefore : ∀ (j : Nat) (b : SubmitBatch),
                ((List.replicate MaxSubmissions SubmitBatch.empty).set 0 first)[j]? = some b →
                b.CommandBuffers = [] ∧ b.SignalSemaphores = [] := by
              intro j b hb
              rw [List.getElem?_set] at hb
              split at hb
              · split at hb
                · simp only [Option.some.injEq] at hb
                  subst hb
                  exact ⟨by simpa [SubmitBatch.empty] using hf1,
                    by simpa [SubmitBatch.empty] using hf2⟩
                · cases hb
              · rw [List.getElem?_replicate] at hb
                split at hb
                · simp only [Option.some.injEq] at hb
                  subst hb
                  exact ⟨rfl, rfl⟩
                · cases hb
            have he0 : EmptyBeyond
                ((List.replicate MaxSubmissions SubmitBatch.empty).set 0 first) 0 :=
              fun j b _ hb => hbefore j b hb
            have hz : allCommandBuffers
                ((List.replicate MaxSubmissions SubmitBatch.empty).set 0 first) = [] :=
              allCommandBuffers_of_empty _ (fun j b hb => (hbefore j b hb).1)
            have hp := SubmitState.addCommandBuffers_pushes _ _ st1 he0 hloop
            -- the pending list read by the loop is the one of the device at entry
            have hpend : frame.Submissions.get q = d.pending q := by
              have := a123.pending q
              simp only [noQueue, Bool.false_eq_true, if_false] at this
              rw [← this]
              simp only [Device.pending, hframe]
            have a4 := Device.modifyFrame_advances _ d4 _ (onlyQueue q) hd4
              (fun f => ⟨fun q2 => by simp [onlyQueue, PerQueue.get_set],
                FrameContext.Extends.of_same rfl rfl rfl rfl rfl⟩)
            refine ⟨?_, hp.beyond, ?_, ?_⟩
            · have := hp.cmds
              simp only [hz, List.nil_append] at this
              rw [this, hpend]
            · rw [hp.length]
              simp [MaxSubmissions]
            · exact (a123.trans_none hp.device).trans_left a4

theorem SubmitState.emitSemaphores_pushes (st st1 : SubmitState) (hasSemaphores : Bool)
    (count timelineSemaphore timelineValue fence : Nat) (out : List Semaphore)
    (internalFence : InternalFence) (he : EmptyBeyond st.batches st.batch)
    (h : st.emitSemaphores hasSemaphores count timelineSemaphore timelineValue fence
      = some (st1, out, internalFence)) : st.Pushes st1 [] := by
  unfold SubmitState.emitSemaphores at h
  split at h
  · split at h
    · cases h
    · rename_i s1 hs1
      simp only [Option.some.injEq, Prod.mk.injEq] at h
      obtain ⟨h1, _, _⟩ := h
      subst h1
      exact SubmitState.modifyBatch_pushes _ _ _ he hs1 (fun _ => rfl)
  · split at h
    · cases h
    · rename_i s1 o1 hs1
      simp only [Option.some.injEq, Prod.mk.injEq] at h
      obtain ⟨h1, _, _⟩ := h
      subst h1
      split at hs1
      · exact SubmitState.signalBinary_pushes _ _ _ _ _ he hs1
      · simp only [Option.some.injEq, Prod.mk.injEq] at hs1
        obtain ⟨h2, _⟩ := hs1
        subst h2
        exact SubmitState.Pushes.pushes_refl _ he

theorem SubmitState.submit_eq (st : SubmitState) (q : QueueType) (fence : Nat)
    (out : List Semaphore) (internalFence : InternalFence)
    (he : EmptyBeyond st.batches st.batch) :
    (st.submit q fence out internalFence).batches = st.batches ∧
    submittedCommandBuffers (st.submit q fence out internalFence).submits
      = allCommandBuffers st.batches ∧
    st.device.Advances noQueue (st.submit q fence out internalFence).device := by
  refine ⟨rfl, ?_, ?_⟩
  · simp only [SubmitState.submit]
    rw [compactSubmits_commandBuffers, buildSubmits_commandBuffers]
    intro j b hj hb
    exact (he j b (by omega) hb).1
  · simp only [SubmitState.submit]
    have a1 : ∀ c : NativeCall, c.isDestroy = false →
        st.device.Advances noQueue { st.device with calls := st.device.calls ++ [c] } := by
      intro c hc
      exact
        { current := rfl
          length := rfl
          others := fun _ _ => rfl
          frame := fun f hf => ⟨f, hf, FrameContext.Evolves.evolves_refl f⟩
          calls := ⟨[c], rfl, by simpa using hc⟩
          feature := rfl
          queues := rfl
          lock := rfl
          acquire := Or.inr ⟨rfl, rfl⟩ }
    split
    · exact (a1 (.queueSubmit _ _ _) rfl).trans_none
        (Device.Advances.of_fields rfl rfl rfl rfl rfl rfl rfl rfl)
    · exact a1 (.queueSubmit _ _ _) rfl

/-- The body of `SubmitQueue`: the batches built, and the compacted submit entries, hold
the pending command buffers of the queue in submission order, and the device advances
with only the pending list of that queue cleared. -/
theorem Device.submitQueueBody_eq (d : Device) (q : QueueType) (submitFence : Bool)
    (semaphores : Option Nat) (r : SubmitOutcome)
    (h : d.submitQueueBody q submitFence semaphores = some r) :
    allCommandBuffers r.batches = (d.pending q).map (fun c => c.commandBuffer) ∧
    submittedCommandBuffers r.submits = (d.pending q).map (fun c => c.commandBuffer) ∧
    d.Advances (onlyQueue q) r.device := by
  unfold Device.submitQueueBody at h
  dsimp only at h
  split at h
  · cases h
  · rename_i st1 hst1
    split at h
    · cases h
    · rename_i st3 out internalFence hemit
      simp only [Option.some.injEq] at h
      subst h
      obtain ⟨b1, b2, _, b4⟩ := Device.batchSubmissions_pushes d q st1 hst1
      have halloc : st1.device.Advances noQueue
          (if submitFence = true ∧ st1.device.timelineSemaphore = false then
            st1.device.AllocateFence else (st1.device, 0)).1 := by
        split
        · exact Device.AllocateFence_advances _
        · exact Device.Advances.refl _
      have p1 := SubmitState.Pushes.of_device st1 _ b2 halloc
      have p2 := SubmitState.emitSemaphores_pushes _ _ _ _ _ _ _ _ _ p1.beyond hemit
      have p12 := p1.pushes_trans p2
      obtain ⟨s1, s2, s3⟩ := SubmitState.submit_eq st3 q
        (if submitFence = true ∧ st1.device.timelineSemaphore = false then
          st1.device.AllocateFence else (st1.device, 0)).2 out internalFence p12.beyond
      have hc : allCommandBuffers st3.batches = allCommandBuffers st1.batches := by
        have := p12.cmds
        simpa using this
      refine ⟨?_, ?_, ?_⟩
      · rw [s1, hc, b1]
      · rw [s2, hc, b1]
      · exact (b4.trans_right p12.device).trans_right s3

theorem Device.SubmitQueueTransfer_advances (d : Device) (r : SubmitOutcome)
    (h : d.SubmitQueueTransfer = some r) :
    ∃ c : QueueType → Bool, d.Advances c r.device ∧ ∀ q, q ≠ .Transfer → c q = false := by
  unfold Device.SubmitQueueTransfer at h
  split at h
  · cases h
  · split at h
    · simp only [Option.some.injEq] at h
      subst h
      exact ⟨noQueue, Device.Advances.refl d, fun _ _ => rfl⟩
    · exact ⟨onlyQueue .Transfer, (Device.submitQueueBody_eq d _ _ _ r h).2.2,
        fun q hq => by simp [onlyQueue, hq]⟩

theorem Device.FlushFrameTransfer_advances (d d1 : Device)
    (h : d.FlushFrameTransfer = some d1) :
    ∃ c : QueueType → Bool, d.Advances c d1 ∧ ∀ q, q ≠ .Transfer → c q = false := by
  unfold Device.FlushFrameTransfer at h
  split at h
  · simp only [Option.some.injEq] at h
    subst h
    exact ⟨noQueue, Device.Advances.refl d, fun _ _ => rfl⟩
  · cases hr : d.SubmitQueueTransfer with
    | none => simp [hr] at h
    | some r =>
      simp only [hr, Option.map_some', Option.some.injEq] at h
      subst h
      exact Device.SubmitQueueTransfer_advances d r hr

/-- Whenever `SubmitQueue` returns, the batches it built and the compacted submit
entries hold the pending command buffers of the queue in submission order, the pending
list of the queue is empty, and the device has advanced. -/
theorem Device.SubmitQueue_eq (d : Device) (q : QueueType) (submitFence : Bool)
    (semaphores : Option Nat) (r : SubmitOutcome)
    (h : d.SubmitQueue q submitFence semaphores = some r) :
    allCommandBuffers r.batches = (d.pending q).map (fun c => c.commandBuffer) ∧
    submittedCommandBuffers r.submits = (d.pending q).map (fun c => c.commandBuffer) ∧
    r.device.pending q = [] ∧
    ∃ c : QueueType → Bool, d.Advances c r.device := by
  unfold Device.SubmitQueue at h
  split at h
  · cases h
  · rename_i frame hframe
    split at h
    · rename_i hearly
      simp only [Option.some.injEq] at h
      subst h
      have hp : d.pending q = [] := by
        simp only [Device.nothingToSubmit, Bool.and_eq_true] at hearly
        simp only [Device.pending, hframe]
        exact List.isEmpty_iff.mp hearly.1.1
      simp [SubmitOutcome.nothing, allCommandBuffers, submittedCommandBuffers, hp]
      exact ⟨noQueue, Device.Advances.refl d⟩
    · split at h
      · cases h
      · rename_i d1 hd1
        have hflush : ∃ c : QueueType → Bool, d.Advances c d1 ∧ c q = false := by
          split at hd1
          · rename_i hq
            obtain ⟨c, hc1, hc2⟩ := Device.FlushFrameTransfer_advances d d1 hd1
            exact ⟨c, hc1, hc2 q hq⟩
          · simp only [Option.some.injEq] at hd1
            subst hd1
            exact ⟨noQueue, Device.Advances.refl d, rfl⟩
        obtain ⟨c, hc1, hc2⟩ := hflush
        have hpend : d1.pending q = d.pending q := by
          rw [hc1.pending q, hc2]
          simp
        obtain ⟨b1, b2, b3⟩ := Device.submitQueueBody_eq d1 q submitFence semaphores r h
        refine ⟨by rw [b1, hpend], by rw [b2, hpend], ?_, ⟨_, hc1.trans b3⟩⟩
        rw [b3.pending q]
        simp [onlyQueue]

theorem Device.Advances.frame_some {c : QueueType → Bool} {d d2 : Device}
    (h : d.Advances c d2) (hf : ∃ f, d.Frame = some f) : ∃ f, d2.Frame = some f := by
  obtain ⟨f, hf⟩ := hf
  obtain ⟨f2, hf2, _⟩ := h.frame f hf
  exact ⟨f2, hf2⟩

theorem Device.Advances.acquireReady {c : QueueType → Bool} {d d2 : Device}
    (h : d.Advances c d2) (hr : d.acquireReady) : d2.acquireReady := by
  rcases h.acquire with ⟨_, b⟩ | ⟨_, b⟩
  · intro a ha
    rw [b] at ha
    cases ha
  · intro a ha
    rw [b] at ha
    exact hr a ha

theorem Device.Advances.batchCost_le {c : QueueType → Bool} {d d2 : Device}
    (h : d.Advances c d2) (cmds : List Submission) : d2.batchCost cmds ≤ d.batchCost cmds := by
  rcases h.acquire with ⟨a, _⟩ | ⟨a, b⟩
  · simp [Device.batchCost, a]
  · simp [Device.batchCost, Device.acquireValid, a, b]

theorem SubmitState.modifyBatch_some (st : SubmitState) (f : SubmitBatch → SubmitBatch)
    (h : st.batch < st.batches.length) :
    ∃ st2 b, st.modifyBatch f = some st2 ∧ st.batches[st.batch]? = some b ∧
      st2.device = st.device ∧ st2.batch = st.batch ∧
      st2.batches.length = st.batches.length ∧ st2.batches[st2.batch]? = some (f b) := by
  have hb : st.batches[st.batch]? = some (st.batches.get ⟨st.batch, h⟩) := by
    simp [List.getElem?_eq_getElem h]
  refine ⟨{ st with batches := st.batches.set st.batch (f (st.batches.get ⟨st.batch, h⟩)) },
    st.batches.get ⟨st.batch, h⟩, ?_, hb, ?_⟩
  · simp only [SubmitState.modifyBatch, hb]
  · simp [List.getElem?_set, h]

theorem list_getElem?_some_of_lt {α : Type} (l : List α) (i : Nat) (h : i < l.length) :
    ∃ x, l[i]? = some x :=
  ⟨l.get ⟨i, h⟩, by simp [List.getElem?_eq_getElem h]⟩

theorem SubmitState.nextBatchIfSignalled_some (st : SubmitState)
    (hl : st.batches.length = MaxSubmissions) (he : EmptyBeyond st.batches st.batch)
    (hb : st.batch + st.signalled ≤ 7) :
    ∃ st2, st.nextBatchIfSignalled = some st2 ∧ st2.device = st.device ∧
      st2.batches = st.batches ∧ st2.batch = st.batch + st.signalled ∧ st2.signalled = 0 := by
  have hlt : st.batch < st.batches.length := by
    rw [hl]
    simp only [MaxSubmissions]
    omega
  obtain ⟨b, hx⟩ := list_getElem?_some_of_lt _ _ hlt
  unfold SubmitState.nextBatchIfSignalled
  simp only [hx]
  by_cases hs : b.SignalSemaphores.isEmpty = true
  · have h0 : st.signalled = 0 := by simp [SubmitState.signalled, hx, hs]
    simp only [hs, Bool.true_eq_false, if_false]
    exact ⟨st, rfl, rfl, rfl, by omega, h0⟩
  · have h1 : st.signalled = 1 := by simp [SubmitState.signalled, hx, hs]
    have hs2 : b.SignalSemaphores.isEmpty = false := by
      simpa using hs
    have hlt2 : st.batch + 1 < MaxSubmissions := by
      simp only [MaxSubmissions]
      omega
    simp only [hs2, if_true, hlt2]
    refine ⟨_, rfl, rfl, rfl, by simp [h1], ?_⟩
    have hlt3 : st.batch + 1 < st.batches.length := by rw [hl]; exact hlt2
    obtain ⟨b2, hy⟩ := list_getElem?_some_of_lt _ _ hlt3
    have := (he (st.batch + 1) _ (Nat.lt_succ_self _) hy).2
    simp [SubmitState.signalled, hy, this]

theorem SubmitState.pushCommandBuffer_some (st : SubmitState) (c : Nat)
    (h : st.batch < st.batches.length) :
    ∃ st2, st.pushCommandBuffer c = some st2 ∧ st2.device = st.device ∧
      st2.batch = st.batch ∧ st2.batches.length = st.batches.length ∧
      st2.signalled = st.signalled := by
  obtain ⟨st2, b, h1, h2, h3, h4, h5, h6⟩ := SubmitState.modifyBatch_some st
    (fun b => { b with CommandBuffers := b.CommandBuffers ++ [c] }) h
  exact ⟨st2, h1, h3, h4, h5, by simp [SubmitState.signalled, h2, h6]⟩

theorem Device.modifyFrame_some (d : Device) (g : FrameContext → FrameContext)
    (hf : ∃ f, d.Frame = some f) :
    ∃ d2, d.modifyFrame g = some d2 ∧ d2.queueData = d.queueData := by
  obtain ⟨f, hf⟩ := hf
  exact ⟨_, Device.modifyFrame_isSome d g f hf, rfl⟩

theorem Device.destroySemaphoreObject_some (d : Device) (x : Semaphore)
    (hf : ∃ f, d.Frame = some f) :
    ∃ d2, d.destroySemaphoreObject x = some d2 ∧ d2.queueData = d.queueData := by
  unfold Device.destroySemaphoreObject
  split
  · split
    · exact Device.modifyFrame_some d _ hf
    · exact Device.modifyFrame_some d _ hf
  · exact ⟨d, rfl, rfl⟩

theorem Device.dropSemaphoreHandle_some (d : Device) (x : Option Semaphore)
    (hf : ∃ f, d.Frame = some f) :
    ∃ d2, d.dropSemaphoreHandle x = some d2 ∧ d2.queueData = d.queueData := by
  cases x with
  | none => exact ⟨d, rfl, rfl⟩
  | some y => exact Device.destroySemaphoreObject_some d y hf

theorem Device.AllocateSemaphore_data (d : Device) :
    (d.AllocateSemaphore).1.queueData = d.queueData := by
  unfold Device.AllocateSemaphore
  split <;> rfl

theorem Device.AllocateFence_data (d : Device) :
    (d.AllocateFence).1.queueData = d.queueData := by
  unfold Device.AllocateFence
  split <;> rfl

theorem SubmitState.signalRelease_some (st : SubmitState)
    (hf : ∃ f, st.device.Frame = some f) (h : st.batch < st.batches.length) :
    ∃ st2, st.signalRelease = some st2 ∧ st2.batch = st.batch ∧
      st2.batches.length = st.batches.length ∧ st2.signalled = 1 ∧
      st2.device.queueData = st.device.queueData := by
  have hf1 := (Device.AllocateSemaphore_advances st.device).frame_some hf
  obtain ⟨d2, hd2, hq2⟩ := Device.dropSemaphoreHandle_some (st.device.AllocateSemaphore).1
    (st.device.AllocateSemaphore).1.swapchainRelease hf1
  unfold SubmitState.signalRelease
  simp only [hd2]
  obtain ⟨st2, b, h1, h2, h3, h4, h5, h6⟩ := SubmitState.modifyBatch_some
    ⟨{ d2 with swapchainRelease :=
        (some { (Semaphore.binary (st.device.AllocateSemaphore).2 true) with internalSync := true }) },
      st.batches, st.batch⟩
    (fun b =>
      { b with
        SignalSemaphores := b.SignalSemaphores ++ [(st.device.AllocateSemaphore).2]
        SignalValues := b.SignalValues ++ [0] }) h
  refine ⟨st2, h1, h4, h5, ?_, ?_⟩
  · simp [SubmitState.signalled, h6]
  · rw [h3]
    simp only [hq2]
    exact Device.AllocateSemaphore_data st.device

theorem SubmitState.waitOnAcquire_some (st : SubmitState) (stages : Nat)
    (hl : st.batches.length = MaxSubmissions) (he : EmptyBeyond st.batches st.batch)
    (hf : ∃ f, st.device.Frame = some f) (hr : st.device.acquireReady)
    (hb : st.batch + (if st.device.acquireValid then 1 else 0) ≤ 7) :
    ∃ st2, st.waitOnAcquire stages = some st2 ∧ st2.batches.length = st.batches.length ∧
      st2.device.queueData = st.device.queueData ∧
      ((st.device.acquireValid = false ∧ st2 = st) ∨
        (st.device.acquireValid = true ∧ st2.batch ≤ st.batch + 1 ∧ st2.signalled = 0 ∧
          st2.device.swapchainAcquireConsumed = true)) := by
  unfold SubmitState.waitOnAcquire
  cases hacq : st.device.swapchainAcquire with
  | none =>
    exact ⟨st, rfl, rfl, rfl, Or.inl ⟨by simp [Device.acquireValid, hacq], rfl⟩⟩
  | some a =>
    by_cases hz : a.semaphore = 0
    · simp only [hz, if_true]
      exact ⟨st, rfl, rfl, rfl, Or.inl ⟨by simp [Device.acquireValid, hacq, hz], rfl⟩⟩
    · have hv : st.device.acquireValid = true := by simp [Device.acquireValid, hacq, hz]
      simp only [hv, if_true] at hb
      have hlt : st.batch < st.batches.length := by
        rw [hl]
        simp only [MaxSubmissions]
        omega
      obtain ⟨b, hx⟩ := list_getElem?_some_of_lt _ _ hlt
      have hst1 : ∃ st1 : SubmitState,
          (if b.CommandBuffers.isEmpty = false ∨ b.SignalSemaphores.isEmpty = false then
            ({ st with batch := st.batch + 1 } : SubmitState) else st) = st1 ∧
          st1.device = st.device ∧ st1.batches = st.batches ∧ st1.batch ≤ st.batch + 1 ∧
          ∀ b1, st1.batches[st1.batch]? = some b1 → b1.SignalSemaphores = [] := by
        by_cases hc : b.CommandBuffers.isEmpty = false ∨ b.SignalSemaphores.isEmpty = false
        · refine ⟨_, rfl, ?_⟩
          rw [if_pos hc]
          exact ⟨rfl, rfl, Nat.le_refl _, fun b1 hb1 => (he _ b1 (Nat.lt_succ_self _) hb1).2⟩
        · refine ⟨_, rfl, ?_⟩
          rw [if_neg hc]
          refine ⟨rfl, rfl, Nat.le_succ _, fun b1 hb1 => ?_⟩
          rw [hx] at hb1
          simp only [Option.some.injEq] at hb1
          subst hb1
          simp only [not_or, Bool.not_eq_false] at hc
          exact List.isEmpty_iff.mp hc.2
      obtain ⟨st1, e1, e2, e3, e4, e5⟩ := hst1
      have hlt1 : st1.batch < st1.batches.length := by
        rw [e3, hl]
        simp only [MaxSubmissions]
        omega
      obtain ⟨stm, b1, m1, m2, m3, m4, m5, m6⟩ := SubmitState.modifyBatch_some st1
        (fun b =>
          { b with
            WaitSemaphores := b.WaitSemaphores ++ [a.semaphore]
            WaitStages := b.WaitStages ++ [stages]
            WaitValues := b.WaitValues ++ [a.value] }) hlt1
      have hfm : ∃ f, stm.device.Frame = some f := by rw [m3, e2]; exact hf
      have hrec : ∃ d1,
          (if a.value = 0 then
            stm.device.modifyFrame (fun f =>
              { f with SemaphoresToRecycle := f.SemaphoresToRecycle ++ [a.semaphore] })
          else some stm.device) = some d1 ∧ d1.queueData = st.device.queueData := by
        split
        · obtain ⟨d1, k1, k2⟩ := Device.modifyFrame_some stm.device
            (fun f => { f with SemaphoresToRecycle := f.SemaphoresToRecycle ++ [a.semaphore] })
            hfm
          exact ⟨d1, k1, by rw [k2, m3, e2]⟩
        · exact ⟨_, rfl, by rw [m3, e2]⟩
      obtain ⟨d1, r1, r2⟩ := hrec
      have hcons : a.Consume = some a.Release := by
        simp [Semaphore.Consume, hz, hr a hacq hz]
      simp only [hz, if_false, hx, e1, m1, r1, hcons]
      refine ⟨{ stm with device :=
          { d1 with swapchainAcquireConsumed := true, swapchainAcquire := none } }, ?_, ?_, ?_, ?_⟩
      · simp [Device.dropSemaphoreHandle, Device.destroySemaphoreObject, Semaphore.Release]
      · simp only [m5, e3]
      · exact r2
      · refine Or.inr ⟨hv, by simp only [m4]; exact e4, ?_, rfl⟩
        have := e5 b1 m2
        simp [SubmitState.signalled, m6, this]

theorem Device.batchCost_cons_le (d : Device) (cmd : Submission) (rest : List Submission) :
    d.batchCost rest ≤ d.batchCost (cmd :: rest) := by
  unfold Device.batchCost swapchainCount
  split
  · exact Nat.le_refl _
  · split
    · exact Nat.le_refl _
    · simp only [List.filter_cons]
      split
      · simp
      · exact Nat.le_refl _

theorem Device.batchCost_cons_swapchain (d : Device) (cmd : Submission)
    (rest : List Submission) (hc : d.swapchainAcquireConsumed = false)
    (hs : cmd.swapchainStages ≠ 0) :
    d.batchCost (cmd :: rest) = if d.acquireValid then 2 else swapchainCount rest + 1 := by
  simp [Device.batchCost, swapchainCount, hc, List.filter_cons, hs]

theorem Device.batchCost_of_invalid (d : Device) (cmds : List Submission)
    (hv : d.acquireValid = false) : d.batchCost cmds ≤ swapchainCount cmds := by
  unfold Device.batchCost
  split
  · exact Nat.zero_le _
  · simp [hv]

theorem Device.batchCost_of_consumed (d : Device) (cmds : List Submission)
    (hc : d.swapchainAcquireConsumed = true) : d.batchCost cmds = 0 := by
  simp [Device.batchCost, hc]

theorem Device.Advances.consumed {c : QueueType → Bool} {d d2 : Device}
    (h : d.Advances c d2) (hc : d.swapchainAcquireConsumed = true) :
    d2.swapchainAcquireConsumed = true := by
  rcases h.acquire with ⟨a, _⟩ | ⟨a, _⟩
  · exact a
  · rw [a, hc]

/-- One turn of the command-buffer loop runs to completion from a ready state, and
leaves a state ready for the remaining command buffers. -/
theorem SubmitState.addCommandBuffer_ready (st : SubmitState) (cmd : Submission)
    (rest : List Submission) (h : st.Ready (cmd :: rest)) :
    ∃ st2, st.addCommandBuffer cmd = some st2 ∧ st2.Ready rest ∧
      st2.device.queueData = st.device.queueData := by
  obtain ⟨hl, he, hf, hr, hb⟩ := h
  have hmax : MaxSubmissions = 8 := rfl
  by_cases hc : cmd.swapchainStages ≠ 0 ∧ st.device.swapchainAcquireConsumed = false
  · have hcost := Device.batchCost_cons_swapchain st.device cmd rest hc.2 hc.1
    rw [hcost] at hb
    obtain ⟨s1, w1, w2, w3, w4⟩ := SubmitState.waitOnAcquire_some st cmd.swapchainStages hl he
      hf hr (by split at hb <;> simp_all <;> omega)
    have p1 := SubmitState.waitOnAcquire_pushes st s1 _ he w1
    have hb1 : s1.batch + s1.signalled ≤ 6 := by
      rcases w4 with ⟨v, e⟩ | ⟨v, e1, e2, _⟩
      · subst e
        simp only [v, Bool.false_eq_true, if_false] at hb
        omega
      · simp only [v, if_true] at hb
        omega
    obtain ⟨s2, n1, n2, n3, n4, n5⟩ := SubmitState.nextBatchIfSignalled_some s1
      (by rw [p1.length, hl]) p1.beyond (by omega)
    have p2 := SubmitState.nextBatchIfSignalled_pushes s1 s2 p1.beyond n1
    have hlt2 : s2.batch < s2.batches.length := by
      rw [p2.length, p1.length, hl, hmax]
      omega
    obtain ⟨s3, u1, u2, u3, u4, u5⟩ := SubmitState.pushCommandBuffer_some s2 cmd.commandBuffer hlt2
    have p3 := SubmitState.pushCommandBuffer_pushes s2 s3 _ p2.beyond u1
    have hf3 : ∃ f, s3.device.Frame = some f :=
      ((p1.pushes_trans p2).pushes_trans p3).device.frame_some hf
    obtain ⟨s4, r1, r2, r3, r4, r5⟩ := SubmitState.signalRelease_some s3 hf3
      (by rw [u4, u3]; exact hlt2)
    have p4 := SubmitState.signalRelease_pushes s3 s4 p3.beyond r1
    have pall := ((p1.pushes_trans p2).pushes_trans p3).pushes_trans p4
    refine ⟨s4, ?_, ⟨?_, pall.beyond, pall.device.frame_some hf, pall.device.acquireReady hr, ?_⟩,
      ?_⟩
    · simp only [SubmitState.addCommandBuffer, if_pos hc, w1, n1, u1, r1]
    · rw [pall.length, hl]
    · rw [r2, u3, r4]
      rcases w4 with ⟨v, e⟩ | ⟨v, e1, e2, e3⟩
      · subst e
        simp only [v, Bool.false_eq_true, if_false] at hb
        have c1 := pall.device.batchCost_le rest
        have c2 := Device.batchCost_of_invalid s1.device rest v
        omega
      · simp only [v, if_true] at hb
        have c1 : s4.device.batchCost rest = 0 :=
          Device.batchCost_of_consumed _ _
            (((Device.Advances.refl s1.device).trans_none
              ((p2.pushes_trans p3).pushes_trans p4).device).consumed e3)
        omega
    · rw [r5, u2, n2, w3]
  · obtain ⟨s1, n1, n2, n3, n4, n5⟩ := SubmitState.nextBatchIfSignalled_some st hl he
      (by omega)
    have p1 := SubmitState.nextBatchIfSignalled_pushes st s1 he n1
    have hlt1 : s1.batch < s1.batches.length := by
      rw [p1.length, hl, hmax]
      omega
    obtain ⟨s2, u1, u2, u3, u4, u5⟩ := SubmitState.pushCommandBuffer_some s1 cmd.commandBuffer hlt1
    have p2 := SubmitState.pushCommandBuffer_pushes s1 s2 _ p1.beyond u1
    have pall := p1.pushes_trans p2
    refine ⟨s2, ?_, ⟨?_, pall.beyond, pall.device.frame_some hf, pall.device.acquireReady hr, ?_⟩,
      ?_⟩
    · simp only [SubmitState.addCommandBuffer, if_neg hc, n1, u1]
    · rw [pall.length, hl]
    · rw [u3, u5, n5, n4, u2, n2]
      have := Device.batchCost_cons_le st.device cmd rest
      omega
    · rw [u2, n2]

/-- The command-buffer loop runs to completion from a ready state. -/
theorem SubmitState.addCommandBuffers_ready (cmds : List Submission) (st : SubmitState)
    (h : st.Ready cmds) :
    ∃ st2, SubmitState.addCommandBuffers cmds st = some st2 ∧ st2.Ready [] ∧
      st2.device.queueData = st.device.queueData := by
  induction cmds generalizing st with
  | nil => exact ⟨st, rfl, h, rfl⟩
  | cons cmd rest ih =>
    obtain ⟨s1, a1, a2, a3⟩ := SubmitState.addCommandBuffer_ready st cmd rest h
    obtain ⟨s2, b1, b2, b3⟩ := ih s1 a2
    exact ⟨s2, by simp only [SubmitState.addCommandBuffers, a1, b1], b2, by rw [b3, a3]⟩

theorem addWaitSemaphores_some (sems : List Semaphore) (stages : List Nat) (b : SubmitBatch)
    (h : WaitsReady sems stages) : ∃ b2, addWaitSemaphores sems stages b = some b2 := by
  induction sems generalizing stages b with
  | nil => exact ⟨b, rfl⟩
  | cons x xs ih =>
    obtain ⟨h1, h2⟩ := h
    cases stages with
    | nil => simp at h1
    | cons y ys =>
      have hx := h2 x (List.mem_cons_self _ _)
      have hc : x.Consume = some x.Release := by
        simp [Semaphore.Consume, hx.1, hx.2]
      simp only [addWaitSemaphores, hc]
      exact ih _ _ ⟨by simpa using h1, fun s hs => h2 s (List.mem_cons_of_mem _ hs)⟩

theorem SubmitState.signalBinary_some (n : Nat) (st : SubmitState) (out : List Semaphore)
    (h : st.batch < st.batches.length) :
    ∃ st2 out2, SubmitState.signalBinary n st out = some (st2, out2) ∧
      st2.device.queueData = st.device.queueData := by
  induction n generalizing st out with
  | zero => exact ⟨st, out, rfl, rfl⟩
  | succ n ih =>
    obtain ⟨s1, b, m1, m2, m3, m4, m5, m6⟩ := SubmitState.modifyBatch_some
      ⟨(st.device.AllocateSemaphore).1, st.batches, st.batch⟩
      (fun b =>
        { b with
          SignalSemaphores := b.SignalSemaphores ++ [(st.device.AllocateSemaphore).2]
          SignalValues := b.SignalValues ++ [0] }) h
    obtain ⟨s2, out2, k1, k2⟩ := ih s1
      (out ++ [Semaphore.binary (st.device.AllocateSemaphore).2 true])
      (by rw [m4, m5]; exact h)
    refine ⟨s2, out2, ?_, ?_⟩
    · simp only [SubmitState.signalBinary, m1, k1]
    · rw [k2, m3]
      exact Device.AllocateSemaphore_data st.device

theorem SubmitState.emitSemaphores_some (st : SubmitState) (hasSemaphores : Bool)
    (count timelineSemaphore timelineValue fence : Nat) (h : st.batch < st.batches.length) :
    ∃ st1 out internalFence,
      st.emitSemaphores hasSemaphores count timelineSemaphore timelineValue fence
        = some (st1, out, internalFence) ∧
      st1.device.queueData = st.device.queueData := by
  unfold SubmitState.emitSemaphores
  split
  · obtain ⟨s1, b, m1, m2, m3, m4, m5, m6⟩ := SubmitState.modifyBatch_some st
      (fun b =>
        { b with
          SignalSemaphores := b.SignalSemaphores ++ [timelineSemaphore]
          SignalValues := b.SignalValues ++ [timelineValue]
          HasTimeline := true }) h
    simp only [m1]
    exact ⟨_, _, _, rfl, by rw [m3]⟩
  · cases hasSemaphores with
    | false => exact ⟨st, [], _, rfl, rfl⟩
    | true =>
      obtain ⟨s2, out2, k1, k2⟩ := SubmitState.signalBinary_some count st [] h
      simp only [if_true, k1]
      exact ⟨_, _, _, rfl, k2⟩

theorem Device.modifyFrame_ne_none (d : Device) (g : FrameContext → FrameContext)
    (h : d.modifyFrame g = none) (hf : ∃ f, d.Frame = some f) : False := by
  obtain ⟨d2, k, _⟩ := Device.modifyFrame_some d g hf
  rw [k] at h
  cases h

theorem addWaitSemaphores_ne_none (sems : List Semaphore) (stages : List Nat) (b : SubmitBatch)
    (h : addWaitSemaphores sems stages b = none) (hw : WaitsReady sems stages) : False := by
  obtain ⟨b2, k⟩ := addWaitSemaphores_some sems stages b hw
  rw [k] at h
  cases h

theorem SubmitState.addCommandBuffers_ne_none (cmds : List Submission) (st : SubmitState)
    (h : SubmitState.addCommandBuffers cmds st = none) (hr : st.Ready cmds) : False := by
  obtain ⟨st2, k, _⟩ := SubmitState.addCommandBuffers_ready cmds st hr
  rw [k] at h
  cases h

/-- The array of batches before the command-buffer loop: only the first batch may hold
anything, and it holds wait semaphores only. -/
theorem initialBatches_empty (first : SubmitBatch) (h1 : first.CommandBuffers = [])
    (h2 : first.SignalSemaphores = []) (j : Nat) (b : SubmitBatch)
    (hb : ((List.replicate MaxSubmissions SubmitBatch.empty).set 0 first)[j]? = some b) :
    b.CommandBuffers = [] ∧ b.SignalSemaphores = [] := by
  rw [List.getElem?_set] at hb
  split at hb
  · split at hb
    · simp only [Option.some.injEq] at hb
      subst hb
      exact ⟨h1, h2⟩
    · cases hb
  · rw [List.getElem?_replicate] at hb
    split at hb
    · simp only [Option.some.injEq] at hb
      subst hb
      exact ⟨rfl, rfl⟩
    · cases hb

/-- The first part of the body runs to completion when the queue is ready. -/
theorem Device.batchSubmissions_some (d : Device) (q : QueueType)
    (hf : ∃ f, d.Frame = some f) (hr : d.acquireReady) (hq : d.QueueReady q) :
    ∃ st, d.batchSubmissions q = some st ∧ st.batch < st.batches.length ∧
      (st.device.queueData.get q).WaitSemaphores = [] ∧
      (st.device.queueData.get q).WaitStages = [] ∧
      ∀ q2, q2 ≠ q → st.device.queueData.get q2 = d.queueData.get q2 := by
  obtain ⟨f, hf⟩ := hf
  obtain ⟨hw, hcost⟩ := hq
  have hlt : d.currentFrameContext < d.frameContexts.length :=
    (List.getElem?_eq_some.mp hf).1
  have hpend : d.pending q = f.Submissions.get q := by simp [Device.pending, hf]
  unfold Device.batchSubmissions
  dsimp only
  split
  · rename_i hnone
    exact (Device.modifyFrame_ne_none _ _ hnone ⟨f, hf⟩).elim
  · rename_i d2 hd2
    obtain ⟨f1, hf1, rfl⟩ := Device.modifyFrame_eq _ d2 _ hd2
    have hff : f1 = f := by
      have : some f1 = some f := by rw [← hf1, ← hf]; rfl
      simpa using this
    subst hff
    split
    · rename_i hnone
      exact (addWaitSemaphores_ne_none _ _ _ hnone hw).elim
    · rename_i first hfirst
      obtain ⟨k1, k2⟩ := addWaitSemaphores_keep _ _ _ _ hfirst
      split
      · rename_i hnone
        simp [Device.Frame, List.getElem?_set, hlt] at hnone
      · rename_i frame hframe
        have hfr : frame.Submissions.get q = f1.Submissions.get q := by
          simp only [Device.Frame, List.getElem?_set, hlt, if_true, Option.some.injEq] at hframe
          rw [← hframe]
        have hready : SubmitState.Ready
            ⟨{ d with
                queueData := (((d.queueData.set q
                  { (d.queueData.get q) with
                    TimelineValue := ((d.queueData.get q).TimelineValue + 1) % 2 ^ 64 }).set q
                  { ((d.queueData.set q
                      { (d.queueData.get q) with
                        TimelineValue := ((d.queueData.get q).TimelineValue + 1) % 2 ^ 64 }).get q) with
                    WaitSemaphores := [], WaitStages := [] }))
                frameContexts := d.frameContexts.set d.currentFrameContext
                  { f1 with
                    TimelineValues := f1.TimelineValues.set q
                      (((d.queueData.get q).TimelineValue + 1) % 2 ^ 64) } },
              (List.replicate MaxSubmissions SubmitBatch.empty).set 0 first, 0⟩
            (frame.Submissions.get q) := by
          refine ⟨by simp [MaxSubmissions], ?_, ⟨frame, hframe⟩, ?_, ?_⟩
          · intro j b _ hb
            exact initialBatches_empty first (by simpa [SubmitBatch.empty] using k1)
              (by simpa [SubmitBatch.empty] using k2) j b hb
          · intro a ha
            exact hr a ha
          · have hs : first.SignalSemaphores = [] := by simpa [SubmitBatch.empty] using k2
            have h0 : SubmitState.signalled
                ⟨{ d with
                    queueData := (((d.queueData.set q
                      { (d.queueData.get q) with
                        TimelineValue := ((d.queueData.get q).TimelineValue + 1) % 2 ^ 64 }).set q
                      { ((d.queueData.set q
                          { (d.queueData.get q) with
                            TimelineValue := ((d.queueData.get q).TimelineValue + 1) % 2 ^ 64 }).get q) with
                        WaitSemaphores := [], WaitStages := [] }))
                    frameContexts := d.frameContexts.set d.currentFrameContext
                      { f1 with
                        TimelineValues := f1.TimelineValues.set q
                          (((d.queueData.get q).TimelineValue + 1) % 2 ^ 64) } },
                  (List.replicate MaxSubmissions SubmitBatch.empty).set 0 first, 0⟩ = 0 := by
              simp [SubmitState.signalled, MaxSubmissions, hs]
            rw [h0, hfr, ← hpend]
            have : ∀ cmds, Device.batchCost
                { d with
                    queueData := (((d.queueData.set q
                      { (d.queueData.get q) with
                        TimelineValue := ((d.queueData.get q).TimelineValue + 1) % 2 ^ 64 }).set q
                      { ((d.queueData.set q
                          { (d.queueData.get q) with
                            TimelineValue := ((d.queueData.get q).TimelineValue + 1) % 2 ^ 64 }).get q) with
                        WaitSemaphores := [], WaitStages := [] }))
                    frameContexts := d.frameContexts.set d.currentFrameContext
                      { f1 with
                        TimelineValues := f1.TimelineValues.set q
                          (((d.queueData.get q).TimelineValue + 1) % 2 ^ 64) } } cmds
                = d.batchCost cmds := fun _ => rfl
            rw [this]
            have hb0 : (0 : Nat) + 0 + d.batchCost (d.pending q) ≤ 7 := by omega
            exact hb0
        split
        · rename_i hnone
          exact (SubmitState.addCommandBuffers_ne_none _ _ hnone hready).elim
        · rename_i st1 hloop
          obtain ⟨st1b, l1, l2, l3⟩ := SubmitState.addCommandBuffers_ready _ _ hready
          have hst : st1b = st1 := by
            have : some st1b = some st1 := by rw [← l1, ← hloop]
            simpa using this
          subst hst
          split
          · rename_i hnone
            exact (Device.modifyFrame_ne_none _ _ hnone l2.frame).elim
          · rename_i d4 hd4
            obtain ⟨f4, _, rfl⟩ := Device.modifyFrame_eq _ d4 _ hd4
            refine ⟨_, rfl, ?_, ?_, ?_, ?_⟩
            · have := l2.bound
              have hl := l2.length
              simp only [MaxSubmissions] at hl
              simp only [hl]
              omega
            · simp only [l3]
              simp [PerQueue.get_set]
            · simp only [l3]
              simp [PerQueue.get_set]
            · intro q2 hq2
              simp only [l3]
              simp [PerQueue.get_set, hq2]

theorem SubmitState.emitSemaphores_ne_none (st : SubmitState) (hasSemaphores : Bool)
    (count timelineSemaphore timelineValue fence : Nat)
    (h : st.emitSemaphores hasSemaphores count timelineSemaphore timelineValue fence = none)
    (hlt : st.batch < st.batches.length) : False := by
  obtain ⟨_, _, _, k, _⟩ := SubmitState.emitSemaphores_some st hasSemaphores count
    timelineSemaphore timelineValue fence hlt
  rw [k] at h
  cases h

theorem SubmitState.emitSemaphores_data (st st1 : SubmitState) (hasSemaphores : Bool)
    (count timelineSemaphore timelineValue fence : Nat) (out : List Semaphore)
    (internalFence : InternalFence)
    (h : st.emitSemaphores hasSemaphores count timelineSemaphore timelineValue fence
      = some (st1, out, internalFence))
    (hlt : st.batch < st.batches.length) :
    st1.device.queueData = st.device.queueData := by
  obtain ⟨s, o, f, k, kd⟩ := SubmitState.emitSemaphores_some st hasSemaphores count
    timelineSemaphore timelineValue fence hlt
  rw [k] at h
  simp only [Option.some.injEq, Prod.mk.injEq] at h
  rw [← h.1]
  exact kd

theorem Device.batchCost_nil_le (d : Device) : d.batchCost [] ≤ 7 := by
  unfold Device.batchCost swapchainCount
  split
  · omega
  · split
    · omega
    · simp

/-- A queue whose wait semaphores and pending list have been cleared is ready. -/
theorem Device.QueueReady.of_cleared {d : Device} {q : QueueType}
    (hw : (d.queueData.get q).WaitSemaphores = []) (hp : d.pending q = []) :
    d.QueueReady q := by
  refine ⟨⟨by simp [hw], by simp [hw]⟩, ?_⟩
  rw [hp]
  exact Device.batchCost_nil_le d

/-- A ready queue stays ready over a step that touches neither its data nor its
pending list. -/
theorem Device.QueueReady.of_advances {c : QueueType → Bool} {d d2 : Device} {q : QueueType}
    (h : d.Advances c d2) (hc : c q = false) (hd : d2.queueData.get q = d.queueData.get q)
    (hq : d.QueueReady q) : d2.QueueReady q := by
  refine ⟨by rw [hd]; exact hq.1, ?_⟩
  have hp : d2.pending q = d.pending q := by
    rw [h.pending q, hc]
    simp
  rw [hp]
  exact Nat.le_trans (h.batchCost_le _) hq.2

/-- The body of `SubmitQueue` runs to completion when the queue is ready, and leaves
every ready queue ready. -/
theorem Device.submitQueueBody_some (d : Device) (q : QueueType) (submitFence : Bool)
    (semaphores : Option Nat) (hf : ∃ f, d.Frame = some f) (hr : d.acquireReady)
    (hq : d.QueueReady q) :
    ∃ r, d.submitQueueBody q submitFence semaphores = some r ∧
      r.device.QueueReady q ∧
      (∀ q2, q2 ≠ q → r.device.queueData.get q2 = d.queueData.get q2) ∧
      ∀ q2, d.QueueReady q2 → r.device.QueueReady q2 := by
  obtain ⟨st1, t1, t2, t3, t4, t5⟩ := Device.batchSubmissions_some d q hf hr hq
  have hbody : ∃ r, d.submitQueueBody q submitFence semaphores = some r ∧
      (r.device.queueData.get q).WaitSemaphores = [] ∧
      ∀ q2, q2 ≠ q → r.device.queueData.get q2 = d.queueData.get q2 := by
    unfold Device.submitQueueBody
    dsimp only
    rw [t1]
    dsimp only
    have halloc : (if submitFence = true ∧ st1.device.timelineSemaphore = false then
        st1.device.AllocateFence else (st1.device, 0)).1.queueData = st1.device.queueData := by
      split
      · exact Device.AllocateFence_data _
      · rfl
    split
    · rename_i hnone
      exact (SubmitState.emitSemaphores_ne_none _ _ _ _ _ _ hnone t2).elim
    · rename_i st3 out internalFence hemit
      have hd := SubmitState.emitSemaphores_data _ _ _ _ _ _ _ _ _ hemit t2
      simp only at hd
      rw [halloc] at hd
      refine ⟨_, rfl, ?_, ?_⟩
      · simp only [SubmitState.submit]
        split
        · simp [PerQueue.get_set, hd, t3]
        · rw [hd, t3]
      · intro q2 hq2
        simp only [SubmitState.submit]
        split
        · simp [PerQueue.get_set, hq2, hd, t5 q2 hq2]
        · rw [hd, t5 q2 hq2]
  obtain ⟨r, b1, b2, b3⟩ := hbody
  obtain ⟨_, _, hadv⟩ := Device.submitQueueBody_eq d q submitFence semaphores r b1
  have hp : r.device.pending q = [] := by
    rw [hadv.pending q]
    simp [onlyQueue]
  have hrq : r.device.QueueReady q := Device.QueueReady.of_cleared b2 hp
  refine ⟨r, b1, hrq, b3, ?_⟩
  intro q2 hq2
  by_cases e : q2 = q
  · rw [e]
    exact hrq
  · exact Device.QueueReady.of_advances hadv (by simp [onlyQueue, e]) (b3 q2 e) hq2

theorem Device.SubmitQueueTransfer_some (d : Device) (hf : ∃ f, d.Frame = some f)
    (hr : d.acquireReady) (hq : d.QueueReady .Transfer) :
    ∃ r, d.SubmitQueueTransfer = some r ∧
      (∀ q2, q2 ≠ .Transfer → r.device.queueData.get q2 = d.queueData.get q2) ∧
      ∀ q2, d.QueueReady q2 → r.device.QueueReady q2 := by
  obtain ⟨f, hf1⟩ := hf
  unfold Device.SubmitQueueTransfer
  simp only [hf1]
  split
  · exact ⟨_, rfl, fun _ _ => rfl, fun _ h => h⟩
  · obtain ⟨r, b1, _, b3, b4⟩ := Device.submitQueueBody_some d .Transfer false none
      ⟨f, hf1⟩ hr hq
    exact ⟨r, b1, b3, b4⟩

theorem Device.FlushFrameTransfer_some (d : Device) (hf : ∃ f, d.Frame = some f)
    (hr : d.acquireReady) (hq : d.Queues.get .Transfer ≠ 0 → d.QueueReady .Transfer) :
    ∃ d1, d.FlushFrameTransfer = some d1 ∧
      (∀ q2, q2 ≠ .Transfer → d1.queueData.get q2 = d.queueData.get q2) ∧
      ∀ q2, d.QueueReady q2 → d1.QueueReady q2 := by
  unfold Device.FlushFrameTransfer
  split
  · exact ⟨d, rfl, fun _ _ => rfl, fun _ h => h⟩
  · rename_i hz
    obtain ⟨r, b1, b3, b4⟩ := Device.SubmitQueueTransfer_some d hf hr (hq hz)
    exact ⟨r.device, by simp [b1], b3, b4⟩

/-- The method `SubmitQueue` runs to completion from a ready device, and leaves every
ready queue ready. -/
theorem Device.SubmitQueue_some (d : Device) (q : QueueType) (submitFence : Bool)
    (semaphores : Option Nat) (h : d.SubmitReady q) :
    ∃ r, d.SubmitQueue q submitFence semaphores = some r ∧
      ∀ q2, d.QueueReady q2 → r.device.QueueReady q2 := by
  obtain ⟨⟨f, hf⟩, hr, hq, ht⟩ := h
  unfold Device.SubmitQueue
  simp only [hf]
  split
  · exact ⟨_, rfl, fun _ h => h⟩
  · by_cases e : q = .Transfer
    · subst e
      simp only [ne_eq, not_true_eq_false, if_false]
      obtain ⟨r, b1, _, _, b4⟩ := Device.submitQueueBody_some d .Transfer submitFence semaphores
        ⟨f, hf⟩ hr hq
      exact ⟨r, b1, b4⟩
    · simp only [ne_eq, e, not_false_eq_true, if_true]
      obtain ⟨d1, k1, k2, k3⟩ := Device.FlushFrameTransfer_some d ⟨f, hf⟩ hr (ht e)
      obtain ⟨c, hc, _⟩ := Device.FlushFrameTransfer_advances d d1 k1
      simp only [k1]
      obtain ⟨r, b1, _, _, b4⟩ := Device.submitQueueBody_some d1 q submitFence semaphores
        (hc.frame_some ⟨f, hf⟩) (hc.acquireReady hr) (k3 q hq)
      exact ⟨r, b1, fun q2 h2 => b4 q2 (k3 q2 h2)⟩

theorem threePendingDevice_ready : threePendingDevice.SubmitReady .Graphics := by
  refine ⟨⟨_, rfl⟩, ?_, ⟨⟨by decide, ?_⟩, by decide⟩, fun _ _ => ⟨⟨by decide, ?_⟩, by decide⟩⟩
  · intro a ha
    cases ha
  · intro s hs
    cases hs
  · intro s hs
    cases hs

/-- Whenever `SubmitQueue` returns, the command buffers of the
batches it built, concatenated in batch-index order, and those of the compacted native
submit entries, in array order, are exactly the native command buffers of the pending
submissions of the queue, in the order they were pushed, and the pending list of the
queue is empty afterwards.  It does return whenever the device is ready for the queue:
there is a current frame context, a pending acquire semaphore is signalled, the
accumulated wait semaphores can be consumed, and the pending command buffers need no
more than the eight batches of the array. -/
theorem Device.SubmitQueue_order (d : Device) (q : QueueType) (submitFence : Bool)
    (semaphores : Option Nat) :
    (∀ r, d.SubmitQueue q submitFence semaphores = some r →
      allCommandBuffers r.batches = (d.pending q).map (fun c => c.commandBuffer) ∧
      submittedCommandBuffers r.submits = (d.pending q).map (fun c => c.commandBuffer) ∧
      r.device.pending q = []) ∧
    (d.SubmitReady q → ∃ r, d.SubmitQueue q submitFence semaphores = some r) := by
  constructor
  · intro r h
    obtain ⟨h1, h2, h3, _⟩ := Device.SubmitQueue_eq d q submitFence semaphores r h
    exact ⟨h1, h2, h3⟩
  · intro h
    obtain ⟨r, hr, _⟩ := Device.SubmitQueue_some d q submitFence semaphores h
    exact ⟨r, hr⟩

/-- The order of submission at a device with three pending command buffers: the call
returns, and batches and submit entries hold the handles 31, 32, 33 in this order. -/
theorem threePendingDevice_order :
    threePendingDevice.SubmitReady .Graphics ∧
    ∃ r, threePendingDevice.SubmitQueue .Graphics true none = some r ∧
      allCommandBuffers r.batches = [31, 32, 33] ∧
      submittedCommandBuffers r.submits = [31, 32, 33] ∧
      r.device.pending .Graphics = [] := by
  refine ⟨threePendingDevice_ready, ?_⟩
  obtain ⟨r, hr⟩ := (Device.SubmitQueue_order threePendingDevice .Graphics true none).2
    threePendingDevice_ready
  obtain ⟨h1, h2, h3⟩ :=
    (Device.SubmitQueue_order threePendingDevice .Graphics true none).1 r hr
  exact ⟨r, hr, h1, h2, h3⟩

theorem foldl_ReleaseFence (l : List Nat) (p : Device) :
    l.foldl Device.ReleaseFence p = { p with availableFences := p.availableFences ++ l } := by
  induction l generalizing p with
  | nil => simp
  | cons x xs ih => simp [List.foldl, ih, Device.ReleaseFence]

theorem foldl_ReleaseSemaphore (l : List Nat) (p : Device) :
    l.foldl Device.ReleaseSemaphore p
      = { p with availableSemaphores := p.availableSemaphores ++ l } := by
  induction l generalizing p with
  | nil => simp
  | cons x xs ih => simp [List.foldl, ih, Device.ReleaseSemaphore]

/-- The device after `FrameContext::Begin`: the waits and destroy calls are appended to
the native calls, the fences and semaphores to recycle to the pools. -/
theorem FrameContext.Begin_device (f : FrameContext) (p : Device) :
    (f.Begin p).2 =
      { p with
        calls := p.calls ++ f.waitCalls p ++ f.destroyCalls
        availableFences := p.availableFences ++ f.FencesToRecycle
        availableSemaphores := p.availableSemaphores ++ f.SemaphoresToRecycle } := by
  simp [FrameContext.Begin, foldl_ReleaseFence, foldl_ReleaseSemaphore]

/-- The frame context after `FrameContext::Begin`: every deferred-destruction queue is
empty, the pending submissions are as before. -/
theorem FrameContext.Begin_frame (f : FrameContext) (p : Device) :
    (∀ k, (f.Begin p).1.queue k = []) ∧ (f.Begin p).1.Submissions = f.Submissions := by
  refine ⟨fun k => ?_, rfl⟩
  cases k <;> rfl

theorem FrameContext.waitCalls_isDestroy (f : FrameContext) (p : Device) (c : NativeCall)
    (hc : c ∈ f.waitCalls p) : c.isDestroy = false := by
  have single : ∀ (b : Bool) (x : NativeCall),
      c ∈ (if b = true then [] else [x]) → x.isDestroy = false → c.isDestroy = false := by
    intro b x hm hx
    cases b
    · simp only [Bool.false_eq_true, if_false, List.mem_singleton] at hm
      rw [hm]
      exact hx
    · simp at hm
  unfold FrameContext.waitCalls at hc
  simp only [List.mem_append] at hc
  rcases hc with (hc | hc) | hc
  · exact single _ _ hc rfl
  · exact single _ _ hc rfl
  · exact single _ _ hc rfl

theorem DestroyKind.call_isDestroy (k : DestroyKind) (h : Nat) : (k.call h).isDestroy = true := by
  cases k <;> rfl

/-- A destroy call is made by `FrameContext::Begin` exactly for the handles of the
queue of its kind. -/
theorem FrameContext.mem_destroyCalls (f : FrameContext) (k : DestroyKind) (h : Nat) :
    k.call h ∈ f.destroyCalls ↔ h ∈ f.queue k := by
  cases k <;> simp [FrameContext.destroyCalls, DestroyKind.call, FrameContext.queue]

theorem FrameContext.Extends.extends_queue_mem {f f2 : FrameContext} (h : f.Extends f2)
    (k : DestroyKind) (x : Nat) (hx : x ∈ f.queue k) : x ∈ f2.queue k := by
  cases k
  · obtain ⟨m, hm⟩ := h.buffers
    simp only [FrameContext.queue] at hx ⊢
    rw [hm]
    exact List.mem_append_left _ hx
  · obtain ⟨m, hm⟩ := h.images
    simp only [FrameContext.queue] at hx ⊢
    rw [hm]
    exact List.mem_append_left _ hx
  · obtain ⟨m, hm⟩ := h.views
    simp only [FrameContext.queue] at hx ⊢
    rw [hm]
    exact List.mem_append_left _ hx
  · obtain ⟨m, hm⟩ := h.memory
    simp only [FrameContext.queue] at hx ⊢
    rw [hm]
    exact List.mem_append_left _ hx
  · obtain ⟨m, hm⟩ := h.semaphores
    simp only [FrameContext.queue] at hx ⊢
    rw [hm]
    exact List.mem_append_left _ hx

/-- A handle in a deferred-destruction queue of the current frame context is still
there after the device has advanced. -/
theorem Device.Advances.queue_mem {c : QueueType → Bool} {d d2 : Device}
    (h : d.Advances c d2) (k : DestroyKind) (x : Nat)
    (hx : ∃ f, d.Frame = some f ∧ x ∈ f.queue k) :
    ∃ f2, d2.Frame = some f2 ∧ x ∈ f2.queue k := by
  obtain ⟨f, hf, hm⟩ := hx
  obtain ⟨f2, hf2, he⟩ := h.frame f hf
  exact ⟨f2, hf2, he.queues.extends_queue_mem k x hm⟩

/-- The entry points of deferred destruction append the handle to the queue of its kind
in the current frame context. -/
theorem Device.enqueue_eq (d d1 : Device) (k : DestroyKind) (locked : Bool) (x : Nat)
    (h : d.enqueue k locked x = some d1) :
    d.Advances noQueue d1 ∧ ∃ f, d1.Frame = some f ∧ x ∈ f.queue k := by
  have key : ∀ g : FrameContext → FrameContext, d.modifyFrame g = some d1 →
      (∀ f : FrameContext, f.Evolves noQueue (g f)) → (∀ f : FrameContext, x ∈ (g f).queue k) →
      d.Advances noQueue d1 ∧ ∃ f, d1.Frame = some f ∧ x ∈ f.queue k := by
    intro g hg h1 h2
    refine ⟨Device.modifyFrame_advances d d1 g noQueue hg h1, ?_⟩
    obtain ⟨f, hf, rfl⟩ := Device.modifyFrame_eq d d1 g hg
    have hlt : d.currentFrameContext < d.frameContexts.length :=
      (List.getElem?_eq_some.mp hf).1
    exact ⟨g f, by simp [Device.Frame, List.getElem?_set, hlt], h2 f⟩
  have ev : ∀ (f f2 : FrameContext), f2.Submissions = f.Submissions → f.Extends f2 →
      f.Evolves noQueue f2 := by
    intro f f2 e1 e2
    exact ⟨fun q => by simp [noQueue, e1], e2⟩
  cases k <;> cases locked
  all_goals
    refine key _ h (fun f => ev _ _ rfl ?_) (fun f => by simp [FrameContext.queue])
  all_goals
    first
    | exact ⟨⟨[x], rfl⟩, ⟨[], by simp⟩, ⟨[], by simp⟩, ⟨[], by simp⟩, ⟨[], by simp⟩⟩
    | exact ⟨⟨[], by simp⟩, ⟨[x], rfl⟩, ⟨[], by simp⟩, ⟨[], by simp⟩, ⟨[], by simp⟩⟩
    | exact ⟨⟨[], by simp⟩, ⟨[], by simp⟩, ⟨[x], rfl⟩, ⟨[], by simp⟩, ⟨[], by simp⟩⟩
    | exact ⟨⟨[], by simp⟩, ⟨[], by simp⟩, ⟨[], by simp⟩, ⟨[x], rfl⟩, ⟨[], by simp⟩⟩
    | exact ⟨⟨[], by simp⟩, ⟨[], by simp⟩, ⟨[], by simp⟩, ⟨[], by simp⟩, ⟨[x], rfl⟩⟩

theorem Device.allocatorsBeginFrame_advances (released : List (DestroyKind × Nat))
    (d d1 : Device) (h : Device.allocatorsBeginFrame released d = some d1) :
    d.Advances noQueue d1 := by
  induction released generalizing d with
  | nil =>
    simp only [Device.allocatorsBeginFrame, Option.some.injEq] at h
    subst h
    exact Device.Advances.refl d
  | cons x xs ih =>
    obtain ⟨k, y⟩ := x
    simp only [Device.allocatorsBeginFrame] at h
    split at h
    · cases h
    · rename_i d2 hd2
      exact (Device.enqueue_eq d d2 k false y hd2).1.trans_none (ih d2 h)

/-- The steps of `EndFrameNoLock` after `SubmitQueue`: the fence is recorded in the
frame context and the flag `NeedsFence` is cleared. -/
theorem Device.endFrameQueue_tail (d d1 : Device) (t : QueueType) (fence : Nat)
    (h : (if fence ≠ 0 then
        d.modifyFrame (fun f =>
          { f with
            FencesToAwait := f.FencesToAwait ++ [fence]
            FencesToRecycle := f.FencesToRecycle ++ [fence] })
      else some d) = some d1) :
    d.Advances noQueue
      { d1 with queueData := (d1.queueData.set t
        { (d1.queueData.get t) with NeedsFence := false }) } ∧
    d1.queueData = d.queueData := by
  have h1 : d.Advances noQueue d1 ∧ d1.queueData = d.queueData := by
    split at h
    · refine ⟨Device.modifyFrame_advances d d1 _ noQueue h
        (fun f => ⟨fun q => by simp [noQueue], FrameContext.Extends.of_same rfl rfl rfl rfl rfl⟩),
        ?_⟩
      obtain ⟨f, _, rfl⟩ := Device.modifyFrame_eq d d1 _ h
      rfl
    · simp only [Option.some.injEq] at h
      subst h
      exact ⟨Device.Advances.refl d, rfl⟩
  exact ⟨h1.1.trans_none (Device.Advances.of_fields rfl rfl rfl rfl rfl rfl rfl rfl), h1.2⟩

theorem Device.endFrameQueue_advances (d d1 : Device) (t : QueueType)
    (h : d.endFrameQueue t = some d1) : ∃ c : QueueType → Bool, d.Advances c d1 := by
  unfold Device.endFrameQueue at h
  split at h
  · cases h
  · split at h
    · split at h
      · cases h
      · rename_i r hr
        dsimp only at h
        split at h
        · cases h
        · rename_i d2 hd2
          simp only [Option.some.injEq] at h
          subst h
          obtain ⟨_, _, _, c, hc⟩ := Device.SubmitQueue_eq d t true none r hr
          exact ⟨_, hc.trans (Device.endFrameQueue_tail r.device d2 t _ hd2).1⟩
    · simp only [Option.some.injEq] at h
      subst h
      exact ⟨noQueue, Device.Advances.refl d⟩

theorem Device.endFrameQueues_advances (ts : List QueueType) (d d1 : Device)
    (h : Device.endFrameQueues ts d = some d1) : ∃ c : QueueType → Bool, d.Advances c d1 := by
  induction ts generalizing d with
  | nil =>
    simp only [Device.endFrameQueues, Option.some.injEq] at h
    subst h
    exact ⟨noQueue, Device.Advances.refl d⟩
  | cons t rest ih =>
    simp only [Device.endFrameQueues] at h
    split at h
    · cases h
    · rename_i d2 hd2
      obtain ⟨c1, h1⟩ := Device.endFrameQueue_advances d d2 t hd2
      obtain ⟨c2, h2⟩ := ih d2 h
      exact ⟨_, h1.trans h2⟩

/-- What `NextFrame` does: the device advances (end of frame, allocators) to a state
`dm`; the ring moves to the next position; the frame context there is begun, which
appends its waits and then its destroy calls to the native calls and empties its
deferred-destruction queues. -/
theorem Device.NextFrame_eq (d d2 : Device) (released : List (DestroyKind × Nat))
    (h : d.NextFrame released = some d2) :
    ∃ (dm : Device) (c : QueueType → Bool) (f f2 : FrameContext) (waits : List NativeCall),
      d.Advances c dm ∧
      dm.frameContexts[dm.nextFrameContext]? = some f ∧
      d2.currentFrameContext = dm.nextFrameContext ∧
      d2.frameContexts = dm.frameContexts.set dm.nextFrameContext f2 ∧
      (∀ k, f2.queue k = []) ∧ f2.Submissions = f.Submissions ∧
      d2.calls = dm.calls ++ waits ++ f.destroyCalls ∧
      (∀ x ∈ waits, x.isDestroy = false) ∧
      d2.queueData = dm.queueData ∧ d2.lockCounter = dm.lockCounter ∧
      d2.swapchainAcquire = dm.swapchainAcquire ∧
      d2.swapchainAcquireConsumed = dm.swapchainAcquireConsumed := by
  unfold Device.NextFrame at h
  split at h
  · cases h
  · split at h
    · cases h
    · rename_i d1 hd1
      split at h
      · cases h
      · rename_i dm hdm
        dsimp only at h
        split at h
        · cases h
        · rename_i frame hframe
          obtain ⟨c1, h1⟩ := Device.endFrameQueues_advances _ d d1 hd1
          have h2 := Device.allocatorsBeginFrame_advances released d1 dm hdm
          obtain ⟨f0, _, rfl⟩ := Device.modifyFrame_eq _ d2 _ h
          refine ⟨dm, _, frame,
            (frame.Begin { dm with currentFrameContext := dm.nextFrameContext }).1,
            frame.waitCalls { dm with currentFrameContext := dm.nextFrameContext },
            h1.trans h2, hframe, ?_, ?_,
            (FrameContext.Begin_frame frame _).1, (FrameContext.Begin_frame frame _).2, ?_,
            FrameContext.waitCalls_isDestroy frame _, ?_, ?_, ?_, ?_⟩
          all_goals simp [FrameContext.Begin_device]

/-- A call of `NextFrame` on a ring of two frame contexts: the ring moves to the other
frame context, whose deferred-destruction queues are destroyed, in full, and emptied;
no other destroy call is made; the queues of the frame context that was current are
kept, and may grow. -/
theorem Device.NextFrame_ring (x y : Device) (released : List (DestroyKind × Nat))
    (h : x.NextFrame released = some y) (hl : x.frameContexts.length = 2)
    (hK : x.currentFrameContext < 2) :
    y.currentFrameContext = 1 - x.currentFrameContext ∧ y.frameContexts.length = 2 ∧
    ∃ (fo f2 : FrameContext) (more : List NativeCall),
      x.frameContexts[1 - x.currentFrameContext]? = some fo ∧
      y.Frame = some f2 ∧ (∀ k, f2.queue k = []) ∧
      y.calls = x.calls ++ more ++ fo.destroyCalls ∧ (∀ c ∈ more, c.isDestroy = false) ∧
      ∀ fK, x.frameContexts[x.currentFrameContext]? = some fK →
        ∃ fK2, y.frameContexts[x.currentFrameContext]? = some fK2 ∧ fK.Extends fK2 := by
  obtain ⟨dm, c, f, f2, waits, ha, hf, e1, e2, e3, _, e5, e6, _⟩ :=
    Device.NextFrame_eq x y released h
  have hnext : dm.nextFrameContext = 1 - x.currentFrameContext := by
    unfold Device.nextFrameContext
    rw [ha.current, ha.length, hl]
    split <;> omega
  rw [hnext] at hf e1 e2
  have hne : 1 - x.currentFrameContext ≠ x.currentFrameContext := by omega
  have hlt : 1 - x.currentFrameContext < dm.frameContexts.length := by
    rw [ha.length, hl]
    omega
  obtain ⟨more, hm1, hm2⟩ := ha.calls
  refine ⟨e1, by rw [e2, List.length_set, ha.length, hl], f, f2, more ++ waits, ?_, ?_, e3, ?_,
    ?_, ?_⟩
  · rw [← ha.others _ hne]
    exact hf
  · simp [Device.Frame, e1, e2, List.getElem?_set, hlt]
  · rw [e5, hm1]
    simp
  · intro c hc
    rcases List.mem_append.mp hc with hc | hc
    · exact hm2 c hc
    · exact e6 c hc
  · intro fK hfK
    obtain ⟨fK2, h1, h2⟩ := ha.frame fK hfK
    refine ⟨fK2, ?_, h2.queues⟩
    rw [e2, List.getElem?_set_ne hne]
    unfold Device.Frame at h1
    rw [ha.current] at h1
    exact h1

/-- A ready queue stays ready over a step that touches neither its wait semaphores nor
its pending list. -/
theorem Device.QueueReady.of_waits {c : QueueType → Bool} {d d2 : Device} {q : QueueType}
    (h : d.Advances c d2) (hp : d2.pending q = d.pending q)
    (h1 : (d2.queueData.get q).WaitSemaphores = (d.queueData.get q).WaitSemaphores)
    (h2 : (d2.queueData.get q).WaitStages = (d.queueData.get q).WaitStages)
    (hq : d.QueueReady q) : d2.QueueReady q := by
  refine ⟨by rw [h1, h2]; exact hq.1, ?_⟩
  rw [hp]
  exact Nat.le_trans (h.batchCost_le _) hq.2

theorem Device.Advances.pending_nil {c : QueueType → Bool} {d d2 : Device}
    (h : d.Advances c d2) (q : QueueType) (hp : d.pending q = []) : d2.pending q = [] := by
  rw [h.pending q, hp]
  simp

/-- One turn of the loop of `EndFrameNoLock` runs to completion on a ready device, keeps
every queue ready and leaves the queue without pending submissions. -/
theorem Device.endFrameQueue_ready (d : Device) (t : QueueType)
    (hf : ∃ f, d.Frame = some f) (hr : d.acquireReady) (hq : ∀ q, d.QueueReady q) :
    ∃ d1, d.endFrameQueue t = some d1 ∧ (∀ q, d1.QueueReady q) ∧ d1.pending t = [] := by
  obtain ⟨f, hf1⟩ := hf
  unfold Device.endFrameQueue
  simp only [hf1]
  split
  · obtain ⟨r, hr1, hr2⟩ := Device.SubmitQueue_some d t true none
      ⟨⟨f, hf1⟩, hr, hq t, fun _ _ => hq .Transfer⟩
    obtain ⟨_, _, hp, c, hc⟩ := Device.SubmitQueue_eq d t true none r hr1
    simp only [hr1]
    split
    · rename_i hnone
      split at hnone
      · exact (Device.modifyFrame_ne_none _ _ hnone (hc.frame_some ⟨f, hf1⟩)).elim
      · cases hnone
    · rename_i d2 hd2
      obtain ⟨t1, t2⟩ := Device.endFrameQueue_tail r.device d2 t _ hd2
      refine ⟨_, rfl, ?_, t1.pending_nil t hp⟩
      intro q
      refine Device.QueueReady.of_waits t1 ?_ ?_ ?_ (hr2 q (hq q))
      · rw [t1.pending q]
        simp [noQueue]
      · by_cases e : q = t <;> simp [PerQueue.get_set, e, t2]
      · by_cases e : q = t <;> simp [PerQueue.get_set, e, t2]
  · rename_i hcond
    refine ⟨d, rfl, hq, ?_⟩
    simp only [not_or, Bool.not_eq_true, Bool.not_eq_false] at hcond
    simp only [Device.pending, hf1]
    exact List.isEmpty_iff.mp hcond.2

theorem Device.endFrameQueues_ready (ts : List QueueType) (d : Device)
    (hf : ∃ f, d.Frame = some f) (hr : d.acquireReady) (hq : ∀ q, d.QueueReady q) :
    ∃ d1, Device.endFrameQueues ts d = some d1 ∧ (∀ q, d1.QueueReady q) ∧
      ∀ q, q ∈ ts ∨ d.pending q = [] → d1.pending q = [] := by
  induction ts generalizing d with
  | nil =>
    refine ⟨d, rfl, hq, ?_⟩
    intro q hq2
    rcases hq2 with h | h
    · cases h
    · exact h
  | cons t rest ih =>
    obtain ⟨d1, a1, a2, a3⟩ := Device.endFrameQueue_ready d t hf hr hq
    obtain ⟨c, hc⟩ := Device.endFrameQueue_advances d d1 t a1
    obtain ⟨d2, b1, b2, b3⟩ := ih d1 (hc.frame_some hf) (hc.acquireReady hr) a2
    refine ⟨d2, by simp only [Device.endFrameQueues, a1, b1], b2, ?_⟩
    intro q hq2
    apply b3
    rcases hq2 with h | h
    · rcases List.mem_cons.mp h with h | h
      · right
        rw [h]
        exact a3
      · left
        exact h
    · right
      exact hc.pending_nil q h

theorem Device.enqueue_some (d : Device) (k : DestroyKind) (locked : Bool) (x : Nat)
    (hf : ∃ f, d.Frame = some f) :
    ∃ d1, d.enqueue k locked x = some d1 ∧ d1.queueData = d.queueData := by
  cases k <;> cases locked <;> exact Device.modifyFrame_some d _ hf

theorem Device.allocatorsBeginFrame_some (released : List (DestroyKind × Nat)) (d : Device)
    (hf : ∃ f, d.Frame = some f) :
    ∃ d1, Device.allocatorsBeginFrame released d = some d1 ∧ d1.queueData = d.queueData := by
  induction released generalizing d with
  | nil => exact ⟨d, rfl, rfl⟩
  | cons x xs ih =>
    obtain ⟨k, y⟩ := x
    obtain ⟨d1, a1, a2⟩ := Device.enqueue_some d k false y hf
    obtain ⟨d2, b1, b2⟩ := ih d1 ((Device.enqueue_eq d d1 k false y a1).1.frame_some hf)
    exact ⟨d2, by simp only [Device.allocatorsBeginFrame, a1, b1], by rw [b2, a2]⟩

/-- The method `NextFrame` runs to completion on a ready device and leaves a ready
device. -/
theorem Device.NextFrame_some (d : Device) (released : List (DestroyKind × Nat))
    (h : d.NextReady) : ∃ d2, d.NextFrame released = some d2 ∧ d2.NextReady := by
  obtain ⟨hlock, hf, hr, hq, ho⟩ := h
  obtain ⟨d1, a1, a2, a3⟩ := Device.endFrameQueues_ready QueueFlushOrder d hf hr hq
  obtain ⟨c1, hc1⟩ := Device.endFrameQueues_advances QueueFlushOrder d d1 a1
  obtain ⟨dm, b1, b2⟩ := Device.allocatorsBeginFrame_some released d1 (hc1.frame_some hf)
  have hc2 := Device.allocatorsBeginFrame_advances released d1 dm b1
  have hc := hc1.trans hc2
  -- the state before the ring moves
  have hpend : ∀ q, dm.pending q = [] := by
    intro q
    apply hc2.pending_nil
    apply a3
    left
    cases q <;> simp [QueueFlushOrder]
  have hqm : ∀ q, dm.QueueReady q := fun q =>
    Device.QueueReady.of_advances hc2 rfl (by rw [b2]) (a2 q)
  obtain ⟨fc, hfc⟩ := hc.frame_some hf
  have hcur : dm.currentFrameContext < dm.frameContexts.length :=
    (List.getElem?_eq_some.mp hfc).1
  have hnext : dm.nextFrameContext < dm.frameContexts.length := by
    unfold Device.nextFrameContext
    split <;> omega
  obtain ⟨fn, hfn⟩ := list_getElem?_some_of_lt _ _ hnext
  -- the frame context the ring moves to holds no pending submission
  have hfnsub : ∀ q, fn.Submissions.get q = [] := by
    intro q
    by_cases e : dm.nextFrameContext = dm.currentFrameContext
    · have := hpend q
      unfold Device.pending Device.Frame at this
      rw [← e, hfn] at this
      exact this
    · have e2 : dm.nextFrameContext ≠ d.currentFrameContext := by
        rw [← hc.current]
        exact e
      rw [hc.others _ e2] at hfn
      exact ho _ fn e2 hfn q
  have hframe : Device.Frame { dm with currentFrameContext := dm.nextFrameContext } = some fn := hfn
  refine ⟨{ (fn.Begin { dm with currentFrameContext := dm.nextFrameContext }).2 with
      frameContexts :=
        (fn.Begin { dm with currentFrameContext := dm.nextFrameContext }).2.frameContexts.set
          (fn.Begin { dm with currentFrameContext := dm.nextFrameContext }).2.currentFrameContext
          (fn.Begin { dm with currentFrameContext := dm.nextFrameContext }).1 }, ?_, ?_⟩
  · unfold Device.NextFrame Device.EndFrameNoLock
    simp only [hlock, ne_eq, not_true_eq_false, if_false, a1, b1, hframe]
    apply Device.modifyFrame_isSome _ _ fn
    simp only [FrameContext.Begin_device, Device.Frame]
    exact hfn
  · have hsub := (FrameContext.Begin_frame fn
      { dm with currentFrameContext := dm.nextFrameContext }).2
    have hfr2 : Device.Frame
        { (fn.Begin { dm with currentFrameContext := dm.nextFrameContext }).2 with
          frameContexts :=
            (fn.Begin { dm with currentFrameContext := dm.nextFrameContext }).2.frameContexts.set
              (fn.Begin { dm with currentFrameContext := dm.nextFrameContext }).2.currentFrameContext
              (fn.Begin { dm with currentFrameContext := dm.nextFrameContext }).1 }
        = some (fn.Begin { dm with currentFrameContext := dm.nextFrameContext }).1 := by
      simp [FrameContext.Begin_device, Device.Frame, List.getElem?_set, hnext]
    constructor
    · simp only [FrameContext.Begin_device]
      rw [hc.lock]
      exact hlock
    · exact ⟨_, hfr2⟩
    · intro a ha
      simp only [FrameContext.Begin_device] at ha
      exact hc.acquireReady hr a ha
    · intro q
      constructor
      · simp only [FrameContext.Begin_device]
        exact (hqm q).1
      · have hp : Device.pending
            { (fn.Begin { dm with currentFrameContext := dm.nextFrameContext }).2 with
              frameContexts :=
                (fn.Begin { dm with currentFrameContext := dm.nextFrameContext }).2.frameContexts.set
                  (fn.Begin
                    { dm with currentFrameContext := dm.nextFrameContext }).2.currentFrameContext
                  (fn.Begin { dm with currentFrameContext := dm.nextFrameContext }).1 } q = [] := by
          unfold Device.pending
          rw [hfr2]
          simp only [hsub]
          exact hfnsub q
        rw [hp]
        exact Device.batchCost_nil_le _
    · intro i f hi hfi q
      simp only [FrameContext.Begin_device] at hi hfi
      rw [List.getElem?_set_ne (Ne.symm hi)] at hfi
      by_cases e : i = d.currentFrameContext
      · have := hpend q
        unfold Device.pending Device.Frame at this
        rw [hc.current, ← e, hfi] at this
        exact this
      · rw [hc.others _ e] at hfi
        exact ho i f e hfi q

/-- A ready device stays ready over a step that clears no queue and keeps the data of
the queues. -/
theorem Device.NextReady.nextReady_of_advances {d d2 : Device} (h : d.Advances noQueue d2)
    (hd : d2.queueData = d.queueData) (hr : d.NextReady) : d2.NextReady := by
  refine ⟨by rw [h.lock]; exact hr.lock, h.frame_some hr.frame, h.acquireReady hr.acquire,
    fun q => Device.QueueReady.of_advances h rfl (by rw [hd]) (hr.queues q), ?_⟩
  intro i f hi hf q
  rw [h.current] at hi
  rw [h.others i hi] at hf
  exact hr.others i f hi hf q

theorem not_mem_of_isDestroy_false (k : DestroyKind) (x : Nat) (l : List NativeCall)
    (h : ∀ c ∈ l, c.isDestroy = false) : k.call x ∉ l := by
  intro hm
  have := h _ hm
  rw [DestroyKind.call_isDestroy] at this
  cases this

/-- Claim C1.  On a ring of two frame contexts, a native handle enqueued for deferred
destruction while frame context K is current (through `DestroyBuffer`, `DestroyImage`,
`DestroyImageView`, `DestroySemaphore` or `FreeMemory`, locked or not), and not pending
in the other frame context, is still in the queue of K and has not been destroyed after
the first following `NextFrame`, whatever the device does before and after it short of
draining a frame context; the second following `NextFrame` returns to K, makes the native
destroy call and leaves the queue of K empty.  On a ready device the three calls run to
completion. -/
theorem C1_deferred_destruction_ring (d : Device) (kind : DestroyKind) (locked : Bool)
    (handle : Nat) (released1 released2 : List (DestroyKind × Nat))
    (hring : d.frameContexts.length = 2)
    (hother : ∀ f, d.frameContexts[1 - d.currentFrameContext]? = some f →
      handle ∉ f.queue kind) :
    (d.NextReady → ∃ d1 d2 d3, d.enqueue kind locked handle = some d1 ∧
      d1.NextFrame released1 = some d2 ∧ d2.NextFrame released2 = some d3) ∧
    ∀ (d1 e1 d2 e2 d3 : Device) (c1 c2 : QueueType → Bool),
      d.enqueue kind locked handle = some d1 → d1.Advances c1 e1 →
      e1.NextFrame released1 = some d2 → d2.Advances c2 e2 →
      e2.NextFrame released2 = some d3 →
      (d2.currentFrameContext ≠ d.currentFrameContext ∧
        e2.currentFrameContext ≠ d.currentFrameContext ∧
        (∃ f, d2.frameContexts[d.currentFrameContext]? = some f ∧ handle ∈ f.queue kind) ∧
        (∃ f, e2.frameContexts[d.currentFrameContext]? = some f ∧ handle ∈ f.queue kind) ∧
        ∃ more, e2.calls = d.calls ++ more ∧ kind.call handle ∉ more) ∧
      (d3.currentFrameContext = d.currentFrameContext ∧
        (∃ f, d3.Frame = some f ∧ f.queue kind = []) ∧
        ∃ more, d3.calls = e2.calls ++ more ∧ kind.call handle ∈ more) := by
  constructor
  · intro hr
    obtain ⟨d1, a1, a2⟩ := Device.enqueue_some d kind locked handle hr.frame
    have hr1 := Device.NextReady.nextReady_of_advances (Device.enqueue_eq d d1 kind locked handle a1).1 a2 hr
    obtain ⟨d2, b1, hr2⟩ := Device.NextFrame_some d1 released1 hr1
    obtain ⟨d3, b2, _⟩ := Device.NextFrame_some d2 released2 hr2
    exact ⟨d1, d2, d3, a1, b1, b2⟩
  · intro d1 e1 d2 e2 d3 c1 c2 henq ha1 hn1 ha2 hn2
    obtain ⟨had, f1, hf1, hm1⟩ := Device.enqueue_eq d d1 kind locked handle henq
    obtain ⟨fe, hfe, hme⟩ := ha1.queue_mem kind handle ⟨f1, hf1, hm1⟩
    have hde := had.trans ha1
    have hcur1 : e1.currentFrameContext = d.currentFrameContext := hde.current
    have hlen1 : e1.frameContexts.length = 2 := by rw [hde.length, hring]
    have hK : d.currentFrameContext < 2 := by
      have := (List.getElem?_eq_some.mp hfe).1
      rw [hcur1, hlen1] at this
      exact this
    have hne : 1 - d.currentFrameContext ≠ d.currentFrameContext := by omega
    -- the first call
    obtain ⟨r1, r2, fo, f2, more, r3, r4, r5, r6, r7, r8⟩ :=
      Device.NextFrame_ring e1 d2 released1 hn1 hlen1 (by rw [hcur1]; exact hK)
    rw [hcur1] at r1 r3 r8
    have hfo : handle ∉ fo.queue kind := by
      apply hother
      rw [← hde.others _ hne]
      exact r3
    obtain ⟨fK, hfK, hext⟩ := r8 fe (by rw [← hcur1]; exact hfe)
    have hmK : handle ∈ fK.queue kind := hext.extends_queue_mem kind handle hme
    -- what the device does before the second call
    have hcur2 : e2.currentFrameContext = 1 - d.currentFrameContext := by
      rw [ha2.current, r1]
    have hlen2 : e2.frameContexts.length = 2 := by rw [ha2.length, r2]
    have hfK2 : e2.frameContexts[d.currentFrameContext]? = some fK := by
      rw [ha2.others _ (by rw [r1]; exact Ne.symm hne)]
      exact hfK
    obtain ⟨m0, hm0, hm0d⟩ := hde.calls
    obtain ⟨m2, hm2, hm2d⟩ := ha2.calls
    -- the second call
    obtain ⟨s1, _, fo2, g2, more2, s3, s4, s5, s6, _, _⟩ :=
      Device.NextFrame_ring e2 d3 released2 hn2 hlen2 (by rw [hcur2]; omega)
    have hback : 1 - e2.currentFrameContext = d.currentFrameContext := by
      rw [hcur2]
      omega
    rw [hback] at s1 s3
    have hfo2 : fo2 = fK := by
      rw [hfK2] at s3
      simpa using s3.symm
    subst hfo2
    refine ⟨⟨by rw [r1]; exact hne, by rw [hcur2]; exact hne, ⟨fo2, hfK, hmK⟩,
      ⟨fo2, hfK2, hmK⟩, m0 ++ more ++ fo.destroyCalls ++ m2, ?_, ?_⟩,
      s1, ⟨g2, s4, s5 kind⟩, more2 ++ fo2.destroyCalls, ?_, ?_⟩
    · rw [hm2, r6, hm0]
      simp
    · intro hmem
      simp only [List.mem_append] at hmem
      rcases hmem with ((h | h) | h) | h
      · exact not_mem_of_isDestroy_false kind handle m0 hm0d h
      · exact not_mem_of_isDestroy_false kind handle more r7 h
      · exact hfo ((FrameContext.mem_destroyCalls fo kind handle).mp h)
      · exact not_mem_of_isDestroy_false kind handle m2 hm2d h
    · rw [s6]
      simp
    · exact List.mem_append_right _ ((FrameContext.mem_destroyCalls fo2 kind handle).mpr hmK)

/-- The device as constructed, without timeline semaphores, is ready. -/
theorem Device.create_ready : (Device.create false).NextReady := by
  refine ⟨rfl, ⟨_, rfl⟩, ?_, ?_, ?_⟩
  · intro a ha
    cases ha
  · intro q
    cases q
    all_goals
      refine ⟨⟨by decide, ?_⟩, by decide⟩
      intro s hs
      cases hs
  · intro i f hi hf q
    match i with
    | 0 => exact (hi rfl).elim
    | 1 =>
      simp only [Device.create, List.getElem?_cons_succ, List.getElem?_cons_zero,
        Option.some.injEq] at hf
      subst hf
      cases q <;> rfl
    | n + 2 => simp [Device.create] at hf

/-- Claim C1 at the device as constructed: the buffer handle 7, enqueued through
`DestroyBuffer` in frame context 0, is still queued there and not destroyed after one
`NextFrame`, and destroyed by the second, which returns to frame context 0. -/
theorem C1_deferred_destruction_ring_witness :
    (Device.create false).frameContexts.length = 2 ∧ (Device.create false).NextReady ∧
    ∃ d1 d2 d3 : Device,
      (Device.create false).enqueue .buffer true 7 = some d1 ∧
      d1.NextFrame [] = some d2 ∧ d2.NextFrame [] = some d3 ∧
      d2.currentFrameContext ≠ 0 ∧
      (∃ f, d2.frameContexts[0]? = some f ∧ 7 ∈ f.queue .buffer) ∧
      (∃ more, d2.calls = [] ++ more ∧ NativeCall.destroyBuffer 7 ∉ more) ∧
      d3.currentFrameContext = 0 ∧
      (∃ f, d3.Frame = some f ∧ f.queue .buffer = []) ∧
      ∃ more, d3.calls = d2.calls ++ more ∧ NativeCall.destroyBuffer 7 ∈ more := by
  have hother : ∀ f, (Device.create false).frameContexts[1 -
      (Device.create false).currentFrameContext]? = some f → 7 ∉ f.queue .buffer := by
    intro f hf
    simp only [Device.create, Nat.sub_zero, List.getElem?_cons_succ, List.getElem?_cons_zero,
      Option.some.injEq] at hf
    subst hf
    simp [FrameContext.create, FrameContext.queue]
  obtain ⟨d1, d2, d3, a, b, c⟩ :=
    (C1_deferred_destruction_ring (Device.create false) .buffer true 7 [] [] rfl hother).1
      Device.create_ready
  obtain ⟨⟨t1, _, t3, _, t5⟩, t6, t7, t8⟩ :=
    (C1_deferred_destruction_ring (Device.create false) .buffer true 7 [] [] rfl hother).2
      d1 d1 d2 d2 d3 noQueue noQueue a (Device.Advances.refl d1) b (Device.Advances.refl d2) c
  exact ⟨rfl, Device.create_ready, d1, d2, d3, a, b, c, t1, t3, t5, t6, t7, t8⟩

theorem cookieAfter_eq (n : Nat) : cookieAfter n = 16 * n % 2 ^ 64 := by
  induction n with
  | zero => rfl
  | succ n ih =>
    simp only [cookieAfter, AllocateCookie, ih]
    omega

theorem nthCookie_eq (n : Nat) : nthCookie n = 16 * (n + 1) % 2 ^ 64 := by
  simp only [nthCookie, AllocateCookie, cookieAfter_eq]
  omega

/-- Claim C19.  Call number `n` (counted from 1) of `AllocateCookie` on a device
returns `16 * n` modulo `2 ^ 64` and leaves that value in the counter; for `i < j < 2 ^ 60`
the cookie of call `i` is strictly smaller than the cookie of call `j`, and the cookies
of the calls before the counter wraps are pairwise distinct. -/
theorem C19_cookies_increase :
    (∀ n, nthCookie n = 16 * (n + 1) % 2 ^ 64 ∧ cookieAfter (n + 1) = nthCookie n) ∧
    (∀ i j, 1 ≤ i → i < j → j < 2 ^ 60 → nthCookie (i - 1) < nthCookie (j - 1)) ∧
    (∀ i j, 1 ≤ i → 1 ≤ j → i < 2 ^ 60 → j < 2 ^ 60 →
      nthCookie (i - 1) = nthCookie (j - 1) → i = j) := by
  refine ⟨fun n => ⟨nthCookie_eq n, rfl⟩, ?_, ?_⟩
  · intro i j hi hij hj
    rw [nthCookie_eq, nthCookie_eq]
    have e1 : i - 1 + 1 = i := by omega
    have e2 : j - 1 + 1 = j := by omega
    rw [e1, e2]
    have h1 : 16 * i < 2 ^ 64 := by omega
    have h2 : 16 * j < 2 ^ 64 := by omega
    rw [Nat.mod_eq_of_lt h1, Nat.mod_eq_of_lt h2]
    omega
  · intro i j hi hj hi2 hj2 h
    rw [nthCookie_eq, nthCookie_eq] at h
    have e1 : i - 1 + 1 = i := by omega
    have e2 : j - 1 + 1 = j := by omega
    rw [e1, e2] at h
    have h1 : 16 * i < 2 ^ 64 := by omega
    have h2 : 16 * j < 2 ^ 64 := by omega
    rw [Nat.mod_eq_of_lt h1, Nat.mod_eq_of_lt h2] at h
    omega

/-- Claim C19 at the first calls: the first three cookies are 16, 32 and 48, the first
is smaller than the third and they differ. -/
theorem C19_cookies_increase_witness :
    nthCookie 0 = 16 ∧ nthCookie 1 = 32 ∧ nthCookie 2 = 48 ∧
    nthCookie (1 - 1) < nthCookie (3 - 1) ∧
    (nthCookie (1 - 1) = nthCookie (3 - 1) → 1 = 3) :=
  ⟨by decide, by decide, by decide,
    C19_cookies_increase.2.1 1 3 (by decide) (by decide) (by norm_num),
    C19_cookies_increase.2.2 1 3 (by decide) (by decide) (by norm_num) (by norm_num)⟩

theorem FrameContext.set_same (d : Device) (f : FrameContext) (hf : d.Frame = some f) :
    ({ d with frameContexts := d.frameContexts.set d.currentFrameContext f } : Device) = d := by
  unfold Device.Frame at hf
  rw [list_set_same _ _ _ hf]

/-- Claim C20.  With a current frame context, the destructor of an `Image` returns, makes
no native call, and changes the device only in the current frame context: the native
image is appended to `ImagesToDestroy` exactly when the image is owned, the allocation to
`MemoryToFree` exactly when the memory is owned and the allocation is not null.  The
internal-sync path and the locking path give the same device, and an image built by the
swapchain constructor leaves the device as it is. -/
theorem C20_image_destructor_enqueues (d : Device) (img : Image) (f : FrameContext)
    (hf : d.Frame = some f) :
    d.destroyImageObject img
      = some { d with frameContexts := (d.frameContexts.set d.currentFrameContext
          { f with
            ImagesToDestroy :=
              f.ImagesToDestroy ++ (if img.imageOwned = true then [img.image] else [])
            MemoryToFree :=
              f.MemoryToFree ++
                (if img.memoryOwned = true ∧ img.allocation ≠ 0 then [img.allocation]
                  else []) }) } ∧
    (∀ d2, d.destroyImageObject img = some d2 → d2.calls = d.calls) ∧
    d.destroyImageObject { img with internalSync := true }
      = d.destroyImageObject { img with internalSync := false } ∧
    (∀ image, d.destroyImageObject (Image.swapchain image) = some d) ∧
    (∀ image, d.destroyImageObject (Image.swapchain image).SetInternalSync = some d) := by
  have hlt : d.currentFrameContext < d.frameContexts.length := by
    unfold Device.Frame at hf
    exact (List.getElem?_eq_some.mp hf).1
  have hf2 : d.frameContexts[d.currentFrameContext]? = some f := hf
  have main : d.destroyImageObject img
      = some { d with frameContexts := (d.frameContexts.set d.currentFrameContext
          { f with
            ImagesToDestroy :=
              f.ImagesToDestroy ++ (if img.imageOwned = true then [img.image] else [])
            MemoryToFree :=
              f.MemoryToFree ++
                (if img.memoryOwned = true ∧ img.allocation ≠ 0 then [img.allocation]
                  else []) }) } := by
    obtain ⟨image, allocation, imageOwned, memoryOwned, internalSync⟩ := img
    have hsame := FrameContext.set_same d f hf
    by_cases ha : allocation = 0 <;> cases imageOwned <;> cases memoryOwned <;>
      cases internalSync <;>
      simp [Device.destroyImageObject, Device.DestroyImage, Device.DestroyImageNoLock,
        Device.FreeMemory, Device.FreeMemoryNoLock, Device.modifyFrame, hf2, ha,
        List.getElem?_set, hlt, hsame]
  refine ⟨main, ?_, ?_, ?_, ?_⟩
  · intro d2 h2
    rw [main] at h2
    simp only [Option.some.injEq] at h2
    rw [← h2]
  · obtain ⟨image, allocation, imageOwned, memoryOwned, internalSync⟩ := img
    simp [Device.destroyImageObject, Device.DestroyImage, Device.FreeMemory]
  · intro image
    simp [Device.destroyImageObject, Image.swapchain]
  · intro image
    simp [Device.destroyImageObject, Image.swapchain, Image.SetInternalSync]

/-- Claim C20 on the device as constructed: an owned image 5 with allocation 9 is
destroyed; the handles land in the queues of frame context 0 and no native call is
made. -/
theorem C20_image_destructor_enqueues_witness :
    (Device.create false).Frame = some (FrameContext.create (Device.create false).queueData 0) ∧
    ∃ d2, (Device.create false).destroyImageObject (Image.allocated 5 9) = some d2 ∧
      d2.calls = [] ∧
      (d2.Frame.map (fun f => (f.ImagesToDestroy, f.MemoryToFree))) = some ([5], [9]) := by
  have h := (C20_image_destructor_enqueues (Device.create false) (Image.allocated 5 9) _ rfl).1
  exact ⟨rfl, _, h, by decide, by decide⟩

theorem ObjectPool.objectCount_of_le (p : ObjectPool) (h : p.memory.length ≤ 25) :
    p.objectCount = some (64 * 2 ^ p.memory.length) := by
  unfold ObjectPool.objectCount
  have hlt : p.memory.length < 32 := by omega
  simp only [hlt, if_true, Nat.shiftLeft_eq, Option.some.injEq]
  apply Nat.mod_eq_of_lt
  have h1 : 2 ^ p.memory.length ≤ 2 ^ 25 := Nat.pow_le_pow_right (by norm_num) h
  norm_num at h1 ⊢
  omega

theorem ObjectPool.objectCount_of_ge (p : ObjectPool) (n : Nat) (h : 26 ≤ p.memory.length)
    (hn : p.objectCount = some n) : n = 0 := by
  unfold ObjectPool.objectCount at hn
  split at hn
  · rename_i hlt
    simp only [Option.some.injEq] at hn
    rw [← hn]
    generalize p.memory.length = k at h hlt
    interval_cases k <;> decide
  · cases hn

theorem ObjectPool.takeBack_eq (p q : ObjectPool) (r : Option Slot)
    (h : p.takeBack = some (q, r)) :
    ∃ x, r = some x ∧ p.available = q.available ++ [x] ∧ q.memory = p.memory := by
  unfold ObjectPool.takeBack at h
  split at h
  · cases h
  · rename_i ptr hptr
    simp only [Option.some.injEq, Prod.mk.injEq] at h
    obtain ⟨h1, h2⟩ := h
    obtain ⟨ys, hys⟩ := List.getLast?_eq_some_iff.mp hptr
    refine ⟨ptr, h2.symm, ?_, ?_⟩
    · rw [← h1]
      simp only [hys, List.dropLast_concat]
    · rw [← h1]

theorem ObjectPool.takeBack_some (p : ObjectPool) (xs : List Slot) (x : Slot)
    (h : p.available = xs ++ [x]) :
    p.takeBack = some (⟨xs, p.memory⟩, some x) := by
  unfold ObjectPool.takeBack
  have h1 : p.available.getLast? = some x := List.getLast?_eq_some_iff.mpr ⟨xs, h⟩
  simp only [h1]
  simp only [h, List.dropLast_concat]

/-- The three ways `Allocate` returns: a slot taken from a free list that was not empty;
a null pointer and the pool as it was, when the free list is empty and `AlignedAlloc`
fails; or, with an empty free list and at most 25 blocks so far, a new block of
`64 * 2 ^ k` slots appended, of which the last is taken. -/
theorem ObjectPool.Allocate_eq (p q : ObjectPool) (allocated : Bool) (r : Option Slot)
    (h : p.Allocate allocated = some (q, r)) :
    (p.available ≠ [] ∧ q.memory = p.memory ∧
      ∃ x, r = some x ∧ p.available = q.available ++ [x]) ∨
    (p.available = [] ∧ allocated = false ∧ q = p ∧ r = none) ∨
    (p.available = [] ∧ allocated = true ∧ p.memory.length ≤ 25 ∧
      q.memory = p.memory ++ [64 * 2 ^ p.memory.length] ∧
      ∃ x, r = some x ∧
        (List.range (64 * 2 ^ p.memory.length)).map (fun i => (⟨p.memory.length, i⟩ : Slot))
          = q.available ++ [x]) := by
  unfold ObjectPool.Allocate at h
  split at h
  · rename_i hempty
    have he : p.available = [] := List.isEmpty_iff.mp hempty
    split at h
    · cases h
    · rename_i n hn
      split at h
      · rename_i hfalse
        simp only [Option.some.injEq, Prod.mk.injEq] at h
        exact Or.inr (Or.inl ⟨he, hfalse, h.1.symm, h.2.symm⟩)
      · rename_i htrue
        have ht : allocated = true := by simpa using htrue
        obtain ⟨x, hx1, hx2, hx3⟩ := ObjectPool.takeBack_eq _ q r h
        by_cases hk : p.memory.length ≤ 25
        · have hn2 := ObjectPool.objectCount_of_le p hk
          rw [hn] at hn2
          simp only [Option.some.injEq] at hn2
          subst hn2
          refine Or.inr (Or.inr ⟨he, ht, hk, ?_, x, hx1, ?_⟩)
          · rw [hx3]
            rfl
          · rw [← hx2]
            simp [ObjectPool.addSlab, he]
        · have hz := ObjectPool.objectCount_of_ge p n (by omega) hn
          subst hz
          simp [ObjectPool.addSlab, he] at hx2
  · rename_i hne
    obtain ⟨x, hx1, hx2, hx3⟩ := ObjectPool.takeBack_eq p q r h
    refine Or.inl ⟨?_, hx3, x, hx1, hx2⟩
    intro he
    apply hne
    simp [he]

theorem perm_take_back {α : Type} (a l : List α) (x : α) :
    (a ++ (l ++ [x])).Perm ((a ++ [x]) ++ l) := by
  rw [List.append_assoc]
  exact List.Perm.append_left a List.perm_append_comm

/-- The invariant only looks at the free and the live slots together. -/
theorem PoolState.Inv.of_perm {st st2 : PoolState} (hI : st.Inv)
    (hp : (st2.pool.available ++ st2.live).Perm (st.pool.available ++ st.live))
    (hm : st2.pool.memory = st.pool.memory) : st2.Inv := by
  refine ⟨hp.nodup_iff.mpr hI.nodup, ?_, ?_⟩
  · intro slot
    rw [hp.mem_iff, hm]
    exact hI.cover slot
  · rw [hm]
    exact hI.sizes

theorem PoolState.Inv.not_live {st : PoolState} (hI : st.Inv) (xs : List Slot) (x : Slot)
    (h : st.pool.available = xs ++ [x]) : x ∉ st.live := by
  intro hx
  have hn := hI.nodup
  rw [List.nodup_append] at hn
  exact hn.2.2 (by rw [h]; simp) hx

/-- The invariant over a new block: `k` is the number of blocks before, the free list
was empty, and the slots of the new block are `xs ++ [x]`, of which `x` becomes live. -/
theorem PoolState.Inv.grow {st : PoolState} (hI : st.Inv) (q : ObjectPool) (x : Slot)
    (he : st.pool.available = []) (hk : st.pool.memory.length ≤ 25)
    (hm : q.memory = st.pool.memory ++ [64 * 2 ^ st.pool.memory.length])
    (hs : (List.range (64 * 2 ^ st.pool.memory.length)).map
        (fun i => (⟨st.pool.memory.length, i⟩ : Slot)) = q.available ++ [x]) :
    PoolState.Inv ⟨q, st.live ++ [x]⟩ ∧ x ∉ st.live := by
  have hlive : ∀ slot ∈ st.live, slot.slab < st.pool.memory.length := by
    intro slot hslot
    obtain ⟨n, hn, _⟩ := (hI.cover slot).mp (by rw [he]; simpa using hslot)
    exact (List.getElem?_eq_some.mp hn).1
  have hnew : ∀ slot : Slot, slot ∈ q.available ++ [x] ↔
      slot.slab = st.pool.memory.length ∧ slot.index < 64 * 2 ^ st.pool.memory.length := by
    intro slot
    rw [← hs]
    simp only [List.mem_map, List.mem_range]
    constructor
    · rintro ⟨i, hi, rfl⟩
      exact ⟨rfl, hi⟩
    · rintro ⟨h1, h2⟩
      exact ⟨slot.index, h2, by cases slot; simp_all⟩
  have hxl : x ∉ st.live := by
    intro hx
    have h1 := hlive x hx
    have h2 := ((hnew x).mp (by simp)).1
    omega
  have hperm := perm_take_back q.available st.live x
  refine ⟨⟨?_, ?_, ?_⟩, hxl⟩
  · apply hperm.nodup_iff.mpr
    rw [List.nodup_append]
    refine ⟨?_, ?_, ?_⟩
    · rw [← hs]
      apply List.Nodup.map _ (List.nodup_range _)
      intro a b hab
      simpa using hab
    · have := hI.nodup
      rw [he] at this
      simpa using this
    · intro slot h1 h2
      have := ((hnew slot).mp h1).1
      have := hlive slot h2
      omega
  · intro slot
    show slot ∈ q.available ++ (st.live ++ [x]) ↔ _
    rw [hperm.mem_iff, List.mem_append, hnew, hm]
    constructor
    · rintro (⟨h1, h2⟩ | h)
      · exact ⟨_, by rw [h1]; simp, h2⟩
      · obtain ⟨n, hn, hi⟩ := (hI.cover slot).mp (by rw [he]; simpa using h)
        have hlt := (List.getElem?_eq_some.mp hn).1
        exact ⟨n, by rw [List.getElem?_append_left hlt]; exact hn, hi⟩
    · rintro ⟨n, hn, hi⟩
      by_cases hlt : slot.slab < st.pool.memory.length
      · rw [List.getElem?_append_left hlt] at hn
        right
        have := (hI.cover slot).mpr ⟨n, hn, hi⟩
        rw [he] at this
        simpa using this
      · left
        rw [List.getElem?_append_right (by omega)] at hn
        have hz : slot.slab - st.pool.memory.length = 0 := by
          by_contra hne
          have : (([64 * 2 ^ st.pool.memory.length] : List Nat))[slot.slab
              - st.pool.memory.length]? = none := by
            apply List.getElem?_eq_none
            simp only [List.length_singleton]
            omega
          rw [this] at hn
          cases hn
        rw [hz] at hn
        simp only [List.getElem?_cons_zero, Option.some.injEq] at hn
        exact ⟨by omega, by omega⟩
  · intro k n hkn
    show _ ∧ _
    have hkn2 : (st.pool.memory ++ [64 * 2 ^ st.pool.memory.length])[k]? = some n := by
      rw [← hm]
      exact hkn
    by_cases hlt : k < st.pool.memory.length
    · rw [List.getElem?_append_left hlt] at hkn2
      exact hI.sizes k n hkn2
    · rw [List.getElem?_append_right (by omega)] at hkn2
      have hz : k - st.pool.memory.length = 0 := by
        by_contra hne
        have : (([64 * 2 ^ st.pool.memory.length] : List Nat))[k
            - st.pool.memory.length]? = none := by
          apply List.getElem?_eq_none
          simp only [List.length_singleton]
          omega
        rw [this] at hkn2
        cases hkn2
      rw [hz] at hkn2
      simp only [List.getElem?_cons_zero, Option.some.injEq] at hkn2
      have hk2 : k = st.pool.memory.length := by omega
      rw [hk2]
      exact ⟨hkn2.symm, hk⟩

/-- An `Allocate` that returns keeps the invariant, and the pointer it returns was not
live. -/
theorem PoolState.Inv.allocate {st : PoolState} (hI : st.Inv) (allocated : Bool)
    (q : ObjectPool) (r : Option Slot) (h : st.pool.Allocate allocated = some (q, r)) :
    ∃ st2, st.allocated (some (q, r)) = some st2 ∧ st2.Inv ∧ ∀ x, r = some x → x ∉ st.live := by
  rcases ObjectPool.Allocate_eq st.pool q allocated r h with
    ⟨_, hm, x, hx, ha⟩ | ⟨_, _, hq, hr⟩ | ⟨he, _, hk, hm, x, hx, hs⟩
  · subst hx
    have hnl := hI.not_live q.available x ha
    refine ⟨⟨q, st.live ++ [x]⟩, rfl, ?_, ?_⟩
    · apply hI.of_perm _ hm
      show (q.available ++ (st.live ++ [x])).Perm _
      rw [ha]
      exact perm_take_back q.available st.live x
    · intro y hy
      simp only [Option.some.injEq] at hy
      rw [← hy]
      exact hnl
  · subst hr
    subst hq
    exact ⟨st, rfl, hI, fun x hx => by cases hx⟩
  · subst hx
    obtain ⟨h1, h2⟩ := hI.grow q x he hk hm hs
    refine ⟨⟨q, st.live ++ [x]⟩, rfl, h1, ?_⟩
    intro y hy
    simp only [Option.some.injEq] at hy
    rw [← hy]
    exact h2

/-- A `Free` of a live pointer keeps the invariant. -/
theorem PoolState.Inv.free {st : PoolState} (hI : st.Inv) (ptr : Slot) (h : ptr ∈ st.live) :
    PoolState.Inv ⟨st.pool.Free ptr, st.live.erase ptr⟩ := by
  have hp : ((⟨st.pool.Free ptr, st.live.erase ptr⟩ : PoolState).pool.available ++
      (⟨st.pool.Free ptr, st.live.erase ptr⟩ : PoolState).live).Perm
      (st.pool.available ++ st.live) := by
    show ((st.pool.available ++ [ptr]) ++ st.live.erase ptr).Perm _
    rw [List.append_assoc]
    apply List.Perm.append_left
    exact (List.perm_cons_erase h).symm
  exact PoolState.Inv.of_perm hI hp rfl

theorem PoolOp.run_inv (st st2 : PoolState) (op : PoolOp) (hI : st.Inv)
    (h : op.run st = some st2) : st2.Inv := by
  have alloc : ∀ allocated, st.allocated (st.pool.Allocate allocated) = some st2 →
      st2.Inv := by
    intro allocated h2
    cases hr : st.pool.Allocate allocated with
    | none =>
      rw [hr] at h2
      cases h2
    | some pr =>
      obtain ⟨q, x⟩ := pr
      rw [hr] at h2
      obtain ⟨st3, e, hI3, _⟩ := hI.allocate allocated q x hr
      rw [e] at h2
      simp only [Option.some.injEq] at h2
      rw [← h2]
      exact hI3
  cases op with
  | allocate allocated => exact alloc allocated h
  | allocateLocked allocated => exact alloc allocated h
  | free ptr =>
    simp only [PoolOp.run] at h
    split at h
    · rename_i hl
      simp only [Option.some.injEq] at h
      rw [← h]
      exact hI.free ptr hl
    · simp only [Option.some.injEq] at h
      rw [← h]
      exact hI
  | freeLocked ptr =>
    simp only [PoolOp.run] at h
    split at h
    · rename_i hl
      simp only [Option.some.injEq] at h
      rw [← h]
      exact hI.free ptr hl
    · simp only [Option.some.injEq] at h
      rw [← h]
      exact hI

theorem runPool_inv (ops : List PoolOp) (st st2 : PoolState) (hI : st.Inv)
    (h : runPool ops st = some st2) : st2.Inv := by
  induction ops generalizing st with
  | nil =>
    simp only [runPool, Option.some.injEq] at h
    rw [← h]
    exact hI
  | cons op rest ih =>
    simp only [runPool] at h
    split at h
    · cases h
    · rename_i st1 h1
      exact ih st1 (PoolOp.run_inv st st1 op hI h1) h

theorem PoolState.pool_empty_inv : PoolState.Inv ⟨ObjectPool.empty, []⟩ := by
  refine ⟨by simp [ObjectPool.empty], ?_, ?_⟩
  · intro slot
    simp [ObjectPool.empty]
  · intro k n h
    simp [ObjectPool.empty] at h

theorem PoolState.Inv.blocks_le {st : PoolState} (hI : st.Inv) :
    st.pool.memory.length ≤ 26 := by
  by_contra hlt
  obtain ⟨n, hn⟩ := list_getElem?_some_of_lt st.pool.memory 26 (by omega)
  have := (hI.sizes 26 n hn).2
  omega

theorem ObjectPool.takeBack_of_ne_nil (p : ObjectPool) (h : p.available ≠ []) :
    ∃ r, p.takeBack = some r := by
  rcases List.eq_nil_or_concat p.available with h1 | ⟨xs, x, h1⟩
  · exact (h h1).elim
  · exact ⟨_, ObjectPool.takeBack_some p xs x (by simpa using h1)⟩

/-- When `Allocate` returns: always from a free list that is not empty, and with an
empty one when `AlignedAlloc` fails or the pool owns at most 25 blocks. -/
theorem PoolState.Inv.allocate_some {st : PoolState} (hI : st.Inv) (allocated : Bool)
    (h : st.pool.available ≠ [] ∨ allocated = false ∨ st.pool.memory.length ≤ 25) :
    ∃ r, st.pool.Allocate allocated = some r := by
  unfold ObjectPool.Allocate
  by_cases he : st.pool.available = []
  · have hlen := hI.blocks_le
    have hsome : ∃ n, st.pool.objectCount = some n := by
      unfold ObjectPool.objectCount
      exact ⟨_, by rw [if_pos (by omega)]⟩
    obtain ⟨n, hn⟩ := hsome
    simp only [he, List.isEmpty_nil, if_true, hn]
    cases allocated with
    | false => exact ⟨_, rfl⟩
    | true =>
      simp only [Bool.true_eq_false, if_false]
      rcases h with h | h | h
      · exact (h he).elim
      · cases h
      · have hn2 := ObjectPool.objectCount_of_le st.pool h
        rw [hn] at hn2
        simp only [Option.some.injEq] at hn2
        apply ObjectPool.takeBack_of_ne_nil
        have hpos : 0 < n := by
          rw [hn2]
          positivity
        obtain ⟨m, hm⟩ : ∃ m, n = m + 1 := ⟨n - 1, by omega⟩
        simp [ObjectPool.addSlab, he, hm, List.range_succ]
  · have : st.pool.available.isEmpty = false := by
      cases hx : st.pool.available with
      | nil => exact (he hx).elim
      | cons a l => rfl
    simp only [this, Bool.false_eq_true, if_false]
    exact ObjectPool.takeBack_of_ne_nil _ he

/-- Claim C17.  After every sequence of `Allocate` and `Free` calls on a fresh pool, plain
or thread-safe, in which `Free` is only called on live pointers: the free list holds no
slot twice and no live slot, no slot is live twice, the slots of the blocks are exactly
the free and the live ones, and a pointer returned by the next `Allocate` is not live.
The next `Allocate` does return, unless it has to add a block to a pool of 26. -/
theorem C17_live_slots_disjoint (ops : List PoolOp) (st : PoolState)
    (h : runPool ops ⟨ObjectPool.empty, []⟩ = some st) :
    st.pool.available.Nodup ∧ st.live.Nodup ∧
    (∀ slot ∈ st.pool.available, slot ∉ st.live) ∧
    (∀ slot : Slot, (∃ n, st.pool.memory[slot.slab]? = some n ∧ slot.index < n) ↔
      (slot ∈ st.pool.available ∨ slot ∈ st.live)) ∧
    (∀ allocated q ptr, st.pool.Allocate allocated = some (q, some ptr) → ptr ∉ st.live) ∧
    (∀ allocated q ptr, ThreadSafeObjectPool.Allocate st.pool allocated = some (q, some ptr) →
      ptr ∉ st.live) ∧
    (∀ allocated, st.pool.available ≠ [] ∨ allocated = false ∨ st.pool.memory.length ≤ 25 →
      ∃ r, st.pool.Allocate allocated = some r) := by
  have hI := runPool_inv ops _ st PoolState.pool_empty_inv h
  have hn := hI.nodup
  rw [List.nodup_append] at hn
  refine ⟨hn.1, hn.2.1, fun slot h1 h2 => hn.2.2 h1 h2, ?_, ?_, ?_, hI.allocate_some⟩
  · intro slot
    rw [← hI.cover slot, List.mem_append]
  · intro allocated q ptr hq
    obtain ⟨_, _, _, h3⟩ := hI.allocate allocated q (some ptr) hq
    exact h3 ptr rfl
  · intro allocated q ptr hq
    obtain ⟨_, _, _, h3⟩ := hI.allocate allocated q (some ptr) hq
    exact h3 ptr rfl

/-- Claim C17 after four calls: the two live objects lie in different slots, and the
object allocated next is in neither. -/
theorem C17_live_slots_disjoint_witness :
    ∃ st, runPool samplePoolOps ⟨ObjectPool.empty, []⟩ = some st ∧
      st.live = [⟨0, 62⟩, ⟨0, 63⟩] ∧ st.pool.memory = [64] ∧ st.live.Nodup ∧
      (∀ slot ∈ st.pool.available, slot ∉ st.live) ∧
      ∀ allocated q ptr, st.pool.Allocate allocated = some (q, some ptr) → ptr ∉ st.live := by
  have hs : (runPool samplePoolOps ⟨ObjectPool.empty, []⟩).isSome = true := by decide
  obtain ⟨st, hst⟩ := Option.isSome_iff_exists.mp hs
  have hl : (runPool samplePoolOps ⟨ObjectPool.empty, []⟩).map (fun s => (s.live, s.pool.memory))
      = some ([⟨0, 62⟩, ⟨0, 63⟩], [64]) := by decide
  rw [hst] at hl
  simp only [Option.map_some', Option.some.injEq, Prod.mk.injEq] at hl
  have hc := C17_live_slots_disjoint samplePoolOps st hst
  exact ⟨st, hst, hl.1, hl.2, hc.2.1, hc.2.2.1, hc.2.2.2.2.1⟩

/-- With an empty free list and at most 25 blocks, `Allocate` appends one block of
`64 * 2 ^ k` slots, keeps the blocks it had, puts all slots but the last on the free list
and returns the last. -/
theorem ObjectPool.Allocate_grow (p : ObjectPool) (he : p.available = [])
    (hk : p.memory.length ≤ 25) :
    p.Allocate true
      = some (⟨(List.range (64 * 2 ^ p.memory.length - 1)).map
            (fun i => (⟨p.memory.length, i⟩ : Slot)),
          p.memory ++ [64 * 2 ^ p.memory.length]⟩,
        some ⟨p.memory.length, 64 * 2 ^ p.memory.length - 1⟩) := by
  have hpos : 0 < 64 * 2 ^ p.memory.length := by positivity
  obtain ⟨m, hm⟩ : ∃ m, 64 * 2 ^ p.memory.length = m + 1 :=
    ⟨64 * 2 ^ p.memory.length - 1, by omega⟩
  unfold ObjectPool.Allocate
  simp only [he, List.isEmpty_nil, if_true, ObjectPool.objectCount_of_le p hk,
    Bool.true_eq_false, if_false]
  rw [ObjectPool.takeBack_some _
    ((List.range (64 * 2 ^ p.memory.length - 1)).map (fun i => (⟨p.memory.length, i⟩ : Slot)))
    ⟨p.memory.length, 64 * 2 ^ p.memory.length - 1⟩]
  · rfl
  · simp [ObjectPool.addSlab, he, hm, List.range_succ]

/-- Neither `Allocate` nor `Free` removes or replaces a block: the blocks before are a
prefix of the blocks after, and `Allocate` from a free list that is not empty adds none. -/
theorem ObjectPool.blocks_kept (p q : ObjectPool) (allocated : Bool) (r : Option Slot)
    (ptr : Slot) (h : p.Allocate allocated = some (q, r)) :
    (∃ more, q.memory = p.memory ++ more) ∧ (p.available ≠ [] → q.memory = p.memory) ∧
    (p.Free ptr).memory = p.memory := by
  refine ⟨?_, ?_, rfl⟩
  · rcases ObjectPool.Allocate_eq p q allocated r h with
      ⟨_, hm, _⟩ | ⟨_, _, hq, _⟩ | ⟨_, _, _, hm, _⟩
    · exact ⟨[], by simp [hm]⟩
    · exact ⟨[], by simp [hq]⟩
    · exact ⟨_, hm⟩
  · intro hne
    rcases ObjectPool.Allocate_eq p q allocated r h with
      ⟨_, hm, _⟩ | ⟨he, _⟩ | ⟨he, _⟩
    · exact hm
    · exact (hne he).elim
    · exact (hne he).elim

/-- Claim C16, the code at the failing input.  In a pool that owns 26 blocks (the last of
`64 * 2 ^ 25` objects) and has an empty free list, `64u << _memory.size()` is computed in
32 bits and gives 0, not `64 * 2 ^ 26`: the block appended has no slot, the free list stays
empty, and `Allocate` goes on to `_available.back()` of an empty vector. -/
theorem C16_block_count_wraps :
    exhaustedPool.available = [] ∧ exhaustedPool.memory.length = 26 ∧
    exhaustedPool.memory.getLast? = some (64 * 2 ^ 25) ∧
    exhaustedPool.objectCount = some 0 ∧
    (exhaustedPool.addSlab 0).available = [] ∧
    (exhaustedPool.addSlab 0).memory = exhaustedPool.memory ++ [0] ∧
    exhaustedPool.Allocate true = none := by
  decide

/-- Claim C18.  In every state a pool reaches, with an empty free list and `AlignedAlloc`
returning null, `Allocate` (plain or thread-safe) returns null and leaves the pool as it
was: no block added, free list still empty, so that the next `Allocate` asks for a block
of the same size. -/
theorem C18_failed_block_returns_null (ops : List PoolOp) (st : PoolState)
    (h : runPool ops ⟨ObjectPool.empty, []⟩ = some st) (he : st.pool.available = []) :
    st.pool.Allocate false = some (st.pool, none) ∧
    ThreadSafeObjectPool.Allocate st.pool false = some (st.pool, none) ∧
    (PoolOp.allocate false).run st = some st ∧
    ∀ q r, st.pool.Allocate false = some (q, r) →
      q.memory = st.pool.memory ∧ q.available = [] ∧ r = none ∧
      q.objectCount = st.pool.objectCount := by
  have hI := runPool_inv ops _ st PoolState.pool_empty_inv h
  have hlen := hI.blocks_le
  have main : st.pool.Allocate false = some (st.pool, none) := by
    unfold ObjectPool.Allocate ObjectPool.objectCount
    simp only [he, List.isEmpty_nil, if_true]
    rw [if_pos (by omega)]
  refine ⟨main, main, ?_, ?_⟩
  · simp only [PoolOp.run, main, PoolState.allocated]
  · intro q r hq
    rw [main] at hq
    simp only [Option.some.injEq, Prod.mk.injEq] at hq
    rw [← hq.1, ← hq.2]
    exact ⟨rfl, he, rfl, rfl⟩

/-- Claim C18 on a fresh pool: the first `Allocate` fails to get its block of 64 objects,
returns null and leaves the pool empty. -/
theorem C18_failed_block_returns_null_witness :
    runPool [] ⟨ObjectPool.empty, []⟩ = some ⟨ObjectPool.empty, []⟩ ∧
    ObjectPool.empty.Allocate false = some (ObjectPool.empty, none) ∧
    ObjectPool.empty.objectCount = some 64 :=
  ⟨rfl, (C18_failed_block_returns_null [] ⟨ObjectPool.empty, []⟩ rfl rfl).1, by decide⟩

theorem mem_ForEachBit (mask bit : Nat) :
    bit ∈ ForEachBit mask ↔ bit < 32 ∧ mask.testBit bit = true := by
  simp [ForEachBit, List.mem_filter]

theorem PipelineCompileInfo.hashAttributes_congr (info info2 : PipelineCompileInfo)
    (h : info2.VertexAttributes = info.VertexAttributes) (bits : List Nat)
    (acc : Nat × List Nat) : info2.hashAttributes bits acc = info.hashAttributes bits acc := by
  induction bits generalizing acc with
  | nil => rfl
  | cons bit rest ih =>
    obtain ⟨active, fed⟩ := acc
    simp only [PipelineCompileInfo.hashAttributes, h, ih]

theorem PipelineCompileInfo.hashBindings_congr (info info2 : PipelineCompileInfo)
    (h1 : info2.VertexInputRates = info.VertexInputRates)
    (h2 : info2.VertexStrides = info.VertexStrides) (bits : List Nat) (fed : List Nat) :
    info2.hashBindings bits fed = info.hashBindings bits fed := by
  induction bits generalizing fed with
  | nil => rfl
  | cons bit rest ih =>
    simp only [PipelineCompileInfo.hashBindings, h1, h2, ih]

/-- The values fed to the hasher for a graphics pipeline depend on the program, the
compatible render pass, the static state and the vertex layout only. -/
theorem PipelineCompileInfo.hashInput_graphics_congr (o : RecordingObjects)
    (info info2 : PipelineCompileInfo) (h1 : info2.Program = info.Program)
    (h2 : info2.CompatibleRenderPass = info.CompatibleRenderPass)
    (h3 : info2.StaticState = info.StaticState)
    (h4 : info2.VertexAttributes = info.VertexAttributes)
    (h5 : info2.VertexInputRates = info.VertexInputRates)
    (h6 : info2.VertexStrides = info.VertexStrides) :
    info2.hashInput o false = info.hashInput o false := by
  simp only [PipelineCompileInfo.hashInput, h1, h2, h3,
    PipelineCompileInfo.hashAttributes_congr info info2 h4,
    PipelineCompileInfo.hashBindings_congr info info2 h5 h6, Bool.false_eq_true, if_false]

/-- The value fed to the hasher for a compute pipeline depends on the program only. -/
theorem PipelineCompileInfo.hashInput_compute_congr (o : RecordingObjects)
    (info info2 : PipelineCompileInfo) (h1 : info2.Program = info.Program) :
    (info2.hashInput o true).map Prod.fst = (info.hashInput o true).map Prod.fst := by
  simp only [PipelineCompileInfo.hashInput, h1]
  split <;> rfl

theorem PipelineCompileInfo.hashAttributes_some (info : PipelineCompileInfo) (bits : List Nat)
    (h : ∀ bit ∈ bits, ∃ attr, info.VertexAttributes[bit]? = some attr ∧
      attr.Binding < MaxVertexBuffers)
    (active : Nat) (fed : List Nat) (ha : active < 2 ^ MaxVertexBuffers) :
    ∃ active2 fed2, info.hashAttributes bits (active, fed) = some (active2, fed2) ∧
      active2 < 2 ^ MaxVertexBuffers := by
  induction bits generalizing active fed with
  | nil => exact ⟨active, fed, rfl, ha⟩
  | cons bit rest ih =>
    obtain ⟨attr, h1, h2⟩ := h bit (List.mem_cons_self _ _)
    have h32 : attr.Binding < 32 := by
      simp only [MaxVertexBuffers] at h2
      omega
    simp only [PipelineCompileInfo.hashAttributes, h1, h32, if_true]
    apply ih (fun b hb => h b (List.mem_cons_of_mem _ hb))
    apply Nat.or_lt_two_pow ha
    rw [Nat.one_shiftLeft]
    exact Nat.pow_lt_pow_right (by norm_num) h2

theorem PipelineCompileInfo.hashBindings_some (info : PipelineCompileInfo) (bits : List Nat)
    (h : ∀ bit ∈ bits, bit < MaxVertexBuffers)
    (h1 : info.VertexInputRates.length = MaxVertexBuffers)
    (h2 : info.VertexStrides.length = MaxVertexBuffers) (fed : List Nat) :
    ∃ fed2, info.hashBindings bits fed = some fed2 := by
  induction bits generalizing fed with
  | nil => exact ⟨fed, rfl⟩
  | cons bit rest ih =>
    have hb := h bit (List.mem_cons_self _ _)
    obtain ⟨rate, hr⟩ := list_getElem?_some_of_lt info.VertexInputRates bit (by rw [h1]; exact hb)
    obtain ⟨stride, hs⟩ := list_getElem?_some_of_lt info.VertexStrides bit (by rw [h2]; exact hb)
    simp only [PipelineCompileInfo.hashBindings, hr, hs]
    exact ih (fun b hb2 => h b (List.mem_cons_of_mem _ hb2)) _

theorem ForEachBit_lt (mask n bit : Nat) (h : mask < 2 ^ n) (hb : bit ∈ ForEachBit mask) :
    bit < n := by
  have h1 := ((mem_ForEachBit mask bit).mp hb).2
  have h2 := Nat.testBit_implies_ge h1
  by_contra hge
  have : 2 ^ n ≤ 2 ^ bit := Nat.pow_le_pow_right (by norm_num) (by omega)
  omega

/-- The method `GetHash` returns for a compute pipeline with a program, and for a
graphics pipeline whose vertex layout is within the arrays. -/
theorem PipelineCompileInfo.GetHash_some (o : RecordingObjects) (info : PipelineCompileInfo) :
    (info.Program ≠ 0 → ∃ r, info.GetHash o true = some r) ∧
    (info.WellFormed o → ∃ r, info.GetHash o false = some r) := by
  constructor
  · intro hp
    simp [PipelineCompileInfo.GetHash, PipelineCompileInfo.hashInput, hp]
  · rintro ⟨hp, hrp, ha, hr, hs⟩
    obtain ⟨active, fed, e1, e2⟩ := PipelineCompileInfo.hashAttributes_some info _ ha 0 []
      (by positivity)
    obtain ⟨fed2, e3⟩ := PipelineCompileInfo.hashBindings_some info (ForEachBit active)
      (fun b hb => ForEachBit_lt active _ b e2 hb) hr hs fed
    simp [PipelineCompileInfo.GetHash, PipelineCompileInfo.hashInput, hp, hrp, e1, e3]

/-- Claim C13, the code at the failing input.  `GetHash` feeds the vertex layout, the
hash of the compatible render pass, the hash of the program and the static state to the
hasher, and never `SubpassIndex`: two compile infos that differ in the subpass index only
feed the same values and get the same hash, for every subpass index and in particular
for the subpasses 0 and 1 of the example, where `GetHash` does return. -/
theorem C13_subpass_not_hashed :
    (∀ (o : RecordingObjects) (info : PipelineCompileInfo) (subpass : Nat),
      ({ info with SubpassIndex := subpass } : PipelineCompileInfo).hashInput o false
        = info.hashInput o false ∧
      (({ info with SubpassIndex := subpass } : PipelineCompileInfo).GetHash o false).map Prod.fst
        = (info.GetHash o false).map Prod.fst) ∧
    sampleCompileInfo.SubpassIndex = 0 ∧
    (sampleCompileInfo.GetHash sampleObjects false).isSome = true ∧
    (({ sampleCompileInfo with SubpassIndex := 1 } : PipelineCompileInfo).GetHash
        sampleObjects false).map Prod.fst
      = (sampleCompileInfo.GetHash sampleObjects false).map Prod.fst := by
  have key : ∀ (o : RecordingObjects) (info : PipelineCompileInfo) (subpass : Nat),
      ({ info with SubpassIndex := subpass } : PipelineCompileInfo).hashInput o false
        = info.hashInput o false :=
    fun o info subpass =>
      PipelineCompileInfo.hashInput_graphics_congr o info _ rfl rfl rfl rfl rfl rfl
  have key2 : ∀ (o : RecordingObjects) (info : PipelineCompileInfo) (subpass : Nat),
      (({ info with SubpassIndex := subpass } : PipelineCompileInfo).GetHash o false).map Prod.fst
        = (info.GetHash o false).map Prod.fst := by
    intro o info subpass
    simp only [PipelineCompileInfo.GetHash, key]
    cases info.hashInput o false with
    | none => rfl
    | some r => rfl
  exact ⟨fun o info subpass => ⟨key o info subpass, key2 o info subpass⟩, rfl, by decide,
    key2 _ _ _⟩

/-- Claim C14.  Whenever `GetHash` returns, a second call right after it returns the
same hash and leaves the compile info, `ActiveVertexBuffers` included, as the first call
left it; the hash, and for a graphics pipeline the mask left in `ActiveVertexBuffers`,
do not depend on the values `ActiveVertexBuffers` and `CachedHash` had before.  The call
returns for a compute pipeline with a program and for a graphics pipeline whose vertex
layout is within the arrays. -/
theorem C14_hash_idempotent (o : RecordingObjects) (info : PipelineCompileInfo) :
    (∀ compute hash info1, info.GetHash o compute = some (hash, info1) →
      info1.GetHash o compute = some (hash, info1)) ∧
    (∀ active cached,
      (({ info with ActiveVertexBuffers := active, CachedHash := cached }
          : PipelineCompileInfo).GetHash o false).map
          (fun r => (r.1, r.2.ActiveVertexBuffers))
        = (info.GetHash o false).map (fun r => (r.1, r.2.ActiveVertexBuffers))) ∧
    (∀ active cached,
      (({ info with ActiveVertexBuffers := active, CachedHash := cached }
          : PipelineCompileInfo).GetHash o true).map Prod.fst
        = (info.GetHash o true).map Prod.fst) ∧
    (info.Program ≠ 0 → ∃ r, info.GetHash o true = some r) ∧
    (info.WellFormed o → ∃ r, info.GetHash o false = some r) := by
  refine ⟨?_, ?_, ?_, (PipelineCompileInfo.GetHash_some o info).1,
    (PipelineCompileInfo.GetHash_some o info).2⟩
  · intro compute hash info1 h
    unfold PipelineCompileInfo.GetHash at h
    cases hi : info.hashInput o compute with
    | none => simp [hi] at h
    | some r =>
      obtain ⟨fed, active⟩ := r
      simp only [hi, Option.some.injEq, Prod.mk.injEq] at h
      obtain ⟨h1, h2⟩ := h
      have hin : info1.hashInput o compute = some (fed, active) := by
        cases compute with
        | false =>
          rw [← h2]
          rw [PipelineCompileInfo.hashInput_graphics_congr o info
            ({ info with ActiveVertexBuffers := active }) rfl rfl rfl rfl rfl rfl]
          exact hi
        | true =>
          rw [← h2]
          simp only [PipelineCompileInfo.hashInput] at hi ⊢
          split at hi
          · cases hi
          · rename_i hp
            simp only [if_true, Option.some.injEq, Prod.mk.injEq] at hi
            simp only [hp, if_false, if_true, hi.1, hi.2]
      unfold PipelineCompileInfo.GetHash
      simp only [hin, h1, Option.some.injEq, Prod.mk.injEq, true_and]
      rw [← h2]
  · intro active cached
    simp only [PipelineCompileInfo.GetHash,
      PipelineCompileInfo.hashInput_graphics_congr o info
        ({ info with ActiveVertexBuffers := active, CachedHash := cached }) rfl rfl rfl rfl rfl rfl]
    cases info.hashInput o false with
    | none => rfl
    | some r => rfl
  · intro active cached
    have := PipelineCompileInfo.hashInput_compute_congr o info
      ({ info with ActiveVertexBuffers := active, CachedHash := cached }) rfl
    simp only [PipelineCompileInfo.GetHash]
    cases h1 : info.hashInput o true with
    | none =>
      rw [h1] at this
      cases h2 : PipelineCompileInfo.hashInput o
          ({ info with ActiveVertexBuffers := active, CachedHash := cached }) true with
      | none => rfl
      | some r => simp [h2] at this
    | some r =>
      rw [h1] at this
      cases h2 : PipelineCompileInfo.hashInput o
          ({ info with ActiveVertexBuffers := active, CachedHash := cached }) true with
      | none => simp [h2] at this
      | some r2 =>
        rw [h2] at this
        simp only [Option.map_some', Option.some.injEq] at this
        simp [this]

/-- Claim C14 on the example: the first call of `GetHash` changes `ActiveVertexBuffers`
from 0 to 1, and the second call returns the same hash and changes nothing. -/
theorem C14_hash_idempotent_witness :
    sampleCompileInfo.ActiveVertexBuffers = 0 ∧
    ∃ hash info1, sampleCompileInfo.GetHash sampleObjects false = some (hash, info1) ∧
      info1.ActiveVertexBuffers = 1 ∧
      info1.GetHash sampleObjects false = some (hash, info1) := by
  have hs : (sampleCompileInfo.GetHash sampleObjects false).isSome = true := by decide
  obtain ⟨r, hr⟩ := Option.isSome_iff_exists.mp hs
  have ha : (sampleCompileInfo.GetHash sampleObjects false).map
      (fun r => r.2.ActiveVertexBuffers) = some 1 := by decide
  rw [hr] at ha
  simp only [Option.map_some', Option.some.injEq] at ha
  exact ⟨rfl, r.1, r.2, hr, ha,
    (C14_hash_idempotent sampleObjects sampleCompileInfo).1 false r.1 r.2 hr⟩

/-- The loop body of `FlushDescriptorSets` for a set that is not bindless and whose hash
the allocator has cached: one lookup and one bind, no write. -/
theorem CommandBuffer.flushDescriptorSet_cached (o : RecordingObjects) (s : CommandBuffer)
    (layout : ResourceLayout) (bit : Nat) (setLayout : DescriptorSetLayout)
    (dset : DescriptorSetBindings) (fed : List Nat)
    (hl : layout.SetLayouts[bit]? = some setLayout)
    (hb : layout.BindlessDescriptorSetMask.testBit bit = false)
    (hd : s.descriptorBinding.Sets[bit]? = some dset)
    (hf : dset.hashInput setLayout = some fed)
    (hc : (o.find s.programLayout bit s.threadIndex (o.hashOf fed)).2 = true) :
    s.flushDescriptorSet o layout bit =
      some [.findDescriptorSet s.programLayout bit s.threadIndex (o.hashOf fed),
        .bindDescriptorSets s.bindPoint s.pipelineLayout bit
          (o.find s.programLayout bit s.threadIndex (o.hashOf fed)).1] := by
  unfold CommandBuffer.flushDescriptorSet
  simp only [hl, hb, hd, hf, hc, Bool.false_eq_true, if_false, Bool.true_eq_false]

/-- Claim C11 fails on the code.  Two calls of `SetSampler` at set 0, binding 1 (a
separate sampler of `sampleLayout`) with the samplers of cookies 16 and 32 leave states
that differ in the secondary cookie and in the sampler handle tracked there, yet
`FlushDescriptorSets` feeds the same values to the hasher for both: the loop over
`SamplerMask` feeds `Cookies[binding + i]`, which `SetSampler` never writes, and not
`SecondaryCookies[binding + i]`.  With the set of one sampler cached, the flush of the
other looks up the same hash and binds the same descriptor set without writing it. -/
theorem C11_sampler_cookie_not_hashed :
    (CommandBuffer.create 0 0).SetSampler 0 1 ⟨16, 5⟩ = some (samplerBound ⟨16, 5⟩) ∧
    (CommandBuffer.create 0 0).SetSampler 0 1 ⟨32, 6⟩ = some (samplerBound ⟨32, 6⟩) ∧
    ∃ da db l, (samplerBound ⟨16, 5⟩).descriptorBinding.Sets[0]? = some da ∧
      (samplerBound ⟨32, 6⟩).descriptorBinding.Sets[0]? = some db ∧
      sampleLayout.SetLayouts[0]? = some l ∧ l.SamplerMask.testBit 1 = true ∧
      da.SecondaryCookies[1]? = some 16 ∧ db.SecondaryCookies[1]? = some 32 ∧
      (da.Bindings[1]?).map (fun bind => bind.ImageFloat.sampler) = some 5 ∧
      (db.Bindings[1]?).map (fun bind => bind.ImageFloat.sampler) = some 6 ∧
      da.hashInput l = some [0, 0, 0, 0] ∧ db.hashInput l = some [0, 0, 0, 0] ∧
      ∀ o : RecordingObjects, (o.find 0 0 0 (o.hashOf [0, 0, 0, 0])).2 = true →
        (samplerBound ⟨16, 5⟩).flushDescriptorSet o sampleLayout 0 =
          some [.findDescriptorSet 0 0 0 (o.hashOf [0, 0, 0, 0]),
            .bindDescriptorSets 1 0 0 (o.find 0 0 0 (o.hashOf [0, 0, 0, 0])).1] ∧
        (samplerBound ⟨32, 6⟩).flushDescriptorSet o sampleLayout 0 =
          some [.findDescriptorSet 0 0 0 (o.hashOf [0, 0, 0, 0]),
            .bindDescriptorSets 1 0 0 (o.find 0 0 0 (o.hashOf [0, 0, 0, 0])).1] := by
  refine ⟨by decide, by decide,
    (samplerBound ⟨16, 5⟩).descriptorBinding.Sets.getD 0 ⟨[], [], []⟩,
    (samplerBound ⟨32, 6⟩).descriptorBinding.Sets.getD 0 ⟨[], [], []⟩,
    sampleLayout.SetLayouts.getD 0 ⟨0, 0, 0, 0, 0, 0, []⟩,
    by decide, by decide, by decide, by decide, by decide, by decide, by decide, by decide,
    by decide, by decide, ?_⟩
  intro o hc
  constructor
  · exact CommandBuffer.flushDescriptorSet_cached o (samplerBound ⟨16, 5⟩) sampleLayout 0
      (sampleLayout.SetLayouts.getD 0 ⟨0, 0, 0, 0, 0, 0, []⟩)
      ((samplerBound ⟨16, 5⟩).descriptorBinding.Sets.getD 0 ⟨[], [], []⟩) [0, 0, 0, 0]
      (by decide) (by decide) (by decide) (by decide) hc
  · exact CommandBuffer.flushDescriptorSet_cached o (samplerBound ⟨32, 6⟩) sampleLayout 0
      (sampleLayout.SetLayouts.getD 0 ⟨0, 0, 0, 0, 0, 0, []⟩)
      ((samplerBound ⟨32, 6⟩).descriptorBinding.Sets.getD 0 ⟨[], [], []⟩) [0, 0, 0, 0]
      (by decide) (by decide) (by decide) (by decide) hc

theorem DescriptorSetLayout.descriptors_some (l : DescriptorSetLayout) (bits : List Nat)
    (h : ∀ binding ∈ bits,
      binding < l.ArraySizes.length ∧
        binding + l.ArraySizes.getD binding 0 ≤ MaxDescriptorBindings) :
    ∃ ds, l.descriptors bits = some ds ∧ ∀ p ∈ ds, p.1 + p.2 < MaxDescriptorBindings := by
  induction bits with
  | nil => exact ⟨[], rfl, by simp⟩
  | cons binding rest ih =>
    obtain ⟨ds, hds, hp⟩ := ih (fun b hb => h b (List.mem_cons_of_mem _ hb))
    obtain ⟨h1, h2⟩ := h binding (List.mem_cons_self _ _)
    have hg : l.ArraySizes[binding]? = some (l.ArraySizes.getD binding 0) := by
      rw [List.getD_eq_getElem?_getD, List.getElem?_eq_getElem h1]
      rfl
    refine ⟨(List.range (l.ArraySizes.getD binding 0)).map (fun i => (binding, i)) ++ ds,
      by simp only [DescriptorSetLayout.descriptors, hg, hds], ?_⟩
    intro p hpm
    rcases List.mem_append.mp hpm with hm | hm
    · obtain ⟨i, hi, rfl⟩ := List.mem_map.mp hm
      have := List.mem_range.mp hi
      simp only
      omega
    · exact hp p hm

theorem feedEach_some (feed : Nat → Option (List Nat)) (ds : List (Nat × Nat))
    (h : ∀ p ∈ ds, (feed (p.1 + p.2)).isSome = true) : ∃ fed, feedEach feed ds = some fed := by
  induction ds with
  | nil => exact ⟨[], rfl⟩
  | cons p rest ih =>
    obtain ⟨binding, i⟩ := p
    obtain ⟨more, hm⟩ := ih (fun q hq => h q (List.mem_cons_of_mem _ hq))
    obtain ⟨fed, hf⟩ := Option.isSome_iff_exists.mp (h (binding, i) (List.mem_cons_self _ _))
    exact ⟨fed ++ more, by simp only [feedEach, hf, hm]⟩

theorem writeEach_some (write : Nat → Nat → Nat → Option DescriptorWrite) (ds : List (Nat × Nat))
    (h : ∀ p ∈ ds, (write p.1 p.2 (p.1 + p.2)).isSome = true) :
    ∃ ws, writeEach write ds = some ws := by
  induction ds with
  | nil => exact ⟨[], rfl⟩
  | cons p rest ih =>
    obtain ⟨binding, i⟩ := p
    obtain ⟨more, hm⟩ := ih (fun q hq => h q (List.mem_cons_of_mem _ hq))
    obtain ⟨w, hw⟩ := Option.isSome_iff_exists.mp (h (binding, i) (List.mem_cons_self _ _))
    exact ⟨w :: more, by simp only [writeEach, hw, hm]⟩

theorem DescriptorSetLayout.feedMask_isSome (l : DescriptorSetLayout) (mask : Nat)
    (feed : Nat → Option (List Nat)) (hl : l.WellFormed) (hm : mask ∈ l.masks)
    (hf : ∀ k, k < MaxDescriptorBindings → (feed k).isSome = true) :
    (l.feedMask mask feed).isSome = true := by
  obtain ⟨ds, hds, hp⟩ := l.descriptors_some (ForEachBit mask) (hl mask hm)
  obtain ⟨fed, hfed⟩ := feedEach_some feed ds (fun p hpm => hf _ (hp p hpm))
  simp only [DescriptorSetLayout.feedMask, hds, hfed, Option.isSome_some]

theorem DescriptorSetLayout.writeMask_isSome (l : DescriptorSetLayout) (mask : Nat)
    (write : Nat → Nat → Nat → Option DescriptorWrite) (hl : l.WellFormed) (hm : mask ∈ l.masks)
    (hf : ∀ binding i k, k < MaxDescriptorBindings → (write binding i k).isSome = true) :
    (l.writeMask mask write).isSome = true := by
  obtain ⟨ds, hds, hp⟩ := l.descriptors_some (ForEachBit mask) (hl mask hm)
  obtain ⟨ws, hws⟩ := writeEach_some write ds (fun p hpm => hf _ _ _ (hp p hpm))
  simp only [DescriptorSetLayout.writeMask, hds, hws, Option.isSome_some]

theorem list_getElem?_of_lt {α : Type} (l : List α) (k : Nat) (h : k < l.length) :
    ∃ x, l[k]? = some x := ⟨l[k], List.getElem?_eq_getElem h⟩

/-- The values fed to the hasher for a set are defined when the arrays of the set have
their declared sizes and the layout is well formed. -/
theorem DescriptorSetBindings.hashInput_some (dset : DescriptorSetBindings)
    (l : DescriptorSetLayout) (hd : dset.Sized) (hl : l.WellFormed) :
    ∃ fed, dset.hashInput l = some fed := by
  obtain ⟨hb, hc, hs⟩ := hd
  have hB : ∀ k, k < MaxDescriptorBindings → ∃ x, dset.Bindings[k]? = some x :=
    fun k hk => list_getElem?_of_lt _ k (by omega)
  have hC : ∀ k, k < MaxDescriptorBindings → ∃ x, dset.Cookies[k]? = some x :=
    fun k hk => list_getElem?_of_lt _ k (by omega)
  have hS : ∀ k, k < MaxDescriptorBindings → ∃ x, dset.SecondaryCookies[k]? = some x :=
    fun k hk => list_getElem?_of_lt _ k (by omega)
  simp only [DescriptorSetBindings.hashInput]
  split
  · exact ⟨_, rfl⟩
  · rename_i hno
    exfalso
    refine hno _ _ _ _ _
      (Option.some_get (l.feedMask_isSome _ _ hl (by simp [DescriptorSetLayout.masks]) ?_)).symm
      (Option.some_get (l.feedMask_isSome _ _ hl (by simp [DescriptorSetLayout.masks]) ?_)).symm
      (Option.some_get (l.feedMask_isSome _ _ hl (by simp [DescriptorSetLayout.masks]) ?_)).symm
      (Option.some_get (l.feedMask_isSome _ _ hl (by simp [DescriptorSetLayout.masks]) ?_)).symm
      (Option.some_get (l.feedMask_isSome _ _ hl (by simp [DescriptorSetLayout.masks]) ?_)).symm
    all_goals
      intro k hk
      obtain ⟨b, hb1⟩ := hB k hk
      obtain ⟨c, hc1⟩ := hC k hk
      obtain ⟨c2, hs1⟩ := hS k hk
      simp only [hb1, hc1, hs1, Option.map_some', Option.isSome_some]

/-- The writes for a set are defined under the same conditions. -/
theorem DescriptorSetBindings.writes_some (dset : DescriptorSetBindings)
    (l : DescriptorSetLayout) (allocated : Nat) (hd : dset.Sized) (hl : l.WellFormed) :
    ∃ ws, dset.writes l allocated = some ws := by
  obtain ⟨hb, hc, hs⟩ := hd
  have hB : ∀ k, k < MaxDescriptorBindings → ∃ x, dset.Bindings[k]? = some x :=
    fun k hk => list_getElem?_of_lt _ k (by omega)
  simp only [DescriptorSetBindings.writes]
  split
  · exact ⟨_, rfl⟩
  · rename_i hno
    exfalso
    refine hno _ _ _ _ _
      (Option.some_get (l.writeMask_isSome _ _ hl (by simp [DescriptorSetLayout.masks]) ?_)).symm
      (Option.some_get (l.writeMask_isSome _ _ hl (by simp [DescriptorSetLayout.masks]) ?_)).symm
      (Option.some_get (l.writeMask_isSome _ _ hl (by simp [DescriptorSetLayout.masks]) ?_)).symm
      (Option.some_get (l.writeMask_isSome _ _ hl (by simp [DescriptorSetLayout.masks]) ?_)).symm
      (Option.some_get (l.writeMask_isSome _ _ hl (by simp [DescriptorSetLayout.masks]) ?_)).symm
    all_goals
      intro binding i k hk
      obtain ⟨b, hb1⟩ := hB k hk
      simp only [hb1, Option.map_some', Option.isSome_some]

/-- The loop body of `FlushDescriptorSets` is defined for each of the
`MaxDescriptorSets` sets. -/
theorem CommandBuffer.flushDescriptorSet_some (o : RecordingObjects) (s : CommandBuffer)
    (layout : ResourceLayout) (bit : Nat) (hs : s.Sized) (hl : layout.WellFormed)
    (hb : bit < MaxDescriptorSets) : ∃ ev, s.flushDescriptorSet o layout bit = some ev := by
  obtain ⟨h1, h2, h3, _⟩ := hs
  obtain ⟨_, h4, h5⟩ := hl
  obtain ⟨setLayout, hsl⟩ := list_getElem?_of_lt layout.SetLayouts bit (by omega)
  obtain ⟨dset, hds⟩ := list_getElem?_of_lt s.descriptorBinding.Sets bit (by omega)
  obtain ⟨bindless, hbl⟩ := list_getElem?_of_lt s.bindlessSets bit (by omega)
  have hwl := h5 setLayout (List.getElem?_mem hsl)
  have hwd := h2 dset (List.getElem?_mem hds)
  obtain ⟨fed, hfed⟩ := dset.hashInput_some setLayout hwd hwl
  obtain ⟨ws, hws⟩ := dset.writes_some setLayout
    (o.find s.programLayout bit s.threadIndex (o.hashOf fed)).1 hwd hwl
  unfold CommandBuffer.flushDescriptorSet
  simp only [hsl, hds, hbl, hfed, hws]
  split
  · exact ⟨_, rfl⟩
  · split
    · exact ⟨_, rfl⟩
    · exact ⟨_, rfl⟩

/-- What the loop body of `FlushDescriptorSets` records for a set. -/
theorem CommandBuffer.flushDescriptorSet_eq (o : RecordingObjects) (s : CommandBuffer)
    (layout : ResourceLayout) (bit : Nat) (ev : List Recorded)
    (h : s.flushDescriptorSet o layout bit = some ev) :
    s.ProcessesSet o layout bit ev := by
  unfold CommandBuffer.flushDescriptorSet at h
  unfold CommandBuffer.ProcessesSet
  split at h
  · cases h
  · split at h
    · rename_i hb
      split at h
      · cases h
      · rename_i bindless hbl
        simp only [Option.some.injEq] at h
        exact Or.inl ⟨hb, _, hbl, h.symm⟩
    · rename_i hb
      split at h
      · cases h
      · split at h
        · cases h
        · rename_i fed hfed
          simp only at h
          split at h
          · rename_i hmiss
            split at h
            · cases h
            · simp only [Option.some.injEq] at h
              exact Or.inr ⟨by simpa using hb, _, _, Or.inr ⟨Prod.ext rfl hmiss, _, h.symm⟩⟩
          · rename_i hhit
            simp only [Option.some.injEq] at h
            exact Or.inr ⟨by simpa using hb, _, _,
              Or.inl ⟨Prod.ext rfl (by simpa using hhit), h.symm⟩⟩

/-- Everything the loop body records for a set is about that set, and it records
something. -/
theorem CommandBuffer.flushDescriptorSet_set (o : RecordingObjects) (s : CommandBuffer)
    (layout : ResourceLayout) (bit : Nat) (ev : List Recorded)
    (h : s.flushDescriptorSet o layout bit = some ev) :
    ev ≠ [] ∧ ∀ e ∈ ev, e.descriptorSet = some bit := by
  rcases s.flushDescriptorSet_eq o layout bit ev h with
    ⟨_, _, _, rfl⟩ | ⟨_, _, _, ⟨_, rfl⟩ | ⟨_, _, rfl⟩⟩ <;>
  · refine ⟨by simp, ?_⟩
    intro e he
    simp only [List.mem_cons, List.mem_singleton, List.not_mem_nil, or_false] at he
    rcases he with rfl | rfl | rfl <;> rfl

theorem CommandBuffer.flushDescriptorSetList_some (o : RecordingObjects) (s : CommandBuffer)
    (layout : ResourceLayout) (bits : List Nat) (hs : s.Sized) (hl : layout.WellFormed)
    (hb : ∀ bit ∈ bits, bit < MaxDescriptorSets) :
    ∃ ev, s.flushDescriptorSetList o layout bits = some ev := by
  induction bits with
  | nil => exact ⟨[], rfl⟩
  | cons bit rest ih =>
    obtain ⟨more, hm⟩ := ih (fun b hbm => hb b (List.mem_cons_of_mem _ hbm))
    obtain ⟨ev, he⟩ := s.flushDescriptorSet_some o layout bit hs hl
      (hb bit (List.mem_cons_self _ _))
    exact ⟨ev ++ more, by simp only [CommandBuffer.flushDescriptorSetList, he, hm]⟩

theorem CommandBuffer.flushDescriptorSetList_single (o : RecordingObjects) (s : CommandBuffer)
    (layout : ResourceLayout) (bit : Nat) :
    s.flushDescriptorSetList o layout [bit] = s.flushDescriptorSet o layout bit := by
  simp only [CommandBuffer.flushDescriptorSetList]
  cases s.flushDescriptorSet o layout bit with
  | none => rfl
  | some ev => simp

theorem CommandBuffer.flushDescriptorSetList_sets (o : RecordingObjects) (s : CommandBuffer)
    (layout : ResourceLayout) (bits : List Nat) (ev : List Recorded)
    (h : s.flushDescriptorSetList o layout bits = some ev) :
    ∀ e ∈ ev, ∃ bit ∈ bits, e.descriptorSet = some bit := by
  induction bits generalizing ev with
  | nil =>
    simp only [CommandBuffer.flushDescriptorSetList, Option.some.injEq] at h
    subst h
    simp
  | cons bit rest ih =>
    simp only [CommandBuffer.flushDescriptorSetList] at h
    split at h
    · rename_i recorded more h1 h2
      simp only [Option.some.injEq] at h
      subst h
      intro e he
      rcases List.mem_append.mp he with hm | hm
      · exact ⟨bit, List.mem_cons_self _ _, (s.flushDescriptorSet_set o layout bit _ h1).2 e hm⟩
      · obtain ⟨b, hb, hbe⟩ := ih more h2 e hm
        exact ⟨b, List.mem_cons_of_mem _ hb, hbe⟩
    · cases h

theorem testBit_not32 (x i : Nat) :
    (not32 x).testBit i = (decide (i < 32) && !x.testBit i) := by
  unfold not32 allBits
  rw [Nat.testBit_xor, Nat.testBit_two_pow_sub_one, Nat.testBit_mod_two_pow]
  by_cases h : i < 32 <;> simp [h]

theorem and_not32_self (mask d : Nat) : mask &&& (d &&& not32 (mask &&& d)) = 0 := by
  apply Nat.eq_of_testBit_eq
  intro i
  simp only [Nat.testBit_and, testBit_not32, Nat.zero_testBit]
  cases mask.testBit i <;> cases d.testBit i <;> simp

theorem testBit_of_lt_32 (d i : Nat) (h : d < 2 ^ 32) (hi : 32 ≤ i) : d.testBit i = false :=
  Nat.testBit_lt_two_pow (lt_of_lt_of_le h (Nat.pow_le_pow_right (by norm_num) hi))

theorem and_not32_zero (d : Nat) (h : d < 2 ^ 32) : d &&& not32 0 = d := by
  apply Nat.eq_of_testBit_eq
  intro i
  simp only [Nat.testBit_and, testBit_not32, Nat.zero_testBit]
  by_cases hi : i < 32
  · simp [hi]
  · simp [hi, testBit_of_lt_32 d i h (by omega)]

theorem ForEachBit_zero : ForEachBit 0 = [] := by
  simp [ForEachBit]

theorem ForEachBit_nodup (mask : Nat) : (ForEachBit mask).Nodup :=
  List.Nodup.filter _ (List.nodup_range 32)

theorem list_nodup_all_eq {α : Type} (l : List α) (a : α) (hn : l.Nodup)
    (h : ∀ x ∈ l, x = a) : l = [] ∨ l = [a] := by
  cases l with
  | nil => exact Or.inl rfl
  | cons x t =>
    right
    have hx := h x (List.mem_cons_self _ _)
    subst hx
    cases t with
    | nil => rfl
    | cons y t2 =>
      have hy := h y (List.mem_cons_of_mem _ (List.mem_cons_self _ _))
      subst hy
      simp at hn

/-- The method `FlushDescriptorSets`, where it is defined: the events are those of the
loop over `DescriptorSetMask & _dirtyDescriptorSets`, and only the dirty mask changes. -/
theorem CommandBuffer.FlushDescriptorSets_eq (o : RecordingObjects) (s s1 : CommandBuffer)
    (ev : List Recorded) (h : s.FlushDescriptorSets o = some (s1, ev)) :
    s.programLayout ≠ 0 ∧
    s.flushDescriptorSetList o (o.resourceLayout s.programLayout)
      (ForEachBit ((o.resourceLayout s.programLayout).DescriptorSetMask &&&
        s.dirtyDescriptorSets)) = some ev ∧
    s1 = { s with dirtyDescriptorSets := (s.dirtyDescriptorSets &&&
      not32 ((o.resourceLayout s.programLayout).DescriptorSetMask &&&
        s.dirtyDescriptorSets)) } := by
  unfold CommandBuffer.FlushDescriptorSets at h
  split at h
  · cases h
  · rename_i hp
    simp only at h
    split at h
    · cases h
    · rename_i recorded hr
      simp only [Option.some.injEq, Prod.mk.injEq] at h
      exact ⟨hp, by rw [hr, h.2], h.1.symm⟩

/-- The method `FlushDescriptorSets` is defined with a program layout bound, arrays of
the declared sizes and a well-formed layout. -/
theorem CommandBuffer.FlushDescriptorSets_some (o : RecordingObjects) (s : CommandBuffer)
    (hp : s.programLayout ≠ 0) (hs : s.Sized)
    (hl : (o.resourceLayout s.programLayout).WellFormed) :
    ∃ r, s.FlushDescriptorSets o = some r := by
  obtain ⟨ev, hev⟩ := s.flushDescriptorSetList_some o (o.resourceLayout s.programLayout)
    (ForEachBit ((o.resourceLayout s.programLayout).DescriptorSetMask &&&
      s.dirtyDescriptorSets)) hs hl
    (fun bit hb => ForEachBit_lt _ MaxDescriptorSets bit
      (lt_of_le_of_lt Nat.and_le_left hl.1) hb)
  unfold CommandBuffer.FlushDescriptorSets
  simp only [hp, if_false, hev]
  exact ⟨_, rfl⟩

theorem CommandBuffer.flushDescriptorSet_congr (o : RecordingObjects) (s : CommandBuffer)
    (layout : ResourceLayout) (bit dirty : Nat) :
    CommandBuffer.flushDescriptorSet o { s with dirtyDescriptorSets := dirty } layout bit =
      s.flushDescriptorSet o layout bit := rfl

/-- A flush right after a flush records nothing and changes nothing. -/
theorem CommandBuffer.FlushDescriptorSets_again (o : RecordingObjects) (s s1 : CommandBuffer)
    (ev : List Recorded) (hs : s.dirtyDescriptorSets < 2 ^ 32)
    (h : s.FlushDescriptorSets o = some (s1, ev)) :
    s1.FlushDescriptorSets o = some (s1, []) := by
  obtain ⟨hp, _, h1⟩ := s.FlushDescriptorSets_eq o s1 ev h
  have hp1 : s1.programLayout = s.programLayout := by rw [h1]
  have hd1 : s1.dirtyDescriptorSets = s.dirtyDescriptorSets &&&
      not32 ((o.resourceLayout s.programLayout).DescriptorSetMask &&&
        s.dirtyDescriptorSets) := by rw [h1]
  have hlt : s1.dirtyDescriptorSets < 2 ^ 32 := by
    rw [hd1]
    exact lt_of_le_of_lt Nat.and_le_left hs
  have hz : (o.resourceLayout s1.programLayout).DescriptorSetMask &&&
      s1.dirtyDescriptorSets = 0 := by
    rw [hp1, hd1]
    exact and_not32_self _ _
  unfold CommandBuffer.FlushDescriptorSets
  simp only [hp1, hp, if_false]
  rw [hp1] at hz
  simp only [hz, ForEachBit_zero, CommandBuffer.flushDescriptorSetList,
    and_not32_zero _ hlt]
  rw [← hp1]

theorem or_bit_testBit (d set i : Nat) :
    (d ||| ((1 <<< set) % 2 ^ 32)).testBit i =
      (d.testBit i || (decide (i < 32) && decide (set = i))) := by
  rw [Nat.testBit_or, Nat.testBit_mod_two_pow, Nat.one_shiftLeft, Nat.testBit_two_pow]

theorem CommandBuffer.TouchesSet.touches_refl (s : CommandBuffer) (set : Nat) :
    s.TouchesSet s set :=
  ⟨rfl, fun _ _ => ⟨rfl, rfl⟩, fun _ _ => rfl, fun h => h⟩

theorem CommandBuffer.TouchesSet.touches_trans {s0 s1 s2 : CommandBuffer} {set : Nat}
    (h1 : s0.TouchesSet s1 set) (h2 : s1.TouchesSet s2 set) : s0.TouchesSet s2 set := by
  obtain ⟨a1, b1, c1, d1⟩ := h1
  obtain ⟨a2, b2, c2, d2⟩ := h2
  refine ⟨?_, fun j hj => ⟨((b2 j hj).1).trans (b1 j hj).1, ((b2 j hj).2).trans (b1 j hj).2⟩,
    fun i hi => (c2 i hi).trans (c1 i hi), fun h => d2 (d1 h)⟩
  rw [a2, a1]

theorem DescriptorSetBindings.Sized.sized_set {d : DescriptorSetBindings} (hd : d.Sized)
    (binding : Nat) (b : ResourceBinding) (c c2 : Nat) :
    DescriptorSetBindings.Sized
      ⟨d.Bindings.set binding b, d.Cookies.set binding c, d.SecondaryCookies.set binding c2⟩ := by
  obtain ⟨h1, h2, h3⟩ := hd
  exact ⟨by simpa using h1, by simpa using h2, by simpa using h3⟩

/-- Replacing the tracked state of one set and marking the set dirty, as the setters do,
keeps the sizes and touches that set only. -/
theorem CommandBuffer.replaceSet_spec (s0 : CommandBuffer) (set : Nat)
    (dset1 : DescriptorSetBindings) (hs : s0.Sized) (hd : dset1.Sized) :
    CommandBuffer.Sized { s0 with
      descriptorBinding := { s0.descriptorBinding with
        Sets := s0.descriptorBinding.Sets.set set dset1 }
      dirtyDescriptorSets := s0.dirtyDescriptorSets ||| ((1 <<< set) % 2 ^ 32) } ∧
    s0.TouchesSet { s0 with
      descriptorBinding := { s0.descriptorBinding with
        Sets := s0.descriptorBinding.Sets.set set dset1 }
      dirtyDescriptorSets := s0.dirtyDescriptorSets ||| ((1 <<< set) % 2 ^ 32) } set := by
  obtain ⟨h1, h2, h3, h4⟩ := hs
  refine ⟨⟨by simpa using h1, ?_, h3, ?_⟩, rfl, ?_, ?_, ?_⟩
  · intro d hdm
    rcases List.mem_or_eq_of_mem_set hdm with hm | rfl
    · exact h2 d hm
    · exact hd
  · exact Nat.or_lt_two_pow h4 (Nat.mod_lt _ (by norm_num))
  · intro j hj
    exact ⟨List.getElem?_set_ne (Ne.symm hj), rfl⟩
  · intro i hi
    simp only [or_bit_testBit]
    have : ¬ set = i := fun e => hi e.symm
    simp [this]
  · intro h
    simp only [or_bit_testBit, h, Bool.true_or]

theorem CommandBuffer.SetSampler_spec (s0 : CommandBuffer) (set binding : Nat)
    (handle : Sampler) (hs : s0.Sized) (h1 : set < MaxDescriptorSets)
    (h2 : binding < MaxDescriptorBindings) :
    ∃ s1, s0.SetSampler set binding handle = some s1 ∧ s1.Sized ∧ s0.TouchesSet s1 set := by
  obtain ⟨dset, hds⟩ := list_getElem?_of_lt s0.descriptorBinding.Sets set (by rw [hs.1]; exact h1)
  have hd := hs.2.1 dset (List.getElem?_mem hds)
  obtain ⟨bind, hbind⟩ := list_getElem?_of_lt dset.Bindings binding (by rw [hd.1]; exact h2)
  obtain ⟨sec, hsec⟩ := list_getElem?_of_lt dset.SecondaryCookies binding
    (by rw [hd.2.2]; exact h2)
  unfold CommandBuffer.SetSampler
  simp only [hds, hbind, hsec]
  split
  · exact ⟨s0, rfl, hs, CommandBuffer.TouchesSet.touches_refl s0 set⟩
  · obtain ⟨a, b⟩ := s0.replaceSet_spec set _ hs
      (⟨by simpa using hd.1, hd.2.1, by simpa using hd.2.2⟩ : DescriptorSetBindings.Sized
        { dset with
          Bindings := dset.Bindings.set binding
            { bind with
              ImageFloat := { bind.ImageFloat with sampler := handle.sampler }
              ImageInteger := { bind.ImageInteger with sampler := handle.sampler } }
          SecondaryCookies := dset.SecondaryCookies.set binding handle.cookie })
    exact ⟨_, rfl, a, b⟩

theorem CommandBuffer.SetTexture_spec (s0 : CommandBuffer) (set binding : Nat)
    (view : ImageView) (hs : s0.Sized) (h1 : set < MaxDescriptorSets)
    (h2 : binding < MaxDescriptorBindings) :
    ∃ s1, s0.SetTexture set binding view = some s1 ∧ s1.Sized ∧ s0.TouchesSet s1 set := by
  obtain ⟨dset, hds⟩ := list_getElem?_of_lt s0.descriptorBinding.Sets set (by rw [hs.1]; exact h1)
  have hd := hs.2.1 dset (List.getElem?_mem hds)
  obtain ⟨bind, hbind⟩ := list_getElem?_of_lt dset.Bindings binding (by rw [hd.1]; exact h2)
  obtain ⟨cookie, hcookie⟩ := list_getElem?_of_lt dset.Cookies binding
    (by rw [hd.2.1]; exact h2)
  unfold CommandBuffer.SetTexture
  simp only [hds, hbind, hcookie]
  split
  · exact ⟨s0, rfl, hs, CommandBuffer.TouchesSet.touches_refl s0 set⟩
  · obtain ⟨a, b⟩ := s0.replaceSet_spec set _ hs
      (⟨by simpa using hd.1, by simpa using hd.2.1, hd.2.2⟩ : DescriptorSetBindings.Sized
        { dset with
          Bindings := dset.Bindings.set binding
            { bind with
              ImageFloat :=
                { bind.ImageFloat with imageLayout := view.layout, imageView := view.floatView }
              ImageInteger :=
                { bind.ImageInteger with
                  imageLayout := view.layout, imageView := view.integerView } }
          Cookies := dset.Cookies.set binding view.cookie })
    exact ⟨_, rfl, a, b⟩

theorem CommandBuffer.setBufferBinding_spec (s0 : CommandBuffer) (set binding : Nat)
    (buffer : Buffer) (offset range : Nat) (hs : s0.Sized) (h1 : set < MaxDescriptorSets)
    (h2 : binding < MaxDescriptorBindings) :
    ∃ s1, s0.setBufferBinding set binding buffer offset range = some s1 ∧ s1.Sized ∧
      s0.TouchesSet s1 set := by
  obtain ⟨dset, hds⟩ := list_getElem?_of_lt s0.descriptorBinding.Sets set (by rw [hs.1]; exact h1)
  have hd := hs.2.1 dset (List.getElem?_mem hds)
  obtain ⟨bind, hbind⟩ := list_getElem?_of_lt dset.Bindings binding (by rw [hd.1]; exact h2)
  obtain ⟨cookie, hcookie⟩ := list_getElem?_of_lt dset.Cookies binding
    (by rw [hd.2.1]; exact h2)
  obtain ⟨sec, hsec⟩ := list_getElem?_of_lt dset.SecondaryCookies binding
    (by rw [hd.2.2]; exact h2)
  unfold CommandBuffer.setBufferBinding
  simp only [hds, hbind, hcookie, hsec]
  generalize (if range = 0 then buffer.size else range) = r
  split
  · exact ⟨s0, rfl, hs, CommandBuffer.TouchesSet.touches_refl s0 set⟩
  · obtain ⟨a, b⟩ := s0.replaceSet_spec set _ hs (hd.sized_set binding _ _ _)
    exact ⟨_, rfl, a, b⟩

theorem CommandBuffer.SetBindless_spec (s0 : CommandBuffer) (set descriptorSet : Nat)
    (hs : s0.Sized) (h1 : set < MaxDescriptorSets) :
    ∃ s1, s0.SetBindless set descriptorSet = some s1 ∧ s1.Sized ∧ s0.TouchesSet s1 set := by
  obtain ⟨old, hold⟩ := list_getElem?_of_lt s0.bindlessSets set (by rw [hs.2.2.1]; exact h1)
  unfold CommandBuffer.SetBindless
  simp only [hold]
  refine ⟨_, rfl, ⟨hs.1, hs.2.1, by simpa using hs.2.2.1,
    Nat.or_lt_two_pow hs.2.2.2 (Nat.mod_lt _ (by norm_num))⟩, rfl, ?_, ?_, ?_⟩
  · intro j hj
    exact ⟨rfl, List.getElem?_set_ne (Ne.symm hj)⟩
  · intro i hi
    simp only [or_bit_testBit]
    have : ¬ set = i := fun e => hi e.symm
    simp [this]
  · intro h
    simp only [or_bit_testBit, h, Bool.true_or]

/-- Every setter call with indices in range is defined, keeps the array sizes, and
touches its set only. -/
theorem DescriptorSetter.run_spec (c : DescriptorSetter) (s0 : CommandBuffer) (hs : s0.Sized)
    (hc : c.InRange) : ∃ s1, c.run s0 = some s1 ∧ s1.Sized ∧ s0.TouchesSet s1 c.set := by
  obtain ⟨h1, h2⟩ := hc
  cases c with
  | texture set binding view => exact s0.SetTexture_spec set binding view hs h1 h2
  | textureSampler set binding view handle =>
    obtain ⟨s1, e1, z1, t1⟩ := s0.SetTexture_spec set binding view hs h1 h2
    obtain ⟨s2, e2, z2, t2⟩ := s1.SetSampler_spec set binding handle z1 h1 h2
    refine ⟨s2, ?_, z2, t1.touches_trans t2⟩
    simp only [DescriptorSetter.run, CommandBuffer.SetTextureSampler, e1, e2]
  | sampler set binding handle => exact s0.SetSampler_spec set binding handle hs h1 h2
  | uniformBuffer set binding buffer offset range =>
    exact s0.setBufferBinding_spec set binding buffer offset range hs h1 h2
  | storageBuffer set binding buffer offset range =>
    exact s0.setBufferBinding_spec set binding buffer offset range hs h1 h2
  | bindless set descriptorSet => exact s0.SetBindless_spec set descriptorSet hs h1

theorem testBit_clear_processed (m d i : Nat) (hd : d < 2 ^ 32) :
    (d &&& not32 (m &&& d)).testBit i =
      (d.testBit i && !decide (i ∈ ForEachBit (m &&& d))) := by
  rw [Nat.testBit_and, testBit_not32]
  by_cases hi : i < 32
  · have : decide (i ∈ ForEachBit (m &&& d)) = (m &&& d).testBit i := by
      by_cases hb : (m &&& d).testBit i = true
      · rw [hb, decide_eq_true_eq]
        exact (mem_ForEachBit _ _).mpr ⟨hi, hb⟩
      · have hb2 : (m &&& d).testBit i = false := by simpa using hb
        rw [hb2, decide_eq_false_iff_not]
        intro hm
        exact hb ((mem_ForEachBit _ _).mp hm).2
    rw [this]
    simp [hi]
  · rw [testBit_of_lt_32 d i hd (by omega)]
    simp

theorem Recorded.isDraw_of_set (e : Recorded) (bit : Nat) (h : e.descriptorSet = some bit) :
    e.isDraw = false := by
  cases e <;> first | rfl | cases h

theorem CommandBuffer.FlushDescriptorSets_events (o : RecordingObjects) (s s1 : CommandBuffer)
    (ev : List Recorded) (h : s.FlushDescriptorSets o = some (s1, ev)) :
    ∀ e ∈ ev, e.isDraw = false := by
  obtain ⟨_, hlist, _⟩ := s.FlushDescriptorSets_eq o s1 ev h
  intro e he
  obtain ⟨bit, _, hb⟩ := s.flushDescriptorSetList_sets o _ _ ev hlist e he
  exact e.isDraw_of_set bit hb

theorem CommandBuffer.flushPipeline_events (o : RecordingObjects) (s s1 : CommandBuffer)
    (compute flushed : Bool) (ev : List Recorded)
    (h : s.flushPipeline o compute = some (s1, ev, flushed)) : ∀ e ∈ ev, e.isDraw = false := by
  unfold CommandBuffer.flushPipeline at h
  split at h
  · cases h
  · simp only at h
    split at h
    · simp only [Option.some.injEq, Prod.mk.injEq] at h
      obtain ⟨_, rfl, _⟩ := h
      simp
    · simp only [Option.some.injEq, Prod.mk.injEq] at h
      obtain ⟨_, rfl, _⟩ := h
      intro e he
      simp only [List.mem_singleton] at he
      subst he
      rfl

theorem CommandBuffer.bindVertexRanges_events (s : CommandBuffer) (ranges : List (Nat × Nat))
    (ev : List Recorded) (h : s.bindVertexRanges ranges = some ev) :
    ∀ e ∈ ev, e.isDraw = false := by
  induction ranges generalizing ev with
  | nil =>
    simp only [CommandBuffer.bindVertexRanges, Option.some.injEq] at h
    subst h
    simp
  | cons r rest ih =>
    obtain ⟨binding, bindingCount⟩ := r
    simp only [CommandBuffer.bindVertexRanges] at h
    split at h
    · split at h
      · cases h
      · rename_i more hm
        simp only [Option.some.injEq] at h
        subst h
        intro e he
        rcases List.mem_cons.mp he with rfl | hmem
        · rfl
        · exact ih more hm e hmem
    · cases h

theorem CommandBuffer.flushPushConstants_events (o : RecordingObjects) (s : CommandBuffer) :
    ∀ e ∈ s.flushPushConstants o, e.isDraw = false := by
  unfold CommandBuffer.flushPushConstants
  split
  · intro e he
    simp only [List.mem_singleton] at he
    subst he
    rfl
  · simp

theorem CommandBuffer.flushRenderRest_events (o : RecordingObjects) (s s1 : CommandBuffer)
    (ev : List Recorded) (h : s.flushRenderRest o = some (s1, ev)) :
    ∀ e ∈ ev, e.isDraw = false := by
  unfold CommandBuffer.flushRenderRest at h
  split at h
  · cases h
  · rename_i s2 sets hsets
    simp only at h
    split at h
    · cases h
    · rename_i vertex hv
      simp only [Option.some.injEq, Prod.mk.injEq] at h
      obtain ⟨_, rfl⟩ := h
      intro e he
      simp only [List.mem_append] at he
      rcases he with ((((he | he) | he) | he) | he) | he
      · exact s.FlushDescriptorSets_events o s2 sets hsets e he
      · exact s2.flushPushConstants_events o e he
      · split at he
        · simp only [List.mem_singleton] at he
          subst he
          rfl
        · simp at he
      · split at he
        · simp only [List.mem_singleton] at he
          subst he
          rfl
        · simp at he
      · split at he
        · simp only [List.mem_singleton] at he
          subst he
          rfl
        · simp at he
      · exact CommandBuffer.bindVertexRanges_events _ _ vertex hv e he

theorem CommandBuffer.flushRenderPipeline_events (o : RecordingObjects) (s s1 : CommandBuffer)
    (flushed : Bool) (ev : List Recorded)
    (h : s.flushRenderPipeline o = some (s1, ev, flushed)) : ∀ e ∈ ev, e.isDraw = false := by
  unfold CommandBuffer.flushRenderPipeline at h
  simp only at h
  generalize (if s.pipeline = 0 then
    ({ s with dirty := s.dirty ||| DirtyPipeline } : CommandBuffer) else s) = t at h
  split at h
  · split at h
    · cases h
    · rename_i s2 built hb
      simp only [Option.some.injEq, Prod.mk.injEq] at h
      obtain ⟨_, rfl, _⟩ := h
      exact CommandBuffer.flushPipeline_events o _ s2 false false built hb
    · rename_i s2 built hb
      have hbuilt := CommandBuffer.flushPipeline_events o _ s2 false true built hb
      split at h
      · simp only [Option.some.injEq, Prod.mk.injEq] at h
        obtain ⟨_, rfl, _⟩ := h
        intro e he
        rcases List.mem_append.mp he with he | he
        · exact hbuilt e he
        · simp only [List.mem_singleton] at he
          subst he
          rfl
      · simp only [Option.some.injEq, Prod.mk.injEq] at h
        obtain ⟨_, rfl, _⟩ := h
        exact hbuilt
  · simp only [Option.some.injEq, Prod.mk.injEq] at h
    obtain ⟨_, rfl, _⟩ := h
    simp

theorem CommandBuffer.flushComputePipelineStep_events (o : RecordingObjects)
    (s s1 : CommandBuffer) (flushed : Bool) (ev : List Recorded)
    (h : s.flushComputePipelineStep o = some (s1, ev, flushed)) :
    ∀ e ∈ ev, e.isDraw = false := by
  unfold CommandBuffer.flushComputePipelineStep at h
  simp only at h
  generalize (if s.pipeline = 0 then
    ({ s with dirty := s.dirty ||| DirtyPipeline } : CommandBuffer) else s) = t at h
  split at h
  · split at h
    · cases h
    · rename_i s2 built hb
      simp only [Option.some.injEq, Prod.mk.injEq] at h
      obtain ⟨_, rfl, _⟩ := h
      exact CommandBuffer.flushPipeline_events o _ s2 true false built hb
    · rename_i s2 built hb
      have hbuilt := CommandBuffer.flushPipeline_events o _ s2 true true built hb
      split at h
      · simp only [Option.some.injEq, Prod.mk.injEq] at h
        obtain ⟨_, rfl, _⟩ := h
        intro e he
        rcases List.mem_append.mp he with he | he
        · exact hbuilt e he
        · simp only [CommandBuffer.BindPipeline, List.mem_singleton] at he
          subst he
          rfl
      · simp only [Option.some.injEq, Prod.mk.injEq] at h
        obtain ⟨_, rfl, _⟩ := h
        exact hbuilt
  · simp only [Option.some.injEq, Prod.mk.injEq] at h
    obtain ⟨_, rfl, _⟩ := h
    simp

/-- The state flush of a render command records no draw and no dispatch. -/
theorem CommandBuffer.FlushRenderState_events (o : RecordingObjects) (s s1 : CommandBuffer)
    (flushed : Bool) (ev : List Recorded)
    (h : s.FlushRenderState o = some (s1, ev, flushed)) : ∀ e ∈ ev, e.isDraw = false := by
  unfold CommandBuffer.FlushRenderState at h
  split at h
  · simp only [Option.some.injEq, Prod.mk.injEq] at h
    obtain ⟨_, rfl, _⟩ := h
    simp
  · split at h
    · cases h
    · rename_i s2 ev2 hstep
      simp only [Option.some.injEq, Prod.mk.injEq] at h
      obtain ⟨_, rfl, _⟩ := h
      exact s.flushRenderPipeline_events o s2 false ev2 hstep
    · rename_i s2 ev2 hstep
      have h2 := s.flushRenderPipeline_events o s2 true ev2 hstep
      simp only at h
      split at h
      · simp only [Option.some.injEq, Prod.mk.injEq] at h
        obtain ⟨_, rfl, _⟩ := h
        exact h2
      · split at h
        · cases h
        · rename_i s4 rest hrest
          simp only [Option.some.injEq, Prod.mk.injEq] at h
          obtain ⟨_, rfl, _⟩ := h
          intro e he
          rcases List.mem_append.mp he with he | he
          · exact h2 e he
          · exact CommandBuffer.flushRenderRest_events o _ s4 rest hrest e he

/-- The state flush of a dispatch records no draw and no dispatch. -/
theorem CommandBuffer.FlushComputeState_events (o : RecordingObjects) (s s1 : CommandBuffer)
    (flushed : Bool) (ev : List Recorded)
    (h : s.FlushComputeState o = some (s1, ev, flushed)) : ∀ e ∈ ev, e.isDraw = false := by
  unfold CommandBuffer.FlushComputeState at h
  split at h
  · simp only [Option.some.injEq, Prod.mk.injEq] at h
    obtain ⟨_, rfl, _⟩ := h
    simp
  · split at h
    · cases h
    · rename_i s2 ev2 hstep
      simp only [Option.some.injEq, Prod.mk.injEq] at h
      obtain ⟨_, rfl, _⟩ := h
      exact s.flushComputePipelineStep_events o s2 false ev2 hstep
    · rename_i s2 ev2 hstep
      have h2 := s.flushComputePipelineStep_events o s2 true ev2 hstep
      simp only at h
      split at h
      · simp only [Option.some.injEq, Prod.mk.injEq] at h
        obtain ⟨_, rfl, _⟩ := h
        exact h2
      · split at h
        · cases h
        · rename_i s4 sets hsets
          simp only [Option.some.injEq, Prod.mk.injEq] at h
          obtain ⟨_, rfl, _⟩ := h
          intro e he
          simp only [List.mem_append] at he
          rcases he with (he | he) | he
          · exact h2 e he
          · exact CommandBuffer.FlushDescriptorSets_events o _ s4 sets hsets e he
          · exact s4.flushPushConstants_events o e he

theorem DrawCall.flush_events (c : DrawCall) (o : RecordingObjects) (s s1 : CommandBuffer)
    (flushed : Bool) (ev : List Recorded) (h : c.flush o s = some (s1, ev, flushed)) :
    ∀ e ∈ ev, e.isDraw = false := by
  cases c with
  | dispatch x y z => exact s.FlushComputeState_events o s1 flushed ev h
  | draw a b c d => exact s.FlushRenderState_events o s1 flushed ev h
  | drawIndexed a b c d e => exact s.FlushRenderState_events o s1 flushed ev h
  | drawIndexedIndirect a b c d => exact s.FlushRenderState_events o s1 flushed ev h

theorem DrawCall.run_eq (c : DrawCall) (o : RecordingObjects) (s : CommandBuffer) :
    c.run o s = (c.flush o s).map
      (fun r => (r.1, if r.2.2 = true then r.2.1 ++ [c.native] else r.2.1)) := by
  cases c <;>
  · simp only [DrawCall.run, DrawCall.flush, DrawCall.native, CommandBuffer.Draw,
      CommandBuffer.DrawIndexed, CommandBuffer.DrawIndexedIndirect, CommandBuffer.Dispatch]
    split <;> simp_all

theorem DrawCall.flush_null (c : DrawCall) (o : RecordingObjects) (s : CommandBuffer)
    (h : s.pipelineCompileInfo.Program = 0) : c.flush o s = some (s, [], false) := by
  cases c <;>
    simp only [DrawCall.flush, CommandBuffer.FlushRenderState, CommandBuffer.FlushComputeState,
      h, if_true]

/-- Claim C15.  With a null `Program`, each of `Draw`, `DrawIndexed`,
`DrawIndexedIndirect` and `Dispatch` records nothing and returns the command buffer as
it was.  In every state in which the state flush of the command is defined, the command
is defined, leaves the state the flush left and records what the flush recorded, which
holds no draw and no dispatch, followed by its native draw or dispatch exactly when the
flush returned true; so a draw or dispatch is recorded if and only if the flush returned
true.  Where the flush is not defined, neither is the command. -/
theorem C15_draw_iff_flushed (o : RecordingObjects) (s : CommandBuffer) (c : DrawCall) :
    (s.pipelineCompileInfo.Program = 0 → c.run o s = some (s, [])) ∧
    (∀ s1 fev flushed, c.flush o s = some (s1, fev, flushed) →
      ∃ ev, c.run o s = some (s1, ev) ∧
        (flushed = true → ev = fev ++ [c.native]) ∧ (flushed = false → ev = fev) ∧
        (∀ e ∈ fev, e.isDraw = false) ∧
        (c.native ∈ ev ↔ flushed = true) ∧ ((∃ e ∈ ev, e.isDraw = true) ↔ flushed = true)) ∧
    (c.flush o s = none → c.run o s = none) := by
  have hnative : c.native.isDraw = true := by cases c <;> rfl
  refine ⟨?_, ?_, ?_⟩
  · intro h
    rw [c.run_eq o s, c.flush_null o s h]
    rfl
  · intro s1 fev flushed h
    have hno := c.flush_events o s s1 flushed fev h
    rw [c.run_eq o s, h]
    cases flushed with
    | true =>
      refine ⟨fev ++ [c.native], rfl, fun _ => rfl, (fun hf => by cases hf), hno, ?_, ?_⟩
      · simp
      · simp only [iff_true]
        exact ⟨c.native, by simp, hnative⟩
    | false =>
      refine ⟨fev, rfl, (fun hf => by cases hf), fun _ => rfl, hno, ?_, ?_⟩
      · simp only [Bool.false_eq_true, iff_false]
        intro hm
        have := hno _ hm
        rw [hnative] at this
        cases this
      · simp only [Bool.false_eq_true, iff_false]
        rintro ⟨e, he, hd⟩
        rw [hno e he] at hd
        cases hd
  · intro h
    rw [c.run_eq o s, h]
    rfl

/-- Claim C15 on the examples: a fresh command buffer, which has no program, records
nothing for a draw of three vertices and stays as it is; `renderCommandBuffer`, whose
state flush returns true, records the flush and then the draw. -/
theorem C15_draw_iff_flushed_witness :
    (CommandBuffer.create 0 0).pipelineCompileInfo.Program = 0 ∧
    (DrawCall.draw 3 1 0 0).run sampleObjects (CommandBuffer.create 0 0) =
      some (CommandBuffer.create 0 0, []) ∧
    (DrawCall.draw 3 1 0 0).flush sampleObjects renderCommandBuffer =
      some (flushedRender.1, flushedRender.2.1, true) ∧
    (DrawCall.draw 3 1 0 0).run sampleObjects renderCommandBuffer =
      some (flushedRender.1, flushedRender.2.1 ++ [.draw 3 1 0 0]) := by
  have h1 : (CommandBuffer.create 0 0).pipelineCompileInfo.Program = 0 := by decide
  have h2 : (DrawCall.draw 3 1 0 0).flush sampleObjects renderCommandBuffer =
      some (flushedRender.1, flushedRender.2.1, true) := by
    set_option maxRecDepth 100000 in decide
  obtain ⟨ev, a, b, _⟩ :=
    (C15_draw_iff_flushed sampleObjects renderCommandBuffer (.draw 3 1 0 0)).2.1 _ _ _ h2
  rw [b rfl] at a
  exact ⟨h1, (C15_draw_iff_flushed sampleObjects (CommandBuffer.create 0 0) (.draw 3 1 0 0)).1 h1,
    h2, a⟩

theorem createStockSampler_foldl (hashOf : SamplerCreateInfo → Nat) (samplerAnisotropy : Bool)
    (maxAnisotropy : Nat) (types : List StockSampler)
    (acc : VulkanCache SamplerCreateInfo × List Nat) :
    ∃ more, (types.foldl (createStockSampler hashOf samplerAnisotropy maxAnisotropy) acc).2
      = acc.2 ++ more ∧ more.length = types.length := by
  induction types generalizing acc with
  | nil => exact ⟨[], by simp, rfl⟩
  | cons type rest ih =>
    obtain ⟨more, h1, h2⟩ := ih (createStockSampler hashOf samplerAnisotropy maxAnisotropy acc type)
    refine ⟨(RequestSampler hashOf acc.1
      (stockSamplerInfo samplerAnisotropy maxAnisotropy type)).2 :: more, ?_, by simp [h2]⟩
    rw [List.foldl_cons, h1]
    simp [createStockSampler]

/-- Claim C29, the code at the failing input.  For every feature set the create info
built for `LinearClamp` is the one built for `TrilinearClamp` (the list of kinds that get
the linear mipmap mode names `LinearClamp`), so the two entries of the stock-sampler
table are one cached sampler, whatever the hash function and the cache before; without
the anisotropy feature the two default geometry samplers coincide with the two
trilinear ones as well. -/
theorem C29_linear_clamp_is_trilinear :
    (∀ (samplerAnisotropy : Bool) (maxAnisotropy : Nat),
      stockSamplerInfo samplerAnisotropy maxAnisotropy .LinearClamp
        = stockSamplerInfo samplerAnisotropy maxAnisotropy .TrilinearClamp ∧
      (stockSamplerInfo samplerAnisotropy maxAnisotropy .LinearClamp).MipmapMode = 1 ∧
      (stockSamplerInfo samplerAnisotropy maxAnisotropy .LinearWrap).MipmapMode = 0) ∧
    (∀ maxAnisotropy : Nat,
      stockSamplerInfo false maxAnisotropy .DefaultGeometryFilterClamp
        = stockSamplerInfo false maxAnisotropy .TrilinearClamp ∧
      stockSamplerInfo false maxAnisotropy .DefaultGeometryFilterWrap
        = stockSamplerInfo false maxAnisotropy .TrilinearWrap) ∧
    ∀ (hashOf : SamplerCreateInfo → Nat) (samplerAnisotropy : Bool) (maxAnisotropy : Nat)
      (samplers : VulkanCache SamplerCreateInfo),
      (CreateStockSamplers hashOf samplerAnisotropy maxAnisotropy samplers).2.length = 10 ∧
      ∃ sampler,
        RequestStockSampler (CreateStockSamplers hashOf samplerAnisotropy maxAnisotropy samplers).2
          .LinearClamp = some sampler ∧
        RequestStockSampler (CreateStockSamplers hashOf samplerAnisotropy maxAnisotropy samplers).2
          .TrilinearClamp = some sampler := by
  refine ⟨fun a m => ⟨rfl, rfl, rfl⟩, fun m => ⟨rfl, rfl⟩, ?_⟩
  intro hashOf a m samplers
  constructor
  · obtain ⟨more, h1, h2⟩ := createStockSampler_foldl hashOf a m StockSampler.all (samplers, [])
    unfold CreateStockSamplers
    rw [h1, List.nil_append, h2]
    rfl
  · have e : stockSamplerInfo a m .TrilinearClamp = stockSamplerInfo a m .LinearClamp := rfl
    obtain ⟨more, h1, _⟩ := createStockSampler_foldl hashOf a m
      [.NearestWrap, .LinearWrap, .TrilinearWrap, .NearestShadow, .LinearShadow,
        .DefaultGeometryFilterClamp, .DefaultGeometryFilterWrap]
      (createStockSampler hashOf a m (createStockSampler hashOf a m
        (createStockSampler hashOf a m (samplers, []) .NearestClamp) .LinearClamp) .TrilinearClamp)
    have hfind := (requestCached_spec hashOf
      (requestCached hashOf samplers (stockSamplerInfo a m .NearestClamp)).1
      (stockSamplerInfo a m .LinearClamp)).2
    have hsame := requestCached_of_Find hashOf _ _ _ hfind
    have htable : (CreateStockSamplers hashOf a m samplers).2
        = (createStockSampler hashOf a m (createStockSampler hashOf a m
            (createStockSampler hashOf a m (samplers, []) .NearestClamp) .LinearClamp)
            .TrilinearClamp).2 ++ more := by
      unfold CreateStockSamplers
      rw [show StockSampler.all = [.NearestClamp, .LinearClamp, .TrilinearClamp] ++
        [.NearestWrap, .LinearWrap, .TrilinearWrap, .NearestShadow, .LinearShadow,
          .DefaultGeometryFilterClamp, .DefaultGeometryFilterWrap] from rfl, List.foldl_append]
      exact h1
    refine ⟨(requestCached hashOf
      (requestCached hashOf samplers (stockSamplerInfo a m .NearestClamp)).1
      (stockSamplerInfo a m .LinearClamp)).2, ?_, ?_⟩
    · unfold RequestStockSampler
      rw [htable]
      simp [createStockSampler, RequestSampler_eq, StockSampler.index]
    · unfold RequestStockSampler
      rw [htable]
      simp only [createStockSampler, RequestSampler_eq, StockSampler.index, e, hsame]
      simp

theorem CommandBuffer.BeginContext_sized (s : CommandBuffer) (hs : s.Sized) :
    s.BeginContext.Sized := by
  obtain ⟨h1, h2, h3, _⟩ := hs
  refine ⟨by simpa [CommandBuffer.BeginContext] using h1, ?_, h3,
    (by show allBits < 2 ^ 32; decide)⟩
  intro d hd
  simp only [CommandBuffer.BeginContext, List.mem_map] at hd
  obtain ⟨d0, hd0, rfl⟩ := hd
  obtain ⟨a, b, c⟩ := h2 d0 hd0
  exact ⟨a, by simpa using b, by simpa using c⟩

theorem CommandBuffer.BeginContext_cookies (s : CommandBuffer) (set binding : Nat)
    (hs : s.Sized) (h1 : set < MaxDescriptorSets) (h2 : binding < MaxDescriptorBindings) :
    s.BeginContext.trackedCookie set binding = some 0 ∧
    s.BeginContext.trackedSecondaryCookie set binding = some 0 := by
  obtain ⟨dset, hds⟩ := list_getElem?_of_lt s.descriptorBinding.Sets set (by rw [hs.1]; exact h1)
  have hd := hs.2.1 dset (List.getElem?_mem hds)
  obtain ⟨c, hc⟩ := list_getElem?_of_lt dset.Cookies binding (by rw [hd.2.1]; exact h2)
  obtain ⟨c2, hc2⟩ := list_getElem?_of_lt dset.SecondaryCookies binding
    (by rw [hd.2.2]; exact h2)
  have hl3 : binding < dset.Cookies.length := by rw [hd.2.1]; exact h2
  have hl4 : binding < dset.SecondaryCookies.length := by rw [hd.2.2]; exact h2
  simp only [CommandBuffer.trackedCookie, CommandBuffer.trackedSecondaryCookie,
    CommandBuffer.BeginContext, List.getElem?_map, hds, Option.map_some', hc, hc2, and_self]

/-- The buffer setters on a binding whose tracked cookie is 0, with a buffer whose cookie
is not 0: the call is defined and stores the cookie and the descriptor info. -/
theorem CommandBuffer.setBufferBinding_unbound (b : CommandBuffer) (set binding : Nat)
    (buffer : Buffer) (offset range : Nat) (hb : b.Sized) (h1 : set < MaxDescriptorSets)
    (h2 : binding < MaxDescriptorBindings) (hc : b.trackedCookie set binding = some 0)
    (hne : buffer.cookie ≠ 0) :
    ∃ s1, b.setBufferBinding set binding buffer offset range = some s1 ∧
      s1.trackedCookie set binding = some buffer.cookie ∧
      s1.trackedSecondaryCookie set binding = some 0 ∧
      s1.trackedBuffer set binding =
        some ⟨buffer.buffer, offset, if range = 0 then buffer.size else range⟩ ∧
      s1.dirtyDescriptorSets = b.dirtyDescriptorSets ||| ((1 <<< set) % 2 ^ 32) := by
  obtain ⟨dset, hds⟩ := list_getElem?_of_lt b.descriptorBinding.Sets set (by rw [hb.1]; exact h1)
  have hd := hb.2.1 dset (List.getElem?_mem hds)
  obtain ⟨bind, hbind⟩ := list_getElem?_of_lt dset.Bindings binding (by rw [hd.1]; exact h2)
  obtain ⟨sec, hsec⟩ := list_getElem?_of_lt dset.SecondaryCookies binding
    (by rw [hd.2.2]; exact h2)
  have hcookie : dset.Cookies[binding]? = some 0 := by
    simpa [CommandBuffer.trackedCookie, hds] using hc
  have hl1 : set < b.descriptorBinding.Sets.length := by rw [hb.1]; exact h1
  have hl2 : binding < dset.Bindings.length := by rw [hd.1]; exact h2
  have hl3 : binding < dset.Cookies.length := by rw [hd.2.1]; exact h2
  have hl4 : binding < dset.SecondaryCookies.length := by rw [hd.2.2]; exact h2
  unfold CommandBuffer.setBufferBinding
  simp only [hds, hbind, hcookie, hsec, hne, false_and, if_false]
  refine ⟨_, rfl, ?_, ?_, ?_, rfl⟩
  · simp [CommandBuffer.trackedCookie, List.getElem?_set_self hl1, List.getElem?_set_self hl3]
  · simp [CommandBuffer.trackedSecondaryCookie, List.getElem?_set_self hl1,
      List.getElem?_set_self hl4]
  · simp [CommandBuffer.trackedBuffer, List.getElem?_set_self hl1, List.getElem?_set_self hl2]

/-- The method `SetTexture` on a binding whose tracked cookie is 0, with a view whose
cookie is not 0. -/
theorem CommandBuffer.SetTexture_unbound (b : CommandBuffer) (set binding : Nat)
    (view : ImageView) (hb : b.Sized) (h1 : set < MaxDescriptorSets)
    (h2 : binding < MaxDescriptorBindings) (hc : b.trackedCookie set binding = some 0)
    (hne : view.cookie ≠ 0) :
    ∃ s1 old, b.SetTexture set binding view = some s1 ∧
      b.trackedImage set binding = some old ∧
      s1.trackedCookie set binding = some view.cookie ∧
      s1.trackedImage set binding =
        some (⟨old.1.sampler, view.floatView, view.layout⟩,
          ⟨old.2.sampler, view.integerView, view.layout⟩) ∧
      s1.dirtyDescriptorSets = b.dirtyDescriptorSets ||| ((1 <<< set) % 2 ^ 32) := by
  obtain ⟨dset, hds⟩ := list_getElem?_of_lt b.descriptorBinding.Sets set (by rw [hb.1]; exact h1)
  have hd := hb.2.1 dset (List.getElem?_mem hds)
  obtain ⟨bind, hbind⟩ := list_getElem?_of_lt dset.Bindings binding (by rw [hd.1]; exact h2)
  have hcookie : dset.Cookies[binding]? = some 0 := by
    simpa [CommandBuffer.trackedCookie, hds] using hc
  have hl1 : set < b.descriptorBinding.Sets.length := by rw [hb.1]; exact h1
  have hl2 : binding < dset.Bindings.length := by rw [hd.1]; exact h2
  have hl3 : binding < dset.Cookies.length := by rw [hd.2.1]; exact h2
  have hne2 : ¬ (0 = view.cookie) := fun e => hne e.symm
  unfold CommandBuffer.SetTexture
  simp only [hds, hbind, hcookie, hne2, false_and, if_false]
  refine ⟨_, (bind.ImageFloat, bind.ImageInteger), rfl, ?_, ?_, ?_, rfl⟩
  · simp [CommandBuffer.trackedImage, hds, hbind]
  · simp [CommandBuffer.trackedCookie, List.getElem?_set_self hl1, List.getElem?_set_self hl3]
  · simp [CommandBuffer.trackedImage, List.getElem?_set_self hl1, List.getElem?_set_self hl2]

/-- The method `SetSampler` on a binding whose tracked secondary cookie is 0, with a
sampler whose cookie is not 0. -/
theorem CommandBuffer.SetSampler_unbound (b : CommandBuffer) (set binding : Nat)
    (handle : Sampler) (hb : b.Sized) (h1 : set < MaxDescriptorSets)
    (h2 : binding < MaxDescriptorBindings)
    (hc : b.trackedSecondaryCookie set binding = some 0) (hne : handle.cookie ≠ 0) :
    ∃ s1 old, b.SetSampler set binding handle = some s1 ∧
      b.trackedImage set binding = some old ∧
      s1.trackedSecondaryCookie set binding = some handle.cookie ∧
      s1.trackedImage set binding =
        some (⟨handle.sampler, old.1.imageView, old.1.imageLayout⟩,
          ⟨handle.sampler, old.2.imageView, old.2.imageLayout⟩) ∧
      s1.dirtyDescriptorSets = b.dirtyDescriptorSets ||| ((1 <<< set) % 2 ^ 32) := by
  obtain ⟨dset, hds⟩ := list_getElem?_of_lt b.descriptorBinding.Sets set (by rw [hb.1]; exact h1)
  have hd := hb.2.1 dset (List.getElem?_mem hds)
  obtain ⟨bind, hbind⟩ := list_getElem?_of_lt dset.Bindings binding (by rw [hd.1]; exact h2)
  have hcookie : dset.SecondaryCookies[binding]? = some 0 := by
    simpa [CommandBuffer.trackedSecondaryCookie, hds] using hc
  have hl1 : set < b.descriptorBinding.Sets.length := by rw [hb.1]; exact h1
  have hl2 : binding < dset.Bindings.length := by rw [hd.1]; exact h2
  have hl4 : binding < dset.SecondaryCookies.length := by rw [hd.2.2]; exact h2
  unfold CommandBuffer.SetSampler
  simp only [hds, hbind, hcookie, hne, if_false]
  refine ⟨_, (bind.ImageFloat, bind.ImageInteger), rfl, ?_, ?_, ?_, rfl⟩
  · simp [CommandBuffer.trackedImage, hds, hbind]
  · simp [CommandBuffer.trackedSecondaryCookie, List.getElem?_set_self hl1,
      List.getElem?_set_self hl4]
  · simp [CommandBuffer.trackedImage, List.getElem?_set_self hl1, List.getElem?_set_self hl2]

theorem CommandBuffer.tracked_set_other (s : CommandBuffer) (set2 binding2 set binding : Nat)
    (dset dset1 : DescriptorSetBindings) (d : Nat)
    (hds : s.descriptorBinding.Sets[set2]? = some dset)
    (hne : ¬ (set2 = set ∧ binding2 = binding))
    (hc : ∀ k, k ≠ binding2 → dset1.Cookies[k]? = dset.Cookies[k]?)
    (hs : ∀ k, k ≠ binding2 → dset1.SecondaryCookies[k]? = dset.SecondaryCookies[k]?) :
    CommandBuffer.trackedCookie
        { s with
          descriptorBinding := { s.descriptorBinding with
            Sets := s.descriptorBinding.Sets.set set2 dset1 }
          dirtyDescriptorSets := d } set binding = s.trackedCookie set binding ∧
    CommandBuffer.trackedSecondaryCookie
        { s with
          descriptorBinding := { s.descriptorBinding with
            Sets := s.descriptorBinding.Sets.set set2 dset1 }
          dirtyDescriptorSets := d } set binding = s.trackedSecondaryCookie set binding := by
  have hl : set2 < s.descriptorBinding.Sets.length := (List.getElem?_eq_some.mp hds).1
  by_cases e : set2 = set
  · subst e
    have hb : binding ≠ binding2 := fun e2 => hne ⟨rfl, e2.symm⟩
    simp only [CommandBuffer.trackedCookie, CommandBuffer.trackedSecondaryCookie,
      List.getElem?_set_self hl, hds, hc binding hb, hs binding hb, and_self]
  · simp only [CommandBuffer.trackedCookie, CommandBuffer.trackedSecondaryCookie,
      List.getElem?_set_ne e, and_self]

/-- A setter call that is not for `(set, binding)` leaves the two cookies tracked there
as they are. -/
theorem DescriptorSetter.run_other (c : DescriptorSetter) (s s1 : CommandBuffer)
    (set binding : Nat) (h : c.run s = some s1) (hn : ¬ c.touches set binding) :
    s1.trackedCookie set binding = s.trackedCookie set binding ∧
    s1.trackedSecondaryCookie set binding = s.trackedSecondaryCookie set binding := by
  have texture : ∀ (s s1 : CommandBuffer) (set2 binding2 : Nat) (view : ImageView),
      s.SetTexture set2 binding2 view = some s1 → ¬ (set2 = set ∧ binding2 = binding) →
      s1.trackedCookie set binding = s.trackedCookie set binding ∧
      s1.trackedSecondaryCookie set binding = s.trackedSecondaryCookie set binding := by
    intro s s1 set2 binding2 view h hne
    unfold CommandBuffer.SetTexture at h
    split at h
    · cases h
    · rename_i dset hds
      split at h
      · split at h
        · cases h
          exact ⟨rfl, rfl⟩
        · cases h
          exact s.tracked_set_other set2 binding2 set binding dset _ _ hds hne
            (fun k hk => List.getElem?_set_ne (Ne.symm hk)) (fun k _ => rfl)
      · cases h
  have sampler : ∀ (s s1 : CommandBuffer) (set2 binding2 : Nat) (handle : Sampler),
      s.SetSampler set2 binding2 handle = some s1 → ¬ (set2 = set ∧ binding2 = binding) →
      s1.trackedCookie set binding = s.trackedCookie set binding ∧
      s1.trackedSecondaryCookie set binding = s.trackedSecondaryCookie set binding := by
    intro s s1 set2 binding2 handle h hne
    unfold CommandBuffer.SetSampler at h
    split at h
    · cases h
    · rename_i dset hds
      split at h
      · cases h
      · split at h
        · cases h
          exact ⟨rfl, rfl⟩
        · split at h
          · cases h
          · cases h
            exact s.tracked_set_other set2 binding2 set binding dset _ _ hds hne
              (fun k _ => rfl) (fun k hk => List.getElem?_set_ne (Ne.symm hk))
  have buffer : ∀ (s s1 : CommandBuffer) (set2 binding2 : Nat) (buf : Buffer)
      (offset range : Nat),
      s.setBufferBinding set2 binding2 buf offset range = some s1 →
      ¬ (set2 = set ∧ binding2 = binding) →
      s1.trackedCookie set binding = s.trackedCookie set binding ∧
      s1.trackedSecondaryCookie set binding = s.trackedSecondaryCookie set binding := by
    intro s s1 set2 binding2 buf offset range h hne
    unfold CommandBuffer.setBufferBinding at h
    simp only at h
    generalize (if range = 0 then buf.size else range) = r at h
    split at h
    · cases h
    · rename_i dset hds
      split at h
      · split at h
        · cases h
          exact ⟨rfl, rfl⟩
        · cases h
          exact s.tracked_set_other set2 binding2 set binding dset _ _ hds hne
            (fun k hk => List.getElem?_set_ne (Ne.symm hk))
            (fun k hk => List.getElem?_set_ne (Ne.symm hk))
      · cases h
  cases c with
  | texture set2 binding2 view => exact texture s s1 set2 binding2 view h hn
  | textureSampler set2 binding2 view handle =>
    simp only [DescriptorSetter.run, CommandBuffer.SetTextureSampler] at h
    split at h
    · cases h
    · rename_i sm hm
      obtain ⟨a1, a2⟩ := texture s sm set2 binding2 view hm hn
      obtain ⟨b1, b2⟩ := sampler sm s1 set2 binding2 handle h hn
      exact ⟨b1.trans a1, b2.trans a2⟩
  | sampler set2 binding2 handle => exact sampler s s1 set2 binding2 handle h hn
  | uniformBuffer set2 binding2 buf offset range =>
    exact buffer s s1 set2 binding2 buf offset range h hn
  | storageBuffer set2 binding2 buf offset range =>
    exact buffer s s1 set2 binding2 buf offset range h hn
  | bindless set2 descriptorSet =>
    simp only [DescriptorSetter.run, CommandBuffer.SetBindless] at h
    split at h
    · cases h
    · cases h
      exact ⟨rfl, rfl⟩

/-- Setter calls with indices in range, none of them for `(set, binding)`, are defined,
keep the array sizes and leave the two cookies tracked at `(set, binding)` as they are. -/
theorem runSetters_other (before : List DescriptorSetter) (s : CommandBuffer)
    (set binding : Nat) (hs : s.Sized)
    (hb : ∀ c ∈ before, c.InRange ∧ ¬ c.touches set binding) :
    ∃ b, runSetters before s = some b ∧ b.Sized ∧
      b.trackedCookie set binding = s.trackedCookie set binding ∧
      b.trackedSecondaryCookie set binding = s.trackedSecondaryCookie set binding := by
  induction before generalizing s with
  | nil => exact ⟨s, rfl, hs, rfl, rfl⟩
  | cons c rest ih =>
    obtain ⟨hr, hn⟩ := hb c (List.mem_cons_self _ _)
    obtain ⟨s1, h1, hz, _⟩ := c.run_spec s hs hr
    obtain ⟨a1, a2⟩ := c.run_other s s1 set binding h1 hn
    obtain ⟨b, hb1, hb2, hb3, hb4⟩ := ih s1 hz (fun c2 hc2 => hb c2 (List.mem_cons_of_mem _ hc2))
    exact ⟨b, by simp only [runSetters, h1, hb1], hb2, hb3.trans a1, hb4.trans a2⟩

/-- Claim C30.  Every cookie handed out before the counter wraps is a non-zero multiple
of 16.  Take a command buffer with arrays of the declared sizes, begin a context
(`BeginContext`, `BeginCompute`, or `BeginGraphics`, the last statement of
`BeginRenderPass`), and make any setter calls with indices in range that are not for
`(set, binding)`: the cookie and the secondary cookie tracked at `(set, binding)` are
still 0.  Then `SetUniformBuffer` and `SetStorageBuffer` with a buffer, `SetTexture` with
a view and `SetSampler` with a sampler whose cookie is not 0 are defined, do not return
the state unchanged, store the cookie and the descriptor info of the resource, and set
the bit of the set in the dirty mask. -/
theorem C30_first_bind_is_recorded (s s0 : CommandBuffer) (before : List DescriptorSetter)
    (set binding : Nat) (hs : s.Sized)
    (hbegin : s0 = s.BeginContext ∨ s0 = s.BeginCompute ∨ s0 = s.BeginGraphics)
    (hbefore : ∀ c ∈ before, c.InRange ∧ ¬ c.touches set binding)
    (h1 : set < MaxDescriptorSets) (h2 : binding < MaxDescriptorBindings) :
    (∀ n, n + 1 < 2 ^ 60 → nthCookie n ≠ 0 ∧ 16 ∣ nthCookie n) ∧
    s0.trackedCookie set binding = some 0 ∧ s0.trackedSecondaryCookie set binding = some 0 ∧
    ∃ b, runSetters before s0 = some b ∧
      b.trackedCookie set binding = some 0 ∧ b.trackedSecondaryCookie set binding = some 0 ∧
      (∀ (buffer : Buffer) (offset range : Nat), buffer.cookie ≠ 0 →
        ∃ s1, b.SetUniformBuffer set binding buffer offset range = some s1 ∧
          b.SetStorageBuffer set binding buffer offset range = some s1 ∧ s1 ≠ b ∧
          s1.trackedCookie set binding = some buffer.cookie ∧
          s1.trackedBuffer set binding =
            some ⟨buffer.buffer, offset, if range = 0 then buffer.size else range⟩ ∧
          s1.dirtyDescriptorSets = b.dirtyDescriptorSets ||| ((1 <<< set) % 2 ^ 32) ∧
          s1.dirtyDescriptorSets.testBit set = true) ∧
      (∀ view : ImageView, view.cookie ≠ 0 →
        ∃ s1 old, b.SetTexture set binding view = some s1 ∧ s1 ≠ b ∧
          b.trackedImage set binding = some old ∧
          s1.trackedCookie set binding = some view.cookie ∧
          s1.trackedImage set binding =
            some (⟨old.1.sampler, view.floatView, view.layout⟩,
              ⟨old.2.sampler, view.integerView, view.layout⟩) ∧
          s1.dirtyDescriptorSets = b.dirtyDescriptorSets ||| ((1 <<< set) % 2 ^ 32) ∧
          s1.dirtyDescriptorSets.testBit set = true) ∧
      (∀ handle : Sampler, handle.cookie ≠ 0 →
        ∃ s1 old, b.SetSampler set binding handle = some s1 ∧ s1 ≠ b ∧
          b.trackedImage set binding = some old ∧
          s1.trackedSecondaryCookie set binding = some handle.cookie ∧
          s1.trackedImage set binding =
            some (⟨handle.sampler, old.1.imageView, old.1.imageLayout⟩,
              ⟨handle.sampler, old.2.imageView, old.2.imageLayout⟩) ∧
          s1.dirtyDescriptorSets = b.dirtyDescriptorSets ||| ((1 <<< set) % 2 ^ 32) ∧
          s1.dirtyDescriptorSets.testBit set = true) := by
  have hbit : ∀ d : Nat, (d ||| ((1 <<< set) % 2 ^ 32)).testBit set = true := by
    intro d
    have hlt : set < 32 := lt_trans h1 (by decide)
    rw [or_bit_testBit]
    simp [hlt]
  have hcook : ∀ n, n + 1 < 2 ^ 60 → nthCookie n ≠ 0 ∧ 16 ∣ nthCookie n := by
    intro n hn
    rw [nthCookie_eq, Nat.mod_eq_of_lt (by omega)]
    exact ⟨by omega, Dvd.intro _ rfl⟩
  have hz : ∀ t : CommandBuffer, t.Sized → t.BeginContext.Sized ∧
      t.BeginContext.trackedCookie set binding = some 0 ∧
      t.BeginContext.trackedSecondaryCookie set binding = some 0 :=
    fun t ht => ⟨t.BeginContext_sized ht, t.BeginContext_cookies set binding ht h1 h2⟩
  have hs0 : s0.Sized ∧ s0.trackedCookie set binding = some 0 ∧
      s0.trackedSecondaryCookie set binding = some 0 := by
    rcases hbegin with rfl | rfl | rfl
    · exact hz s hs
    · exact hz { s with isCompute := true } hs
    · exact hz { s with isCompute := false } hs
  obtain ⟨hz0, hc0, hd0⟩ := hs0
  obtain ⟨b, hrun, hzb, hcb, hdb⟩ := runSetters_other before s0 set binding hz0 hbefore
  rw [hc0] at hcb
  rw [hd0] at hdb
  refine ⟨hcook, hc0, hd0, b, hrun, hcb, hdb, ?_, ?_, ?_⟩
  · intro buffer offset range hne
    obtain ⟨s1, e1, e2, _, e4, e5⟩ :=
      b.setBufferBinding_unbound set binding buffer offset range hzb h1 h2 hcb hne
    refine ⟨s1, e1, e1, ?_, e2, e4, e5, by rw [e5]; exact hbit _⟩
    intro e
    rw [e, hcb] at e2
    exact hne (Option.some.inj e2).symm
  · intro view hne
    obtain ⟨s1, old, e1, e2, e3, e4, e5⟩ := b.SetTexture_unbound set binding view hzb h1 h2 hcb hne
    refine ⟨s1, old, e1, ?_, e2, e3, e4, e5, by rw [e5]; exact hbit _⟩
    intro e
    rw [e, hcb] at e3
    exact hne (Option.some.inj e3).symm
  · intro handle hne
    obtain ⟨s1, old, e1, e2, e3, e4, e5⟩ :=
      b.SetSampler_unbound set binding handle hzb h1 h2 hdb hne
    refine ⟨s1, old, e1, ?_, e2, e3, e4, e5, by rw [e5]; exact hbit _⟩
    intro e
    rw [e, hdb] at e3
    exact hne (Option.some.inj e3).symm

/-- Claim C30 on an example: in a context begun on a fresh command buffer, after a
uniform buffer was bound at set 0, binding 0, the first `SetSampler` at set 0, binding 1
with the sampler of cookie 48 is recorded. -/
theorem C30_first_bind_is_recorded_witness :
    (CommandBuffer.create 0 0).Sized ∧
    (∀ c ∈ [DescriptorSetter.uniformBuffer 0 0 sampleBuffer 0 64], c.InRange ∧ ¬ c.touches 0 1) ∧
    ∃ b s1, runSetters [DescriptorSetter.uniformBuffer 0 0 sampleBuffer 0 64]
        (CommandBuffer.create 0 0).BeginGraphics = some b ∧
      b.trackedSecondaryCookie 0 1 = some 0 ∧
      b.SetSampler 0 1 ⟨48, 5⟩ = some s1 ∧ s1.trackedSecondaryCookie 0 1 = some 48 := by
  have hs : (CommandBuffer.create 0 0).Sized := by decide
  have hb : ∀ c ∈ [DescriptorSetter.uniformBuffer 0 0 sampleBuffer 0 64],
      c.InRange ∧ ¬ c.touches 0 1 := by
    intro c hc
    simp only [List.mem_singleton] at hc
    subst hc
    exact ⟨by decide, by simp [DescriptorSetter.touches, DescriptorSetter.binding]⟩
  obtain ⟨_, _, _, b, e1, _, e3, _, _, e6⟩ :=
    C30_first_bind_is_recorded (CommandBuffer.create 0 0) (CommandBuffer.create 0 0).BeginGraphics
      [.uniformBuffer 0 0 sampleBuffer 0 64] 0 1 hs (Or.inr (Or.inr rfl)) hb (by decide) (by decide)
  obtain ⟨s1, _, f1, _, _, f4, _⟩ := e6 ⟨48, 5⟩ (by decide)
  exact ⟨hs, hb, b, s1, e1, e3, f1, f4⟩

theorem CommandBuffer.flushPipeline_dirty (o : RecordingObjects) (s s1 : CommandBuffer)
    (compute flushed : Bool) (ev : List Recorded)
    (h : s.flushPipeline o compute = some (s1, ev, flushed)) :
    s1.dirty = s.dirty ∧ s1.dirtyVertexBuffers = s.dirtyVertexBuffers ∧
    s1.vertexBindings = s.vertexBindings ∧
    (flushed = true → s1.pipeline ≠ 0) := by
  unfold CommandBuffer.flushPipeline at h
  split at h
  · cases h
  · simp only at h
    split at h
    · rename_i hc
      simp only [Option.some.injEq, Prod.mk.injEq] at h
      obtain ⟨rfl, _, _⟩ := h
      exact ⟨rfl, rfl, rfl, fun _ => hc⟩
    · simp only [Option.some.injEq, Prod.mk.injEq] at h
      obtain ⟨rfl, _, hf⟩ := h
      refine ⟨rfl, rfl, rfl, fun ht => ?_⟩
      rw [ht] at hf
      simpa using hf

theorem testBit_and_not32 (d x i : Nat) (hi : i < 32) :
    (d &&& not32 x).testBit i = (d.testBit i && !x.testBit i) := by
  rw [Nat.testBit_and, testBit_not32]
  simp [hi]

/-- What the first part of `FlushRenderState` does to the dirty mask: it can only add
the bits `Pipeline` and `DynamicState`; the vertex-buffer state is left alone. -/
theorem CommandBuffer.flushRenderPipeline_dirty (o : RecordingObjects) (s s1 : CommandBuffer)
    (flushed : Bool) (ev : List Recorded)
    (h : s.flushRenderPipeline o = some (s1, ev, flushed)) :
    (∀ i, s1.dirty.testBit i = true →
      s.dirty.testBit i = true ∨ (DirtyPipeline ||| DirtyDynamicState).testBit i = true) ∧
    (∀ i, s.dirty.testBit i = true → s1.dirty.testBit i = true) ∧
    s1.dirtyVertexBuffers = s.dirtyVertexBuffers ∧ s1.vertexBindings = s.vertexBindings := by
  unfold CommandBuffer.flushRenderPipeline at h
  simp only at h
  have key : ∀ t : CommandBuffer,
      t = (if s.pipeline = 0 then
        ({ s with dirty := s.dirty ||| DirtyPipeline } : CommandBuffer) else s) →
      (∀ i, t.dirty.testBit i = true →
        s.dirty.testBit i = true ∨ DirtyPipeline.testBit i = true) ∧
      (∀ i, s.dirty.testBit i = true → t.dirty.testBit i = true) ∧
      t.dirtyVertexBuffers = s.dirtyVertexBuffers ∧ t.vertexBindings = s.vertexBindings := by
    intro t ht
    split at ht
    · subst ht
      refine ⟨?_, ?_, rfl, rfl⟩
      · intro i hi
        simpa [Nat.testBit_or] using hi
      · intro i hi
        simp [Nat.testBit_or, hi]
    · subst ht
      exact ⟨fun i hi => Or.inl hi, fun i hi => hi, rfl, rfl⟩
  generalize (if s.pipeline = 0 then
    ({ s with dirty := s.dirty ||| DirtyPipeline } : CommandBuffer) else s) = t at h key
  obtain ⟨k2, k3, k4, k5⟩ := key t rfl
  have widen : ∀ i, (s.dirty.testBit i = true ∨ DirtyPipeline.testBit i = true) →
      (s.dirty.testBit i = true ∨ (DirtyPipeline ||| DirtyDynamicState).testBit i = true) := by
    intro i hi
    rcases hi with hi | hi
    · exact Or.inl hi
    · exact Or.inr (by simp [Nat.testBit_or, hi])
  split at h
  · split at h
    · cases h
    · rename_i s2 built hb
      obtain ⟨e1, e2, e3, _⟩ := CommandBuffer.flushPipeline_dirty o t s2 false false built hb
      simp only [Option.some.injEq, Prod.mk.injEq] at h
      obtain ⟨rfl, _, _⟩ := h
      rw [e1, e2, e3]
      exact ⟨fun i hi => widen i (k2 i hi), k3, k4, k5⟩
    · rename_i s2 built hb
      obtain ⟨e1, e2, e3, _⟩ := CommandBuffer.flushPipeline_dirty o t s2 false true built hb
      split at h
      · simp only [Option.some.injEq, Prod.mk.injEq] at h
        obtain ⟨rfl, _, _⟩ := h
        refine ⟨?_, ?_, ?_, ?_⟩
        · intro i hi
          simp only [Nat.testBit_or, Bool.or_eq_true, e1] at hi
          rcases hi with hi | hi
          · exact widen i (k2 i hi)
          · exact Or.inr (by simp [Nat.testBit_or, hi])
        · intro i hi
          simp [Nat.testBit_or, e1, k3 i hi]
        · exact e2.trans k4
        · exact e3.trans k5
      · simp only [Option.some.injEq, Prod.mk.injEq] at h
        obtain ⟨rfl, _, _⟩ := h
        rw [e1, e2, e3]
        exact ⟨fun i hi => widen i (k2 i hi), k3, k4, k5⟩
  · simp only [Option.some.injEq, Prod.mk.injEq] at h
    obtain ⟨rfl, _, _⟩ := h
    exact ⟨fun i hi => widen i (k2 i hi), k3, k4, k5⟩

/-- The shape of a successful `FlushRenderState`: the state `s2` after the pipeline step,
whose pipeline is non-null, and the rest of the flush run on `s2` with the three static
bits removed. -/
theorem CommandBuffer.FlushRenderState_true (o : RecordingObjects) (s s1 : CommandBuffer)
    (ev : List Recorded) (h : s.FlushRenderState o = some (s1, ev, true)) :
    ∃ s2 ev2 rest, s.flushRenderPipeline o = some (s2, ev2, true) ∧
      ({ s2 with dirty := (s2.dirty &&&
        not32 (DirtyStaticState ||| DirtyPipeline ||| DirtyStaticVertex)) } :
          CommandBuffer).flushRenderRest o = some (s1, rest) ∧
      s2.pipeline ≠ 0 ∧ ev = ev2 ++ rest := by
  unfold CommandBuffer.FlushRenderState at h
  split at h
  · simp only [Option.some.injEq, Prod.mk.injEq] at h
    exact absurd h.2.2 (by simp)
  · split at h
    · cases h
    · simp only [Option.some.injEq, Prod.mk.injEq] at h
      exact absurd h.2.2 (by simp)
    · rename_i s2 ev2 hstep
      simp only at h
      split at h
      · simp only [Option.some.injEq, Prod.mk.injEq] at h
        exact absurd h.2.2 (by simp)
      · rename_i hp
        split at h
        · cases h
        · rename_i s4 rest hrest
          simp only [Option.some.injEq, Prod.mk.injEq] at h
          obtain ⟨rfl, rfl, _⟩ := h
          exact ⟨s2, ev2, rest, hstep, hrest, hp, rfl⟩

theorem Recorded.isVertexBind_of_set (e : Recorded) (bit : Nat)
    (h : e.descriptorSet = some bit) : e.isVertexBind = false := by
  cases e <;> first | rfl | cases h

theorem Recorded.vertexBinding_none (e : Recorded) (h : e.isVertexBind = false) (b : Nat) :
    e.vertexBinding b = none := by
  cases e <;> first | rfl | cases h

theorem CommandBuffer.flushPipeline_novertex (o : RecordingObjects) (s s1 : CommandBuffer)
    (compute flushed : Bool) (ev : List Recorded)
    (h : s.flushPipeline o compute = some (s1, ev, flushed)) :
    ∀ e ∈ ev, e.isVertexBind = false := by
  unfold CommandBuffer.flushPipeline at h
  split at h
  · cases h
  · simp only at h
    split at h
    · simp only [Option.some.injEq, Prod.mk.injEq] at h
      obtain ⟨_, rfl, _⟩ := h
      simp
    · simp only [Option.some.injEq, Prod.mk.injEq] at h
      obtain ⟨_, rfl, _⟩ := h
      intro e he
      simp only [List.mem_singleton] at he
      subst he
      rfl

theorem CommandBuffer.flushRenderPipeline_novertex (o : RecordingObjects)
    (s s1 : CommandBuffer) (flushed : Bool) (ev : List Recorded)
    (h : s.flushRenderPipeline o = some (s1, ev, flushed)) :
    ∀ e ∈ ev, e.isVertexBind = false := by
  unfold CommandBuffer.flushRenderPipeline at h
  simp only at h
  generalize (if s.pipeline = 0 then
    ({ s with dirty := s.dirty ||| DirtyPipeline } : CommandBuffer) else s) = t at h
  split at h
  · split at h
    · cases h
    · rename_i s2 built hb
      simp only [Option.some.injEq, Prod.mk.injEq] at h
      obtain ⟨_, rfl, _⟩ := h
      exact CommandBuffer.flushPipeline_novertex o _ s2 false false built hb
    · rename_i s2 built hb
      have hbuilt := CommandBuffer.flushPipeline_novertex o _ s2 false true built hb
      split at h
      · simp only [Option.some.injEq, Prod.mk.injEq] at h
        obtain ⟨_, rfl, _⟩ := h
        intro e he
        rcases List.mem_append.mp he with he | he
        · exact hbuilt e he
        · simp only [List.mem_singleton] at he
          subst he
          rfl
      · simp only [Option.some.injEq, Prod.mk.injEq] at h
        obtain ⟨_, rfl, _⟩ := h
        exact hbuilt
  · simp only [Option.some.injEq, Prod.mk.injEq] at h
    obtain ⟨_, rfl, _⟩ := h
    simp

theorem CommandBuffer.bindVertexRanges_congr (s t : CommandBuffer)
    (h : s.vertexBindings = t.vertexBindings) (ranges : List (Nat × Nat)) :
    s.bindVertexRanges ranges = t.bindVertexRanges ranges := by
  induction ranges with
  | nil => rfl
  | cons r rest ih =>
    obtain ⟨binding, bindingCount⟩ := r
    simp only [CommandBuffer.bindVertexRanges, ih, h]

/-- The shape of the rest of the flush: the dirty mask loses the bits `Viewport`,
`Scissor` and `DepthBias`, the dirty vertex buffers lose the active ones, and the vertex
buffers bound are those of the ranges of the dirty active bindings. -/
theorem CommandBuffer.flushRenderRest_eq (o : RecordingObjects) (s s1 : CommandBuffer)
    (ev : List Recorded) (h : s.flushRenderRest o = some (s1, ev)) :
    s1.dirty = ((s.dirty &&& not32 DirtyViewport) &&& not32 DirtyScissor) &&&
      not32 DirtyDepthBias ∧
    s1.dirtyVertexBuffers = s.dirtyVertexBuffers &&&
      not32 (s.dirtyVertexBuffers &&& s.pipelineCompileInfo.ActiveVertexBuffers) ∧
    s1.vertexBindings = s.vertexBindings ∧
    s1.pipelineCompileInfo = s.pipelineCompileInfo ∧
    ∃ before vertex, ev = before ++ vertex ∧
      (∀ e ∈ before, e.isVertexBind = false) ∧
      s.bindVertexRanges (o.bitRanges
        (s.dirtyVertexBuffers &&& s.pipelineCompileInfo.ActiveVertexBuffers)) = some vertex := by
  unfold CommandBuffer.flushRenderRest at h
  split at h
  · cases h
  · rename_i s2 sets hsets
    obtain ⟨_, hlist, rfl⟩ := CommandBuffer.FlushDescriptorSets_eq o s s2 sets hsets
    simp only at h
    split at h
    · cases h
    · rename_i vertex hv
      simp only [Option.some.injEq, Prod.mk.injEq] at h
      obtain ⟨rfl, rfl⟩ := h
      have hv2 : s.bindVertexRanges (o.bitRanges
          (s.dirtyVertexBuffers &&& s.pipelineCompileInfo.ActiveVertexBuffers)) = some vertex := by
        rw [← hv]
        apply CommandBuffer.bindVertexRanges_congr
        rfl
      refine ⟨rfl, rfl, rfl, rfl, _, vertex, rfl, ?_, hv2⟩
      intro e he
      simp only [List.mem_append] at he
      rcases he with (((he | he) | he) | he) | he
      · obtain ⟨bit, _, hb⟩ := s.flushDescriptorSetList_sets o _ _ sets hlist e he
        exact e.isVertexBind_of_set bit hb
      · unfold CommandBuffer.flushPushConstants at he
        split at he
        · simp only [List.mem_singleton] at he
          subst he
          rfl
        · simp at he
      · split at he
        · simp only [List.mem_singleton] at he
          subst he
          rfl
        · simp at he
      · split at he
        · simp only [List.mem_singleton] at he
          subst he
          rfl
        · simp at he
      · split at he
        · simp only [List.mem_singleton] at he
          subst he
          rfl
        · simp at he

/-- The dirty mask after a successful `FlushRenderState`: the bits `StaticState`,
`Pipeline`, `Viewport`, `Scissor`, `DepthBias` and `StaticVertex` are clear; the bit
`PushConstants` is as it was before the flush, and a set bit `StencilReference` stays
set. -/
theorem CommandBuffer.FlushRenderState_dirty (o : RecordingObjects) (s s1 : CommandBuffer)
    (ev : List Recorded) (h : s.FlushRenderState o = some (s1, ev, true)) :
    s1.dirty.testBit 0 = false ∧ s1.dirty.testBit 1 = false ∧ s1.dirty.testBit 2 = false ∧
    s1.dirty.testBit 3 = false ∧ s1.dirty.testBit 4 = false ∧ s1.dirty.testBit 6 = false ∧
    s1.dirty.testBit 7 = s.dirty.testBit 7 ∧
    (s.dirty.testBit 5 = true → s1.dirty.testBit 5 = true) := by
  obtain ⟨s2, ev2, rest, hstep, hrest, _, _⟩ := CommandBuffer.FlushRenderState_true o s s1 ev h
  obtain ⟨k1, k2, _, _⟩ := CommandBuffer.flushRenderPipeline_dirty o s s2 true ev2 hstep
  obtain ⟨hd, _⟩ := CommandBuffer.flushRenderRest_eq o _ s1 rest hrest
  have bit : ∀ i, i < 32 → s1.dirty.testBit i = (s2.dirty.testBit i &&
      !(DirtyStaticState ||| DirtyPipeline ||| DirtyStaticVertex).testBit i &&
      !DirtyViewport.testBit i && !DirtyScissor.testBit i && !DirtyDepthBias.testBit i) := by
    intro i hi
    rw [hd, testBit_and_not32 _ _ i hi, testBit_and_not32 _ _ i hi, testBit_and_not32 _ _ i hi,
      testBit_and_not32 _ _ i hi]
  have c0 : (DirtyStaticState ||| DirtyPipeline ||| DirtyStaticVertex).testBit 0 = true := by
    decide
  have c1 : (DirtyStaticState ||| DirtyPipeline ||| DirtyStaticVertex).testBit 1 = true := by
    decide
  have c6 : (DirtyStaticState ||| DirtyPipeline ||| DirtyStaticVertex).testBit 6 = true := by
    decide
  have c2 : DirtyViewport.testBit 2 = true := by decide
  have c3 : DirtyScissor.testBit 3 = true := by decide
  have c4 : DirtyDepthBias.testBit 4 = true := by decide
  refine ⟨?_, ?_, ?_, ?_, ?_, ?_, ?_, ?_⟩
  · rw [bit 0 (by decide), c0]; simp
  · rw [bit 1 (by decide), c1]; simp
  · rw [bit 2 (by decide), c2]; simp
  · rw [bit 3 (by decide), c3]; simp
  · rw [bit 4 (by decide), c4]; simp
  · rw [bit 6 (by decide), c6]; simp
  · rw [bit 7 (by decide)]
    have e7 : (DirtyStaticState ||| DirtyPipeline ||| DirtyStaticVertex).testBit 7 = false := by
      decide
    have f7 : DirtyViewport.testBit 7 = false := by decide
    have g7 : DirtyScissor.testBit 7 = false := by decide
    have h7 : DirtyDepthBias.testBit 7 = false := by decide
    rw [e7, f7, g7, h7]
    simp only [Bool.not_false, Bool.and_true]
    cases hs2 : s2.dirty.testBit 7
    · cases hs : s.dirty.testBit 7
      · rfl
      · rw [k2 7 hs] at hs2
        cases hs2
    · rcases k1 7 hs2 with hs | hs
      · exact hs.symm
      · exact absurd hs (by decide)
  · intro h5
    rw [bit 5 (by decide), k2 5 h5]
    decide

theorem Recorded.vertexBinding_range (v : VertexBindingState) (first count b : Nat)
    (h1 : first + count ≤ v.Buffers.length) (h2 : first + count ≤ v.Offsets.length) :
    (first ≤ b ∧ b < first + count →
      ∃ buffer offset, v.Buffers[b]? = some buffer ∧ v.Offsets[b]? = some offset ∧
        (Recorded.bindVertexBuffers first count ((v.Buffers.drop first).take count)
          ((v.Offsets.drop first).take count)).vertexBinding b = some (buffer, offset)) ∧
    (¬ (first ≤ b ∧ b < first + count) →
      (Recorded.bindVertexBuffers first count ((v.Buffers.drop first).take count)
        ((v.Offsets.drop first).take count)).vertexBinding b = none) := by
  constructor
  · intro hb
    have e1 : ((v.Buffers.drop first).take count)[b - first]? = v.Buffers[b]? := by
      rw [List.getElem?_take_of_lt (by omega), List.getElem?_drop]
      congr 1
      omega
    have e2 : ((v.Offsets.drop first).take count)[b - first]? = v.Offsets[b]? := by
      rw [List.getElem?_take_of_lt (by omega), List.getElem?_drop]
      congr 1
      omega
    have f1 : v.Buffers[b]? = some (v.Buffers[b]) := List.getElem?_eq_getElem (by omega)
    have f2 : v.Offsets[b]? = some (v.Offsets[b]) := List.getElem?_eq_getElem (by omega)
    refine ⟨_, _, f1, f2, ?_⟩
    simp only [Recorded.vertexBinding, hb, and_self, if_true, e1, e2, f1, f2]
  · intro hb
    simp only [Recorded.vertexBinding, hb, if_false]

/-- What the loop over the bit ranges records: a vertex binding is bound exactly when it
lies in one of the ranges, and it is bound to its tracked buffer and offset. -/
theorem CommandBuffer.bindVertexRanges_spec (s : CommandBuffer) (ranges : List (Nat × Nat))
    (ev : List Recorded) (h : s.bindVertexRanges ranges = some ev) :
    (∀ b, (∃ e ∈ ev, (e.vertexBinding b).isSome = true) ↔
      ∃ r ∈ ranges, r.1 ≤ b ∧ b < r.1 + r.2) ∧
    (∀ e ∈ ev, ∀ b buffer offset, e.vertexBinding b = some (buffer, offset) →
      s.vertexBindings.Buffers[b]? = some buffer ∧
      s.vertexBindings.Offsets[b]? = some offset) := by
  induction ranges generalizing ev with
  | nil =>
    simp only [CommandBuffer.bindVertexRanges, Option.some.injEq] at h
    subst h
    simp
  | cons r rest ih =>
    obtain ⟨binding, bindingCount⟩ := r
    simp only [CommandBuffer.bindVertexRanges] at h
    split at h
    · rename_i hlen
      split at h
      · cases h
      · rename_i more hm
        simp only [Option.some.injEq] at h
        subst h
        obtain ⟨ih1, ih2⟩ := ih more hm
        have hev := fun b => Recorded.vertexBinding_range s.vertexBindings binding bindingCount b
          hlen.1 hlen.2
        constructor
        · intro b
          constructor
          · rintro ⟨e, he, hsome⟩
            rcases List.mem_cons.mp he with rfl | hmem
            · by_cases hb : binding ≤ b ∧ b < binding + bindingCount
              · exact ⟨(binding, bindingCount), List.mem_cons_self _ _, hb⟩
              · rw [(hev b).2 hb] at hsome
                cases hsome
            · obtain ⟨r, hr, hin⟩ := (ih1 b).1 ⟨e, hmem, hsome⟩
              exact ⟨r, List.mem_cons_of_mem _ hr, hin⟩
          · rintro ⟨r, hr, hin⟩
            rcases List.mem_cons.mp hr with rfl | hmem
            · obtain ⟨buffer, offset, _, _, hb⟩ := (hev b).1 hin
              exact ⟨_, List.mem_cons_self _ _, by rw [hb]; rfl⟩
            · obtain ⟨e, he, hsome⟩ := (ih1 b).2 ⟨r, hmem, hin⟩
              exact ⟨e, List.mem_cons_of_mem _ he, hsome⟩
        · intro e he b buffer offset hbind
          rcases List.mem_cons.mp he with rfl | hmem
          · by_cases hb : binding ≤ b ∧ b < binding + bindingCount
            · obtain ⟨buffer1, offset1, f1, f2, hb1⟩ := (hev b).1 hb
              rw [hb1] at hbind
              simp only [Option.some.injEq, Prod.mk.injEq] at hbind
              obtain ⟨rfl, rfl⟩ := hbind
              exact ⟨f1, f2⟩
            · rw [(hev b).2 hb] at hbind
              cases hbind
          · exact ih2 e hmem b buffer offset hbind
    · cases h

/-- The first loop of `GetHash` adds to `ActiveVertexBuffers` exactly the bits
`1 << Binding` of the attributes visited. -/
theorem PipelineCompileInfo.hashAttributes_active (info : PipelineCompileInfo)
    (bits : List Nat) (active : Nat) (fed : List Nat) (active1 : Nat) (fed1 : List Nat)
    (h : info.hashAttributes bits (active, fed) = some (active1, fed1)) (b : Nat) :
    active1.testBit b = true ↔
      (active.testBit b = true ∨
        ∃ bit ∈ bits, ∃ attr, info.VertexAttributes[bit]? = some attr ∧ attr.Binding = b) := by
  induction bits generalizing active fed with
  | nil =>
    simp only [PipelineCompileInfo.hashAttributes, Option.some.injEq, Prod.mk.injEq] at h
    obtain ⟨rfl, _⟩ := h
    simp
  | cons bit rest ih =>
    simp only [PipelineCompileInfo.hashAttributes] at h
    split at h
    · cases h
    · rename_i attr hattr
      split at h
      · rw [ih _ _ h]
        simp only [Nat.testBit_or, Bool.or_eq_true, Nat.one_shiftLeft, Nat.testBit_two_pow,
          decide_eq_true_eq, List.mem_cons, exists_eq_or_imp, hattr, Option.some.injEq,
          exists_eq_left']
        tauto
      · cases h

theorem PipelineCompileInfo.GetHash_active (o : RecordingObjects) (info info1 : PipelineCompileInfo)
    (hash : Nat) (h : info.GetHash o false = some (hash, info1)) (b : Nat) :
    info1.ActiveVertexBuffers.testBit b = true ↔
      ∃ bit ∈ ForEachBit (o.resourceLayout (o.programLayout info.Program)).AttributeMask,
        ∃ attr, info.VertexAttributes[bit]? = some attr ∧ attr.Binding = b := by
  unfold PipelineCompileInfo.GetHash at h
  split at h
  · cases h
  · rename_i fed active hin
    simp only [Option.some.injEq, Prod.mk.injEq] at h
    obtain ⟨_, rfl⟩ := h
    unfold PipelineCompileInfo.hashInput at hin
    split at hin
    · cases hin
    · simp only [Bool.false_eq_true, if_false] at hin
      split at hin
      · cases hin
      · rename_i active2 fed2 hattrs
        split at hin
        · cases hin
        · split at hin
          · cases hin
          · simp only [Option.some.injEq, Prod.mk.injEq] at hin
            obtain ⟨_, rfl⟩ := hin
            have := PipelineCompileInfo.hashAttributes_active info _ 0 [] active2 fed2 hattrs b
            simpa using this

theorem CommandBuffer.flushPipeline_info (o : RecordingObjects) (s s1 : CommandBuffer)
    (compute flushed : Bool) (ev : List Recorded)
    (h : s.flushPipeline o compute = some (s1, ev, flushed)) :
    ∃ hash info, s.pipelineCompileInfo.GetHash o compute = some (hash, info) ∧
      s1.pipelineCompileInfo.ActiveVertexBuffers = info.ActiveVertexBuffers := by
  unfold CommandBuffer.flushPipeline at h
  split at h
  · cases h
  · rename_i hash info hget
    simp only at h
    split at h
    · simp only [Option.some.injEq, Prod.mk.injEq] at h
      obtain ⟨rfl, _, _⟩ := h
      exact ⟨hash, info, hget, rfl⟩
    · simp only [Option.some.injEq, Prod.mk.injEq] at h
      obtain ⟨rfl, _, _⟩ := h
      exact ⟨hash, info, hget, rfl⟩

/-- Where the pipeline is null or one of the bits `StaticState`, `Pipeline` and
`StaticVertex` is dirty, the first part of `FlushRenderState` computes
`ActiveVertexBuffers` anew with `GetHash`; otherwise the compile info stays as it is. -/
theorem CommandBuffer.flushRenderPipeline_active (o : RecordingObjects) (s s1 : CommandBuffer)
    (flushed : Bool) (ev : List Recorded)
    (h : s.flushRenderPipeline o = some (s1, ev, flushed)) :
    ((s.pipeline = 0 ∨
        s.dirty &&& (DirtyStaticState ||| DirtyPipeline ||| DirtyStaticVertex) ≠ 0) →
      ∃ hash info, s.pipelineCompileInfo.GetHash o false = some (hash, info) ∧
        s1.pipelineCompileInfo.ActiveVertexBuffers = info.ActiveVertexBuffers) ∧
    (¬ (s.pipeline = 0 ∨
        s.dirty &&& (DirtyStaticState ||| DirtyPipeline ||| DirtyStaticVertex) ≠ 0) →
      s1.pipelineCompileInfo = s.pipelineCompileInfo) := by
  unfold CommandBuffer.flushRenderPipeline at h
  simp only at h
  have key : ∀ t : CommandBuffer,
      t = (if s.pipeline = 0 then
        ({ s with dirty := s.dirty ||| DirtyPipeline } : CommandBuffer) else s) →
      t.pipelineCompileInfo = s.pipelineCompileInfo ∧
      (t.dirty &&& (DirtyStaticState ||| DirtyPipeline ||| DirtyStaticVertex) ≠ 0 ↔
        (s.pipeline = 0 ∨
          s.dirty &&& (DirtyStaticState ||| DirtyPipeline ||| DirtyStaticVertex) ≠ 0)) := by
    intro t ht
    split at ht
    · rename_i hp
      subst ht
      refine ⟨rfl, ?_⟩
      simp only [hp, true_or, iff_true]
      intro h0
      have := congrArg (fun x => Nat.testBit x 1) h0
      simp only [Nat.testBit_and, Nat.testBit_or, Nat.zero_testBit] at this
      have c : DirtyPipeline.testBit 1 = true := by decide
      rw [c] at this
      simp at this
    · rename_i hp
      subst ht
      simp [hp]
  generalize (if s.pipeline = 0 then
    ({ s with dirty := s.dirty ||| DirtyPipeline } : CommandBuffer) else s) = t at h key
  obtain ⟨kp, kd⟩ := key t rfl
  split at h
  · rename_i hd
    have hran := kd.1 hd
    refine ⟨fun _ => ?_, fun hn => absurd hran hn⟩
    split at h
    · cases h
    · rename_i s2 built hb
      obtain ⟨hash, info, hget, hact⟩ := CommandBuffer.flushPipeline_info o t s2 false false built hb
      simp only [Option.some.injEq, Prod.mk.injEq] at h
      obtain ⟨rfl, _, _⟩ := h
      rw [kp] at hget
      exact ⟨hash, info, hget, hact⟩
    · rename_i s2 built hb
      obtain ⟨hash, info, hget, hact⟩ := CommandBuffer.flushPipeline_info o t s2 false true built hb
      rw [kp] at hget
      split at h
      · simp only [Option.some.injEq, Prod.mk.injEq] at h
        obtain ⟨rfl, _, _⟩ := h
        exact ⟨hash, info, hget, hact⟩
      · simp only [Option.some.injEq, Prod.mk.injEq] at h
        obtain ⟨rfl, _, _⟩ := h
        exact ⟨hash, info, hget, hact⟩
  · rename_i hd
    simp only [Option.some.injEq, Prod.mk.injEq] at h
    obtain ⟨rfl, _, _⟩ := h
    exact ⟨fun hran => absurd (kd.2 hran) hd, fun _ => kp⟩

/-- C23, evaluated: `FlushRenderState` leaves the dirty bits `PushConstants` and
`StencilReference` set.  The first `Draw(3, 1, 0, 0)` on the freshly begun command buffer
`renderCommandBuffer`, with a push-constant range in the layout, flushes successfully and
records its draw; afterwards both bits are still set in the dirty mask, while the bits
`StaticState`, `Pipeline`, `Viewport`, `Scissor`, `DepthBias` and `StaticVertex` are
clear; the second `Draw`, with no setter call in between, records `pushConstants` again
before the draw. -/
theorem C23_push_constants_stay_dirty :
    renderCommandBuffer.FlushRenderState pushObjects =
      some (drawnOnce.1, drawnOnce.2.dropLast, true) ∧
    renderCommandBuffer.Draw pushObjects 3 1 0 0 = some drawnOnce ∧
    drawnOnce.2.getLast? = some (.draw 3 1 0 0) ∧
    drawnOnce.1.dirty &&& DirtyPushConstants = DirtyPushConstants ∧
    drawnOnce.1.dirty &&& DirtyStencilReference = DirtyStencilReference ∧
    drawnOnce.1.dirty &&& (DirtyStaticState ||| DirtyPipeline ||| DirtyViewport |||
      DirtyScissor ||| DirtyDepthBias ||| DirtyStaticVertex) = 0 ∧
    drawnOnce.1.Draw pushObjects 3 1 0 0 =
      some (drawnOnce.1,
        [.pushConstants drawnOnce.1.pipelineLayout 1 0 16
          drawnOnce.1.descriptorBinding.PushConstantData, .draw 3 1 0 0]) := by
  set_option maxRecDepth 100000 in decide

/-- C24: a successful `FlushRenderState` binds exactly the vertex bindings of
`dirtyVertexBuffers & ActiveVertexBuffers` (the helper `ForEachBitRange` handing out
ranges that hold exactly the set bits of its mask), each with its tracked buffer and
offset; it removes exactly those bits from the dirty vertex-buffer mask and leaves the
tracked bindings alone, so a binding that is not active is not bound and stays dirty.
`ActiveVertexBuffers` as computed by `GetHash` has the bit `b` exactly when an attribute
of the program's attribute mask has the binding `b`, and the flush uses this value
whenever it resolves the pipeline. -/
theorem C24_active_vertex_buffers_bound (o : RecordingObjects) (s s1 : CommandBuffer)
    (ev : List Recorded) (h : s.FlushRenderState o = some (s1, ev, true))
    (hranges : CoversBits
      (o.bitRanges (s.dirtyVertexBuffers &&& s1.pipelineCompileInfo.ActiveVertexBuffers))
      (s.dirtyVertexBuffers &&& s1.pipelineCompileInfo.ActiveVertexBuffers)) :
    (∀ b, (∃ e ∈ ev, (e.vertexBinding b).isSome = true) ↔
      (b < 32 ∧ s.dirtyVertexBuffers.testBit b = true ∧
        s1.pipelineCompileInfo.ActiveVertexBuffers.testBit b = true)) ∧
    (∀ e ∈ ev, ∀ b buffer offset, e.vertexBinding b = some (buffer, offset) →
      s.vertexBindings.Buffers[b]? = some buffer ∧
      s.vertexBindings.Offsets[b]? = some offset) ∧
    s1.dirtyVertexBuffers = s.dirtyVertexBuffers &&&
      not32 (s.dirtyVertexBuffers &&& s1.pipelineCompileInfo.ActiveVertexBuffers) ∧
    (∀ b, b < 32 → s1.dirtyVertexBuffers.testBit b =
      (s.dirtyVertexBuffers.testBit b &&
        !s1.pipelineCompileInfo.ActiveVertexBuffers.testBit b)) ∧
    s1.vertexBindings = s.vertexBindings ∧
    (∀ b, s1.pipelineCompileInfo.ActiveVertexBuffers.testBit b = false →
      (∀ e ∈ ev, e.vertexBinding b = none) ∧
      (b < 32 → s1.dirtyVertexBuffers.testBit b = s.dirtyVertexBuffers.testBit b)) ∧
    (∀ hash info, s.pipelineCompileInfo.GetHash o false = some (hash, info) →
      ∀ b, info.ActiveVertexBuffers.testBit b = true ↔
        ∃ bit ∈ ForEachBit
            (o.resourceLayout (o.programLayout s.pipelineCompileInfo.Program)).AttributeMask,
          ∃ attr, s.pipelineCompileInfo.VertexAttributes[bit]? = some attr ∧
            attr.Binding = b) ∧
    ((s.pipeline = 0 ∨
        s.dirty &&& (DirtyStaticState ||| DirtyPipeline ||| DirtyStaticVertex) ≠ 0) →
      ∃ hash info, s.pipelineCompileInfo.GetHash o false = some (hash, info) ∧
        s1.pipelineCompileInfo.ActiveVertexBuffers = info.ActiveVertexBuffers) := by
  obtain ⟨s2, ev2, rest, hstep, hrest, _, rfl⟩ := CommandBuffer.FlushRenderState_true o s s1 ev h
  obtain ⟨_, _, hvb, hvbind⟩ := CommandBuffer.flushRenderPipeline_dirty o s s2 true ev2 hstep
  have hno := CommandBuffer.flushRenderPipeline_novertex o s s2 true ev2 hstep
  obtain ⟨hact, _⟩ := CommandBuffer.flushRenderPipeline_active o s s2 true ev2 hstep
  obtain ⟨_, hdv, hbind, hinfo, before, vertex, rfl, hbefore, hvertex⟩ :=
    CommandBuffer.flushRenderRest_eq o _ s1 rest hrest
  simp only at hdv hbind hinfo hvertex
  rw [← hinfo, hvb] at hvertex
  rw [← hinfo, hvb] at hdv
  have hvertex2 : s.bindVertexRanges (o.bitRanges
      (s.dirtyVertexBuffers &&& s1.pipelineCompileInfo.ActiveVertexBuffers)) = some vertex := by
    rw [← hvertex]
    apply CommandBuffer.bindVertexRanges_congr
    exact hvbind.symm
  obtain ⟨hv1, hv2⟩ := CommandBuffer.bindVertexRanges_spec s _ vertex hvertex2
  rw [← hinfo] at hact
  have hnone : ∀ e, e ∈ ev2 ∨ e ∈ before → ∀ b, e.vertexBinding b = none := by
    intro e he b
    rcases he with he | he
    · exact e.vertexBinding_none (hno e he) b
    · exact e.vertexBinding_none (hbefore e he) b
  have hbound : ∀ b, (∃ e ∈ ev2 ++ (before ++ vertex), (e.vertexBinding b).isSome = true) ↔
      (b < 32 ∧ s.dirtyVertexBuffers.testBit b = true ∧
        s1.pipelineCompileInfo.ActiveVertexBuffers.testBit b = true) := by
    intro b
    constructor
    · rintro ⟨e, he, hsome⟩
      simp only [List.mem_append] at he
      rcases he with he | he | he
      · rw [hnone e (Or.inl he) b] at hsome
        cases hsome
      · rw [hnone e (Or.inr he) b] at hsome
        cases hsome
      · obtain ⟨r, hr, hin⟩ := (hv1 b).1 ⟨e, he, hsome⟩
        have hb : b < 32 := by
          have := hranges.1 r hr
          omega
        have := (hranges.2 b hb).1 ⟨r, hr, hin⟩
        simp only [Nat.testBit_and, Bool.and_eq_true] at this
        exact ⟨hb, this⟩
    · rintro ⟨hb, h1, h2⟩
      have : (s.dirtyVertexBuffers &&& s1.pipelineCompileInfo.ActiveVertexBuffers).testBit b
          = true := by
        simp [Nat.testBit_and, h1, h2]
      obtain ⟨e, he, hsome⟩ := (hv1 b).2 ((hranges.2 b hb).2 this)
      exact ⟨e, by simp [he], hsome⟩
  have hbits : ∀ b, b < 32 → s1.dirtyVertexBuffers.testBit b =
      (s.dirtyVertexBuffers.testBit b &&
        !s1.pipelineCompileInfo.ActiveVertexBuffers.testBit b) := by
    intro b hb
    rw [hdv, testBit_and_not32 _ _ b hb, Nat.testBit_and]
    cases s.dirtyVertexBuffers.testBit b <;>
      cases s1.pipelineCompileInfo.ActiveVertexBuffers.testBit b <;> rfl
  refine ⟨hbound, ?_, hdv, hbits, hbind.trans hvbind, ?_, ?_, hact⟩
  · intro e he b buffer offset hb
    simp only [List.mem_append] at he
    rcases he with he | he | he
    · rw [hnone e (Or.inl he) b] at hb
      cases hb
    · rw [hnone e (Or.inr he) b] at hb
      cases hb
    · exact hv2 e he b buffer offset hb
  · intro b hb
    constructor
    · intro e he
      cases hbe : e.vertexBinding b with
      | none => rfl
      | some p =>
        have := (hbound b).1 ⟨e, he, by rw [hbe]; rfl⟩
        rw [hb] at this
        exact absurd this.2.2 (by simp)
    · intro h32
      rw [hbits b h32, hb]
      simp
  · intro hash info hget b
    exact PipelineCompileInfo.GetHash_active o _ info hash hget b

/-- C24 at a concrete state: the first flush of `renderCommandBuffer`, whose vertex
buffers are all dirty and whose program uses the binding 0 only, binds the binding 0 and
no other, and leaves the binding 1 dirty. -/
theorem C24_active_vertex_buffers_bound_witness :
    renderCommandBuffer.FlushRenderState sampleObjects =
      some (flushedRender.1, flushedRender.2.1, true) ∧
    renderCommandBuffer.dirtyVertexBuffers.testBit 1 = true ∧
    flushedRender.1.pipelineCompileInfo.ActiveVertexBuffers = 1 ∧
    (∃ e ∈ flushedRender.2.1, (e.vertexBinding 0).isSome = true) ∧
    (∀ e ∈ flushedRender.2.1, e.vertexBinding 1 = none) ∧
    flushedRender.1.dirtyVertexBuffers.testBit 0 = false ∧
    flushedRender.1.dirtyVertexBuffers.testBit 1 = true := by
  have h : renderCommandBuffer.FlushRenderState sampleObjects =
      some (flushedRender.1, flushedRender.2.1, true) := by
    set_option maxRecDepth 100000 in decide
  have hr : CoversBits
      (sampleObjects.bitRanges (renderCommandBuffer.dirtyVertexBuffers &&&
        flushedRender.1.pipelineCompileInfo.ActiveVertexBuffers))
      (renderCommandBuffer.dirtyVertexBuffers &&&
        flushedRender.1.pipelineCompileInfo.ActiveVertexBuffers) := by
    set_option maxRecDepth 100000 in decide
  have ha : flushedRender.1.pipelineCompileInfo.ActiveVertexBuffers = 1 := by
    set_option maxRecDepth 100000 in decide
  have hd : renderCommandBuffer.dirtyVertexBuffers.testBit 1 = true := by decide
  obtain ⟨c1, _, _, c4, _, c6, _, _⟩ :=
    C24_active_vertex_buffers_bound sampleObjects renderCommandBuffer flushedRender.1
      flushedRender.2.1 h hr
  have a1 : flushedRender.1.pipelineCompileInfo.ActiveVertexBuffers.testBit 1 = false := by
    rw [ha]; decide
  have a0 : flushedRender.1.pipelineCompileInfo.ActiveVertexBuffers.testBit 0 = true := by
    rw [ha]; decide
  have d0 : renderCommandBuffer.dirtyVertexBuffers.testBit 0 = true := by decide
  refine ⟨h, hd, ha, (c1 0).2 ⟨by decide, d0, a0⟩, (c6 1 a1).1, ?_, ?_⟩
  · rw [c4 0 (by decide), d0, a0]; rfl
  · rw [(c6 1 a1).2 (by decide), hd]

theorem SubmitState.modifyBatch_index (st st2 : SubmitState) (f : SubmitBatch → SubmitBatch)
    (h : st.modifyBatch f = some st2) :
    st2.batch = st.batch ∧ st2.batches.length = st.batches.length ∧
    st.batch < st.batches.length := by
  unfold SubmitState.modifyBatch at h
  split at h
  · rename_i b hb
    simp only [Option.some.injEq] at h
    subst h
    obtain ⟨hlt, _⟩ := List.getElem?_eq_some.mp hb
    exact ⟨rfl, by simp, hlt⟩
  · cases h

theorem SubmitState.signalRelease_index (st st2 : SubmitState)
    (h : st.signalRelease = some st2) :
    st2.batch = st.batch ∧ st2.batches.length = st.batches.length ∧
    st.batch < st.batches.length := by
  unfold SubmitState.signalRelease at h
  dsimp only at h
  split at h
  · cases h
  · obtain ⟨k1, k2, k3⟩ := SubmitState.modifyBatch_index _ st2 _ h
    exact ⟨k1, k2, k3⟩

/-- A turn of the command-buffer loop that completes leaves the batch index within the
array of batches. -/
theorem SubmitState.addCommandBuffer_index (st st2 : SubmitState) (cmd : Submission)
    (h : st.addCommandBuffer cmd = some st2) : st2.batch < st2.batches.length := by
  unfold SubmitState.addCommandBuffer at h
  split at h
  · split at h
    · cases h
    · split at h
      · cases h
      · split at h
        · cases h
        · obtain ⟨k1, k2, k3⟩ := SubmitState.signalRelease_index _ st2 h
          rw [k1, k2]
          exact k3
  · split at h
    · cases h
    · obtain ⟨k1, k2, k3⟩ := SubmitState.modifyBatch_index _ st2 _ h
      rw [k1, k2]
      exact k3

theorem SubmitState.addCommandBuffers_index (cmds : List Submission) (st st2 : SubmitState)
    (h0 : st.batch < st.batches.length)
    (h : SubmitState.addCommandBuffers cmds st = some st2) :
    st2.batch < st2.batches.length := by
  induction cmds generalizing st with
  | nil =>
    simp only [SubmitState.addCommandBuffers, Option.some.injEq] at h
    subst h
    exact h0
  | cons cmd rest ih =>
    simp only [SubmitState.addCommandBuffers] at h
    split at h
    · cases h
    · rename_i s1 h1
      exact ih s1 (SubmitState.addCommandBuffer_index st s1 cmd h1) h

theorem SubmitState.signalBinary_index (n : Nat) (st st2 : SubmitState)
    (out out2 : List Semaphore)
    (h : SubmitState.signalBinary n st out = some (st2, out2)) :
    st2.batch = st.batch ∧ st2.batches.length = st.batches.length := by
  induction n generalizing st out with
  | zero =>
    simp only [SubmitState.signalBinary, Option.some.injEq, Prod.mk.injEq] at h
    obtain ⟨h1, _⟩ := h
    subst h1
    exact ⟨rfl, rfl⟩
  | succ n ih =>
    simp only [SubmitState.signalBinary] at h
    split at h
    · cases h
    · rename_i s1 h1
      obtain ⟨k1, k2, _⟩ := SubmitState.modifyBatch_index _ s1 _ h1
      obtain ⟨j1, j2⟩ := ih s1 _ h
      exact ⟨j1.trans k1, j2.trans k2⟩

theorem SubmitState.emitSemaphores_index (st st1 : SubmitState) (hasSemaphores : Bool)
    (count timelineSemaphore timelineValue fence : Nat) (out : List Semaphore)
    (internalFence : InternalFence)
    (h : st.emitSemaphores hasSemaphores count timelineSemaphore timelineValue fence
      = some (st1, out, internalFence)) :
    st1.batch = st.batch ∧ st1.batches.length = st.batches.length := by
  unfold SubmitState.emitSemaphores at h
  split at h
  · split at h
    · cases h
    · rename_i s1 hs1
      simp only [Option.some.injEq, Prod.mk.injEq] at h
      obtain ⟨h1, _, _⟩ := h
      subst h1
      obtain ⟨k1, k2, _⟩ := SubmitState.modifyBatch_index _ _ _ hs1
      exact ⟨k1, k2⟩
  · split at h
    · cases h
    · rename_i s1 o1 hs1
      simp only [Option.some.injEq, Prod.mk.injEq] at h
      obtain ⟨h1, _, _⟩ := h
      subst h1
      split at hs1
      · exact SubmitState.signalBinary_index _ _ _ _ _ hs1
      · simp only [Option.some.injEq, Prod.mk.injEq] at hs1
        obtain ⟨h2, _⟩ := hs1
        subst h2
        exact ⟨rfl, rfl⟩

theorem Device.batchSubmissions_index (d : Device) (q : QueueType) (st : SubmitState)
    (h : d.batchSubmissions q = some st) :
    st.batch < MaxSubmissions ∧ st.batches.length = MaxSubmissions := by
  obtain ⟨_, _, hl, _⟩ := Device.batchSubmissions_pushes d q st h
  refine ⟨?_, hl⟩
  rw [← hl]
  unfold Device.batchSubmissions at h
  dsimp only at h
  split at h
  · cases h
  · split at h
    · cases h
    · split at h
      · cases h
      · split at h
        · cases h
        · rename_i st1 hloop
          split at h
          · cases h
          · simp only [Option.some.injEq] at h
            subst h
            exact SubmitState.addCommandBuffers_index _ _ st1
              (by simp [MaxSubmissions]) hloop

theorem Device.submitQueueBody_index (d : Device) (q : QueueType) (submitFence : Bool)
    (semaphores : Option Nat) (r : SubmitOutcome)
    (h : d.submitQueueBody q submitFence semaphores = some r) :
    r.batch < MaxSubmissions ∧ r.batches.length = MaxSubmissions := by
  unfold Device.submitQueueBody at h
  dsimp only at h
  split at h
  · cases h
  · rename_i st1 hst1
    split at h
    · cases h
    · rename_i st3 out internalFence hemit
      simp only [Option.some.injEq] at h
      subst h
      obtain ⟨b1, b2⟩ := Device.batchSubmissions_index d q st1 hst1
      obtain ⟨e1, e2⟩ := SubmitState.emitSemaphores_index _ _ _ _ _ _ _ _ _ hemit
      simp only [SubmitState.submit]
      simp only at e1 e2
      exact ⟨by rw [e1]; exact b1, by rw [e2]; exact b2⟩

/-- Whenever `SubmitQueue` returns, the batch index is below `MaxSubmissions`, and the
array of batches, if one was built, has its `MaxSubmissions` entries. -/
theorem Device.SubmitQueue_index (d : Device) (q : QueueType) (submitFence : Bool)
    (semaphores : Option Nat) (r : SubmitOutcome)
    (h : d.SubmitQueue q submitFence semaphores = some r) :
    r.batch < MaxSubmissions ∧ (r.batches = [] ∨ r.batches.length = MaxSubmissions) := by
  unfold Device.SubmitQueue at h
  split at h
  · cases h
  · split at h
    · simp only [Option.some.injEq] at h
      subst h
      exact ⟨by show 0 < MaxSubmissions; decide, Or.inl rfl⟩
    · split at h
      · cases h
      · obtain ⟨k1, k2⟩ := Device.submitQueueBody_index _ q submitFence semaphores r h
        exact ⟨k1, Or.inr k2⟩

theorem sevenSwapchainDevice_ready : sevenSwapchainDevice.SubmitReady .Graphics := by
  refine ⟨⟨_, rfl⟩, ?_, ⟨⟨by decide, ?_⟩, by decide⟩, fun _ _ => ⟨⟨by decide, ?_⟩, by decide⟩⟩
  · intro a ha
    cases ha
  · intro s hs
    cases hs
  · intro s hs
    cases hs

/-- Whenever `SubmitQueue` returns, the batch index is below
`MaxSubmissions = 8` (and the array of batches, if one was built, has its eight
entries, so that the accesses `batches[batch]` were in bounds).  It does return whenever
the device is ready for the queue: there is a current frame context, a pending acquire
semaphore is signalled, the accumulated wait semaphores can be consumed, and the pending
command buffers move the batch index at most seven times. -/
theorem Device.SubmitQueue_within (d : Device) (q : QueueType) (submitFence : Bool)
    (semaphores : Option Nat) :
    (∀ r, d.SubmitQueue q submitFence semaphores = some r →
      r.batch < MaxSubmissions ∧ (r.batches = [] ∨ r.batches.length = MaxSubmissions)) ∧
    (d.SubmitReady q →
      ∃ r, d.SubmitQueue q submitFence semaphores = some r ∧ r.batch < MaxSubmissions) := by
  constructor
  · intro r h
    exact Device.SubmitQueue_index d q submitFence semaphores r h
  · intro h
    obtain ⟨r, hr, _⟩ := Device.SubmitQueue_some d q submitFence semaphores h
    exact ⟨r, hr, (Device.SubmitQueue_index d q submitFence semaphores r hr).1⟩

/-- A device with seven pending command buffers that each render to the swapchain: the
call returns, with the batch index 6. -/
theorem sevenSwapchainDevice_within :
    sevenSwapchainDevice.SubmitReady .Graphics ∧
    (∃ r, sevenSwapchainDevice.SubmitQueue .Graphics true none = some r ∧
      r.batch < MaxSubmissions) ∧
    (sevenSwapchainDevice.SubmitQueue .Graphics true none).map (fun r => r.batch) = some 6 :=
  ⟨sevenSwapchainDevice_ready,
    (Device.SubmitQueue_within sevenSwapchainDevice .Graphics true none).2
      sevenSwapchainDevice_ready,
    by decide⟩

theorem Device.Quiet.quiet_refl (d : Device) : d.Quiet d :=
  { data := rfl
    queues := rfl
    feature := rfl
    lock := rfl
    current := rfl
    calls := ⟨[], by simp, rfl⟩
    frame := fun f hf => ⟨f, hf, rfl, rfl⟩ }

theorem Device.Effect.andThen {d d2 d3 : Device} {data data2 : PerQueue QueueData}
    {s s2 : List Nat} {v v2 : PerQueue Nat → PerQueue Nat}
    {p p2 : PerQueue (List Submission) → PerQueue (List Submission)}
    (h : d.Effect d2 data s v p) (h2 : d2.Effect d3 data2 s2 v2 p2) :
    d.Effect d3 data2 (s ++ s2) (v2 ∘ v) (p2 ∘ p) := by
  obtain ⟨m, hm, hs⟩ := h.calls
  obtain ⟨m2, hm2, hs2⟩ := h2.calls
  exact
    { data := h2.data
      queues := h2.queues.trans h.queues
      feature := h2.feature.trans h.feature
      lock := h2.lock.trans h.lock
      current := h2.current.trans h.current
      calls := ⟨m ++ m2, by rw [hm2, hm, List.append_assoc], by
        rw [List.filterMap_append, hs, hs2]⟩
      frame := fun f hf => by
        obtain ⟨f2, a1, a2, a3⟩ := h.frame f hf
        obtain ⟨f3, b1, b2, b3⟩ := h2.frame f2 a1
        exact ⟨f3, b1, by rw [b2, a2]; rfl, by rw [b3, a3]; rfl⟩ }

theorem Device.Effect.and_quiet {d d2 d3 : Device} {data : PerQueue QueueData}
    {s : List Nat} {v : PerQueue Nat → PerQueue Nat}
    {p : PerQueue (List Submission) → PerQueue (List Submission)}
    (h : d.Effect d2 data s v p) (h2 : d2.Quiet d3) : d.Effect d3 data s v p := by
  have := h.andThen h2
  rw [h.data] at this
  simpa using this

theorem Device.Quiet.then_effect {d d2 d3 : Device} {data : PerQueue QueueData}
    {s : List Nat} {v : PerQueue Nat → PerQueue Nat}
    {p : PerQueue (List Submission) → PerQueue (List Submission)}
    (h : d.Quiet d2) (h2 : d2.Effect d3 data s v p) : d.Effect d3 data s v p := by
  have := Device.Effect.andThen h h2
  simpa using this

theorem Device.Quiet.quiet_trans {d d2 d3 : Device} (h : d.Quiet d2) (h2 : d2.Quiet d3) :
    d.Quiet d3 :=
  Device.Effect.and_quiet h h2

theorem Device.Effect.has_frame {d d2 : Device} {data : PerQueue QueueData}
    {s : List Nat} {v : PerQueue Nat → PerQueue Nat}
    {p : PerQueue (List Submission) → PerQueue (List Submission)}
    (h : d.Effect d2 data s v p) (hf : ∃ f, d.Frame = some f) : ∃ f, d2.Frame = some f := by
  obtain ⟨f, hf⟩ := hf
  obtain ⟨f2, a, _⟩ := h.frame f hf
  exact ⟨f2, a⟩

/-- A write through `Frame()` that changes neither the timeline values nor the pending
submissions, with the values of the frame context written. -/
theorem Device.modifyFrame_effect (d d2 : Device) (g : FrameContext → FrameContext)
    (h : d.modifyFrame g = some d2) :
    ∃ f, d.Frame = some f ∧
      d.Effect d2 d.queueData [] (fun _ => (g f).TimelineValues)
        (fun _ => (g f).Submissions) := by
  obtain ⟨f, hf, rfl⟩ := Device.modifyFrame_eq d d2 g h
  have hlt : d.currentFrameContext < d.frameContexts.length :=
    (List.getElem?_eq_some.mp hf).1
  refine ⟨f, hf, ?_⟩
  exact
    { data := rfl
      queues := rfl
      feature := rfl
      lock := rfl
      current := rfl
      calls := ⟨[], by simp, rfl⟩
      frame := fun f1 _ => ⟨g f, by simp [Device.Frame, hlt], rfl, rfl⟩ }

theorem Device.modifyFrame_step (d d2 : Device) (g : FrameContext → FrameContext)
    (v : PerQueue Nat → PerQueue Nat)
    (p : PerQueue (List Submission) → PerQueue (List Submission))
    (h : d.modifyFrame g = some d2)
    (hg : ∀ f, (g f).TimelineValues = v f.TimelineValues ∧
      (g f).Submissions = p f.Submissions) :
    d.Effect d2 d.queueData [] v p := by
  obtain ⟨f, hf, e⟩ := Device.modifyFrame_effect d d2 g h
  exact
    { data := e.data
      queues := e.queues
      feature := e.feature
      lock := e.lock
      current := e.current
      calls := e.calls
      frame := fun f1 hf1 => by
        obtain ⟨f2, a1, a2, a3⟩ := e.frame f1 hf1
        rw [hf] at hf1
        cases hf1
        exact ⟨f2, a1, by rw [a2, (hg f).1], by rw [a3, (hg f).2]⟩ }

theorem Device.modifyFrame_quiet (d d2 : Device) (g : FrameContext → FrameContext)
    (h : d.modifyFrame g = some d2)
    (hg : ∀ f, (g f).TimelineValues = f.TimelineValues ∧ (g f).Submissions = f.Submissions) :
    d.Quiet d2 :=
  Device.modifyFrame_step d d2 g id id h hg

theorem Device.Effect.of_eq {d d2 : Device} {data data2 : PerQueue QueueData}
    {s s2 : List Nat} {v v2 : PerQueue Nat → PerQueue Nat}
    {p p2 : PerQueue (List Submission) → PerQueue (List Submission)}
    (h : d.Effect d2 data s v p) (h1 : data = data2) (h2 : s = s2)
    (h3 : ∀ x, v x = v2 x) (h4 : ∀ x, p x = p2 x) : d.Effect d2 data2 s2 v2 p2 := by
  have e3 : v = v2 := funext h3
  have e4 : p = p2 := funext h4
  subst h1 h2 e3 e4
  exact h

/-- A write to the per-queue data alone. -/
theorem Device.Effect.of_data (d : Device) (data : PerQueue QueueData) :
    d.Effect { d with queueData := data } data [] id id :=
  { data := rfl
    queues := rfl
    feature := rfl
    lock := rfl
    current := rfl
    calls := ⟨[], by simp, rfl⟩
    frame := fun f hf => ⟨f, hf, rfl, rfl⟩ }

theorem PerQueue.set_set {α : Type} (a : PerQueue α) (q : QueueType) (x y : α) :
    (a.set q x).set q y = a.set q y := by
  cases q <;> rfl

theorem Device.AllocateFence_quiet (d : Device) : d.Quiet (d.AllocateFence).1 := by
  unfold Device.AllocateFence
  split
  · exact
      { data := rfl
        queues := rfl
        feature := rfl
        lock := rfl
        current := rfl
        calls := ⟨[.createFence d.nextNative], rfl, rfl⟩
        frame := fun f hf => ⟨f, hf, rfl, rfl⟩ }
  · exact
      { data := rfl
        queues := rfl
        feature := rfl
        lock := rfl
        current := rfl
        calls := ⟨[], by simp, rfl⟩
        frame := fun f hf => ⟨f, hf, rfl, rfl⟩ }

theorem Device.AllocateSemaphore_quiet (d : Device) : d.Quiet (d.AllocateSemaphore).1 := by
  unfold Device.AllocateSemaphore
  split
  · exact
      { data := rfl
        queues := rfl
        feature := rfl
        lock := rfl
        current := rfl
        calls := ⟨[.createSemaphore d.nextNative], rfl, rfl⟩
        frame := fun f hf => ⟨f, hf, rfl, rfl⟩ }
  · exact
      { data := rfl
        queues := rfl
        feature := rfl
        lock := rfl
        current := rfl
        calls := ⟨[], by simp, rfl⟩
        frame := fun f hf => ⟨f, hf, rfl, rfl⟩ }

theorem Device.destroySemaphoreObject_quiet (d d2 : Device) (x : Semaphore)
    (h : d.destroySemaphoreObject x = some d2) : d.Quiet d2 := by
  unfold Device.destroySemaphoreObject at h
  split at h
  · split at h
    · exact Device.modifyFrame_quiet d d2 _ h (fun _ => ⟨rfl, rfl⟩)
    · exact Device.modifyFrame_quiet d d2 _ h (fun _ => ⟨rfl, rfl⟩)
  · simp only [Option.some.injEq] at h
    subst h
    exact Device.Quiet.quiet_refl d

theorem Device.dropSemaphoreHandle_quiet (d d2 : Device) (x : Option Semaphore)
    (h : d.dropSemaphoreHandle x = some d2) : d.Quiet d2 := by
  cases x with
  | none =>
    simp only [Device.dropSemaphoreHandle, Option.some.injEq] at h
    subst h
    exact Device.Quiet.quiet_refl d
  | some y => exact Device.destroySemaphoreObject_quiet d d2 y h

theorem SubmitState.modifyBatch_device (st st2 : SubmitState) (f : SubmitBatch → SubmitBatch)
    (h : st.modifyBatch f = some st2) : st2.device = st.device := by
  unfold SubmitState.modifyBatch at h
  split at h
  · simp only [Option.some.injEq] at h
    subst h
    rfl
  · cases h

theorem SubmitState.waitOnAcquire_quiet (st st2 : SubmitState) (stages : Nat)
    (h : st.waitOnAcquire stages = some st2) : st.device.Quiet st2.device := by
  unfold SubmitState.waitOnAcquire at h
  split at h
  · simp only [Option.some.injEq] at h
    subst h
    exact Device.Quiet.quiet_refl _
  · rename_i acquire hacq
    split at h
    · simp only [Option.some.injEq] at h
      subst h
      exact Device.Quiet.quiet_refl _
    · split at h
      · cases h
      · rename_i b hb
        dsimp only at h
        split at h
        · cases h
        · rename_i stm hstm
          split at h
          · rename_i d1 pair consumed hrec hcons
            split at h
            · cases h
            · rename_i d2 hd2
              simp only [Option.some.injEq] at h
              subst h
              have e0 := SubmitState.modifyBatch_device _ stm _ hstm
              have e1 : stm.device = st.device := by
                rw [e0]
                split <;> rfl
              have hd1 : stm.device.Quiet d1 := by
                split at hrec
                · exact Device.modifyFrame_quiet _ _ _ hrec (fun _ => ⟨rfl, rfl⟩)
                · simp only [Option.some.injEq] at hrec
                  subst hrec
                  exact Device.Quiet.quiet_refl _
              have hd12 : d1.Quiet
                  { d1 with swapchainAcquireConsumed := true, swapchainAcquire := none } :=
                { data := rfl
                  queues := rfl
                  feature := rfl
                  lock := rfl
                  current := rfl
                  calls := ⟨[], by simp, rfl⟩
                  frame := fun f hf => ⟨f, hf, rfl, rfl⟩ }
              have hd23 := Device.dropSemaphoreHandle_quiet _ _ _ hd2
              rw [← e1]
              exact (hd1.quiet_trans hd12).quiet_trans hd23
          · cases h

theorem SubmitState.signalRelease_quiet (st st2 : SubmitState)
    (h : st.signalRelease = some st2) : st.device.Quiet st2.device := by
  unfold SubmitState.signalRelease at h
  dsimp only at h
  split at h
  · cases h
  · rename_i d2 hd2
    have hd1 := Device.AllocateSemaphore_quiet st.device
    have hd12 := Device.dropSemaphoreHandle_quiet _ _ _ hd2
    have e := SubmitState.modifyBatch_device _ st2 _ h
    rw [e]
    refine (hd1.quiet_trans hd12).quiet_trans ?_
    exact
      { data := rfl
        queues := rfl
        feature := rfl
        lock := rfl
        current := rfl
        calls := ⟨[], by simp, rfl⟩
        frame := fun f hf => ⟨f, hf, rfl, rfl⟩ }

theorem SubmitState.addCommandBuffer_quiet (st st2 : SubmitState) (cmd : Submission)
    (h : st.addCommandBuffer cmd = some st2) : st.device.Quiet st2.device := by
  unfold SubmitState.addCommandBuffer at h
  split at h
  · split at h
    · cases h
    · rename_i s1 h1
      split at h
      · cases h
      · rename_i s2 h2
        split at h
        · cases h
        · rename_i s3 h3
          have p1 := SubmitState.waitOnAcquire_quiet st s1 _ h1
          obtain ⟨p2, _, _⟩ := SubmitState.nextBatchIfSignalled_eq s1 s2 h2
          have p3 := SubmitState.modifyBatch_device s2 s3 _ h3
          have p4 := SubmitState.signalRelease_quiet s3 st2 h
          rw [p3, p2] at p4
          exact p1.quiet_trans p4
  · split at h
    · cases h
    · rename_i s1 h1
      obtain ⟨p1, _, _⟩ := SubmitState.nextBatchIfSignalled_eq st s1 h1
      have p2 := SubmitState.modifyBatch_device s1 st2 _ h
      rw [p2, p1]
      exact Device.Quiet.quiet_refl _

theorem SubmitState.addCommandBuffers_quiet (cmds : List Submission) (st st2 : SubmitState)
    (h : SubmitState.addCommandBuffers cmds st = some st2) : st.device.Quiet st2.device := by
  induction cmds generalizing st with
  | nil =>
    simp only [SubmitState.addCommandBuffers, Option.some.injEq] at h
    subst h
    exact Device.Quiet.quiet_refl _
  | cons cmd rest ih =>
    simp only [SubmitState.addCommandBuffers] at h
    split at h
    · cases h
    · rename_i s1 h1
      exact (SubmitState.addCommandBuffer_quiet st s1 cmd h1).quiet_trans (ih s1 h)

theorem SubmitState.signalBinary_quiet (n : Nat) (st st2 : SubmitState)
    (out out2 : List Semaphore)
    (h : SubmitState.signalBinary n st out = some (st2, out2)) :
    st.device.Quiet st2.device ∧ out2.length = out.length + n := by
  induction n generalizing st out with
  | zero =>
    simp only [SubmitState.signalBinary, Option.some.injEq, Prod.mk.injEq] at h
    obtain ⟨h1, h2⟩ := h
    subst h1 h2
    exact ⟨Device.Quiet.quiet_refl _, rfl⟩
  | succ n ih =>
    simp only [SubmitState.signalBinary] at h
    split at h
    · cases h
    · rename_i s1 h1
      have e := SubmitState.modifyBatch_device _ s1 _ h1
      obtain ⟨q1, q2⟩ := ih s1 _ h
      rw [e] at q1
      refine ⟨(Device.AllocateSemaphore_quiet st.device).quiet_trans q1, ?_⟩
      rw [q2]
      simp
      omega

/-- The second part of the body of `SubmitQueue` submits nothing and leaves the
per-queue data alone.  With timeline semaphores the fence slot gets the timeline
semaphore and the new value, and each handle handed out wraps them; without, the fence
slot gets the fence allocated before and no timeline value. -/
theorem SubmitState.emitSemaphores_quiet (st st1 : SubmitState) (hasSemaphores : Bool)
    (count timelineSemaphore timelineValue fence : Nat) (out : List Semaphore)
    (internalFence : InternalFence)
    (h : st.emitSemaphores hasSemaphores count timelineSemaphore timelineValue fence
      = some (st1, out, internalFence)) :
    st.device.Quiet st1.device ∧
    (st.device.timelineSemaphore = true →
      internalFence = ⟨0, timelineSemaphore, timelineValue⟩ ∧
      out = if hasSemaphores then
        List.replicate count (Semaphore.timeline timelineSemaphore timelineValue) else []) ∧
    (st.device.timelineSemaphore = false →
      internalFence = ⟨fence, 0, 0⟩ ∧ out.length = if hasSemaphores then count else 0) := by
  unfold SubmitState.emitSemaphores at h
  split at h
  · rename_i ht
    split at h
    · cases h
    · rename_i s1 hs1
      simp only [Option.some.injEq, Prod.mk.injEq] at h
      obtain ⟨h1, h2, h3⟩ := h
      subst h1 h2 h3
      have e := SubmitState.modifyBatch_device _ _ _ hs1
      rw [e]
      exact ⟨Device.Quiet.quiet_refl _, fun _ => ⟨rfl, rfl⟩, fun hf => by rw [ht] at hf; cases hf⟩
  · rename_i ht
    split at h
    · cases h
    · rename_i s1 o1 hs1
      simp only [Option.some.injEq, Prod.mk.injEq] at h
      obtain ⟨h1, h2, h3⟩ := h
      subst h1 h2 h3
      split at hs1
      · rename_i hh
        obtain ⟨q1, q2⟩ := SubmitState.signalBinary_quiet _ _ _ _ _ hs1
        exact ⟨q1, fun hf => absurd hf ht, fun _ => ⟨rfl, by simp [q2, hh]⟩⟩
      · rename_i hh
        simp only [Option.some.injEq, Prod.mk.injEq] at hs1
        obtain ⟨h2, h3⟩ := hs1
        subst h2 h3
        exact ⟨Device.Quiet.quiet_refl _, fun hf => absurd hf ht, fun _ => ⟨rfl, by simp [hh]⟩⟩

/-- The first part of the body of `SubmitQueue`: the timeline value of the queue is
advanced and recorded in the frame context, the wait semaphores of the queue are taken
and its pending list is emptied; nothing is submitted yet. -/
theorem Device.batchSubmissions_effect (d : Device) (q : QueueType) (st : SubmitState)
    (h : d.batchSubmissions q = some st) :
    d.Effect st.device (d.batchedData q) []
      (fun v => v.set q (((d.queueData.get q).TimelineValue + 1) % 2 ^ 64))
      (fun p => p.set q []) := by
  unfold Device.batchSubmissions at h
  dsimp only at h
  split at h
  · cases h
  · rename_i d2 hd2
    split at h
    · cases h
    · rename_i first hfirst
      split at h
      · cases h
      · rename_i frame hframe
        split at h
        · cases h
        · rename_i st1 hloop
          split at h
          · cases h
          · rename_i d4 hd4
            simp only [Option.some.injEq] at h
            subst h
            have e1 := Device.Effect.of_data d (d.queueData.set q
              { (d.queueData.get q) with
                TimelineValue := ((d.queueData.get q).TimelineValue + 1) % 2 ^ 64 })
            have e2 := Device.modifyFrame_step _ d2 _
              (fun v => v.set q (((d.queueData.get q).TimelineValue + 1) % 2 ^ 64)) id hd2
              (fun _ => ⟨rfl, rfl⟩)
            have e3 := Device.Effect.of_data d2 (d2.queueData.set q
              { (d2.queueData.get q) with WaitSemaphores := [], WaitStages := [] })
            have e4 := SubmitState.addCommandBuffers_quiet _ _ st1 hloop
            have e5 := Device.modifyFrame_step _ d4 _ id (fun p => p.set q []) hd4
              (fun _ => ⟨rfl, rfl⟩)
            have e := (((e1.andThen e2).andThen e3).and_quiet e4).andThen e5
            have hdata : st1.device.queueData = d.batchedData q := by
              rw [e4.data]
              simp only
              rw [e2.data]
              simp only [Device.batchedData, PerQueue.set_set, PerQueue.get_set, if_true]
            refine e.of_eq hdata (by simp) (fun _ => rfl) (fun _ => rfl)

/-- The last part of the body of `SubmitQueue` makes the one call of `queue.submit`, on
the native queue of the queue type, and sets `NeedsFence` when timeline semaphores are
not available. -/
theorem SubmitState.submit_effect (st : SubmitState) (q : QueueType) (fence : Nat)
    (out : List Semaphore) (internalFence : InternalFence) :
    st.device.Effect (st.submit q fence out internalFence).device
      (if st.device.timelineSemaphore = false then
        st.device.queueData.set q { (st.device.queueData.get q) with NeedsFence := true }
      else st.device.queueData)
      [st.device.Queues.get q] id id ∧
    (st.submit q fence out internalFence).fence = internalFence ∧
    (st.submit q fence out internalFence).semaphores = out := by
  refine ⟨?_, rfl, rfl⟩
  simp only [SubmitState.submit]
  split
  · rename_i ht
    exact
      { data := by simp only [if_pos ht]
        queues := rfl
        feature := rfl
        lock := rfl
        current := rfl
        calls := ⟨_, rfl, rfl⟩
        frame := fun f hf => ⟨f, hf, rfl, rfl⟩ }
  · rename_i ht
    exact
      { data := by simp only [if_neg ht]
        queues := rfl
        feature := rfl
        lock := rfl
        current := rfl
        calls := ⟨_, rfl, rfl⟩
        frame := fun f hf => ⟨f, hf, rfl, rfl⟩ }

/-- The body of `SubmitQueue`, whenever it completes: the timeline value of the queue is
advanced by one (in 64 bits) and recorded in the current frame context, the wait
semaphores and the pending list of the queue are emptied, `NeedsFence` is set when
timeline semaphores are not available, the other queues are left alone, and
`queue.submit` is called once, on the native queue of the queue type.  With timeline
semaphores the fence slot and every semaphore handed out carry the timeline semaphore of
the queue and the new value. -/
theorem Device.submitQueueBody_effect (d : Device) (q : QueueType) (submitFence : Bool)
    (semaphores : Option Nat) (r : SubmitOutcome)
    (h : d.submitQueueBody q submitFence semaphores = some r) :
    d.Effect r.device (d.submittedData q) [d.Queues.get q]
      (fun v => v.set q (((d.queueData.get q).TimelineValue + 1) % 2 ^ 64))
      (fun p => p.set q []) ∧
    (d.timelineSemaphore = true →
      r.fence = ⟨0, (d.queueData.get q).TimelineSemaphore,
        ((d.queueData.get q).TimelineValue + 1) % 2 ^ 64⟩ ∧
      ∀ s ∈ r.semaphores, s = Semaphore.timeline (d.queueData.get q).TimelineSemaphore
        (((d.queueData.get q).TimelineValue + 1) % 2 ^ 64)) ∧
    (d.timelineSemaphore = false →
      r.fence.TimelineSemaphore = 0 ∧ r.fence.TimelineValue = 0) ∧
    r.semaphores.length = (match semaphores with
      | some n => n
      | none => 0) := by
  unfold Device.submitQueueBody at h
  dsimp only at h
  split at h
  · cases h
  · rename_i st1 hst1
    split at h
    · cases h
    · rename_i st3 out internalFence hemit
      simp only [Option.some.injEq] at h
      subst h
      have e1 := Device.batchSubmissions_effect d q st1 hst1
      have e2 : st1.device.Quiet
          (if submitFence = true ∧ st1.device.timelineSemaphore = false then
            st1.device.AllocateFence else (st1.device, 0)).1 := by
        split
        · exact Device.AllocateFence_quiet _
        · exact Device.Quiet.quiet_refl _
      obtain ⟨e3, t1, t2⟩ := SubmitState.emitSemaphores_quiet _ _ _ _ _ _ _ _ _ hemit
      simp only at e3 t1 t2
      obtain ⟨e4, f1, f2⟩ := st3.submit_effect q
        (if submitFence = true ∧ st1.device.timelineSemaphore = false then
          st1.device.AllocateFence else (st1.device, 0)).2 out internalFence
      have e123 := (e1.and_quiet e2).and_quiet e3
      have e := e123.andThen e4
      have hfeat : st3.device.timelineSemaphore = d.timelineSemaphore := e123.feature
      have hfeat2 : (if submitFence = true ∧ st1.device.timelineSemaphore = false then
          st1.device.AllocateFence else (st1.device, 0)).1.timelineSemaphore
            = d.timelineSemaphore := (e1.and_quiet e2).feature
      refine ⟨?_, ?_, ?_, ?_⟩
      · refine e.of_eq ?_ (by rw [e123.queues]; rfl) (fun _ => rfl) (fun _ => rfl)
        rw [hfeat, e123.data]
        simp only [Device.submittedData, Device.batchedData]
        split
        · simp only [PerQueue.set_set, PerQueue.get_set, if_true]
        · rename_i ht
          have ht2 : d.timelineSemaphore = true := by
            cases hd : d.timelineSemaphore
            · exact absurd hd ht
            · rfl
          simp only [ht2, Bool.true_eq_false, if_false]
      · intro ht
        rw [f1, f2]
        obtain ⟨a, b⟩ := t1 (hfeat2.trans ht)
        refine ⟨a, ?_⟩
        intro s hs
        rw [b] at hs
        split at hs
        · exact List.eq_of_mem_replicate hs
        · cases hs
      · intro ht
        rw [f1]
        obtain ⟨a, _⟩ := t2 (hfeat2.trans ht)
        rw [a]
        exact ⟨rfl, rfl⟩
      · rw [f2]
        cases ht : d.timelineSemaphore
        · refine (t2 (hfeat2.trans ht)).2.trans ?_
          cases semaphores with
          | none => rfl
          | some n => by_cases hn : n = 0 <;> simp [hn]
        · refine (congrArg List.length (t1 (hfeat2.trans ht)).2).trans ?_
          cases semaphores with
          | none => rfl
          | some n => by_cases hn : n = 0 <;> simp [hn]

theorem Device.nothingToSubmit_transfer (d : Device) (f : FrameContext) (hf : d.Frame = some f) :
    Device.nothingToSubmit f .Transfer false none = true ↔ d.pending .Transfer = [] := by
  simp only [Device.nothingToSubmit, Device.pending, hf, Bool.not_false, Bool.and_true,
    List.isEmpty_iff]

/-- The call `FlushFrame(QueueType::Transfer)` of `SubmitQueue`, whenever it completes:
without a transfer queue, or with nothing pending on it, the device stays as it is;
otherwise the body of `SubmitQueue` has run on the transfer queue. -/
theorem Device.FlushFrameTransfer_effect (d d1 : Device) (h : d.FlushFrameTransfer = some d1) :
    ((d.Queues.get .Transfer = 0 ∨ d.pending .Transfer = []) ∧ d1 = d) ∨
    (d.Queues.get .Transfer ≠ 0 ∧ d.pending .Transfer ≠ [] ∧
      d.Effect d1 (d.submittedData .Transfer) [d.Queues.get .Transfer]
        (fun v => v.set .Transfer (((d.queueData.get .Transfer).TimelineValue + 1) % 2 ^ 64))
        (fun p => p.set .Transfer [])) := by
  unfold Device.FlushFrameTransfer at h
  split at h
  · rename_i hz
    simp only [Option.some.injEq] at h
    exact Or.inl ⟨Or.inl hz, h.symm⟩
  · rename_i hz
    cases hr : d.SubmitQueueTransfer with
    | none => simp [hr] at h
    | some r =>
      simp only [hr, Option.map_some', Option.some.injEq] at h
      subst h
      unfold Device.SubmitQueueTransfer at hr
      split at hr
      · cases hr
      · rename_i frame hframe
        split at hr
        · rename_i hearly
          simp only [Option.some.injEq] at hr
          subst hr
          exact Or.inl ⟨Or.inr ((Device.nothingToSubmit_transfer d frame hframe).1 hearly), rfl⟩
        · rename_i hearly
          refine Or.inr ⟨hz, ?_, (Device.submitQueueBody_effect d .Transfer false none r hr).1⟩
          intro hp
          exact hearly ((Device.nothingToSubmit_transfer d frame hframe).2 hp)

/-- The method `SubmitQueue`, whenever it completes.  On the early return the device stays
as it is.  Otherwise the transfer queue is flushed first for another queue type, and
the body runs on the device after the flush. -/
theorem Device.SubmitQueue_effect (d : Device) (q : QueueType) (submitFence : Bool)
    (semaphores : Option Nat) (r : SubmitOutcome)
    (h : d.SubmitQueue q submitFence semaphores = some r) :
    ∃ f, d.Frame = some f ∧
      ((Device.nothingToSubmit f q submitFence semaphores = true ∧
          r = SubmitOutcome.nothing d) ∨
        (Device.nothingToSubmit f q submitFence semaphores = false ∧
          ∃ d1, ((q = .Transfer ∧ d1 = d) ∨ (q ≠ .Transfer ∧ d.FlushFrameTransfer = some d1)) ∧
            d1.submitQueueBody q submitFence semaphores = some r)) := by
  unfold Device.SubmitQueue at h
  split at h
  · cases h
  · rename_i frame hframe
    refine ⟨frame, hframe, ?_⟩
    split at h
    · rename_i hearly
      simp only [Option.some.injEq] at h
      exact Or.inl ⟨hearly, h.symm⟩
    · rename_i hearly
      split at h
      · cases h
      · rename_i d1 hd1
        refine Or.inr ⟨by simpa using hearly, d1, ?_, h⟩
        split at hd1
        · rename_i hq
          exact Or.inr ⟨hq, hd1⟩
        · rename_i hq
          simp only [ne_eq, not_not] at hq
          simp only [Option.some.injEq] at hd1
          exact Or.inl ⟨hq, hd1.symm⟩

theorem Device.submittedData_get (d : Device) (q q2 : QueueType) :
    (d.submittedData q).get q2 =
      if q2 = q then
        { (d.queueData.get q) with
          NeedsFence := if d.timelineSemaphore = false then true
            else (d.queueData.get q).NeedsFence
          TimelineValue := ((d.queueData.get q).TimelineValue + 1) % 2 ^ 64
          WaitSemaphores := []
          WaitStages := [] }
      else d.queueData.get q2 := by
  simp only [Device.submittedData, PerQueue.get_set]

/-- A call of `SubmitQueue` that completes without the early return: the device `d1` on
which the body runs is the device itself, or, for a queue type other than transfer with
a transfer queue and pending transfer submissions, the device after the body has run on
the transfer queue; in both cases the data of the queue is as before. -/
theorem Device.SubmitQueue_body (d : Device) (q : QueueType) (submitFence : Bool)
    (semaphores : Option Nat) (r : SubmitOutcome) (f : FrameContext) (hf : d.Frame = some f)
    (hearly : Device.nothingToSubmit f q submitFence semaphores = false)
    (h : d.SubmitQueue q submitFence semaphores = some r) :
    ∃ d1, d1.submitQueueBody q submitFence semaphores = some r ∧
      d1.queueData.get q = d.queueData.get q ∧
      d1.Queues = d.Queues ∧ d1.timelineSemaphore = d.timelineSemaphore ∧
      d1.lockCounter = d.lockCounter ∧ (∃ f1, d1.Frame = some f1) ∧
      (d1 = d ∨
        (q ≠ .Transfer ∧ d.Queues.get .Transfer ≠ 0 ∧ d.pending .Transfer ≠ [] ∧
          d.Effect d1 (d.submittedData .Transfer) [d.Queues.get .Transfer]
            (fun v => v.set .Transfer
              (((d.queueData.get .Transfer).TimelineValue + 1) % 2 ^ 64))
            (fun p => p.set .Transfer []))) := by
  obtain ⟨f0, hf0, hcase⟩ := Device.SubmitQueue_effect d q submitFence semaphores r h
  rw [hf] at hf0
  cases hf0
  rcases hcase with ⟨he, _⟩ | ⟨_, d1, hflush, hbody⟩
  · rw [hearly] at he
    cases he
  · rcases hflush with ⟨_, rfl⟩ | ⟨hq, hfl⟩
    · exact ⟨d1, hbody, rfl, rfl, rfl, rfl, ⟨f, hf⟩, Or.inl rfl⟩
    · rcases Device.FlushFrameTransfer_effect d d1 hfl with ⟨_, rfl⟩ | ⟨hz, hp, he⟩
      · exact ⟨d1, hbody, rfl, rfl, rfl, rfl, ⟨f, hf⟩, Or.inl rfl⟩
      · refine ⟨d1, hbody, ?_, he.queues, he.feature, he.lock, he.has_frame ⟨f, hf⟩,
          Or.inr ⟨hq, hz, hp, he⟩⟩
        rw [he.data, Device.submittedData_get, if_neg hq]


/-- The shape of a call of `SubmitNoLock` that completes: the command buffer is pushed on
the pending list of its queue, `SubmitQueue` is called when a fence or a vector of
semaphores is given, and the lock counter is decremented. -/
theorem Device.SubmitNoLock_eq (d : Device) (families : PerQueue Nat)
    (cbType : CommandBufferType) (cmd : Submission) (fence : Bool) (semaphores : Option Nat)
    (s : Submitted) (h : d.SubmitNoLock families cbType cmd fence semaphores = some s) :
    ∃ d1 r, d.pushSubmission (d.GetQueueType families cbType) cmd = some d1 ∧
      (fence = true ∨ semaphores.isSome = true →
        d1.SubmitQueue (d.GetQueueType families cbType) fence semaphores = some r) ∧
      s.device = { r.device with lockCounter := (r.device.lockCounter + 2 ^ 32 - 1) % 2 ^ 32 } ∧
      s.fence =
        (if fence = true then
          if r.fence.TimelineValue ≠ 0 then
            some ⟨0, r.fence.TimelineSemaphore, r.fence.TimelineValue⟩
          else some ⟨r.fence.Fence, 0, 0⟩
        else none) ∧
      s.semaphores = r.semaphores ∧
      (¬ (fence = true ∨ semaphores.isSome = true) → r = SubmitOutcome.nothing d1) := by
  unfold Device.SubmitNoLock at h
  cases hd1 : d.pushSubmission (d.GetQueueType families cbType) cmd with
  | none => simp [hd1] at h
  | some d1 =>
    simp only [hd1] at h
    by_cases hc : fence = true ∨ semaphores.isSome = true
    · simp only [hc, if_true] at h
      cases hr : d1.SubmitQueue (d.GetQueueType families cbType) fence semaphores with
      | none => simp [hr] at h
      | some r =>
        simp only [hr, Option.some.injEq] at h
        subst h
        exact ⟨d1, r, rfl, fun _ => hr, rfl, rfl, rfl, fun hn => absurd hc hn⟩
    · simp only [hc, if_false, Option.some.injEq] at h
      subst h
      exact ⟨d1, SubmitOutcome.nothing d1, rfl, fun hn => absurd hn hc, rfl, rfl, rfl,
        fun _ => rfl⟩

/-- On a device whose timeline values are all below `2 ^ 64 - 1` (the
counters are 64-bit), a call of `SubmitQueue` that completes decreases the timeline
value of no queue; on the early return it leaves the device as it is; otherwise it
increases the timeline value of its queue by exactly 1 and stores the new value in the
entry of the queue in `TimelineValues` of the current frame context.  With timeline
semaphores, the fence handed back by `Submit` is one over the timeline semaphore of the
queue of the command buffer and exactly this new value, which is at least 1. -/
theorem Device.SubmitQueue_counter (d : Device) (f : FrameContext)
    (families : PerQueue Nat) (hf : d.Frame = some f)
    (hw : ∀ q, (d.queueData.get q).TimelineValue + 1 < 2 ^ 64) :
    (∀ q submitFence semaphores r, d.SubmitQueue q submitFence semaphores = some r →
      (∀ q2, (d.queueData.get q2).TimelineValue ≤ (r.device.queueData.get q2).TimelineValue) ∧
      (Device.nothingToSubmit f q submitFence semaphores = true → r.device = d) ∧
      (Device.nothingToSubmit f q submitFence semaphores = false →
        (r.device.queueData.get q).TimelineValue = (d.queueData.get q).TimelineValue + 1 ∧
        ∃ f2, r.device.Frame = some f2 ∧
          f2.TimelineValues.get q = (d.queueData.get q).TimelineValue + 1)) ∧
    (∀ cbType cmd semaphores s, d.timelineSemaphore = true →
      d.Submit families cbType cmd true semaphores = some s →
      s.fence = some ⟨0, (d.queueData.get (d.GetQueueType families cbType)).TimelineSemaphore,
        (d.queueData.get (d.GetQueueType families cbType)).TimelineValue + 1⟩ ∧
      1 ≤ (d.queueData.get (d.GetQueueType families cbType)).TimelineValue + 1 ∧
      (s.device.queueData.get (d.GetQueueType families cbType)).TimelineValue =
        (d.queueData.get (d.GetQueueType families cbType)).TimelineValue + 1) := by
  have hmod : ∀ q, ((d.queueData.get q).TimelineValue + 1) % 2 ^ 64
      = (d.queueData.get q).TimelineValue + 1 := fun q => Nat.mod_eq_of_lt (hw q)
  have key : ∀ (d0 : Device) (f0 : FrameContext) q submitFence semaphores r,
      d0.Frame = some f0 → d0.queueData = d.queueData →
      d0.timelineSemaphore = d.timelineSemaphore →
      Device.nothingToSubmit f0 q submitFence semaphores = false →
      d0.SubmitQueue q submitFence semaphores = some r →
      (∀ q2, (d.queueData.get q2).TimelineValue ≤ (r.device.queueData.get q2).TimelineValue) ∧
      (r.device.queueData.get q).TimelineValue = (d.queueData.get q).TimelineValue + 1 ∧
      (∃ f2, r.device.Frame = some f2 ∧
        f2.TimelineValues.get q = (d.queueData.get q).TimelineValue + 1) ∧
      (d.timelineSemaphore = true →
        r.fence = ⟨0, (d.queueData.get q).TimelineSemaphore,
          (d.queueData.get q).TimelineValue + 1⟩) := by
    intro d0 f0 q submitFence semaphores r hf0 hdata hfeat hearly h
    obtain ⟨d1, hbody, hq, _, hft, _, ⟨f1, hf1⟩, hd1⟩ :=
      Device.SubmitQueue_body d0 q submitFence semaphores r f0 hf0 hearly h
    obtain ⟨e, t1, _, _⟩ := Device.submitQueueBody_effect d1 q submitFence semaphores r hbody
    rw [hdata] at hq
    have hown : (r.device.queueData.get q).TimelineValue
        = (d.queueData.get q).TimelineValue + 1 := by
      rw [e.data, Device.submittedData_get, if_pos rfl]
      simp only [hq, hmod]
    refine ⟨?_, hown, ?_, ?_⟩
    · intro q2
      by_cases e2 : q2 = q
      · rw [e2, hown]
        omega
      · rw [e.data, Device.submittedData_get, if_neg e2]
        rcases hd1 with rfl | ⟨_, _, _, he⟩
        · rw [hdata]
        · rw [he.data, Device.submittedData_get, hdata]
          split
          · rename_i e3
            rw [e3]
            simp only [hmod]
            omega
          · exact Nat.le_refl _
    · obtain ⟨f2, a1, a2, _⟩ := e.frame f1 hf1
      refine ⟨f2, a1, ?_⟩
      rw [a2, PerQueue.get_set, if_pos rfl, hq, hmod]
    · intro ht
      obtain ⟨a, _⟩ := t1 (hft.trans (hfeat.trans ht))
      rw [a, hq, hmod]
  constructor
  · intro q submitFence semaphores r h
    cases hearly : Device.nothingToSubmit f q submitFence semaphores
    · obtain ⟨k1, k2, k3, _⟩ := key d f q submitFence semaphores r hf rfl rfl hearly h
      exact ⟨k1, (fun hc => by cases hc), fun _ => ⟨k2, k3⟩⟩
    · obtain ⟨f0, hf0, hcase⟩ := Device.SubmitQueue_effect d q submitFence semaphores r h
      rw [hf] at hf0
      cases hf0
      rcases hcase with ⟨_, rfl⟩ | ⟨he, _⟩
      · exact ⟨fun _ => Nat.le_refl _, fun _ => rfl, (fun hc => by cases hc)⟩
      · rw [hearly] at he
        cases he
  · intro cbType cmd semaphores s ht h
    obtain ⟨d1, r, hd1, hr, hs1, hs2, _, _⟩ := Device.SubmitNoLock_eq d families cbType cmd true semaphores s h
    obtain ⟨f1, _, e1⟩ := Device.modifyFrame_effect d d1 _ hd1
    obtain ⟨f2, hf2, _⟩ := e1.frame f hf
    obtain ⟨_, k2, _, k4⟩ := key d1 f2 (d.GetQueueType families cbType) true semaphores r
      hf2 e1.data e1.feature (by simp [Device.nothingToSubmit]) (hr (Or.inl rfl))
    have hfence := k4 ht
    have hne : (d.queueData.get (d.GetQueueType families cbType)).TimelineValue + 1 ≠ 0 :=
      Nat.succ_ne_zero _
    refine ⟨?_, Nat.succ_le_succ (Nat.zero_le _), ?_⟩
    · rw [hs2, hfence, if_pos rfl, if_pos hne]
    · rw [hs1]
      exact k2

theorem Device.needsSubmit_eq (d : Device) (f : FrameContext) (hf : d.Frame = some f)
    (t : QueueType) :
    ((d.queueData.get t).NeedsFence = true ∨ (f.Submissions.get t).isEmpty = false) ↔
      d.needsSubmit t = true := by
  simp only [Device.needsSubmit, Device.pending, hf, Bool.or_eq_true, Bool.not_eq_true']

/-- One turn of the loop of `EndFrameNoLock`, with nothing pending on the transfer queue
unless the turn is that of the transfer queue: when the test fails the device stays as
it is; otherwise `SubmitQueue(type, &fence, nullptr)` is called and completes, the body
runs on the queue (no transfer flush comes first), and `NeedsFence` is reset. -/
theorem Device.endFrameQueue_turn (d d1 : Device) (t : QueueType) (f : FrameContext)
    (hf : d.Frame = some f) (hT : d.pending .Transfer = [] ∨ t = .Transfer)
    (h : d.endFrameQueue t = some d1) :
    (d.needsSubmit t = false ∧ d1 = d) ∨
    (d.needsSubmit t = true ∧ (∃ r, d.SubmitQueue t true none = some r) ∧
      d.Effect d1 (d.flushedData t) [d.Queues.get t]
        (fun v => v.set t (((d.queueData.get t).TimelineValue + 1) % 2 ^ 64))
        (fun p => p.set t [])) := by
  unfold Device.endFrameQueue at h
  simp only [hf] at h
  split at h
  · rename_i hcond
    have hn := (Device.needsSubmit_eq d f hf t).1 hcond
    split at h
    · cases h
    · rename_i r hr
      split at h
      · cases h
      · rename_i d2 hd2
        simp only [Option.some.injEq] at h
        subst h
        refine Or.inr ⟨hn, ⟨r, hr⟩, ?_⟩
        obtain ⟨d0, hbody, _, _, _, _, _, hd0⟩ := Device.SubmitQueue_body d t true none r f hf
          (by simp [Device.nothingToSubmit]) hr
        have hd0eq : d0 = d := by
          rcases hd0 with rfl | ⟨hq, _, hp, _⟩
          · rfl
          · rcases hT with hT | hT
            · exact absurd hT hp
            · exact absurd hT hq
        subst hd0eq
        obtain ⟨e, _⟩ := Device.submitQueueBody_effect d0 t true none r hbody
        have q1 : r.device.Quiet d2 := by
          split at hd2
          · exact Device.modifyFrame_quiet _ _ _ hd2 (fun _ => ⟨rfl, rfl⟩)
          · simp only [Option.some.injEq] at hd2
            subst hd2
            exact Device.Quiet.quiet_refl _
        have e2 := Device.Effect.of_data d2 (d2.queueData.set t
          { (d2.queueData.get t) with NeedsFence := false })
        have e3 := (e.and_quiet q1).andThen e2
        refine e3.of_eq ?_ (by simp) (fun _ => rfl) (fun _ => rfl)
        rw [q1.data, e.data]
        simp only [Device.submittedData, Device.flushedData, PerQueue.set_set, PerQueue.get_set,
          if_true]
  · rename_i hcond
    simp only [Option.some.injEq] at h
    refine Or.inl ⟨?_, h.symm⟩
    cases hn : d.needsSubmit t
    · rfl
    · exact absurd ((Device.needsSubmit_eq d f hf t).2 hn) hcond

theorem Device.Effect.pending_eq {d d2 : Device} {data : PerQueue QueueData}
    {s : List Nat} {v : PerQueue Nat → PerQueue Nat}
    {p : PerQueue (List Submission) → PerQueue (List Submission)}
    (h : d.Effect d2 data s v p) (f : FrameContext) (hf : d.Frame = some f) (q : QueueType) :
    d2.pending q = (p f.Submissions).get q := by
  obtain ⟨f2, a1, _, a3⟩ := h.frame f hf
  simp only [Device.pending, a1, a3]

/-- What one turn of the loop of `EndFrameNoLock` leaves behind: the other queues are as
before, the queue of the turn needs no fence and has nothing pending, and `queue.submit`
was called on the native queue of the turn exactly when the test held. -/
theorem Device.endFrameQueue_summary (d d1 : Device) (t : QueueType) (f : FrameContext)
    (hf : d.Frame = some f) (hT : d.pending .Transfer = [] ∨ t = .Transfer)
    (h : d.endFrameQueue t = some d1) :
    (∀ q, q ≠ t → d1.queueData.get q = d.queueData.get q ∧ d1.pending q = d.pending q) ∧
    (d1.queueData.get t).NeedsFence = false ∧ d1.pending t = [] ∧
    d1.Queues = d.Queues ∧ (∃ f1, d1.Frame = some f1) ∧
    ∃ more, d1.calls = d.calls ++ more ∧
      more.filterMap NativeCall.submitQueue =
        if d.needsSubmit t = true then [d.Queues.get t] else [] := by
  rcases Device.endFrameQueue_turn d d1 t f hf hT h with ⟨hn, rfl⟩ | ⟨hn, _, e⟩
  · simp only [Device.needsSubmit, Bool.or_eq_false_iff, Bool.not_eq_false',
      List.isEmpty_iff] at hn
    refine ⟨fun _ _ => ⟨rfl, rfl⟩, hn.1, hn.2, rfl, ⟨f, hf⟩, [], by simp, ?_⟩
    simp [Device.needsSubmit, hn.1, hn.2]
  · obtain ⟨more, hm, hs⟩ := e.calls
    refine ⟨?_, ?_, ?_, e.queues, e.has_frame ⟨f, hf⟩, more, hm, by rw [hs, if_pos hn]⟩
    · intro q hq
      constructor
      · rw [e.data]
        simp only [Device.flushedData, PerQueue.get_set, if_neg hq]
      · rw [e.pending_eq f hf q]
        simp only [PerQueue.get_set, if_neg hq, Device.pending, hf]
    · rw [e.data]
      simp only [Device.flushedData, PerQueue.get_set, if_true]
    · rw [e.pending_eq f hf t]
      simp only [PerQueue.get_set, if_true]

theorem Device.needsSubmit_congr (d d1 : Device) (q : QueueType)
    (h : d1.queueData.get q = d.queueData.get q ∧ d1.pending q = d.pending q) :
    d1.needsSubmit q = d.needsSubmit q := by
  simp only [Device.needsSubmit, h.1, h.2]

theorem Device.needsSubmit_false (d : Device) (q : QueueType) (h : d.needsSubmit q = false) :
    (d.queueData.get q).NeedsFence = false ∧ d.pending q = [] := by
  simpa only [Device.needsSubmit, Bool.or_eq_false_iff, Bool.not_eq_false',
    List.isEmpty_iff] using h

/-- Claim C21.  On a device that is ready (there is a current frame context, a pending
acquire semaphore is signalled, every queue can be submitted), `EndFrameNoLock` runs to
completion as the three turns of its loop for Transfer, Graphics and Compute, in this
order.  The test of a turn (`NeedsFence` set, or submissions pending in the current
frame context) has at the turn the value it has at the start; when it fails the turn
leaves the device as it is, when it holds `SubmitQueue(type, &fence, nullptr)` is called
and completes.  The calls of `queue.submit` made go to the native queues of the queue
types whose test holds, in the order Transfer, Graphics, Compute, one call each.
Afterwards `NeedsFence` is false for every queue and no submission is pending in the
current frame context. -/
theorem C21_end_frame_order (d : Device) (hf : ∃ f, d.Frame = some f)
    (hr : d.acquireReady) (hq : ∀ q, d.QueueReady q) :
    QueueFlushOrder = [.Transfer, .Graphics, .Compute] ∧
    ∃ dT dG d1 more,
      d.endFrameQueue .Transfer = some dT ∧ dT.endFrameQueue .Graphics = some dG ∧
      dG.endFrameQueue .Compute = some d1 ∧ d.EndFrameNoLock = some d1 ∧
      dT.needsSubmit .Graphics = d.needsSubmit .Graphics ∧
      dG.needsSubmit .Compute = d.needsSubmit .Compute ∧
      (d.needsSubmit .Transfer = false → dT = d) ∧
      (d.needsSubmit .Graphics = false → dG = dT) ∧
      (d.needsSubmit .Compute = false → d1 = dG) ∧
      (d.needsSubmit .Transfer = true → ∃ r, d.SubmitQueue .Transfer true none = some r) ∧
      (d.needsSubmit .Graphics = true → ∃ r, dT.SubmitQueue .Graphics true none = some r) ∧
      (d.needsSubmit .Compute = true → ∃ r, dG.SubmitQueue .Compute true none = some r) ∧
      d1.calls = d.calls ++ more ∧
      more.filterMap NativeCall.submitQueue =
        (QueueFlushOrder.filter d.needsSubmit).map d.Queues.get ∧
      (∀ q, (d1.queueData.get q).NeedsFence = false) ∧
      (∀ q, d1.pending q = []) := by
  refine ⟨rfl, ?_⟩
  obtain ⟨f, hf⟩ := hf
  obtain ⟨d1, hend, _, _⟩ := Device.endFrameQueues_ready QueueFlushOrder d ⟨f, hf⟩ hr hq
  have hend2 : d.EndFrameNoLock = some d1 := hend
  simp only [QueueFlushOrder, Device.endFrameQueues] at hend
  split at hend
  · cases hend
  · rename_i dT hT
    split at hend
    · cases hend
    · rename_i dG hG
      split at hend
      · cases hend
      · rename_i dC hC
        simp only [Option.some.injEq] at hend
        subst hend
        -- the turn of the transfer queue
        obtain ⟨a1, a2, a3, a4, ⟨fT, hfT⟩, m1, a5, a6⟩ :=
          Device.endFrameQueue_summary d dT .Transfer f hf (Or.inr rfl) hT
        have tT := Device.endFrameQueue_turn d dT .Transfer f hf (Or.inr rfl) hT
        -- the turn of the graphics queue
        obtain ⟨b1, b2, b3, b4, ⟨fG, hfG⟩, m2, b5, b6⟩ :=
          Device.endFrameQueue_summary dT dG .Graphics fT hfT (Or.inl a3) hG
        have tG := Device.endFrameQueue_turn dT dG .Graphics fT hfT (Or.inl a3) hG
        have hTG : dG.pending .Transfer = [] := by
          rw [(b1 .Transfer (by decide)).2]
          exact a3
        -- the turn of the compute queue
        obtain ⟨c1, c2, c3, c4, _, m3, c5, c6⟩ :=
          Device.endFrameQueue_summary dG dC .Compute fG hfG (Or.inl hTG) hC
        have tC := Device.endFrameQueue_turn dG dC .Compute fG hfG (Or.inl hTG) hC
        have nG : dT.needsSubmit .Graphics = d.needsSubmit .Graphics :=
          Device.needsSubmit_congr d dT .Graphics (a1 .Graphics (by decide))
        have nC : dG.needsSubmit .Compute = d.needsSubmit .Compute := by
          rw [Device.needsSubmit_congr dT dG .Compute (b1 .Compute (by decide))]
          exact Device.needsSubmit_congr d dT .Compute (a1 .Compute (by decide))
        refine ⟨dT, dG, dC, m1 ++ m2 ++ m3, hT, hG, hC, hend2, nG, nC, ?_, ?_, ?_, ?_, ?_, ?_,
          ?_, ?_, ?_, ?_⟩
        · intro hn
          rcases tT with ⟨_, e⟩ | ⟨h1, _⟩
          · exact e
          · rw [hn] at h1
            cases h1
        · intro hn
          rcases tG with ⟨_, e⟩ | ⟨h1, _⟩
          · exact e
          · rw [nG, hn] at h1
            cases h1
        · intro hn
          rcases tC with ⟨_, e⟩ | ⟨h1, _⟩
          · exact e
          · rw [nC, hn] at h1
            cases h1
        · intro hn
          rcases tT with ⟨h1, _⟩ | ⟨_, e, _⟩
          · rw [hn] at h1
            cases h1
          · exact e
        · intro hn
          rcases tG with ⟨h1, _⟩ | ⟨_, e, _⟩
          · rw [nG, hn] at h1
            cases h1
          · exact e
        · intro hn
          rcases tC with ⟨h1, _⟩ | ⟨_, e, _⟩
          · rw [nC, hn] at h1
            cases h1
          · exact e
        · rw [c5, b5, a5]
          simp only [List.append_assoc]
        · rw [List.filterMap_append, List.filterMap_append]
          simp only [a6, b6, c6, nG, nC, b4, a4]
          cases hnT : d.needsSubmit .Transfer <;> cases hnG : d.needsSubmit .Graphics <;>
            cases hnC : d.needsSubmit .Compute <;>
            simp [QueueFlushOrder, List.filter, hnT, hnG, hnC]
        · intro q
          cases q
          · rw [(c1 .Graphics (by decide)).1]
            exact b2
          · rw [(c1 .Transfer (by decide)).1, (b1 .Transfer (by decide)).1]
            exact a2
          · exact c2
        · intro q
          cases q
          · rw [(c1 .Graphics (by decide)).2]
            exact b3
          · rw [(c1 .Transfer (by decide)).2]
            exact hTG
          · exact c3

theorem twoQueuesPendingDevice_ready :
    (∃ f, twoQueuesPendingDevice.Frame = some f) ∧ twoQueuesPendingDevice.acquireReady ∧
    ∀ q, twoQueuesPendingDevice.QueueReady q := by
  refine ⟨⟨_, rfl⟩, ?_, ?_⟩
  · intro a ha
    cases ha
  · intro q
    cases q
    · refine ⟨⟨by decide, ?_⟩, by decide⟩
      intro s hs
      cases hs
    · refine ⟨⟨by decide, ?_⟩, by decide⟩
      intro s hs
      cases hs
    · refine ⟨⟨by decide, ?_⟩, by decide⟩
      intro s hs
      cases hs

/-- Claim C21 on a device without timeline semaphores, with a command buffer pending on
the transfer queue and one on the compute queue and nothing to submit on the graphics
queue: `EndFrameNoLock` completes, its calls of `queue.submit` go to the transfer queue
(native handle 2) and then to the compute queue (handle 3), and afterwards no queue
needs a fence or has a submission pending. -/
theorem C21_end_frame_order_witness :
    (∃ f, twoQueuesPendingDevice.Frame = some f) ∧ twoQueuesPendingDevice.acquireReady ∧
    (∀ q, twoQueuesPendingDevice.QueueReady q) ∧
    twoQueuesPendingDevice.needsSubmit .Transfer = true ∧
    twoQueuesPendingDevice.needsSubmit .Graphics = false ∧
    twoQueuesPendingDevice.needsSubmit .Compute = true ∧
    ∃ d1 more, twoQueuesPendingDevice.EndFrameNoLock = some d1 ∧
      d1.calls = twoQueuesPendingDevice.calls ++ more ∧
      more.filterMap NativeCall.submitQueue = [2, 3] ∧
      (∀ q, (d1.queueData.get q).NeedsFence = false) ∧ (∀ q, d1.pending q = []) := by
  obtain ⟨h1, h2, h3⟩ := twoQueuesPendingDevice_ready
  obtain ⟨_, _, _, d1, more, _, _, _, a, _, _, _, _, _, _, _, _, b, c, e, g⟩ :=
    C21_end_frame_order twoQueuesPendingDevice h1 h2 h3
  have c2 : (QueueFlushOrder.filter twoQueuesPendingDevice.needsSubmit).map
      twoQueuesPendingDevice.Queues.get = [2, 3] := by decide
  exact ⟨h1, h2, h3, by decide, by decide, by decide, d1, more, a, b, c.trans c2, e, g⟩

/-- C27, evaluated: with timeline semaphores, `Submit(cmd, nullptr, &semaphores)` with a
vector of one entry hands out a handle over the timeline semaphore of the graphics queue
(native handle 11) and the value 1.  When this handle goes away without having been
consumed, its destructor, finding `_value > 0`, appends the semaphore to
`SemaphoresToDestroy` of the current frame context, while `QueueData` still holds it; two
calls of `NextFrame` later `destroySemaphore(11)` has been called, and the queue data
still name the semaphore 11.  A handle that was consumed holds no native semaphore, and
its destructor leaves the device as it is. -/
theorem C27_timeline_semaphore_destroyed :
    requestedDevice.Submit ⟨0, 1, 2⟩ .Generic ⟨53, 0⟩ false (some 1) = some handedOut ∧
    handedOut.semaphores = [Semaphore.timeline 11 1] ∧
    (handedOut.device.queueData.get .Graphics).TimelineSemaphore = 11 ∧
    handedOut.device.Frame.map (fun f => f.SemaphoresToDestroy) = some [] ∧
    handedOut.device.dropSemaphoreHandle handedOut.semaphores.head? = some handleDropped ∧
    handleDropped.Frame.map (fun f => f.SemaphoresToDestroy) = some [11] ∧
    (handleDropped.queueData.get .Graphics).TimelineSemaphore = 11 ∧
    (handleDropped.NextFrame []).bind (fun d => d.NextFrame []) = some handleDroppedLater ∧
    NativeCall.destroySemaphore 11 ∈ handleDroppedLater.calls ∧
    (handleDroppedLater.queueData.get .Graphics).TimelineSemaphore = 11 ∧
    (∃ consumed, (Semaphore.timeline 11 1).Consume = some (11, consumed) ∧
      handedOut.device.dropSemaphoreHandle (some consumed) = some handedOut.device) := by
  refine ⟨by decide, by decide, by decide, by decide, by decide, by decide, by decide,
    by decide, by decide, by decide, ⟨_, rfl, by decide⟩⟩

theorem Device.addWaits_one (d : Device) (semaphores : List Semaphore) (flush : Bool)
    (q : QueueType) (stages : Nat) :
    d.addWaits semaphores flush [(q, stages)] 0 =
      match semaphores[0]? with
      | none => none
      | some semaphore => d.AddWaitSemaphoreNoLock q semaphore stages flush := by
  simp only [Device.addWaits]
  cases semaphores[0]? with
  | none => rfl
  | some semaphore =>
    simp only
    cases d.AddWaitSemaphoreNoLock q semaphore stages flush <;> rfl

theorem Device.addWaits_two (d : Device) (semaphores : List Semaphore) (flush : Bool)
    (q q2 : QueueType) (stages stages2 : Nat) :
    d.addWaits semaphores flush [(q, stages), (q2, stages2)] 0 =
      match semaphores[0]?, semaphores[1]? with
      | some semaphore0, some semaphore1 =>
        match d.AddWaitSemaphoreNoLock q semaphore0 stages flush with
        | none => none
        | some d1 => (d1.AddWaitSemaphoreNoLock q2 semaphore1 stages2 flush).map (fun d2 => d2)
      | _, _ => none := by
  simp only [Device.addWaits]
  cases semaphores[0]? with
  | none => rfl
  | some semaphore0 =>
    cases h1 : semaphores[1]? with
    | none =>
      simp only [zero_add, h1]
      cases d.AddWaitSemaphoreNoLock q semaphore0 stages flush <;> rfl
    | some semaphore1 =>
      simp only [zero_add, h1]
      cases d.AddWaitSemaphoreNoLock q semaphore0 stages flush with
      | none => rfl
      | some d1 =>
        simp only [Option.map_id', id_eq]
        cases d1.AddWaitSemaphoreNoLock q2 semaphore1 stages2 flush <;> rfl

/-- The method `SubmitStaging` leaves the device the hand-off of the specification leaves:
the command buffer is submitted with one semaphore requested per wait, and the waits are
those of `stagingWaits`, each with its own entry of the vector. -/
theorem Device.SubmitStaging_eq (d : Device) (families : PerQueue Nat)
    (cbType : CommandBufferType) (cmd : Submission) (usage : Nat) (flush : Bool) :
    (d.SubmitStaging families cbType cmd usage flush).map Prod.fst =
      d.stagingHandOff families cbType cmd usage flush := by
  unfold Device.SubmitStaging Device.stagingHandOff Device.stagingWaits
  simp only
  generalize BufferUsageToStages usage = s
  generalize BufferUsageToAccess usage = a
  generalize d.Queues.get (d.GetQueueType families cbType) = src
  have hzero : s = 0 → s &&& (0x800 ||| 0x1000 ||| 0x2) = 0 := by
    intro h
    rw [h]
    exact Nat.zero_and _
  rcases Classical.propComplete (src = d.Queues.get .Graphics) with eG | eG <;>
    rcases Classical.propComplete (src = d.Queues.get .Compute) with eC | eC <;>
    rcases Classical.propComplete (s = 0) with es | es <;>
    rcases Classical.propComplete (s &&& (0x800 ||| 0x1000 ||| 0x2) = 0) with ecs | ecs
  all_goals
    first
    | exact absurd (hzero (of_eq_true es)) (of_eq_false ecs)
    | (simp only [eG, eC, es, ecs, ne_eq, not_true_eq_false, not_false_eq_true, and_self,
        and_true, and_false, true_and, false_and, if_true, if_false, List.append_nil,
        List.nil_append, List.isEmpty_nil, List.isEmpty_cons, List.length_cons,
        List.length_nil, List.cons_append, Bool.false_eq_true, zero_add, Nat.reduceAdd,
        Option.map_map, Device.addWaits_one, Device.addWaits_two, Device.addWaits]
       first
       | (cases d.SubmitNoLock families cbType cmd false none <;> rfl)
       | (cases d.SubmitNoLock families cbType cmd false (some 1) with
          | none => rfl
          | some r =>
            simp only [Option.map_map]
            cases r.semaphores[0]? with
            | none => rfl
            | some semaphore =>
              simp only
              cases r.device.AddWaitSemaphoreNoLock _ semaphore _ flush <;> rfl)
       | (cases d.SubmitNoLock families cbType cmd false (some 2) with
          | none => rfl
          | some r =>
            simp only
            cases r.semaphores[0]? with
            | none => rfl
            | some semaphore0 =>
              cases r.semaphores[1]? with
              | none => rfl
              | some semaphore1 =>
                simp only
                cases r.device.AddWaitSemaphoreNoLock .Graphics semaphore0 s flush with
                | none => rfl
                | some d1 =>
                  simp only [Option.map_map]
                  cases d1.AddWaitSemaphoreNoLock .Compute semaphore1 _ flush <;> rfl))

/-- A call of `SubmitNoLock` without fence that completes hands back as many semaphores
as were requested. -/
theorem Device.SubmitNoLock_semaphores (d : Device) (families : PerQueue Nat)
    (cbType : CommandBufferType) (cmd : Submission) (semaphores : Option Nat) (s : Submitted)
    (h : d.SubmitNoLock families cbType cmd false semaphores = some s) :
    s.semaphores.length = semaphores.getD 0 ∧
    s.device.lockCounter = (d.lockCounter + 2 ^ 32 - 1) % 2 ^ 32 := by
  obtain ⟨d1, r, hd1, hr, hs1, _, hs3, hn⟩ :=
    Device.SubmitNoLock_eq d families cbType cmd false semaphores s h
  obtain ⟨f, hf, e1⟩ := Device.modifyFrame_effect d d1 _ hd1
  obtain ⟨f2, hf2, _, hsub⟩ := e1.frame f hf
  rw [hs3, hs1]
  cases semaphores with
  | none =>
    rw [hn (by simp)]
    exact ⟨rfl, by rw [← e1.lock]; rfl⟩
  | some n =>
    have hr1 := hr (Or.inr rfl)
    have hearly : Device.nothingToSubmit f2 (d.GetQueueType families cbType) false (some n)
        = false := by
      simp [Device.nothingToSubmit, hsub, PerQueue.get_set]
    obtain ⟨d0, hbody, _, _, _, hl, _, _⟩ := Device.SubmitQueue_body d1
      (d.GetQueueType families cbType) false (some n) r f2 hf2 hearly hr1
    obtain ⟨e, _, _, hlen⟩ := Device.submitQueueBody_effect d0 _ false (some n) r hbody
    refine ⟨hlen, ?_⟩
    show (r.device.lockCounter + 2 ^ 32 - 1) % 2 ^ 32 = _
    rw [e.lock, hl, e1.lock]

/-- Claim C22.  `SubmitStaging` leaves the device the hand-off of the specification
leaves: with `src` the native queue of the command buffer, `stages` the stages of the
usage and `computeStages` their restriction to compute shader, transfer and draw
indirect, the command buffer is submitted with one semaphore requested per wait (no
vector at all for none), a wait is added to the graphics queue exactly when `src` is not
the graphics queue and `stages` is not empty, to the compute queue exactly when `src` is
not the compute queue and `computeStages` is not empty, wait number `k` uses the entry
`k` of the vector, and the submit hands back exactly as many semaphores as there are
waits (at most 2).  When `src` is both the graphics and the compute queue there is no
wait, no semaphore is requested, and the one barrier from the transfer write to the
stages and accesses of the usage is recorded.  On a device without timeline semaphores a
transfer command buffer that fills a uniform buffer gives the graphics queue a wait on
the semaphore 100 and the compute queue one on the semaphore 101. -/
theorem C22_staging_hand_off (d : Device) (families : PerQueue Nat)
    (cbType : CommandBufferType) (cmd : Submission) (usage : Nat) (flush : Bool) :
    (d.SubmitStaging families cbType cmd usage flush).map Prod.fst =
      d.stagingHandOff families cbType cmd usage flush ∧
    (∀ q s, (q, s) ∈ d.stagingWaits families cbType usage ↔
      (q = .Graphics ∧ d.Queues.get (d.GetQueueType families cbType) ≠ d.Queues.get .Graphics ∧
        BufferUsageToStages usage ≠ 0 ∧ s = BufferUsageToStages usage) ∨
      (q = .Compute ∧ d.Queues.get (d.GetQueueType families cbType) ≠ d.Queues.get .Compute ∧
        BufferUsageToStages usage &&& (0x800 ||| 0x1000 ||| 0x2) ≠ 0 ∧
        s = BufferUsageToStages usage &&& (0x800 ||| 0x1000 ||| 0x2))) ∧
    (d.stagingWaits families cbType usage).length ≤ 2 ∧
    ((d.stagingWaits families cbType usage).map Prod.fst).Nodup ∧
    (∀ r, d.SubmitNoLock families cbType cmd false
        (if (d.stagingWaits families cbType usage).isEmpty then none
          else some (d.stagingWaits families cbType usage).length) = some r →
      r.semaphores.length = (d.stagingWaits families cbType usage).length) ∧
    (d.Queues.get (d.GetQueueType families cbType) = d.Queues.get .Graphics ∧
        d.Queues.get (d.GetQueueType families cbType) = d.Queues.get .Compute →
      d.stagingWaits families cbType usage = [] ∧
      d.SubmitStaging families cbType cmd usage flush =
        (d.SubmitNoLock families cbType cmd false none).map (fun r =>
          (r.device, [⟨0x1000, 0x1000, BufferUsageToStages usage, BufferUsageToAccess usage⟩]))) ∧
    requestedBinaryDevice.SubmitStaging ⟨0, 1, 2⟩ .AsyncTransfer ⟨54, 0⟩ 0x10 false =
      some stagedUniform ∧
    requestedBinaryDevice.stagingWaits ⟨0, 1, 2⟩ .AsyncTransfer 0x10 =
      [(.Graphics, 0x888), (.Compute, 0x800)] ∧
    (stagedUniform.1.queueData.get .Graphics).WaitSemaphores =
      [(Semaphore.binary 100 true).SignalPendingWait] ∧
    (stagedUniform.1.queueData.get .Graphics).WaitStages = [0x888] ∧
    (stagedUniform.1.queueData.get .Compute).WaitSemaphores =
      [(Semaphore.binary 101 true).SignalPendingWait] ∧
    (stagedUniform.1.queueData.get .Compute).WaitStages = [0x800] ∧
    stagedUniform.2 = [] := by
  refine ⟨Device.SubmitStaging_eq d families cbType cmd usage flush, ?_, ?_, ?_, ?_, ?_,
    by decide, by decide, by decide, by decide, by decide, by decide, by decide⟩
  · intro q s
    simp only [Device.stagingWaits, List.mem_append]
    constructor
    · rintro (h | h)
      · split at h
        · rename_i hc
          simp only [List.mem_singleton, Prod.mk.injEq] at h
          exact Or.inl ⟨h.1, hc.1, hc.2, h.2⟩
        · cases h
      · split at h
        · rename_i hc
          simp only [List.mem_singleton, Prod.mk.injEq] at h
          exact Or.inr ⟨h.1, hc.1, hc.2, h.2⟩
        · cases h
    · rintro (⟨rfl, h1, h2, rfl⟩ | ⟨rfl, h1, h2, rfl⟩)
      · left
        rw [if_pos ⟨h1, h2⟩]
        exact List.mem_singleton.mpr rfl
      · right
        rw [if_pos ⟨h1, h2⟩]
        exact List.mem_singleton.mpr rfl
  · simp only [Device.stagingWaits]
    split <;> split <;> simp
  · simp only [Device.stagingWaits]
    split <;> split <;> simp
  · intro r hr
    have hlen := (Device.SubmitNoLock_semaphores d families cbType cmd _ r hr).1
    rw [hlen]
    cases d.stagingWaits families cbType usage with
    | nil => rfl
    | cons w ws => rfl
  · rintro ⟨hG, hC⟩
    constructor
    · simp only [Device.stagingWaits, eq_true hG, eq_true hC, ne_eq, not_true_eq_false,
        false_and, if_false, List.append_nil]
    · unfold Device.SubmitStaging
      simp only [eq_true hG, eq_true hC, and_self, if_true, Option.map_map]
      rfl

theorem Device.SubmitNoLock_lock (d : Device) (families : PerQueue Nat)
    (cbType : CommandBufferType) (cmd : Submission) (fence : Bool) (semaphores : Option Nat)
    (s : Submitted) (h : d.SubmitNoLock families cbType cmd fence semaphores = some s) :
    s.device.lockCounter = (d.lockCounter + 2 ^ 32 - 1) % 2 ^ 32 := by
  obtain ⟨d1, r, hd1, hr, hs1, _, _, hn⟩ :=
    Device.SubmitNoLock_eq d families cbType cmd fence semaphores s h
  obtain ⟨f, hf, e1⟩ := Device.modifyFrame_effect d d1 _ hd1
  have hl : r.device.lockCounter = d.lockCounter := by
    by_cases hc : fence = true ∨ semaphores.isSome = true
    · obtain ⟨_, _, _, c, hadv⟩ := Device.SubmitQueue_eq d1 _ fence semaphores r (hr hc)
      rw [hadv.lock, e1.lock]
    · rw [hn hc]
      exact e1.lock
  rw [hs1]
  show (r.device.lockCounter + 2 ^ 32 - 1) % 2 ^ 32 = _
  rw [hl]

theorem Device.AddWaitSemaphoreNoLock_lock (d d1 : Device) (q : QueueType) (s : Semaphore)
    (stages : Nat) (flush : Bool) (h : d.AddWaitSemaphoreNoLock q s stages flush = some d1) :
    d1.lockCounter = d.lockCounter := by
  unfold Device.AddWaitSemaphoreNoLock at h
  split at h
  · cases h
  · rename_i d2 hd2
    simp only [Option.some.injEq] at h
    subst h
    show d2.lockCounter = d.lockCounter
    split at hd2
    · unfold Device.FlushFrame at hd2
      split at hd2
      · simp only [Option.some.injEq] at hd2
        rw [hd2]
      · cases hr : d.SubmitQueue q false none with
        | none => simp [hr] at hd2
        | some r =>
          simp only [hr, Option.map_some', Option.some.injEq] at hd2
          obtain ⟨_, _, _, c, hadv⟩ := Device.SubmitQueue_eq d q false none r hr
          rw [← hd2]
          exact hadv.lock
    · simp only [Option.some.injEq] at hd2
      rw [hd2]

theorem Device.addWaits_lock (semaphores : List Semaphore) (flush : Bool)
    (waits : List (QueueType × Nat)) (d d1 : Device) (k : Nat)
    (h : d.addWaits semaphores flush waits k = some d1) : d1.lockCounter = d.lockCounter := by
  induction waits generalizing d k with
  | nil =>
    simp only [Device.addWaits, Option.some.injEq] at h
    rw [h]
  | cons w rest ih =>
    obtain ⟨q, stages⟩ := w
    simp only [Device.addWaits] at h
    split at h
    · cases h
    · rename_i s hs
      split at h
      · cases h
      · rename_i d2 hd2
        rw [ih d2 (k + 1) h]
        exact Device.AddWaitSemaphoreNoLock_lock d d2 q s stages flush hd2

theorem Device.SubmitStaging_lock (d : Device) (families : PerQueue Nat)
    (cbType : CommandBufferType) (cmd : Submission) (usage : Nat) (flush : Bool)
    (r : Device × List MemoryBarrierCall)
    (h : d.SubmitStaging families cbType cmd usage flush = some r) :
    r.1.lockCounter = (d.lockCounter + 2 ^ 32 - 1) % 2 ^ 32 := by
  have he := Device.SubmitStaging_eq d families cbType cmd usage flush
  rw [h] at he
  simp only [Option.map_some'] at he
  unfold Device.stagingHandOff at he
  simp only at he
  split at he
  · cases he
  · rename_i s hs
    rw [Device.addWaits_lock _ _ _ _ _ _ he.symm]
    exact Device.SubmitNoLock_lock d families cbType cmd false _ s hs

theorem Device.RequestCommandBufferNoLock_lock (d d1 : Device)
    (h : d.RequestCommandBufferNoLock = some d1) :
    d1.lockCounter = (d.lockCounter + 1) % 2 ^ 32 := by
  unfold Device.RequestCommandBufferNoLock at h
  split at h
  · cases h
  · simp only [Option.some.injEq] at h
    rw [← h]

/-- One call keeps the lock counter equal to the number of outstanding command buffers,
as long as fewer than `2 ^ 32 - 1` are outstanding; a submission finds its command
buffer outstanding and lowers the counter by exactly one, without wrapping. -/
theorem LockCall.run_counter (families : PerQueue Nat) (c : LockCall) (st st1 : LockState)
    (h : c.run families st = some st1)
    (hinv : st.device.lockCounter = st.outstanding.length)
    (hb : st.outstanding.length + 1 < 2 ^ 32) :
    st1.device.lockCounter = st1.outstanding.length ∧
    st1.outstanding.length ≤ st.outstanding.length + 1 ∧
    (∀ native, c.submits = some native →
      native ∈ st.outstanding ∧ 1 ≤ st.device.lockCounter ∧
      st1.device.lockCounter + 1 = st.device.lockCounter) ∧
    (c.submits = none → st1.device.lockCounter = st.device.lockCounter + 1) := by
  have hreq : ∀ d1 native, st.device.RequestCommandBufferNoLock = some d1 →
      st1 = ⟨d1, st.outstanding ++ [native]⟩ →
      st1.device.lockCounter = st1.outstanding.length ∧
      st1.outstanding.length ≤ st.outstanding.length + 1 ∧
      st1.device.lockCounter = st.device.lockCounter + 1 := by
    intro d1 native hd1 hst
    have hl := Device.RequestCommandBufferNoLock_lock st.device d1 hd1
    rw [hinv, Nat.mod_eq_of_lt hb] at hl
    subst hst
    simp only [List.length_append, List.length_singleton]
    exact ⟨hl, Nat.le_refl _, by rw [hl, hinv]⟩
  have hsub : ∀ (d1 : Device) (native : Nat), native ∈ st.outstanding →
      d1.lockCounter = (st.device.lockCounter + 2 ^ 32 - 1) % 2 ^ 32 →
      st1 = ⟨d1, st.outstanding.erase native⟩ →
      st1.device.lockCounter = st1.outstanding.length ∧
      st1.outstanding.length ≤ st.outstanding.length + 1 ∧
      1 ≤ st.device.lockCounter ∧
      st1.device.lockCounter + 1 = st.device.lockCounter := by
    intro d1 native hmem hl hst
    have hpos : 0 < st.outstanding.length := List.length_pos_of_mem hmem
    have hlen := List.length_erase_of_mem hmem
    subst hst
    have hl2 : d1.lockCounter = st.outstanding.length - 1 := by
      rw [hl, hinv]
      omega
    simp only
    rw [hlen, hl2, hinv]
    omega
  cases c with
  | request native =>
    simp only [LockCall.run, Device.RequestCommandBuffer, Device.RequestCommandBufferForThread]
      at h
    cases hd1 : st.device.RequestCommandBufferNoLock with
    | none => simp [hd1] at h
    | some d1 =>
      simp only [hd1, Option.map_some', Option.some.injEq] at h
      obtain ⟨a, b, c⟩ := hreq d1 native hd1 h.symm
      exact ⟨a, b, (fun _ hn => by cases hn), fun _ => c⟩
  | requestForThread native =>
    simp only [LockCall.run, Device.RequestCommandBufferForThread] at h
    cases hd1 : st.device.RequestCommandBufferNoLock with
    | none => simp [hd1] at h
    | some d1 =>
      simp only [hd1, Option.map_some', Option.some.injEq] at h
      obtain ⟨a, b, c⟩ := hreq d1 native hd1 h.symm
      exact ⟨a, b, (fun _ hn => by cases hn), fun _ => c⟩
  | submit cbType cmd fence semaphores =>
    simp only [LockCall.run] at h
    split at h
    · rename_i hmem
      cases hr : st.device.Submit families cbType cmd fence semaphores with
      | none => simp [hr] at h
      | some r =>
        simp only [hr, Option.map_some', Option.some.injEq] at h
        obtain ⟨a, b, c, e⟩ := hsub r.device cmd.commandBuffer hmem
          (Device.SubmitNoLock_lock st.device families cbType cmd fence semaphores r hr) h.symm
        refine ⟨a, b, ?_, fun hn => by cases hn⟩
        intro native hn
        simp only [LockCall.submits, Option.some.injEq] at hn
        subst hn
        exact ⟨hmem, c, e⟩
    · cases h
  | submitStaging cbType cmd usage flush =>
    simp only [LockCall.run] at h
    split at h
    · rename_i hmem
      cases hr : st.device.SubmitStaging families cbType cmd usage flush with
      | none => simp [hr] at h
      | some r =>
        simp only [hr, Option.map_some', Option.some.injEq] at h
        obtain ⟨a, b, c, e⟩ := hsub r.1 cmd.commandBuffer hmem
          (Device.SubmitStaging_lock st.device families cbType cmd usage flush r hr) h.symm
        refine ⟨a, b, ?_, fun hn => by cases hn⟩
        intro native hn
        simp only [LockCall.submits, Option.some.injEq] at hn
        subst hn
        exact ⟨hmem, c, e⟩
    · cases h

theorem runLockCalls_counter (families : PerQueue Nat) (calls : List LockCall)
    (st0 st : LockState) (h0 : st0.device.lockCounter = st0.outstanding.length)
    (hlen : st0.outstanding.length + calls.length < 2 ^ 32)
    (h : runLockCalls families calls st0 = some st) :
    st.device.lockCounter = st.outstanding.length ∧
    st.outstanding.length ≤ st0.outstanding.length + calls.length := by
  induction calls generalizing st0 with
  | nil =>
    simp only [runLockCalls, Option.some.injEq] at h
    subst h
    exact ⟨h0, Nat.le_add_right _ _⟩
  | cons c rest ih =>
    simp only [runLockCalls] at h
    simp only [List.length_cons] at hlen
    split at h
    · cases h
    · rename_i st1 h1
      obtain ⟨a, b, _, _⟩ := LockCall.run_counter families c st0 st1 h1 h0 (by omega)
      obtain ⟨k1, k2⟩ := ih st1 a (by omega) h
      refine ⟨k1, ?_⟩
      simp only [List.length_cons]
      omega

theorem runLockCalls_split (families : PerQueue Nat) (pre : List LockCall) (c : LockCall)
    (post : List LockCall) (st0 st : LockState)
    (h : runLockCalls families (pre ++ c :: post) st0 = some st) :
    ∃ mid next, runLockCalls families pre st0 = some mid ∧ c.run families mid = some next ∧
      runLockCalls families post next = some st := by
  induction pre generalizing st0 with
  | nil =>
    simp only [List.nil_append, runLockCalls] at h
    split at h
    · cases h
    · rename_i next hnext
      exact ⟨st0, next, rfl, hnext, h⟩
  | cons x xs ih =>
    simp only [List.cons_append, runLockCalls] at h
    split at h
    · cases h
    · rename_i st1 h1
      obtain ⟨mid, next, a, b, e⟩ := ih st1 h
      exact ⟨mid, next, by simp only [runLockCalls, h1, a], b, e⟩

/-- Claim C28.  Start from a device whose lock counter equals the number of outstanding
command buffers (as on a device as constructed, with none), and make fewer calls than
would bring `2 ^ 32` command buffers outstanding.  After every sequence of
`RequestCommandBuffer`, `RequestCommandBufferForThread`, `Submit` and `SubmitStaging`
calls in which a command buffer is submitted at most once, the lock counter equals the
number of command buffers requested and not yet submitted; it is 0 exactly when there
is none.  This holds at every point of the sequence; a request raises the counter by
one, and a submission finds the counter at 1 or more and lowers it by exactly one, so
that it never underflows. -/
theorem C28_lock_counter (families : PerQueue Nat) (calls : List LockCall)
    (st0 st : LockState) (h0 : st0.device.lockCounter = st0.outstanding.length)
    (hlen : st0.outstanding.length + calls.length < 2 ^ 32)
    (h : runLockCalls families calls st0 = some st) :
    st.device.lockCounter = st.outstanding.length ∧
    (st.device.lockCounter = 0 ↔ st.outstanding = []) ∧
    ∀ pre c post, calls = pre ++ c :: post →
      ∃ mid next, runLockCalls families pre st0 = some mid ∧
        c.run families mid = some next ∧
        mid.device.lockCounter = mid.outstanding.length ∧
        next.device.lockCounter = next.outstanding.length ∧
        (c.submits = none → next.device.lockCounter = mid.device.lockCounter + 1) ∧
        ∀ native, c.submits = some native →
          native ∈ mid.outstanding ∧ 1 ≤ mid.device.lockCounter ∧
          next.device.lockCounter + 1 = mid.device.lockCounter := by
  obtain ⟨k1, _⟩ := runLockCalls_counter families calls st0 st h0 hlen h
  refine ⟨k1, ?_, ?_⟩
  · rw [k1]
    exact List.length_eq_zero
  · intro pre c post hcalls
    subst hcalls
    obtain ⟨mid, next, a, b, _⟩ := runLockCalls_split families pre c post st0 st h
    simp only [List.length_append, List.length_cons] at hlen
    obtain ⟨m1, m2⟩ := runLockCalls_counter families pre st0 mid h0 (by omega) a
    obtain ⟨n1, _, n3, n4⟩ := LockCall.run_counter families c mid next b m1 (by omega)
    exact ⟨mid, next, a, b, m1, n1, n4, n3⟩

/-- Claim C28 on a device as constructed: three command buffers are requested, two of
them are submitted (one through `Submit`, one through `SubmitStaging`) and the third is
dropped without `Submit`; the sequence completes, and the lock counter is 1, the number
of command buffers outstanding. -/
theorem C28_lock_counter_witness :
    (∃ st, runLockCalls ⟨0, 1, 2⟩ threeRequests ⟨Device.create true, []⟩ = some st ∧
      st.outstanding = [73] ∧ st.device.lockCounter = 1) ∧
    (Device.create true).lockCounter = 0 := by
  have hrun : ∃ st, runLockCalls ⟨0, 1, 2⟩ threeRequests ⟨Device.create true, []⟩ = some st ∧
      st.outstanding = [73] := by
    refine ⟨(runLockCalls ⟨0, 1, 2⟩ threeRequests ⟨Device.create true, []⟩).getD
      ⟨Device.create true, []⟩, by decide, by decide⟩
  obtain ⟨st, hst, hout⟩ := hrun
  have h := (C28_lock_counter ⟨0, 1, 2⟩ threeRequests ⟨Device.create true, []⟩ st
    (by decide) (by decide) hst).1
  rw [hout] at h
  exact ⟨⟨st, hst, hout, h⟩, by decide⟩

/-- Claim C22 on a device without timeline semaphores, for a transfer command buffer
that fills a uniform buffer: the two waits are those of the graphics and of the compute
queue, the submit is asked for two semaphores and hands back two, and `SubmitStaging`
leaves the device of the hand-off. -/
theorem C22_staging_hand_off_witness :
    requestedBinaryDevice.stagingWaits ⟨0, 1, 2⟩ .AsyncTransfer 0x10 =
      [(.Graphics, 0x888), (.Compute, 0x800)] ∧
    requestedBinaryDevice.SubmitNoLock ⟨0, 1, 2⟩ .AsyncTransfer ⟨54, 0⟩ false (some 2) =
      some stagedSubmit ∧
    stagedSubmit.semaphores.length = 2 ∧
    (requestedBinaryDevice.SubmitStaging ⟨0, 1, 2⟩ .AsyncTransfer ⟨54, 0⟩ 0x10 false).map
      Prod.fst = requestedBinaryDevice.stagingHandOff ⟨0, 1, 2⟩ .AsyncTransfer ⟨54, 0⟩ 0x10 false :=
  ⟨by decide, by decide,
    ((C22_staging_hand_off requestedBinaryDevice ⟨0, 1, 2⟩ .AsyncTransfer ⟨54, 0⟩ 0x10
      false).2.2.2.2.1 stagedSubmit (by decide)).trans (by decide),
    (C22_staging_hand_off requestedBinaryDevice ⟨0, 1, 2⟩ .AsyncTransfer ⟨54, 0⟩ 0x10 false).1⟩

/-- Claim C2 does not hold of the code.  Nine command buffers that each render to the
swapchain (handles 21 to 29) are pending on the graphics queue of a device as
constructed, no acquire semaphore is set, and `SubmitQueue(Graphics, &fence, nullptr)`
is called.  `_swapchainAcquireConsumed` stays `false`, so each of them takes the swapchain
branch and signals a release semaphore of its own: after eight turns of the loop the
batches hold the handles 21 to 28 in submission order, one per batch, and the index is 7.
The ninth turn finds the last batch signalling, moves the index to
`8 = MaxSubmissions`, and the assertion `batch < MaxSubmissions` fails: the call does not
complete, nothing is submitted and the pending list is not cleared.  With the first
eight alone the call completes and the order is kept. -/
theorem C2_ninth_swapchain_buffer_not_submitted :
    ((Device.create false).withPending nineSwapchainSubmissions).pending .Graphics
      = nineSwapchainSubmissions ∧
    ((Device.create false).withPending nineSwapchainSubmissions).swapchainAcquire = none ∧
    (((Device.create false).withPending nineSwapchainSubmissions).batchedAfter
        nineSwapchainSubmissions 8).map
      (fun st => (allCommandBuffers st.batches, st.batch, st.device.swapchainAcquireConsumed))
      = some ([21, 22, 23, 24, 25, 26, 27, 28], 7, false) ∧
    7 + 1 = MaxSubmissions ∧
    (((Device.create false).withPending nineSwapchainSubmissions).batchedAfter
        nineSwapchainSubmissions 8).bind (fun st => st.addCommandBuffer ⟨29, 0x400⟩) = none ∧
    ((Device.create false).withPending nineSwapchainSubmissions).SubmitQueue .Graphics true none
      = none ∧
    (((Device.create false).withPending (nineSwapchainSubmissions.take 8)).SubmitQueue
        .Graphics true none).map
      (fun r => (allCommandBuffers r.batches, submittedCommandBuffers r.submits,
        r.device.pending .Graphics))
      = some ([21, 22, 23, 24, 25, 26, 27, 28], [21, 22, 23, 24, 25, 26, 27, 28], []) := by
  refine ⟨by decide, by decide, by decide, by decide, by decide, by decide, by decide⟩

/-- Claim C26 does not hold of the code.  Eight command buffers that each render to the
swapchain (handles 41 to 48) and one that does not (handle 49) are pending on the
graphics queue of a device as constructed, no acquire semaphore is set, and
`SubmitQueue(Graphics, nullptr, nullptr)` is called.  `_swapchainAcquireConsumed` is set
only inside the acquire block, so it stays `false` and each of the eight signals a
release semaphore from a batch of its own: after eight turns of the loop the index is 7,
the last of the eight batches, and that batch signals the semaphore 107.  The ninth turn
executes `++batch`, which makes the index `8 = MaxSubmissions`: the assertion
`batch < MaxSubmissions` fails (`nextBatchIfSignalled` has no outcome) and `batches[8]`
would be outside the array.  With the first eight alone the call completes with the
index 7. -/
theorem C26_ninth_batch_out_of_bounds :
    ((Device.create true).withPending eightSwapchainThenPlain).pending .Graphics
      = eightSwapchainThenPlain ∧
    ((Device.create true).withPending eightSwapchainThenPlain).swapchainAcquire = none ∧
    (((Device.create true).withPending eightSwapchainThenPlain).batchedAfter
        eightSwapchainThenPlain 8).map
      (fun st => (st.batch, st.batches.length, st.batches.map (fun b => b.SignalSemaphores),
        st.device.swapchainAcquireConsumed))
      = some (7, 8, [[100], [101], [102], [103], [104], [105], [106], [107]], false) ∧
    7 + 1 = MaxSubmissions ∧
    (((Device.create true).withPending eightSwapchainThenPlain).batchedAfter
        eightSwapchainThenPlain 8).bind (fun st => st.nextBatchIfSignalled) = none ∧
    (((Device.create true).withPending eightSwapchainThenPlain).batchedAfter
        eightSwapchainThenPlain 8).bind (fun st => st.addCommandBuffer ⟨49, 0⟩) = none ∧
    ((Device.create true).withPending eightSwapchainThenPlain).SubmitQueue .Graphics false none
      = none ∧
    (((Device.create true).withPending (eightSwapchainThenPlain.take 8)).SubmitQueue
      .Graphics false none).map (fun r => r.batch) = some 7 := by
  refine ⟨by decide, by decide, by decide, by decide, by decide, by decide, by decide,
    by decide⟩

/-- The entries of the cache are only ever appended to by a sequence of requests. -/
theorem requestSamplers_entries (hashOf : SamplerCreateInfo → Nat)
    (requests : List SamplerCreateInfo) (c : VulkanCache SamplerCreateInfo) :
    ∃ more, (requestSamplers hashOf c requests).entries = c.entries ++ more := by
  induction requests generalizing c with
  | nil => exact ⟨[], by simp [requestSamplers]⟩
  | cons r rs ih =>
    obtain ⟨m1, h1⟩ := (requestCached_spec hashOf c r).1
    obtain ⟨m2, h2⟩ := ih (requestCached hashOf c r).1
    refine ⟨m1 ++ m2, ?_⟩
    simp only [requestSamplers, List.foldl_cons] at h2 ⊢
    rw [RequestSampler_eq, h2, h1, List.append_assoc]

/-- Claim C6.  Take any hash function, create info, state of the sampler cache and
sequence of other `RequestSampler` calls in between.  The first `RequestSampler` call
with the create info, when nothing is found under the hash of the create info, inserts
one entry under that hash, built from the create info, at the end of the cache, and
returns the new instance; when an entry is found it returns that entry and leaves the
cache as it is.  In both cases the instance returned is an entry under the hash of the
create info.  After the other requests that entry is still the one found under the hash
and still the same entry, so the second `RequestSampler` call with the same create info
returns the instance the first one returned and leaves the cache as it is (no sampler is
created); and in a cache grown from the empty one by any sequence of requests at most
one sampler was ever built from a given create info. -/
theorem C6_same_info_same_sampler (hashOf : SamplerCreateInfo → Nat)
    (samplers : VulkanCache SamplerCreateInfo) (createInfo : SamplerCreateInfo)
    (others : List SamplerCreateInfo) :
    (samplers.Find (hashOf createInfo) = none →
      RequestSampler hashOf samplers createInfo =
        (⟨samplers.entries ++ [(hashOf createInfo, createInfo)]⟩, samplers.entries.length)) ∧
    (∀ p, samplers.Find (hashOf createInfo) = some p →
      RequestSampler hashOf samplers createInfo = (samplers, p)) ∧
    (∃ built, (RequestSampler hashOf samplers createInfo).1.entries[
        (RequestSampler hashOf samplers createInfo).2]? = some (hashOf createInfo, built)) ∧
    (requestSamplers hashOf (RequestSampler hashOf samplers createInfo).1 others).Find
        (hashOf createInfo) = some (RequestSampler hashOf samplers createInfo).2 ∧
    (requestSamplers hashOf (RequestSampler hashOf samplers createInfo).1 others).entries[
        (RequestSampler hashOf samplers createInfo).2]? =
      (RequestSampler hashOf samplers createInfo).1.entries[
        (RequestSampler hashOf samplers createInfo).2]? ∧
    RequestSampler hashOf
        (requestSamplers hashOf (RequestSampler hashOf samplers createInfo).1 others) createInfo
      = (requestSamplers hashOf (RequestSampler hashOf samplers createInfo).1 others,
          (RequestSampler hashOf samplers createInfo).2) ∧
    (∀ requests : List SamplerCreateInfo,
      (requestSamplers hashOf ⟨[]⟩ requests).entries.countP
        (fun e => decide (e.2 = createInfo)) ≤ 1) := by
  have h1 := (requestCached_spec hashOf samplers createInfo).2
  have h2 := foldl_Find_mono hashOf others _ _ _ h1
  obtain ⟨built, hb⟩ := findHash_some _ _ _ h1
  refine ⟨?_, ?_, ⟨built, hb⟩, h2, ?_, requestCached_of_Find hashOf _ createInfo _ h2, ?_⟩
  · intro hn
    simp [RequestSampler, VulkanCache.EmplaceYield, hn]
  · intro p hp
    simp [RequestSampler, hp]
  · obtain ⟨more, hm⟩ := requestSamplers_entries hashOf others
      (RequestSampler hashOf samplers createInfo).1
    rw [hm]
    have hlt := (List.getElem?_eq_some.mp hb).1
    rw [RequestSampler_eq]
    exact List.getElem?_append_left hlt
  · intro requests
    apply VulkanCache.Sound.built_once hashOf
    apply requestSamplers_sound
    constructor
    · intro e he
      simp at he
    · simp

/-- Claim C6 on an example: on an empty cache the first request with the default create
info inserts the entry built from it under its hash and returns the instance 0; after a
request with another create info and one more with the default create info, the request
with the default create info still returns the instance 0 and the cache holds the two
entries it held. -/
theorem C6_same_info_same_sampler_witness :
    (⟨[]⟩ : VulkanCache SamplerCreateInfo).Find (sampleSamplerHash SamplerCreateInfo.default)
      = none ∧
    RequestSampler sampleSamplerHash ⟨[]⟩ SamplerCreateInfo.default =
      (⟨[(0, SamplerCreateInfo.default)]⟩, 0) ∧
    RequestSampler sampleSamplerHash
        (requestSamplers sampleSamplerHash
          (RequestSampler sampleSamplerHash ⟨[]⟩ SamplerCreateInfo.default).1
          [linearSamplerInfo, SamplerCreateInfo.default]) SamplerCreateInfo.default =
      (⟨[(0, SamplerCreateInfo.default), (3, linearSamplerInfo)]⟩, 0) := by
  have h0 : (⟨[]⟩ : VulkanCache SamplerCreateInfo).Find
      (sampleSamplerHash SamplerCreateInfo.default) = none := by decide
  have h := C6_same_info_same_sampler sampleSamplerHash ⟨[]⟩ SamplerCreateInfo.default
    [linearSamplerInfo, SamplerCreateInfo.default]
  exact ⟨h0, (h.1 h0).trans rfl, h.2.2.2.2.2.1.trans rfl⟩

/-- The method `SetTexture` on a command buffer with arrays of the declared sizes: it
returns early exactly when the cookie and the layout are tracked, and otherwise stores
cookie, views and layout and marks the set dirty; the secondary cookie stays. -/
theorem CommandBuffer.SetTexture_full (s0 : CommandBuffer) (set binding : Nat)
    (view : ImageView) (hs : s0.Sized) (h1 : set < MaxDescriptorSets)
    (h2 : binding < MaxDescriptorBindings) :
    ∃ s1 old, s0.SetTexture set binding view = some s1 ∧
      s0.trackedImage set binding = some old ∧
      s1.trackedSecondaryCookie set binding = s0.trackedSecondaryCookie set binding ∧
      (s0.textureTracked set binding view → s1 = s0) ∧
      (¬ s0.textureTracked set binding view →
        s1.trackedCookie set binding = some view.cookie ∧
        s1.trackedImage set binding =
          some (⟨old.1.sampler, view.floatView, view.layout⟩,
            ⟨old.2.sampler, view.integerView, view.layout⟩) ∧
        s1.dirtyDescriptorSets = s0.dirtyDescriptorSets ||| ((1 <<< set) % 2 ^ 32)) := by
  obtain ⟨dset, hds⟩ := list_getElem?_of_lt s0.descriptorBinding.Sets set (by rw [hs.1]; exact h1)
  have hd := hs.2.1 dset (List.getElem?_mem hds)
  obtain ⟨bind, hbind⟩ := list_getElem?_of_lt dset.Bindings binding (by rw [hd.1]; exact h2)
  obtain ⟨cookie, hcookie⟩ := list_getElem?_of_lt dset.Cookies binding
    (by rw [hd.2.1]; exact h2)
  have hl1 : set < s0.descriptorBinding.Sets.length := by rw [hs.1]; exact h1
  have hl2 : binding < dset.Bindings.length := by rw [hd.1]; exact h2
  have hl3 : binding < dset.Cookies.length := by rw [hd.2.1]; exact h2
  have ht : s0.textureTracked set binding view ↔
      (cookie = view.cookie ∧ bind.ImageFloat.imageLayout = view.layout) := by
    simp [CommandBuffer.textureTracked, CommandBuffer.trackedCookie, CommandBuffer.trackedImage,
      hds, hbind, hcookie]
  have hold : s0.trackedImage set binding = some (bind.ImageFloat, bind.ImageInteger) := by
    simp [CommandBuffer.trackedImage, hds, hbind]
  unfold CommandBuffer.SetTexture
  simp only [hds, hbind, hcookie]
  by_cases hT : cookie = view.cookie ∧ bind.ImageFloat.imageLayout = view.layout
  · rw [if_pos hT]
    exact ⟨s0, _, rfl, hold, rfl, fun _ => rfl, fun hn => absurd (ht.mpr hT) hn⟩
  · rw [if_neg hT]
    refine ⟨_, _, rfl, hold, ?_, fun h => absurd (ht.mp h) hT, fun _ => ⟨?_, ?_, rfl⟩⟩
    · simp [CommandBuffer.trackedSecondaryCookie, List.getElem?_set_self hl1, hds]
    · simp [CommandBuffer.trackedCookie, List.getElem?_set_self hl1, List.getElem?_set_self hl3]
    · simp [CommandBuffer.trackedImage, List.getElem?_set_self hl1, List.getElem?_set_self hl2]

/-- The method `SetSampler` on a command buffer with arrays of the declared sizes: it
returns early exactly when the cookie of the sampler is tracked as secondary cookie, and
otherwise stores the cookie and the handle and marks the set dirty; the cookie stays. -/
theorem CommandBuffer.SetSampler_full (s0 : CommandBuffer) (set binding : Nat)
    (handle : Sampler) (hs : s0.Sized) (h1 : set < MaxDescriptorSets)
    (h2 : binding < MaxDescriptorBindings) :
    ∃ s1 old, s0.SetSampler set binding handle = some s1 ∧
      s0.trackedImage set binding = some old ∧
      s1.trackedCookie set binding = s0.trackedCookie set binding ∧
      (s0.samplerTracked set binding handle → s1 = s0) ∧
      (¬ s0.samplerTracked set binding handle →
        s1.trackedSecondaryCookie set binding = some handle.cookie ∧
        s1.trackedImage set binding =
          some (⟨handle.sampler, old.1.imageView, old.1.imageLayout⟩,
            ⟨handle.sampler, old.2.imageView, old.2.imageLayout⟩) ∧
        s1.dirtyDescriptorSets = s0.dirtyDescriptorSets ||| ((1 <<< set) % 2 ^ 32)) := by
  obtain ⟨dset, hds⟩ := list_getElem?_of_lt s0.descriptorBinding.Sets set (by rw [hs.1]; exact h1)
  have hd := hs.2.1 dset (List.getElem?_mem hds)
  obtain ⟨bind, hbind⟩ := list_getElem?_of_lt dset.Bindings binding (by rw [hd.1]; exact h2)
  obtain ⟨sec, hsec⟩ := list_getElem?_of_lt dset.SecondaryCookies binding
    (by rw [hd.2.2]; exact h2)
  have hl1 : set < s0.descriptorBinding.Sets.length := by rw [hs.1]; exact h1
  have hl2 : binding < dset.Bindings.length := by rw [hd.1]; exact h2
  have hl4 : binding < dset.SecondaryCookies.length := by rw [hd.2.2]; exact h2
  have ht : s0.samplerTracked set binding handle ↔ handle.cookie = sec := by
    simp only [CommandBuffer.samplerTracked, CommandBuffer.trackedSecondaryCookie, hds, hsec,
      Option.some.injEq]
    exact eq_comm
  have hold : s0.trackedImage set binding = some (bind.ImageFloat, bind.ImageInteger) := by
    simp [CommandBuffer.trackedImage, hds, hbind]
  unfold CommandBuffer.SetSampler
  simp only [hds, hbind, hsec]
  by_cases hT : handle.cookie = sec
  · rw [if_pos hT]
    exact ⟨s0, _, rfl, hold, rfl, fun _ => rfl, fun hn => absurd (ht.mpr hT) hn⟩
  · rw [if_neg hT]
    refine ⟨_, _, rfl, hold, ?_, fun h => absurd (ht.mp h) hT, fun _ => ⟨?_, ?_, rfl⟩⟩
    · simp [CommandBuffer.trackedCookie, List.getElem?_set_self hl1, hds]
    · simp [CommandBuffer.trackedSecondaryCookie, List.getElem?_set_self hl1,
        List.getElem?_set_self hl4]
    · simp [CommandBuffer.trackedImage, List.getElem?_set_self hl1, List.getElem?_set_self hl2]

/-- The common body of `SetUniformBuffer` and `SetStorageBuffer` on a command buffer with
arrays of the declared sizes: it returns early exactly when the cookie of the buffer and
the range are tracked, and otherwise stores the cookie, the secondary cookie 0 and the
descriptor info of the buffer and marks the set dirty. -/
theorem CommandBuffer.setBufferBinding_full (s0 : CommandBuffer) (set binding : Nat)
    (buffer : Buffer) (offset range : Nat) (hs : s0.Sized) (h1 : set < MaxDescriptorSets)
    (h2 : binding < MaxDescriptorBindings) :
    ∃ s1, s0.setBufferBinding set binding buffer offset range = some s1 ∧
      (s0.bufferTracked set binding buffer range → s1 = s0) ∧
      (¬ s0.bufferTracked set binding buffer range →
        s1.trackedCookie set binding = some buffer.cookie ∧
        s1.trackedSecondaryCookie set binding = some 0 ∧
        s1.trackedBuffer set binding =
          some ⟨buffer.buffer, offset, if range = 0 then buffer.size else range⟩ ∧
        s1.dirtyDescriptorSets = s0.dirtyDescriptorSets ||| ((1 <<< set) % 2 ^ 32)) := by
  obtain ⟨dset, hds⟩ := list_getElem?_of_lt s0.descriptorBinding.Sets set (by rw [hs.1]; exact h1)
  have hd := hs.2.1 dset (List.getElem?_mem hds)
  obtain ⟨bind, hbind⟩ := list_getElem?_of_lt dset.Bindings binding (by rw [hd.1]; exact h2)
  obtain ⟨cookie, hcookie⟩ := list_getElem?_of_lt dset.Cookies binding
    (by rw [hd.2.1]; exact h2)
  obtain ⟨sec, hsec⟩ := list_getElem?_of_lt dset.SecondaryCookies binding
    (by rw [hd.2.2]; exact h2)
  have hl1 : set < s0.descriptorBinding.Sets.length := by rw [hs.1]; exact h1
  have hl2 : binding < dset.Bindings.length := by rw [hd.1]; exact h2
  have hl3 : binding < dset.Cookies.length := by rw [hd.2.1]; exact h2
  have hl4 : binding < dset.SecondaryCookies.length := by rw [hd.2.2]; exact h2
  have ht : s0.bufferTracked set binding buffer range ↔
      (buffer.cookie = cookie ∧
        bind.Buffer.range = if range = 0 then buffer.size else range) := by
    simp only [CommandBuffer.bufferTracked, CommandBuffer.trackedCookie,
      CommandBuffer.trackedBuffer, hds, hbind, hcookie, Option.map_some', Option.some.injEq]
    constructor
    · intro h
      exact ⟨h.1.symm, h.2⟩
    · intro h
      exact ⟨h.1.symm, h.2⟩
  unfold CommandBuffer.setBufferBinding
  simp only [hds, hbind, hcookie, hsec]
  generalize (if range = 0 then buffer.size else range) = r at ht ⊢
  by_cases hT : buffer.cookie = cookie ∧ bind.Buffer.range = r
  · rw [if_pos hT]
    exact ⟨s0, rfl, fun _ => rfl, fun hn => absurd (ht.mpr hT) hn⟩
  · rw [if_neg hT]
    refine ⟨_, rfl, fun h => absurd (ht.mp h) hT, fun _ => ⟨?_, ?_, ?_, rfl⟩⟩
    · simp [CommandBuffer.trackedCookie, List.getElem?_set_self hl1, List.getElem?_set_self hl3]
    · simp [CommandBuffer.trackedSecondaryCookie, List.getElem?_set_self hl1,
        List.getElem?_set_self hl4]
    · simp [CommandBuffer.trackedBuffer, List.getElem?_set_self hl1, List.getElem?_set_self hl2]

/-- The method `SetBindless` on a command buffer with arrays of the declared sizes
stores the descriptor set and marks the set dirty. -/
theorem CommandBuffer.SetBindless_full (s0 : CommandBuffer) (set descriptorSet : Nat)
    (hs : s0.Sized) (h1 : set < MaxDescriptorSets) :
    ∃ s1, s0.SetBindless set descriptorSet = some s1 ∧
      s1.bindlessSets[set]? = some descriptorSet ∧
      s1.dirtyDescriptorSets = s0.dirtyDescriptorSets ||| ((1 <<< set) % 2 ^ 32) := by
  have hl : set < s0.bindlessSets.length := by rw [hs.2.2.1]; exact h1
  obtain ⟨old, hold⟩ := list_getElem?_of_lt s0.bindlessSets set hl
  unfold CommandBuffer.SetBindless
  simp only [hold]
  exact ⟨_, rfl, by simp [List.getElem?_set_self hl], rfl⟩

/-- Every setter call with indices in range, on a command buffer with arrays of the
declared sizes: it changes nothing when what it compares is tracked already, and
otherwise records its values and sets the bit of its set in the dirty mask. -/
theorem DescriptorSetter.run_full (c : DescriptorSetter) (s0 s1 : CommandBuffer)
    (hs : s0.Sized) (hc : c.InRange) (hrun : c.run s0 = some s1) :
    (c.tracked s0 → s1 = s0) ∧
    (¬ c.tracked s0 → c.stored s0 s1 ∧
      s1.dirtyDescriptorSets = s0.dirtyDescriptorSets ||| ((1 <<< c.set) % 2 ^ 32)) := by
  obtain ⟨h1, h2⟩ := hc
  cases c with
  | texture set binding view =>
    obtain ⟨t, old, e, a, b, c1, c2⟩ := s0.SetTexture_full set binding view hs h1 h2
    have : t = s1 := Option.some.inj (e.symm.trans hrun)
    subst this
    refine ⟨c1, fun hn => ?_⟩
    obtain ⟨k1, k2, k3⟩ := c2 hn
    exact ⟨⟨k1, b, old, a, k2⟩, k3⟩
  | sampler set binding handle =>
    obtain ⟨t, old, e, a, b, c1, c2⟩ := s0.SetSampler_full set binding handle hs h1 h2
    have : t = s1 := Option.some.inj (e.symm.trans hrun)
    subst this
    refine ⟨c1, fun hn => ?_⟩
    obtain ⟨k1, k2, k3⟩ := c2 hn
    exact ⟨⟨b, k1, old, a, k2⟩, k3⟩
  | uniformBuffer set binding buffer offset range =>
    obtain ⟨t, e, c1, c2⟩ := s0.setBufferBinding_full set binding buffer offset range hs h1 h2
    have : t = s1 := Option.some.inj (e.symm.trans hrun)
    subst this
    refine ⟨c1, fun hn => ?_⟩
    obtain ⟨k1, k2, k3, k4⟩ := c2 hn
    exact ⟨⟨k1, k2, k3⟩, k4⟩
  | storageBuffer set binding buffer offset range =>
    obtain ⟨t, e, c1, c2⟩ := s0.setBufferBinding_full set binding buffer offset range hs h1 h2
    have : t = s1 := Option.some.inj (e.symm.trans hrun)
    subst this
    refine ⟨c1, fun hn => ?_⟩
    obtain ⟨k1, k2, k3, k4⟩ := c2 hn
    exact ⟨⟨k1, k2, k3⟩, k4⟩
  | bindless set descriptorSet =>
    obtain ⟨t, e, k1, k2⟩ := s0.SetBindless_full set descriptorSet hs h1
    have : t = s1 := Option.some.inj (e.symm.trans hrun)
    subst this
    exact ⟨fun h => h.elim, fun _ => ⟨k1, k2⟩⟩
  | textureSampler set binding view handle =>
    obtain ⟨sm, old, e, a, b, c1, c2⟩ := s0.SetTexture_full set binding view hs h1 h2
    obtain ⟨sm2, e2, hsm, _⟩ := s0.SetTexture_spec set binding view hs h1 h2
    have : sm2 = sm := Option.some.inj (e2.symm.trans e)
    subst this
    obtain ⟨t, old2, f, a2, b2, d1, d2⟩ := sm2.SetSampler_full set binding handle hsm h1 h2
    have hrun2 : t = s1 := by
      simp only [DescriptorSetter.run, CommandBuffer.SetTextureSampler, e, f] at hrun
      exact Option.some.inj hrun
    subst hrun2
    have hS : sm2.samplerTracked set binding handle ↔ s0.samplerTracked set binding handle := by
      simp only [CommandBuffer.samplerTracked, b]
    have hor : ∀ x : Nat, (x ||| ((1 <<< set) % 2 ^ 32)) ||| ((1 <<< set) % 2 ^ 32)
        = x ||| ((1 <<< set) % 2 ^ 32) := by
      intro x
      rw [Nat.or_assoc, Nat.or_self]
    by_cases hT : s0.textureTracked set binding view
    · have e0 := c1 hT
      subst e0
      by_cases hU : sm2.samplerTracked set binding handle
      · refine ⟨fun _ => d1 hU, fun hn => absurd ⟨hT, hU⟩ hn⟩
      · refine ⟨fun h => absurd h.2 hU, fun _ => ?_⟩
        obtain ⟨k1, k2, k3⟩ := d2 hU
        refine ⟨⟨b2.trans hT.1, k1, old2, a2, ?_⟩, k3⟩
        rw [k2]
        have hlay : old2.1.imageLayout = view.layout := by
          have := hT.2
          rw [a2] at this
          simpa using this
        simp only [DescriptorSetter.stored, hT, hU, if_true, if_false, hlay]
    · obtain ⟨k1, k2, k3⟩ := c2 hT
      by_cases hU : sm2.samplerTracked set binding handle
      · have e1 := d1 hU
        subst e1
        refine ⟨fun h => absurd h.1 hT, fun _ => ⟨⟨k1, ?_, old, a, ?_⟩, k3⟩⟩
        · rw [b]
          exact hS.mp hU
        · rw [k2]
          simp only [hT, hS.mp hU, if_true, if_false]
      · obtain ⟨m1, m2, m3⟩ := d2 hU
        have hold2 : old2 = (⟨old.1.sampler, view.floatView, view.layout⟩,
            ⟨old.2.sampler, view.integerView, view.layout⟩) := by
          rw [k2] at a2
          exact (Option.some.inj a2).symm
        refine ⟨fun h => absurd h.1 hT, fun _ => ⟨⟨b2.trans k1, m1, old, a, ?_⟩, ?_⟩⟩
        · rw [m2, hold2]
          have hU0 : ¬ s0.samplerTracked set binding handle := fun h => hU (hS.mpr h)
          simp only [hT, hU0, if_false]
        · rw [m3, k3]
          exact hor _

/-- Claim C12.  Take a command buffer whose descriptor arrays have their declared sizes,
with a well-formed layout, and a flush of its descriptor sets, which leaves the state
`s0`.  A second flush right away records nothing and changes nothing.  One call of
`SetTexture` (with or without sampler), `SetSampler`, `SetUniformBuffer`,
`SetStorageBuffer` or `SetBindless` for the set `c.set`, with indices in range, is
defined and touches the tracked state of that set only, adding at most its bit to the
dirty mask.  When what the call compares is tracked already it changes nothing at all;
otherwise it records its values at its binding and sets the bit of its set in the dirty
mask.  The next flush is defined; every lookup, write and bind it records is for that
set; it processes that set, once, exactly when the set is in `DescriptorSetMask` and
its dirty bit is set, and no set otherwise: when the call has changed a binding of a
set of `DescriptorSetMask` the flush looks up, writes if the lookup misses, and binds a
descriptor set for that set (for a bindless set it binds the set given), and when the
call has changed nothing, or the set is not in `DescriptorSetMask`, the flush records
nothing.  The flush changes nothing but the dirty mask, of which it clears exactly the
bits of the sets it processed; and a further flush records nothing and changes
nothing. -/
theorem C12_descriptor_state_per_set (o : RecordingObjects) (s s0 : CommandBuffer)
    (ev0 : List Recorded) (c : DescriptorSetter) (hs : s.Sized)
    (hl : (o.resourceLayout s.programLayout).WellFormed)
    (hflush : s.FlushDescriptorSets o = some (s0, ev0)) (hc : c.InRange) :
    s0.FlushDescriptorSets o = some (s0, []) ∧
    ∃ s1 s2 ev, c.run s0 = some s1 ∧ s0.TouchesSet s1 c.set ∧
      (c.tracked s0 → s1 = s0) ∧
      (¬ c.tracked s0 → c.stored s0 s1 ∧
        s1.dirtyDescriptorSets = s0.dirtyDescriptorSets ||| ((1 <<< c.set) % 2 ^ 32) ∧
        s1.dirtyDescriptorSets.testBit c.set = true) ∧
      s1.FlushDescriptorSets o = some (s2, ev) ∧
      (∀ e ∈ ev, e.descriptorSet = some c.set) ∧
      (∀ bit ∈ ForEachBit ((o.resourceLayout s.programLayout).DescriptorSetMask &&&
        s1.dirtyDescriptorSets), bit = c.set) ∧
      ((((o.resourceLayout s.programLayout).DescriptorSetMask.testBit c.set &&
            s1.dirtyDescriptorSets.testBit c.set) = true ∧
          s1.ProcessesSet o (o.resourceLayout s.programLayout) c.set ev) ∨
        (((o.resourceLayout s.programLayout).DescriptorSetMask.testBit c.set &&
            s1.dirtyDescriptorSets.testBit c.set) = false ∧ ev = [])) ∧
      (¬ c.tracked s0 → (o.resourceLayout s.programLayout).DescriptorSetMask.testBit c.set = true →
        s1.ProcessesSet o (o.resourceLayout s.programLayout) c.set ev ∧ ev ≠ []) ∧
      (c.tracked s0 ∨ (o.resourceLayout s.programLayout).DescriptorSetMask.testBit c.set = false →
        ev = []) ∧
      s2 = { s1 with dirtyDescriptorSets := s2.dirtyDescriptorSets } ∧
      (∀ i, s2.dirtyDescriptorSets.testBit i =
        (s1.dirtyDescriptorSets.testBit i &&
          !decide (i ∈ ForEachBit ((o.resourceLayout s.programLayout).DescriptorSetMask &&&
            s1.dirtyDescriptorSets)))) ∧
      s2.FlushDescriptorSets o = some (s2, []) := by
  obtain ⟨hp, _, h0⟩ := s.FlushDescriptorSets_eq o s0 ev0 hflush
  have hp0 : s0.programLayout = s.programLayout := by rw [h0]
  have hd0 : s0.dirtyDescriptorSets = s.dirtyDescriptorSets &&&
      not32 ((o.resourceLayout s.programLayout).DescriptorSetMask &&&
        s.dirtyDescriptorSets) := by rw [h0]
  have hs0 : s0.Sized := by
    obtain ⟨a1, a2, a3, a4⟩ := hs
    rw [h0]
    exact ⟨a1, a2, a3, lt_of_le_of_lt Nat.and_le_left a4⟩
  have hz0 : (o.resourceLayout s.programLayout).DescriptorSetMask &&&
      s0.dirtyDescriptorSets = 0 := by
    rw [hd0]
    exact and_not32_self _ _
  have hagain := s.FlushDescriptorSets_again o s0 ev0 hs.2.2.2 hflush
  refine ⟨hagain, ?_⟩
  obtain ⟨s1, hrun, hs1, ht⟩ := c.run_spec s0 hs0 hc
  obtain ⟨hsame, hchanged⟩ := c.run_full s0 s1 hs0 hc hrun
  have hp1 : s1.programLayout = s.programLayout := by
    rw [ht.1]
    exact hp0
  have hsome := s1.FlushDescriptorSets_some o (by rw [hp1]; exact hp)
    (by exact hs1) (by rw [hp1]; exact hl)
  obtain ⟨⟨s2, ev⟩, hf1⟩ := hsome
  obtain ⟨_, hlist, h2⟩ := s1.FlushDescriptorSets_eq o s2 ev hf1
  have hstruct : s2 = { s1 with dirtyDescriptorSets := s2.dirtyDescriptorSets } := by
    rw [h2]
  have hd2 : s2.dirtyDescriptorSets = s1.dirtyDescriptorSets &&&
      not32 ((o.resourceLayout s1.programLayout).DescriptorSetMask &&&
        s1.dirtyDescriptorSets) := by rw [h2]
  rw [hp1] at hlist hd2
  have hbits : ∀ bit ∈ ForEachBit ((o.resourceLayout s.programLayout).DescriptorSetMask &&&
      s1.dirtyDescriptorSets), bit = c.set := by
    intro bit hb
    by_contra hne
    have h1 := ((mem_ForEachBit _ _).mp hb).2
    rw [Nat.testBit_and, ht.2.2.1 bit hne, ← Nat.testBit_and, hz0] at h1
    simp at h1
  have hdirty : ¬ c.tracked s0 → s1.dirtyDescriptorSets.testBit c.set = true := by
    intro hn
    rw [(hchanged hn).2, or_bit_testBit]
    have hlt : c.set < 32 := lt_trans hc.1 (by decide)
    simp [hlt]
  have hcases : (((o.resourceLayout s.programLayout).DescriptorSetMask.testBit c.set &&
        s1.dirtyDescriptorSets.testBit c.set) = true ∧
      s1.ProcessesSet o (o.resourceLayout s.programLayout) c.set ev) ∨
      (((o.resourceLayout s.programLayout).DescriptorSetMask.testBit c.set &&
        s1.dirtyDescriptorSets.testBit c.set) = false ∧ ev = []) := by
    rcases list_nodup_all_eq _ c.set (ForEachBit_nodup _) hbits with hnil | hone
    · right
      rw [hnil] at hlist
      simp only [CommandBuffer.flushDescriptorSetList, Option.some.injEq] at hlist
      refine ⟨?_, hlist.symm⟩
      by_contra hne
      have hne2 : ((o.resourceLayout s.programLayout).DescriptorSetMask &&&
          s1.dirtyDescriptorSets).testBit c.set = true := by
        rw [Nat.testBit_and]
        simpa using hne
      have hm : c.set ∈ ForEachBit ((o.resourceLayout s.programLayout).DescriptorSetMask &&&
          s1.dirtyDescriptorSets) :=
        (mem_ForEachBit _ _).mpr ⟨lt_trans hc.1 (by decide), hne2⟩
      rw [hnil] at hm
      simp at hm
    · left
      have hm : c.set ∈ ForEachBit ((o.resourceLayout s.programLayout).DescriptorSetMask &&&
          s1.dirtyDescriptorSets) := by
        rw [hone]
        simp
      have h1 := ((mem_ForEachBit _ _).mp hm).2
      rw [Nat.testBit_and] at h1
      rw [hone, CommandBuffer.flushDescriptorSetList_single] at hlist
      exact ⟨h1, s1.flushDescriptorSet_eq o _ _ ev hlist⟩
  refine ⟨s1, s2, ev, hrun, ht, hsame, fun hn => ⟨(hchanged hn).1, (hchanged hn).2, hdirty hn⟩,
    hf1, ?_, hbits, hcases, ?_, ?_, hstruct, ?_,
    s1.FlushDescriptorSets_again o s2 ev hs1.2.2.2 hf1⟩
  · intro e he
    obtain ⟨bit, hb, hbe⟩ := s1.flushDescriptorSetList_sets o _ _ ev hlist e he
    rw [← hbits bit hb]
    exact hbe
  · intro hn hm
    rcases hcases with ⟨_, hproc⟩ | ⟨hfalse, _⟩
    · refine ⟨hproc, ?_⟩
      rcases hproc with ⟨_, _, _, rfl⟩ | ⟨_, _, _, ⟨_, rfl⟩ | ⟨_, _, rfl⟩⟩ <;> simp
    · rw [hm, hdirty hn] at hfalse
      simp at hfalse
  · intro h
    rcases h with htr | hm
    · have e1 := hsame htr
      rw [e1, hagain] at hf1
      simp only [Option.some.injEq, Prod.mk.injEq] at hf1
      exact hf1.2.symm
    · rcases hcases with ⟨htrue, _⟩ | ⟨_, hnil⟩
      · rw [hm] at htrue
        simp at htrue
      · exact hnil
  · intro i
    rw [hd2]
    exact testBit_clear_processed _ _ i hs1.2.2.2

/-- Claim C12 on the example: after the first flush of `programBound`, binding the first
64 bytes of `sampleBuffer` as uniform buffer at set 0, binding 0 finds another cookie
tracked there, records cookie and descriptor info of the buffer and marks set 0 dirty;
the next flush looks up, writes and binds a descriptor set for set 0 and records nothing
else, and the flush after that records nothing. -/
theorem C12_descriptor_state_per_set_witness :
    programBound.Sized ∧
    (sampleObjects.resourceLayout programBound.programLayout).WellFormed ∧
    programBound.FlushDescriptorSets sampleObjects = some (flushedOnce.1, flushedOnce.2) ∧
    (DescriptorSetter.uniformBuffer 0 0 sampleBuffer 0 64).InRange ∧
    ¬ (DescriptorSetter.uniformBuffer 0 0 sampleBuffer 0 64).tracked flushedOnce.1 ∧
    (sampleObjects.resourceLayout programBound.programLayout).DescriptorSetMask.testBit 0
      = true ∧
    ∃ s1 s2 ev,
      (DescriptorSetter.uniformBuffer 0 0 sampleBuffer 0 64).run flushedOnce.1 = some s1 ∧
      s1.trackedCookie 0 0 = some 16 ∧ s1.trackedBuffer 0 0 = some ⟨7, 0, 64⟩ ∧
      s1.dirtyDescriptorSets.testBit 0 = true ∧
      s1.FlushDescriptorSets sampleObjects = some (s2, ev) ∧
      s1.ProcessesSet sampleObjects (sampleObjects.resourceLayout programBound.programLayout)
        0 ev ∧
      ev ≠ [] ∧
      (∀ e ∈ ev, e.descriptorSet = some 0) ∧
      s2.FlushDescriptorSets sampleObjects = some (s2, []) := by
  have h1 : programBound.Sized := by decide
  have h2 : (sampleObjects.resourceLayout programBound.programLayout).WellFormed := by decide
  have h3 : programBound.FlushDescriptorSets sampleObjects =
      some (flushedOnce.1, flushedOnce.2) := by decide
  have h4 : (DescriptorSetter.uniformBuffer 0 0 sampleBuffer 0 64).InRange := by decide
  have h5 : ¬ (DescriptorSetter.uniformBuffer 0 0 sampleBuffer 0 64).tracked flushedOnce.1 := by
    decide
  have h6 : (sampleObjects.resourceLayout programBound.programLayout).DescriptorSetMask.testBit 0
      = true := by decide
  obtain ⟨_, s1, s2, ev, a, _, _, a3, b, c, _, _, p, _, _, _, d⟩ :=
    C12_descriptor_state_per_set sampleObjects programBound flushedOnce.1 flushedOnce.2
      (.uniformBuffer 0 0 sampleBuffer 0 64) h1 h2 h3 h4
  obtain ⟨⟨k1, _, k3⟩, _, k5⟩ := a3 h5
  obtain ⟨p1, p2⟩ := p h5 h6
  exact ⟨h1, h2, h3, h4, h5, h6, s1, s2, ev, a, k1, k3, k5, b, p1, p2, c, d⟩

theorem Device.SameCounters.same_refl (d : Device) : d.SameCounters d := fun _ => rfl

theorem Device.SameCounters.same_trans {d d1 d2 : Device} (h : d.SameCounters d1)
    (h2 : d1.SameCounters d2) : d.SameCounters d2 := fun q => (h2 q).trans (h q)

theorem Device.SameCounters.of_queueData {d d2 : Device} (h : d2.queueData = d.queueData) :
    d.SameCounters d2 := fun q => by rw [h]

theorem Device.SameCounters.counted {d d2 : Device} (h : d.SameCounters d2) (k : Nat) :
    d.Counted k d2 := fun q _ => ⟨by rw [h q], by rw [h q]; omega⟩

theorem Device.Counted.counted_mono {d d2 : Device} {k k2 : Nat} (h : d.Counted k d2)
    (hk : k ≤ k2) : d.Counted k2 d2 := by
  intro q hq
  obtain ⟨a, b⟩ := h q (by omega)
  exact ⟨a, by omega⟩

theorem Device.Counted.counted_trans {d d1 d2 : Device} {k1 k2 : Nat} (h : d.Counted k1 d1)
    (h2 : d1.Counted k2 d2) : d.Counted (k1 + k2) d2 := by
  intro q hq
  obtain ⟨a, b⟩ := h q (by omega)
  obtain ⟨a2, b2⟩ := h2 q (by omega)
  exact ⟨by omega, by omega⟩

theorem Device.Quiet.same_counters {d d2 : Device} (h : d.Quiet d2) : d.SameCounters d2 :=
  Device.SameCounters.of_queueData h.data

theorem Device.modifyFrame_same (d d2 : Device) (g : FrameContext → FrameContext)
    (h : d.modifyFrame g = some d2) : d.SameCounters d2 := by
  obtain ⟨f, _, rfl⟩ := Device.modifyFrame_eq d d2 g h
  exact fun _ => rfl

/-- A write to the entry of a queue that keeps its timeline value keeps every timeline
value. -/
theorem PerQueue.get_set_counter (a : PerQueue QueueData) (q q2 : QueueType) (x : QueueData)
    (hx : x.TimelineValue = (a.get q).TimelineValue) :
    ((a.set q x).get q2).TimelineValue = (a.get q2).TimelineValue := by
  cases q <;> cases q2 <;> first | rfl | exact hx

/-- The body of `SubmitQueue` advances the counter of its queue once and no other. -/
theorem Device.Effect.counted_submitted {d d2 : Device} {q : QueueType} {s : List Nat}
    {v : PerQueue Nat → PerQueue Nat}
    {p : PerQueue (List Submission) → PerQueue (List Submission)}
    (h : d.Effect d2 (d.submittedData q) s v p) : d.Counted 1 d2 := by
  intro q2 hq2
  rw [h.data, Device.submittedData_get]
  by_cases e : q2 = q
  · subst e
    simp only [if_true]
    rw [Nat.mod_eq_of_lt hq2]
    omega
  · simp only [e, if_false]
    omega

/-- A call of `SubmitQueue` advances each counter at most twice (once by the flush of the
transfer queue, once by its body). -/
theorem Device.SubmitQueue_counted (d : Device) (q : QueueType) (submitFence : Bool)
    (semaphores : Option Nat) (r : SubmitOutcome)
    (h : d.SubmitQueue q submitFence semaphores = some r) : d.Counted 2 r.device := by
  obtain ⟨f, hf, hcase⟩ := Device.SubmitQueue_effect d q submitFence semaphores r h
  rcases hcase with ⟨_, e0⟩ | ⟨_, d1, hd1, hbody⟩
  · rw [e0]
    exact (Device.SameCounters.same_refl d).counted 2
  · have hb := (Device.submitQueueBody_effect d1 q submitFence semaphores r hbody).1.counted_submitted
    rcases hd1 with ⟨_, e2⟩ | ⟨_, hflush⟩
    · rw [e2] at hb
      exact hb.counted_mono (by omega)
    · have hfl : d.Counted 1 d1 := by
        rcases Device.FlushFrameTransfer_effect d d1 hflush with ⟨_, e1⟩ | ⟨_, _, he⟩
        · rw [e1]
          exact (Device.SameCounters.same_refl d).counted 1
        · exact he.counted_submitted
      exact hfl.counted_trans hb

theorem Device.FlushFrame_counted (d d2 : Device) (q : QueueType)
    (h : d.FlushFrame q = some d2) : d.Counted 2 d2 := by
  unfold Device.FlushFrame at h
  split at h
  · cases h
    exact (Device.SameCounters.same_refl d).counted 2
  · cases hr : d.SubmitQueue q false none with
    | none => simp [hr] at h
    | some r =>
      simp only [hr, Option.map_some', Option.some.injEq] at h
      subst h
      exact Device.SubmitQueue_counted d q false none r hr

/-- A call of `SubmitNoLock` advances each counter at most twice, and none when neither a
fence nor semaphores are asked for. -/
theorem Device.SubmitNoLock_counted (d : Device) (families : PerQueue Nat)
    (cbType : CommandBufferType) (cmd : Submission) (fence : Bool) (semaphores : Option Nat)
    (s : Submitted) (h : d.SubmitNoLock families cbType cmd fence semaphores = some s) :
    d.Counted 2 s.device ∧
    (fence = false → semaphores = none → d.SameCounters s.device) := by
  obtain ⟨d1, r, hd1, hr, hs1, _, _, hn⟩ :=
    Device.SubmitNoLock_eq d families cbType cmd fence semaphores s h
  have h1 : d.SameCounters d1 := Device.modifyFrame_same d d1 _ hd1
  have h3 : r.device.SameCounters s.device := by
    intro q
    rw [hs1]
  constructor
  · by_cases hc : fence = true ∨ semaphores.isSome = true
    · have h2 := Device.SubmitQueue_counted d1 _ fence semaphores r (hr hc)
      have := ((h1.counted 0).counted_trans h2).counted_trans (h3.counted 0)
      exact this.counted_mono (by omega)
    · have e := hn hc
      subst e
      exact (h1.same_trans h3).counted 2
  · intro hf hsem
    have hc : ¬ (fence = true ∨ semaphores.isSome = true) := by
      rw [hf, hsem]
      simp
    have e := hn hc
    subst e
    exact h1.same_trans h3

/-- A call of `AddWaitSemaphoreNoLock` advances each counter at most twice, and none
without `flush`. -/
theorem Device.AddWaitSemaphoreNoLock_counted (d d2 : Device) (q : QueueType)
    (x : Semaphore) (stages : Nat) (flush : Bool)
    (h : d.AddWaitSemaphoreNoLock q x stages flush = some d2) :
    d.Counted 2 d2 ∧ (flush = false → d.SameCounters d2) := by
  unfold Device.AddWaitSemaphoreNoLock at h
  split at h
  · cases h
  · rename_i d1 hd1
    simp only [Option.some.injEq] at h
    subst h
    have h2 : d1.SameCounters { d1 with queueData := (d1.queueData.set q
        { (d1.queueData.get q) with
          WaitSemaphores := (d1.queueData.get q).WaitSemaphores ++ [x.SignalPendingWait]
          WaitStages := (d1.queueData.get q).WaitStages ++ [stages]
          NeedsFence := true }) } :=
      fun q2 => PerQueue.get_set_counter d1.queueData q q2 _ rfl
    cases flush
    · simp only [Bool.false_eq_true, if_false, Option.some.injEq] at hd1
      subst hd1
      exact ⟨h2.counted 2, fun _ => h2⟩
    · simp only [if_true] at hd1
      have h1 := Device.FlushFrame_counted d d1 q hd1
      exact ⟨(h1.counted_trans (h2.counted 0)).counted_mono (by omega),
        (fun hc => by cases hc)⟩

theorem Device.addWaits_counted (semaphores : List Semaphore) (flush : Bool)
    (waits : List (QueueType × Nat)) (d d1 : Device) (k : Nat)
    (h : d.addWaits semaphores flush waits k = some d1) :
    d.Counted (2 * waits.length) d1 := by
  induction waits generalizing d k with
  | nil =>
    simp only [Device.addWaits, Option.some.injEq] at h
    subst h
    exact (Device.SameCounters.same_refl d).counted _
  | cons w rest ih =>
    obtain ⟨q, stages⟩ := w
    simp only [Device.addWaits] at h
    split at h
    · cases h
    · rename_i x hx
      split at h
      · cases h
      · rename_i dm hdm
        have h1 := (Device.AddWaitSemaphoreNoLock_counted d dm q x stages flush hdm).1
        have h2 := ih dm (k + 1) h
        exact (h1.counted_trans h2).counted_mono (by simp only [List.length_cons]; omega)

theorem Device.stagingWaits_length (d : Device) (families : PerQueue Nat)
    (cbType : CommandBufferType) (usage : Nat) :
    (d.stagingWaits families cbType usage).length ≤ 2 := by
  unfold Device.stagingWaits
  simp only [List.length_append]
  split <;> split <;> simp

/-- A call of `SubmitStaging` advances each counter at most six times: the submission and
up to two waits with a flush each. -/
theorem Device.SubmitStaging_counted (d : Device) (families : PerQueue Nat)
    (cbType : CommandBufferType) (cmd : Submission) (usage : Nat) (flush : Bool)
    (r : Device × List MemoryBarrierCall)
    (h : d.SubmitStaging families cbType cmd usage flush = some r) : d.Counted 6 r.1 := by
  have heq := Device.SubmitStaging_eq d families cbType cmd usage flush
  rw [h, Option.map_some'] at heq
  unfold Device.stagingHandOff at heq
  simp only at heq
  split at heq
  · cases heq
  · rename_i s hs
    have h1 := (Device.SubmitNoLock_counted d families cbType cmd false _ s hs).1
    have h2 := Device.addWaits_counted s.semaphores flush _ s.device r.1 0 heq.symm
    have hl := Device.stagingWaits_length d families cbType usage
    exact (h1.counted_trans h2).counted_mono (by omega)

theorem Device.endFrameQueue_counted (d d1 : Device) (t : QueueType)
    (h : d.endFrameQueue t = some d1) : d.Counted 2 d1 := by
  unfold Device.endFrameQueue at h
  split at h
  · cases h
  · split at h
    · split at h
      · cases h
      · rename_i r hr
        dsimp only at h
        split at h
        · cases h
        · rename_i dm hdm
          simp only [Option.some.injEq] at h
          subst h
          have h1 := Device.SubmitQueue_counted d t true none r hr
          have h2 : r.device.SameCounters dm :=
            Device.SameCounters.of_queueData (Device.endFrameQueue_tail r.device dm t _ hdm).2
          have h3 : dm.SameCounters { dm with queueData := (dm.queueData.set t
              { (dm.queueData.get t) with NeedsFence := false }) } :=
            fun q2 => PerQueue.get_set_counter dm.queueData t q2 _ rfl
          exact (h1.counted_trans ((h2.same_trans h3).counted 0)).counted_mono (by omega)
    · simp only [Option.some.injEq] at h
      subst h
      exact (Device.SameCounters.same_refl d).counted 2

theorem Device.endFrameQueues_counted (ts : List QueueType) (d d1 : Device)
    (h : Device.endFrameQueues ts d = some d1) : d.Counted (2 * ts.length) d1 := by
  induction ts generalizing d with
  | nil =>
    simp only [Device.endFrameQueues, Option.some.injEq] at h
    subst h
    exact (Device.SameCounters.same_refl d).counted _
  | cons t rest ih =>
    simp only [Device.endFrameQueues] at h
    split at h
    · cases h
    · rename_i dm hdm
      have h1 := Device.endFrameQueue_counted d dm t hdm
      exact (h1.counted_trans (ih dm h)).counted_mono
        (by simp only [List.length_cons]; omega)

theorem Device.EndFrameNoLock_counted (d d1 : Device) (h : d.EndFrameNoLock = some d1) :
    d.Counted 6 d1 :=
  Device.endFrameQueues_counted QueueFlushOrder d d1 h

theorem Device.enqueue_same (d d1 : Device) (k : DestroyKind) (locked : Bool) (x : Nat)
    (h : d.enqueue k locked x = some d1) : d.SameCounters d1 := by
  cases k <;> cases locked <;> exact Device.modifyFrame_same d d1 _ h

theorem Device.allocatorsBeginFrame_same (released : List (DestroyKind × Nat))
    (d d1 : Device) (h : d.allocatorsBeginFrame released = some d1) : d.SameCounters d1 := by
  induction released generalizing d with
  | nil =>
    simp only [Device.allocatorsBeginFrame, Option.some.injEq] at h
    subst h
    exact Device.SameCounters.same_refl d
  | cons e rest ih =>
    obtain ⟨k, x⟩ := e
    simp only [Device.allocatorsBeginFrame] at h
    split at h
    · cases h
    · rename_i dm hdm
      exact (Device.enqueue_same d dm k false x hdm).same_trans (ih dm h)

theorem Device.destroyImageObject_same (d d1 : Device) (img : Image)
    (h : d.destroyImageObject img = some d1) : d.SameCounters d1 := by
  unfold Device.destroyImageObject at h
  dsimp only at h
  split at h
  · cases h
  · rename_i dm hdm
    have h1 : d.SameCounters dm := by
      split at hdm
      · split at hdm
        · exact Device.modifyFrame_same d dm _ hdm
        · exact Device.modifyFrame_same d dm _ hdm
      · simp only [Option.some.injEq] at hdm
        subst hdm
        exact Device.SameCounters.same_refl d
    have h2 : dm.SameCounters d1 := by
      split at h
      · split at h
        · exact Device.modifyFrame_same dm d1 _ h
        · exact Device.modifyFrame_same dm d1 _ h
      · simp only [Option.some.injEq] at h
        subst h
        exact Device.SameCounters.same_refl dm
    exact h1.same_trans h2

theorem Device.RequestCommandBufferNoLock_same (d d1 : Device)
    (h : d.RequestCommandBufferNoLock = some d1) : d.SameCounters d1 := by
  unfold Device.RequestCommandBufferNoLock at h
  split at h
  · cases h
  · simp only [Option.some.injEq] at h
    subst h
    exact fun _ => rfl

/-- A call of `NextFrame` advances each counter at most six times, through
`EndFrameNoLock`. -/
theorem Device.NextFrame_counted (d d2 : Device) (released : List (DestroyKind × Nat))
    (h : d.NextFrame released = some d2) : d.Counted 6 d2 := by
  unfold Device.NextFrame at h
  split at h
  · cases h
  · split at h
    · cases h
    · rename_i d1 hd1
      split at h
      · cases h
      · rename_i dm hdm
        dsimp only at h
        split at h
        · cases h
        · rename_i frame hframe
          have h1 := Device.EndFrameNoLock_counted d d1 hd1
          have h2 := Device.allocatorsBeginFrame_same released d1 dm hdm
          have h3 : dm.SameCounters (frame.Begin
              { dm with currentFrameContext := dm.nextFrameContext }).2 := by
            rw [FrameContext.Begin_device]
            exact fun _ => rfl
          have h4 := Device.modifyFrame_same _ d2 _ h
          exact (h1.counted_trans (((h2.same_trans h3).same_trans h4).counted 0)).counted_mono
            (by omega)

/-- Every call advances each counter at most six times, and a call that does not reach
`SubmitQueue` advances none. -/
theorem DeviceCall.run_counted (families : PerQueue Nat) (c : DeviceCall) (d d2 : Device)
    (h : c.run families d = some d2) :
    d.Counted 6 d2 ∧ (c.quiet = true → d.SameCounters d2) := by
  have same : d.SameCounters d2 → d.Counted 6 d2 ∧ (c.quiet = true → d.SameCounters d2) :=
    fun hs => ⟨hs.counted 6, fun _ => hs⟩
  have loud : c.quiet = false → d.Counted 6 d2 →
      d.Counted 6 d2 ∧ (c.quiet = true → d.SameCounters d2) :=
    fun hq hc => ⟨hc, fun hq2 => by rw [hq] at hq2; cases hq2⟩
  cases c with
  | enqueue kind locked handle => exact same (Device.enqueue_same d d2 kind locked handle h)
  | recycleSemaphore semaphore => exact same (Device.modifyFrame_same d d2 _ h)
  | releaseFence fence =>
    simp only [DeviceCall.run, Option.some.injEq] at h
    subst h
    exact same (fun _ => rfl)
  | releaseSemaphore semaphore =>
    simp only [DeviceCall.run, Option.some.injEq] at h
    subst h
    exact same (fun _ => rfl)
  | allocateFence =>
    simp only [DeviceCall.run, Option.some.injEq] at h
    subst h
    exact same (Device.AllocateFence_quiet d).same_counters
  | allocateSemaphore =>
    simp only [DeviceCall.run, Option.some.injEq] at h
    subst h
    exact same (Device.AllocateSemaphore_quiet d).same_counters
  | destroySemaphoreObject object =>
    exact same (Device.destroySemaphoreObject_quiet d d2 object h).same_counters
  | destroyImageObject object => exact same (Device.destroyImageObject_same d d2 object h)
  | requestCommandBuffer => exact same (Device.RequestCommandBufferNoLock_same d d2 h)
  | requestCommandBufferForThread => exact same (Device.RequestCommandBufferNoLock_same d d2 h)
  | requestCommandBufferNoLock => exact same (Device.RequestCommandBufferNoLock_same d d2 h)
  | submitQueue queueType submitFence semaphores =>
    simp only [DeviceCall.run] at h
    cases hr : d.SubmitQueue queueType submitFence semaphores with
    | none => simp [hr] at h
    | some r =>
      simp only [hr, Option.map_some', Option.some.injEq] at h
      subst h
      exact loud rfl ((Device.SubmitQueue_counted d _ _ _ r hr).counted_mono (by omega))
  | flushFrame queueType =>
    exact loud rfl ((Device.FlushFrame_counted d d2 queueType h).counted_mono (by omega))
  | submit cbType cmd fence semaphores =>
    simp only [DeviceCall.run, Device.Submit] at h
    cases hr : d.SubmitNoLock families cbType cmd fence semaphores with
    | none => simp [hr] at h
    | some r =>
      simp only [hr, Option.map_some', Option.some.injEq] at h
      subst h
      obtain ⟨k1, k2⟩ := Device.SubmitNoLock_counted d families cbType cmd fence semaphores r hr
      refine ⟨k1.counted_mono (by omega), fun hq => ?_⟩
      simp only [DeviceCall.quiet, Bool.and_eq_true, Bool.not_eq_true', Option.isNone_iff_eq_none]
        at hq
      exact k2 hq.1 hq.2
  | submitNoLock cbType cmd fence semaphores =>
    simp only [DeviceCall.run] at h
    cases hr : d.SubmitNoLock families cbType cmd fence semaphores with
    | none => simp [hr] at h
    | some r =>
      simp only [hr, Option.map_some', Option.some.injEq] at h
      subst h
      obtain ⟨k1, k2⟩ := Device.SubmitNoLock_counted d families cbType cmd fence semaphores r hr
      refine ⟨k1.counted_mono (by omega), fun hq => ?_⟩
      simp only [DeviceCall.quiet, Bool.and_eq_true, Bool.not_eq_true', Option.isNone_iff_eq_none]
        at hq
      exact k2 hq.1 hq.2
  | addWaitSemaphore queueType semaphore stages flush =>
    obtain ⟨k1, k2⟩ := Device.AddWaitSemaphoreNoLock_counted d d2 queueType semaphore stages flush h
    refine ⟨k1.counted_mono (by omega), fun hq => ?_⟩
    simp only [DeviceCall.quiet, Bool.not_eq_true'] at hq
    exact k2 hq
  | submitStaging cbType cmd usage flush =>
    simp only [DeviceCall.run] at h
    cases hr : d.SubmitStaging families cbType cmd usage flush with
    | none => simp [hr] at h
    | some r =>
      simp only [hr, Option.map_some', Option.some.injEq] at h
      subst h
      exact loud rfl (Device.SubmitStaging_counted d families cbType cmd usage flush r hr)
  | endFrame => exact loud rfl (Device.EndFrameNoLock_counted d d2 h)
  | nextFrame released => exact loud rfl (Device.NextFrame_counted d d2 released h)

theorem runDeviceCalls_counted (families : PerQueue Nat) (calls : List DeviceCall)
    (d d2 : Device) (h : runDeviceCalls families calls d = some d2) :
    d.Counted (6 * calls.length) d2 := by
  induction calls generalizing d with
  | nil =>
    simp only [runDeviceCalls, Option.some.injEq] at h
    subst h
    exact (Device.SameCounters.same_refl d).counted _
  | cons c rest ih =>
    simp only [runDeviceCalls] at h
    split at h
    · cases h
    · rename_i dm hdm
      have h1 := (DeviceCall.run_counted families c d dm hdm).1
      exact (h1.counted_trans (ih dm h)).counted_mono
        (by simp only [List.length_cons]; omega)

/-- Claim C25.  The timeline values are 64-bit counters.  Every operation of the device
(the entry points of deferred destruction, the pools of fences and semaphores, the
destructors of semaphores and images, the requests of command buffers, `SubmitQueue`,
`FlushFrame`, `Submit`, `SubmitNoLock`, `AddWaitSemaphoreNoLock`, `SubmitStaging`,
`EndFrameNoLock`, `NextFrame`) that completes decreases the timeline value of no queue
whose counter is at least six short of `2 ^ 64` (an operation advances a counter at most
six times), and a call that does not reach `SubmitQueue` changes no timeline value at
all; so does every sequence of such calls, for counters at least six per call short of
`2 ^ 64`.  On a device whose timeline values are all below `2 ^ 64 - 1`, a call of
`SubmitQueue` that completes decreases the timeline value of no queue; on the early
return it leaves the device as it is; otherwise it increases the timeline value of its
queue by exactly 1 and stores the new value in the entry of the queue in
`TimelineValues` of the current frame context.  With timeline semaphores, the fence
handed back by `Submit` is one over the timeline semaphore of the queue of the command
buffer and exactly this new value, which is at least 1. -/
theorem C25_timeline_value_monotonic (d : Device) (families : PerQueue Nat) :
    (∀ (c : DeviceCall) (d2 : Device), c.run families d = some d2 →
      (∀ q, (d.queueData.get q).TimelineValue + 6 < 2 ^ 64 →
        (d.queueData.get q).TimelineValue ≤ (d2.queueData.get q).TimelineValue) ∧
      (c.quiet = true →
        ∀ q, (d2.queueData.get q).TimelineValue = (d.queueData.get q).TimelineValue)) ∧
    (∀ (calls : List DeviceCall) (d2 : Device), runDeviceCalls families calls d = some d2 →
      ∀ q, (d.queueData.get q).TimelineValue + 6 * calls.length < 2 ^ 64 →
        (d.queueData.get q).TimelineValue ≤ (d2.queueData.get q).TimelineValue) ∧
    (∀ f, d.Frame = some f → (∀ q, (d.queueData.get q).TimelineValue + 1 < 2 ^ 64) →
      (∀ q submitFence semaphores r, d.SubmitQueue q submitFence semaphores = some r →
        (∀ q2, (d.queueData.get q2).TimelineValue ≤ (r.device.queueData.get q2).TimelineValue) ∧
        (Device.nothingToSubmit f q submitFence semaphores = true → r.device = d) ∧
        (Device.nothingToSubmit f q submitFence semaphores = false →
          (r.device.queueData.get q).TimelineValue = (d.queueData.get q).TimelineValue + 1 ∧
          ∃ f2, r.device.Frame = some f2 ∧
            f2.TimelineValues.get q = (d.queueData.get q).TimelineValue + 1)) ∧
      (∀ cbType cmd semaphores s, d.timelineSemaphore = true →
        d.Submit families cbType cmd true semaphores = some s →
        s.fence = some ⟨0, (d.queueData.get (d.GetQueueType families cbType)).TimelineSemaphore,
          (d.queueData.get (d.GetQueueType families cbType)).TimelineValue + 1⟩ ∧
        1 ≤ (d.queueData.get (d.GetQueueType families cbType)).TimelineValue + 1 ∧
        (s.device.queueData.get (d.GetQueueType families cbType)).TimelineValue =
          (d.queueData.get (d.GetQueueType families cbType)).TimelineValue + 1)) := by
  refine ⟨fun c d2 h => ?_, fun calls d2 h q hq => ?_, fun f hf hw => ?_⟩
  · obtain ⟨k1, k2⟩ := DeviceCall.run_counted families c d d2 h
    exact ⟨fun q hq => (k1 q hq).1, k2⟩
  · exact (runDeviceCalls_counted families calls d d2 h q hq).1
  · exact Device.SubmitQueue_counter d f families hf hw

/-- Claim C25 on devices as constructed, with timeline semaphores.  The calls
`sampleDeviceCalls` (an enqueued buffer, a staging upload from the transfer queue, a wait
semaphore added with a flush, a submission with a fence, the end of the frame) leave the
timeline values 2, 1 and 1 where they were 0; enqueueing a buffer changes none.  With
one command buffer pending on the graphics queue, `SubmitQueue` moves the timeline value
of the graphics queue from 0 to 1 and records 1 in the frame context; a `Submit` with a
fence of a requested command buffer hands back a fence over the timeline semaphore 11 and
the value 1. -/
theorem C25_timeline_value_monotonic_witness :
    runDeviceCalls ⟨0, 1, 2⟩ sampleDeviceCalls (Device.create true) = some sampleDeviceAfter ∧
    (∀ q, ((Device.create true).queueData.get q).TimelineValue ≤
      (sampleDeviceAfter.queueData.get q).TimelineValue) ∧
    ((Device.create true).queueData.get .Graphics).TimelineValue = 0 ∧
    (sampleDeviceAfter.queueData.get .Graphics).TimelineValue = 2 ∧
    (sampleDeviceAfter.queueData.get .Transfer).TimelineValue = 1 ∧
    (sampleDeviceAfter.queueData.get .Compute).TimelineValue = 1 ∧
    (∀ d2, (DeviceCall.enqueue .buffer true 5).run ⟨0, 1, 2⟩ onePendingOutcome.device = some d2 →
      ∀ q, (d2.queueData.get q).TimelineValue =
        (onePendingOutcome.device.queueData.get q).TimelineValue) ∧
    (onePendingDevice.queueData.get .Graphics).TimelineValue = 0 ∧
    onePendingDevice.SubmitQueue .Graphics false (some 1) = some onePendingOutcome ∧
    (onePendingOutcome.device.queueData.get .Graphics).TimelineValue = 0 + 1 ∧
    (∃ f2, onePendingOutcome.device.Frame = some f2 ∧ f2.TimelineValues.get .Graphics = 0 + 1) ∧
    requestedDevice.Submit ⟨0, 1, 2⟩ .Generic ⟨52, 0⟩ true none = some oneSubmitted ∧
    oneSubmitted.fence = some ⟨0, 11, 0 + 1⟩ ∧
    (oneSubmitted.device.queueData.get .Graphics).TimelineValue = 0 + 1 := by
  have hrun : runDeviceCalls ⟨0, 1, 2⟩ sampleDeviceCalls (Device.create true)
      = some sampleDeviceAfter := by decide
  have hmono : ∀ q, ((Device.create true).queueData.get q).TimelineValue ≤
      (sampleDeviceAfter.queueData.get q).TimelineValue := fun q =>
    (C25_timeline_value_monotonic (Device.create true) ⟨0, 1, 2⟩).2.1 sampleDeviceCalls sampleDeviceAfter hrun q
      (by cases q <;> decide)
  have hquiet : ∀ d2,
      (DeviceCall.enqueue .buffer true 5).run ⟨0, 1, 2⟩ onePendingOutcome.device = some d2 →
      ∀ q, (d2.queueData.get q).TimelineValue =
        (onePendingOutcome.device.queueData.get q).TimelineValue := fun d2 h2 =>
    ((C25_timeline_value_monotonic onePendingOutcome.device ⟨0, 1, 2⟩).1 _ d2 h2).2 rfl
  have hf : onePendingDevice.Frame = some (onePendingDevice.Frame.getD
      (FrameContext.create onePendingDevice.queueData 0)) := by decide
  have hw : ∀ q, (onePendingDevice.queueData.get q).TimelineValue + 1 < 2 ^ 64 := by
    intro q
    cases q <;> decide
  have h : onePendingDevice.SubmitQueue .Graphics false (some 1) = some onePendingOutcome := by
    decide
  have hq : (onePendingDevice.queueData.get .Graphics).TimelineValue = 0 := by decide
  obtain ⟨_, _, k3⟩ := ((C25_timeline_value_monotonic onePendingDevice ⟨0, 1, 2⟩).2.2 _ hf hw).1
    .Graphics false (some 1) onePendingOutcome h
  obtain ⟨a, b⟩ := k3 (by decide)
  rw [hq] at a b
  have hf2 : requestedDevice.Frame = some (requestedDevice.Frame.getD
      (FrameContext.create requestedDevice.queueData 0)) := by decide
  have hw2 : ∀ q, (requestedDevice.queueData.get q).TimelineValue + 1 < 2 ^ 64 := by
    intro q
    cases q <;> decide
  have hs : requestedDevice.Submit ⟨0, 1, 2⟩ .Generic ⟨52, 0⟩ true none = some oneSubmitted := by
    decide
  obtain ⟨c1, _, c3⟩ := ((C25_timeline_value_monotonic requestedDevice ⟨0, 1, 2⟩).2.2 _ hf2 hw2).2
    .Generic ⟨52, 0⟩ none oneSubmitted (by decide) hs
  exact ⟨hrun, hmono, by decide, by decide, by decide, by decide, hquiet, hq, h, a, b, hs, c1, c3⟩

end tk
